import Mathlib

/-!
# Key embedder responder (shell/platform/linux/fl_key_embedder_responder.cc)

A shallow embedding of the GTK key embedder responder: the record tables, the
stage helpers, the lock and modifier synchronizers and the top-level event
handler, followed by theorems about them.

Conventions of the embedding:

* `uint64_t` and `guint` values are natural numbers; the code performs no
  arithmetic on them that can overflow (`&`, `|`, `^` only).
* A `GHashTable` with directly stored integer keys and values is an association
  list with unique keys.  The code reads the tables only through
  `lookup_hash_table`, which returns `0` for a missing key.
* `g_hash_table_foreach` over a static table visits the entries in the order of
  the list that represents the table.
* `g_return_if_fail` returns from the function when its condition is false.
* Calls that leave the responder (sending a key event to the engine, invoking
  the caller's callback) are collected, in order, in a list of `Call`s.
-/

namespace FlKeyEmbedder

/-! ## Hash tables -/

/-- A `GHashTable` mapping integers to integers. -/
abbrev GHashTable := List (Nat × Nat)

/-- The C function `g_hash_table_lookup`, for directly stored integers. -/
def g_hash_table_lookup : GHashTable → Nat → Option Nat
  | [], _ => none
  | (k, v) :: rest, key => if k = key then some v else g_hash_table_lookup rest key

/-- The C function `g_hash_table_remove`. -/
def g_hash_table_remove (table : GHashTable) (key : Nat) : GHashTable :=
  table.filter (fun kv => kv.1 ≠ key)

/-- The C function `g_hash_table_insert`: the value of an existing key is replaced. -/
def g_hash_table_insert (table : GHashTable) (key value : Nat) : GHashTable :=
  (key, value) :: g_hash_table_remove table key

/-- Look up a hash table that maps a uint64_t to a uint64_t; 0 if not found. -/
def lookup_hash_table (table : GHashTable) (key : Nat) : Nat :=
  (g_hash_table_lookup table key).getD 0

/-! ## Data model -/

inductive StateLogicInferrence
  | kStateLogicUndecided
  | kStateLogicNormal
  | kStateLogicReversed
  deriving DecidableEq, Repr

open StateLogicInferrence

inductive FlutterKeyEventType
  | kFlutterKeyEventTypeUp
  | kFlutterKeyEventTypeDown
  deriving DecidableEq, Repr

open FlutterKeyEventType

/-- The embedder API event (`struct_size` left out). -/
structure FlutterKeyEvent where
  timestamp : Nat
  type : FlutterKeyEventType
  physical : Nat
  logical : Nat
  character : Option String
  synthesized : Bool
  deriving DecidableEq, Repr

/-- The constant `empty_event`. -/
def empty_event : FlutterKeyEvent where
  timestamp := 0
  type := kFlutterKeyEventTypeDown
  physical := 0
  logical := 0
  character := none
  synthesized := false

/-- Modelled from the spec: the struct `FlKeyEmbedderCheckedKey` is declared in
`fl_key_embedder_responder_private.h`, which is not part of the sources; the
fields are the ones the code reads (a secondary logical key of 0 means there is
none). -/
structure FlKeyEmbedderCheckedKey where
  primary_physical_key : Nat
  primary_logical_key : Nat
  secondary_logical_key : Nat
  is_caps_lock : Bool
  deriving DecidableEq, Repr

/-- The native event, with the fields the responder reads. -/
structure FlKeyEvent where
  time : Nat
  is_press : Bool
  keycode : Nat
  keyval : Nat
  state : Nat
  deriving DecidableEq, Repr

/-- Modelled from the spec: the static tables and plane constants of
`key_mapping.h` and the GDK text conversion, none of which is part of the
sources; they are parameters of the embedding. -/
structure KeyMapping where
  xkb_to_physical_key_map : Nat → Option Nat
  gtk_keyval_to_logical_key_map : Nat → Option Nat
  kValueMask : Nat
  kUnicodePlane : Nat
  kGtkPlane : Nat
  event_to_character : FlKeyEvent → Option String

/-- The responder instance. `engine` tells whether the weak engine pointer is
non-null. -/
structure FlKeyEmbedderResponder where
  engine : Bool
  pressing_records : GHashTable
  lock_records : Nat
  mapping_records : GHashTable
  caps_lock_state_logic_inferrence : StateLogicInferrence
  modifier_bit_to_checked_keys : List (Nat × FlKeyEmbedderCheckedKey)
  lock_bit_to_checked_keys : List (Nat × FlKeyEmbedderCheckedKey)
  logical_key_to_lock_bit : GHashTable
  deriving DecidableEq, Repr

/-- A call leaving the responder: `fl_engine_send_key_event` with the engine
pointer it was given (non-null or null), the event, and whether
`handle_response` was attached; or the caller's callback. -/
inductive Call
  | send_key_event (engine : Bool) (event : FlutterKeyEvent) (with_response : Bool)
  | callback (handled : Bool)
  deriving DecidableEq, Repr

/-- Context variables for the foreach calls. -/
structure SyncStateLoopContext where
  state : Nat
  event_logical_key : Nat
  is_down : Bool
  timestamp : Nat
  deriving DecidableEq, Repr

/-! ## Construction -/

/-- Loop over `lock_bit_to_checked_keys` with body
`initialize_logical_key_to_lock_bit_loop_body`. -/
def initialize_logical_key_to_lock_bit
    (entries : List (Nat × FlKeyEmbedderCheckedKey)) (table : GHashTable) : GHashTable :=
  entries.foldl (fun t e => g_hash_table_insert t e.2.primary_logical_key e.1) table

/-- The constructor `fl_key_embedder_responder_new`; the two static tables, filled
by functions of `key_mapping.cc` in the code, are arguments. -/
def fl_key_embedder_responder_new
    (modifier_bit_to_checked_keys lock_bit_to_checked_keys :
      List (Nat × FlKeyEmbedderCheckedKey)) : FlKeyEmbedderResponder where
  engine := true
  pressing_records := []
  mapping_records := []
  lock_records := 0
  caps_lock_state_logic_inferrence := kStateLogicUndecided
  modifier_bit_to_checked_keys := modifier_bit_to_checked_keys
  lock_bit_to_checked_keys := lock_bit_to_checked_keys
  logical_key_to_lock_bit := initialize_logical_key_to_lock_bit lock_bit_to_checked_keys []

/-! ## Key normalisation -/

def to_lower (n : Nat) : Nat :=
  if n ≥ 0x41 ∧ n ≤ 0x5a then n - 0x41 + 0x61
  else if n ≥ 0xc0 ∧ n ≤ 0xde ∧ n ≠ 0xf7 then n - 0xc0 + 0xe0
  else n

def apply_id_plane (km : KeyMapping) (logical_id plane : Nat) : Nat :=
  (logical_id &&& km.kValueMask) ||| plane

def event_to_physical_key (km : KeyMapping) (event : FlKeyEvent) : Nat :=
  match km.xkb_to_physical_key_map event.keycode with
  | some found => found
  | none => apply_id_plane km event.keycode km.kGtkPlane

def event_to_logical_key (km : KeyMapping) (event : FlKeyEvent) : Nat :=
  match km.gtk_keyval_to_logical_key_map event.keyval with
  | some found => found
  | none =>
    if event.keyval < 256 then apply_id_plane km (to_lower event.keyval) km.kUnicodePlane
    else apply_id_plane km event.keyval km.kGtkPlane

/-- The constant `kMicrosecondsPerMillisecond`. -/
def kMicrosecondsPerMillisecond : Nat := 1000

/-- The value of the natural number `n` after conversion to `double` (IEEE 754
binary64, rounded to the nearest representable value, ties to even): numbers
below 2^53 are kept, larger ones are rounded to 53 significant bits. -/
def to_double (n : Nat) : Nat :=
  if n < 2 ^ 53 then n
  else
    let e := Nat.log2 n - 52
    let q := n / 2 ^ e
    let r := n % 2 ^ e
    if 2 * r < 2 ^ e then q * 2 ^ e
    else if 2 ^ e < 2 * r then (q + 1) * 2 ^ e
    else if q % 2 = 0 then q * 2 ^ e
    else (q + 1) * 2 ^ e

/-- The function `event_to_timestamp`: the product is computed in `double`
(`kMicrosecondsPerMillisecond * (double)event->time`) and converted to the
`uint64_t` return value; the conversion is taken modulo 2^64. -/
def event_to_timestamp (event : FlKeyEvent) : Nat :=
  to_double (to_double kMicrosecondsPerMillisecond * to_double event.time) % 2 ^ 64

/-! ## Sending and record updates -/

/-- Handles a response from the embedder API: relays it to the caller. -/
def handle_response (handled : Bool) : List Call :=
  [Call.callback handled]

/-- Sends a synthesized event to the engine with no demand for callback. -/
def synthesize_simple_event (self : FlKeyEmbedderResponder) (type : FlutterKeyEventType)
    (physical logical timestamp : Nat) : List Call :=
  if self.engine then
    [Call.send_key_event true
      { timestamp := timestamp, type := type, physical := physical, logical := logical,
        character := none, synthesized := true } false]
  else []

def update_pressing_state (self : FlKeyEmbedderResponder) (physical_key logical_key : Nat) :
    FlKeyEmbedderResponder :=
  if logical_key ≠ 0 then
    if lookup_hash_table self.pressing_records physical_key = 0 then
      { self with
        pressing_records := g_hash_table_insert self.pressing_records physical_key logical_key }
    else self
  else
    if lookup_hash_table self.pressing_records physical_key ≠ 0 then
      { self with pressing_records := g_hash_table_remove self.pressing_records physical_key }
    else self

def possibly_update_lock_bit (self : FlKeyEmbedderResponder) (logical_key : Nat)
    (is_down : Bool) : FlKeyEmbedderResponder :=
  if !is_down then self
  else
    let mode_bit := lookup_hash_table self.logical_key_to_lock_bit logical_key
    if mode_bit ≠ 0 then { self with lock_records := self.lock_records ^^^ mode_bit }
    else self

def update_mapping_record (self : FlKeyEmbedderResponder) (physical_key logical_key : Nat) :
    FlKeyEmbedderResponder :=
  { self with mapping_records := g_hash_table_insert self.mapping_records logical_key physical_key }

/-! ## Modifier synchronizer -/

/-- State of the `for` loop of `synchronize_pressed_states_loop_body`: the
responder, the calls made so far, `pressed_by_record`, and whether the
`g_return_if_fail` inside the loop has returned from the function. -/
structure PressedLoopState where
  self : FlKeyEmbedderResponder
  calls : List Call
  pressed_by_record : Bool
  returned : Bool
  deriving DecidableEq, Repr

/-- The local `pressed_logical_key_before_event` of the loop of
`synchronize_pressed_states_loop_body`, for one logical key. -/
def pressed_logical_key_before_event (self : FlKeyEmbedderResponder) (logical_key : Nat) : Nat :=
  let recorded_physical_key := lookup_hash_table self.mapping_records logical_key
  if recorded_physical_key = 0 then 0
  else lookup_hash_table self.pressing_records recorded_physical_key

/-- The `for` loop of `synchronize_pressed_states_loop_body` over the logical
keys that are still to be visited. -/
def synchronize_pressed_states_for (context : SyncStateLoopContext) (pressed_by_state : Bool) :
    List Nat → FlKeyEmbedderResponder → Bool → PressedLoopState
  | [], self, pressed_by_record =>
    { self := self, calls := [], pressed_by_record := pressed_by_record, returned := false }
  | logical_key :: rest, self, pressed_by_record =>
    let recorded_physical_key := lookup_hash_table self.mapping_records logical_key
    let this_key_pressed_before_event : Bool :=
      pressed_logical_key_before_event self logical_key ≠ 0
    if ¬ (pressed_logical_key_before_event self logical_key = 0 ∨
          pressed_logical_key_before_event self logical_key = logical_key) then
      { self := self, calls := [], pressed_by_record := pressed_by_record, returned := true }
    else
      let pressed_by_record := pressed_by_record || this_key_pressed_before_event
      if this_key_pressed_before_event && !pressed_by_state then
        let calls := synthesize_simple_event self kFlutterKeyEventTypeUp
          recorded_physical_key logical_key context.timestamp
        let self1 := update_pressing_state self recorded_physical_key 0
        let r := synchronize_pressed_states_for context pressed_by_state rest self1
          pressed_by_record
        { r with calls := calls ++ r.calls }
      else
        synchronize_pressed_states_for context pressed_by_state rest self pressed_by_record

/-- Synchronizes the pressing state of a key to its state from the event by
synthesizing events; the body of the loop over `modifier_bit_to_checked_keys`. -/
def synchronize_pressed_states_loop_body (key : Nat) (checked_key : FlKeyEmbedderCheckedKey)
    (context : SyncStateLoopContext) (self : FlKeyEmbedderResponder) :
    FlKeyEmbedderResponder × List Call :=
  let modifier_bit := key
  let logical_keys :=
    if checked_key.secondary_logical_key = 0 then [checked_key.primary_logical_key]
    else [checked_key.primary_logical_key, checked_key.secondary_logical_key]
  let pressed_by_state : Bool := (context.state &&& modifier_bit) ≠ 0
  let r := synchronize_pressed_states_for context pressed_by_state logical_keys self false
  if r.returned then (r.self, r.calls)
  else
    if pressed_by_state && !r.pressed_by_record then
      let self := r.self
      let logical_key := checked_key.primary_logical_key
      let recorded_physical_key := lookup_hash_table self.mapping_records logical_key
      let physical_key :=
        if recorded_physical_key ≠ 0 then recorded_physical_key
        else checked_key.primary_physical_key
      let self1 :=
        if recorded_physical_key = 0 then update_mapping_record self physical_key logical_key
        else self
      let calls := synthesize_simple_event self1 kFlutterKeyEventTypeDown physical_key
        logical_key context.timestamp
      (update_pressing_state self1 physical_key logical_key, r.calls ++ calls)
    else (r.self, r.calls)

/-! ## Lock synchronizer -/

def find_stage_by_record (is_down is_enabled : Bool) : Nat :=
  ([0, 2, 3, 1] : List Nat).getD ((is_down.toNat <<< 1) + is_enabled.toNat) 0

def find_stage_by_self_event (stage_by_record : Nat) (is_down_event is_state_on
    reverse_state_logic : Bool) : Nat :=
  if !is_state_on then (if reverse_state_logic then 2 else 0)
  else if is_down_event then (if reverse_state_logic then 0 else 2)
  else stage_by_record

def find_stage_by_others_event (stage_by_record : Nat) (is_state_on : Bool) : Nat :=
  if ¬ (stage_by_record < 4) then stage_by_record
  else if !is_state_on then 0
  else if stage_by_record = 0 then 1
  else stage_by_record

def update_caps_lock_state_logic_inferrence (self : FlKeyEmbedderResponder)
    (is_down_event enabled_by_state : Bool) (stage_by_record : Nat) : FlKeyEmbedderResponder :=
  if self.caps_lock_state_logic_inferrence ≠ kStateLogicUndecided then self
  else if !is_down_event then self
  else
    let stage_by_event :=
      find_stage_by_self_event stage_by_record is_down_event enabled_by_state false
    if (stage_by_event = 0 ∧ stage_by_record = 2) ∨ (stage_by_event = 2 ∧ stage_by_record = 0) then
      { self with caps_lock_state_logic_inferrence := kStateLogicReversed }
    else
      { self with caps_lock_state_logic_inferrence := kStateLogicNormal }

/-- The constant `kNumStages`. -/
def kNumStages : Nat := 4

/-- The `for` loop of `synchronize_lock_states_loop_body`, with
`steps = destination_stage - current_stage` iterations left. -/
def synchronize_lock_states_for (context : SyncStateLoopContext)
    (logical_key recorded_physical_key physical_key : Nat) :
    Nat → Nat → FlKeyEmbedderResponder → FlKeyEmbedderResponder × List Call
  | 0, _, self => (self, [])
  | steps + 1, current_stage, self =>
    if current_stage = 9 then (self, [])
    else
      let standard_current_stage := current_stage % kNumStages
      let is_down_event : Bool := standard_current_stage = 0 ∨ standard_current_stage = 2
      let self1 :=
        if is_down_event ∧ recorded_physical_key = 0 then
          update_mapping_record self physical_key logical_key
        else self
      let type := if is_down_event then kFlutterKeyEventTypeDown else kFlutterKeyEventTypeUp
      let self2 := update_pressing_state self1 physical_key (if is_down_event then logical_key else 0)
      let self3 := possibly_update_lock_bit self2 logical_key is_down_event
      let calls := synthesize_simple_event self3 type physical_key logical_key context.timestamp
      let r := synchronize_lock_states_for context logical_key recorded_physical_key physical_key
        steps (current_stage + 1) self3
      (r.1, calls ++ r.2)

/-- The local `physical_key` of `synchronize_lock_states_loop_body`: derived from
the past mapping record if possible, else the hard-coded primary physical key. -/
def lock_physical_key (checked_key : FlKeyEmbedderCheckedKey) (self : FlKeyEmbedderResponder) :
    Nat :=
  let recorded_physical_key := lookup_hash_table self.mapping_records
    checked_key.primary_logical_key
  if recorded_physical_key ≠ 0 then recorded_physical_key
  else checked_key.primary_physical_key

/-- The local `pressed_logical_key` of `synchronize_lock_states_loop_body`. -/
def lock_pressed_logical_key (checked_key : FlKeyEmbedderCheckedKey)
    (self : FlKeyEmbedderResponder) : Nat :=
  let recorded_physical_key := lookup_hash_table self.mapping_records
    checked_key.primary_logical_key
  if recorded_physical_key = 0 then 0
  else lookup_hash_table self.pressing_records recorded_physical_key

/-- The local `stage_by_record` of `synchronize_lock_states_loop_body`. -/
def lock_stage_by_record (key : Nat) (checked_key : FlKeyEmbedderCheckedKey)
    (self : FlKeyEmbedderResponder) : Nat :=
  find_stage_by_record (lock_pressed_logical_key checked_key self ≠ 0)
    ((self.lock_records &&& key) ≠ 0)

/-- The local `stage_by_event` of `synchronize_lock_states_loop_body`, computed
from `stage_by_record` and the responder after the inference update. -/
def lock_stage_by_event (key : Nat) (checked_key : FlKeyEmbedderCheckedKey)
    (context : SyncStateLoopContext) (self1 : FlKeyEmbedderResponder) (stage_by_record : Nat) :
    Nat :=
  let enabled_by_state : Bool := (context.state &&& key) ≠ 0
  let this_key_is_event_key : Bool :=
    checked_key.primary_logical_key = context.event_logical_key
  let reverse_state_logic : Bool := checked_key.is_caps_lock &&
    (self1.caps_lock_state_logic_inferrence = kStateLogicReversed)
  if this_key_is_event_key then
    find_stage_by_self_event stage_by_record context.is_down enabled_by_state
      reverse_state_logic
  else find_stage_by_others_event stage_by_record enabled_by_state

/-- The local `destination_stage` of `synchronize_lock_states_loop_body`: equal to
`stage_by_event` but shifted cyclically to be no less than `stage_by_record`. -/
def lock_destination_stage (stage_by_event stage_by_record : Nat) : Nat :=
  if stage_by_event ≥ stage_by_record then stage_by_event else stage_by_event + kNumStages

/-- The responder after the CapsLock inference step of
`synchronize_lock_states_loop_body` (the local `self` after the call of
`update_caps_lock_state_logic_inferrence`, when it is made). -/
def lock_inferrence_step (key : Nat) (checked_key : FlKeyEmbedderCheckedKey)
    (context : SyncStateLoopContext) (self : FlKeyEmbedderResponder) : FlKeyEmbedderResponder :=
  let enabled_by_state : Bool := (context.state &&& key) ≠ 0
  let this_key_is_event_key : Bool :=
    checked_key.primary_logical_key = context.event_logical_key
  if this_key_is_event_key && checked_key.is_caps_lock then
    update_caps_lock_state_logic_inferrence self context.is_down enabled_by_state
      (lock_stage_by_record key checked_key self)
  else self

/-- Synchronizes the lock state of a key to its state from the event by
synthesizing events; the body of the loop over `lock_bit_to_checked_keys`. -/
def synchronize_lock_states_loop_body (key : Nat) (checked_key : FlKeyEmbedderCheckedKey)
    (context : SyncStateLoopContext) (self : FlKeyEmbedderResponder) :
    FlKeyEmbedderResponder × List Call :=
  let logical_key := checked_key.primary_logical_key
  let recorded_physical_key := lookup_hash_table self.mapping_records logical_key
  let physical_key := lock_physical_key checked_key self
  let pressed_logical_key := lock_pressed_logical_key checked_key self
  if ¬ (pressed_logical_key = 0 ∨ pressed_logical_key = logical_key) then (self, [])
  else
    let stage_by_record := lock_stage_by_record key checked_key self
    let this_key_is_event_key : Bool := logical_key = context.event_logical_key
    let self1 := lock_inferrence_step key checked_key context self
    if (this_key_is_event_key && checked_key.is_caps_lock) ∧
        ¬ (self1.caps_lock_state_logic_inferrence ≠ kStateLogicUndecided) then (self1, [])
    else
      let stage_by_event := lock_stage_by_event key checked_key context self1 stage_by_record
      let destination_stage := lock_destination_stage stage_by_event stage_by_record
      if ¬ (stage_by_record ≤ destination_stage) then (self1, [])
      else if stage_by_record = destination_stage then (self1, [])
      else
        synchronize_lock_states_for context logical_key recorded_physical_key physical_key
          (destination_stage - stage_by_record) stage_by_record self1

/-! ## Event handler -/

/-- The call `g_hash_table_foreach (table, body, &context)` for one of the two
synchronizer bodies. -/
def foreach_checked_key
    (body : Nat → FlKeyEmbedderCheckedKey → SyncStateLoopContext → FlKeyEmbedderResponder →
      FlKeyEmbedderResponder × List Call)
    (context : SyncStateLoopContext) :
    List (Nat × FlKeyEmbedderCheckedKey) → FlKeyEmbedderResponder →
      FlKeyEmbedderResponder × List Call
  | [], self => (self, [])
  | (key, value) :: rest, self =>
    let r1 := body key value context self
    let r2 := foreach_checked_key body context rest r1.1
    (r2.1, r1.2 ++ r2.2)

/-- The two synchronizer loops of `fl_key_embedder_responder_handle_event`: lock
mode states first, then pressing states. -/
def synchronize_states (context : SyncStateLoopContext) (self : FlKeyEmbedderResponder) :
    FlKeyEmbedderResponder × List Call :=
  let r1 := foreach_checked_key synchronize_lock_states_loop_body context
    self.lock_bit_to_checked_keys self
  let r2 := foreach_checked_key synchronize_pressed_states_loop_body context
    r1.1.modifier_bit_to_checked_keys r1.1
  (r2.1, r1.2 ++ r2.2)

/-- The context that `fl_key_embedder_responder_handle_event` builds for an event. -/
def sync_state_context (km : KeyMapping) (event : FlKeyEvent) : SyncStateLoopContext where
  state := event.state
  timestamp := event_to_timestamp event
  is_down := event.is_press
  event_logical_key := event_to_logical_key km event

/-- The part of `fl_key_embedder_responder_handle_event` after the two
synchronizer loops ("Construct the real event" onwards). -/
def handle_real_event (km : KeyMapping) (event : FlKeyEvent) (self : FlKeyEmbedderResponder) :
    FlKeyEmbedderResponder × List Call :=
  let physical_key := event_to_physical_key km event
  let logical_key := event_to_logical_key km event
  let timestamp := event_to_timestamp event
  let is_down_event := event.is_press
  let last_logical_record := lookup_hash_table self.pressing_records physical_key
  if is_down_event ∧ last_logical_record ≠ 0 then
    (self, [Call.send_key_event self.engine empty_event false, Call.callback true])
  else if ¬ is_down_event ∧ last_logical_record = 0 then
    (self, [Call.send_key_event self.engine empty_event false, Call.callback true])
  else
    let out_event : FlutterKeyEvent :=
      { timestamp := timestamp
        type := if is_down_event then kFlutterKeyEventTypeDown else kFlutterKeyEventTypeUp
        physical := physical_key
        logical := logical_key
        character := if is_down_event then km.event_to_character event else none
        synthesized := false }
    let self1 := update_pressing_state self physical_key (if is_down_event then logical_key else 0)
    let self2 := possibly_update_lock_bit self1 logical_key is_down_event
    let self3 := if is_down_event then update_mapping_record self2 physical_key logical_key
      else self2
    if self3.engine then (self3, [Call.send_key_event true out_event true])
    else (self3, [Call.callback true])

/-- Sends a key event to the framework: returns the responder after the call and
the calls made, in order. -/
def fl_key_embedder_responder_handle_event (km : KeyMapping) (self : FlKeyEmbedderResponder)
    (event : FlKeyEvent) : FlKeyEmbedderResponder × List Call :=
  let r1 := synchronize_states (sync_state_context km event) self
  let r2 := handle_real_event km event r1.1
  (r2.1, r1.2 ++ r2.2)

/-! ## Specification vocabulary and concrete inputs -/

/-- The fields that no record update touches: the engine pointer and the static
tables. -/
def same_static (a b : FlKeyEmbedderResponder) : Prop :=
  b.engine = a.engine ∧
  b.modifier_bit_to_checked_keys = a.modifier_bit_to_checked_keys ∧
  b.lock_bit_to_checked_keys = a.lock_bit_to_checked_keys ∧
  b.logical_key_to_lock_bit = a.logical_key_to_lock_bit

/-- A call made by a synchronizer: a synthesized event without character, sent to
an attached engine with no response handler. -/
def is_synthesized_call (c : Call) : Prop :=
  ∃ ev, c = Call.send_key_event true ev false ∧ ev.synthesized = true ∧ ev.character = none

/-- The real events among the calls: the events sent to an attached engine with
the response handler.  The code attaches `handle_response` to the real event
only; synthesized events and `empty_event` are sent without it. -/
def real_events : List Call → List FlutterKeyEvent
  | [] => []
  | Call.send_key_event true event true :: rest => event :: real_events rest
  | _ :: rest => real_events rest

/-- The only change a synchronizer body makes to `mapping_records` for a checked
key: a missing entry of the primary logical key is set to the primary physical
key. -/
def mapping_grows (s s2 : FlKeyEmbedderResponder) (ck : FlKeyEmbedderCheckedKey) : Prop :=
  ∀ m, lookup_hash_table s2.mapping_records m = lookup_hash_table s.mapping_records m ∨
    (m = ck.primary_logical_key ∧ lookup_hash_table s.mapping_records m = 0 ∧
      lookup_hash_table s2.mapping_records m = ck.primary_physical_key)

/-- From `s` to `s2`, `mapping_records` changed only by giving logical keys
without an entry a physical key other than `q`. -/
def mapping_grows_avoiding (q : Nat) (s s2 : FlKeyEmbedderResponder) : Prop :=
  ∀ m, lookup_hash_table s2.mapping_records m = lookup_hash_table s.mapping_records m ∨
    (lookup_hash_table s.mapping_records m = 0 ∧ lookup_hash_table s2.mapping_records m ≠ q)

/-- The lock key `ck` does not use the physical key `q`: neither as its primary
physical key nor as the recorded physical key of its logical key. -/
def lock_key_avoids (self : FlKeyEmbedderResponder) (ck : FlKeyEmbedderCheckedKey)
    (q : Nat) : Prop :=
  ck.primary_physical_key ≠ q ∧
  lookup_hash_table self.mapping_records ck.primary_logical_key ≠ q

/-- The modifier `ck` does not use the physical key `q`: neither as its primary
physical key nor as the recorded physical key of one of its logical keys. -/
def modifier_key_avoids (self : FlKeyEmbedderResponder) (ck : FlKeyEmbedderCheckedKey)
    (q : Nat) : Prop :=
  ck.primary_physical_key ≠ q ∧
  lookup_hash_table self.mapping_records ck.primary_logical_key ≠ q ∧
  lookup_hash_table self.mapping_records ck.secondary_logical_key ≠ q

instance (self : FlKeyEmbedderResponder) (ck : FlKeyEmbedderCheckedKey) (q : Nat) :
    Decidable (lock_key_avoids self ck q) := by
  unfold lock_key_avoids
  infer_instance

instance (self : FlKeyEmbedderResponder) (ck : FlKeyEmbedderCheckedKey) (q : Nat) :
    Decidable (modifier_key_avoids self ck q) := by
  unfold modifier_key_avoids
  infer_instance

/-- The logical key `logical_key` is recorded pressed: `mapping_records` gives it
a physical key and `pressing_records` maps that physical key to it. -/
def recorded_pressed (self : FlKeyEmbedderResponder) (logical_key : Nat) : Prop :=
  lookup_hash_table self.mapping_records logical_key ≠ 0 ∧
  lookup_hash_table self.pressing_records
    (lookup_hash_table self.mapping_records logical_key) = logical_key ∧
  logical_key ≠ 0

instance (self : FlKeyEmbedderResponder) (logical_key : Nat) :
    Decidable (recorded_pressed self logical_key) := by
  unfold recorded_pressed
  infer_instance

/-- The records of `logical_key` are consistent: its recorded physical key, if
any, is either not pressed or pressed with this logical key.  This is the
condition that `synchronize_pressed_states_loop_body` checks with
`g_return_if_fail`. -/
def key_consistent (self : FlKeyEmbedderResponder) (logical_key : Nat) : Prop :=
  pressed_logical_key_before_event self logical_key = 0 ∨
  pressed_logical_key_before_event self logical_key = logical_key

instance (self : FlKeyEmbedderResponder) (logical_key : Nat) :
    Decidable (key_consistent self logical_key) := by
  unfold key_consistent
  infer_instance

/-- The synthesized event that `synthesize_simple_event` sends. -/
def synthesized_event (type : FlutterKeyEventType) (physical logical timestamp : Nat) :
    FlutterKeyEvent :=
  { timestamp := timestamp, type := type, physical := physical, logical := logical,
    character := none, synthesized := true }

/-- The records of a lock key agree with stage `current_stage` of its cycle, for
the walk of `synchronize_lock_states_loop_body` with logical key `logical_key`,
the locals `recorded_physical_key` and `physical_key`, and lock bit `key`:
`lock_records` has the bit exactly in stages 1 and 2, and either the logical key
is mapped to `physical_key`, which is pressed with it exactly in the odd stages,
or (before the first press of a key that had no mapping record) there is no
mapping record, the stage is even, and `physical_key` is free or already
pressed with the logical key. -/
def lock_walk_invariant (key logical_key recorded_physical_key physical_key : Nat)
    (current_stage : Nat) (s : FlKeyEmbedderResponder) : Prop :=
  lookup_hash_table s.logical_key_to_lock_bit logical_key = key ∧
  ((s.lock_records &&& key ≠ 0) ↔ (current_stage % 4 = 1 ∨ current_stage % 4 = 2)) ∧
  ((lookup_hash_table s.mapping_records logical_key = physical_key ∧
      lookup_hash_table s.pressing_records physical_key =
        (if current_stage % 2 = 1 then logical_key else 0)) ∨
   (recorded_physical_key = 0 ∧ lookup_hash_table s.mapping_records logical_key = 0 ∧
      current_stage % 2 = 0 ∧
      (lookup_hash_table s.pressing_records physical_key = 0 ∨
        lookup_hash_table s.pressing_records physical_key = logical_key)))

/-- Modelled from the spec: the lookup tables and plane constants of
`key_mapping.cc` are not part of the sources; this is a mapping of that shape
with the entries used by the concrete evaluations below: the key codes of ShiftLeft (50), ShiftRight (62),
CapsLock (66) and KeyA (38), and the key values of Shift_L, Shift_R and
Caps_Lock. -/
def sampleKeyMapping : KeyMapping where
  xkb_to_physical_key_map := fun keycode =>
    if keycode = 50 then some 0x700e1 else if keycode = 62 then some 0x700e5
    else if keycode = 66 then some 0x70039 else if keycode = 38 then some 0x70004 else none
  gtk_keyval_to_logical_key_map := fun keyval =>
    if keyval = 0xffe1 then some 0x200000102 else if keyval = 0xffe2 then some 0x200000103
    else if keyval = 0xffe5 then some 0x100000104 else none
  kValueMask := 0xFFFFFFFF
  kUnicodePlane := 0
  kGtkPlane := 0x1500000000
  event_to_character := fun event => if event.keyval = 0x61 then some "a" else none

/-- Modelled from the spec: the entries that
`initialize_modifier_bit_to_checked_keys` (`key_mapping.cc`, not part of the
sources) stores are absent; this is a checked key for the Shift modifier bit,
ShiftLeft primary and ShiftRight secondary. -/
def sampleShift : FlKeyEmbedderCheckedKey :=
  { primary_physical_key := 0x700e1, primary_logical_key := 0x200000102,
    secondary_logical_key := 0x200000103, is_caps_lock := false }

/-- Modelled from the spec: a checked key for the Control modifier bit, ControlLeft
primary and ControlRight secondary (the table of `key_mapping.cc` is absent). -/
def sampleControl : FlKeyEmbedderCheckedKey :=
  { primary_physical_key := 0x700e0, primary_logical_key := 0x200000100,
    secondary_logical_key := 0x200000101, is_caps_lock := false }

/-- Modelled from the spec: a checked key for the CapsLock lock bit, flagged as the
CapsLock key (the table of `key_mapping.cc` is absent). -/
def sampleCapsLock : FlKeyEmbedderCheckedKey :=
  { primary_physical_key := 0x70039, primary_logical_key := 0x100000104,
    secondary_logical_key := 0, is_caps_lock := true }

/-- Modelled from the spec: a checked key for the NumLock lock bit (the table of
`key_mapping.cc` is absent). -/
def sampleNumLock : FlKeyEmbedderCheckedKey :=
  { primary_physical_key := 0x70053, primary_logical_key := 0x10000010a,
    secondary_logical_key := 0, is_caps_lock := false }

/-- Modelled from the spec: a modifier table of the shape that
`initialize_modifier_bit_to_checked_keys` fills, in traversal order: Shift
(bit 1) and Control (bit 4). -/
def sampleModifiers : List (Nat × FlKeyEmbedderCheckedKey) :=
  [(1, sampleShift), (4, sampleControl)]

/-- Modelled from the spec: a lock table of the shape that
`initialize_lock_bit_to_checked_keys` fills, in traversal order: CapsLock
(bit 2) and NumLock (bit 16). -/
def sampleLocks : List (Nat × FlKeyEmbedderCheckedKey) :=
  [(2, sampleCapsLock), (16, sampleNumLock)]

/-- A freshly constructed responder over the sample tables. -/
def sampleResponder : FlKeyEmbedderResponder :=
  fl_key_embedder_responder_new sampleModifiers sampleLocks

/-- Native events of the sample keyboard: ShiftLeft, ShiftRight, CapsLock, KeyA. -/
def shiftLeftEvent (is_press : Bool) (state : Nat) : FlKeyEvent :=
  { time := 1, is_press := is_press, keycode := 50, keyval := 0xffe1, state := state }

def shiftRightEvent (is_press : Bool) (state : Nat) : FlKeyEvent :=
  { time := 1, is_press := is_press, keycode := 62, keyval := 0xffe2, state := state }

def capsLockEvent (is_press : Bool) (state : Nat) : FlKeyEvent :=
  { time := 1, is_press := is_press, keycode := 66, keyval := 0xffe5, state := state }

def keyAEvent (is_press : Bool) (state : Nat) : FlKeyEvent :=
  { time := 1, is_press := is_press, keycode := 38, keyval := 0x61, state := state }

/-- A native event in which the key code of KeyA (38) carries the key value of
Shift_L, as a remapped keyboard sends it. -/
def remappedShiftEvent (is_press : Bool) (state : Nat) : FlKeyEvent :=
  { time := 1, is_press := is_press, keycode := 38, keyval := 0xffe1, state := state }

/-- A native event in which the key code of ShiftLeft (50) carries the key value
of the letter x. -/
def remappedLetterEvent (is_press : Bool) (state : Nat) : FlKeyEvent :=
  { time := 1, is_press := is_press, keycode := 50, keyval := 0x78, state := state }

/-- The real down event of KeyA at time 1 on the sample keyboard. -/
def keyARealDown : FlutterKeyEvent :=
  { timestamp := 1000, type := kFlutterKeyEventTypeDown, physical := 0x70004,
    logical := 0x61, character := some "a", synthesized := false }

/-- The responder after handling a list of native events one after the other. -/
def handle_events (km : KeyMapping) (self : FlKeyEmbedderResponder) :
    List FlKeyEvent → FlKeyEmbedderResponder
  | [] => self
  | event :: rest =>
    handle_events km (fl_key_embedder_responder_handle_event km self event).1 rest

/-- The sample responder after ShiftLeft was pressed and released, the key code
of ShiftLeft was then pressed carrying the letter x (so that ShiftLeft's
recorded physical key is pressed with another logical key), and ShiftRight was
pressed. -/
def shiftRightHeldAfterRemap : FlKeyEmbedderResponder :=
  handle_events sampleKeyMapping sampleResponder
    [shiftLeftEvent true 0, shiftLeftEvent false 1, remappedLetterEvent true 0,
     shiftRightEvent true 0]

/-- The sample responder after ShiftLeft and then ShiftRight were pressed. -/
def bothShiftsHeld : FlKeyEmbedderResponder :=
  handle_events sampleKeyMapping sampleResponder
    [shiftLeftEvent true 0, shiftRightEvent true 1]

/-- The events passed to the send operation `fl_engine_send_key_event`, in order,
whatever the engine pointer and the response handler of the call. -/
def sent_events : List Call → List FlutterKeyEvent
  | [] => []
  | Call.send_key_event _ event _ :: rest => event :: sent_events rest
  | Call.callback _ :: rest => sent_events rest

/-- The values with which the caller's callback is invoked, in order. -/
def callbacks : List Call → List Bool
  | [] => []
  | Call.callback handled :: rest => handled :: callbacks rest
  | Call.send_key_event _ _ _ :: rest => callbacks rest

/-- Modelled from the spec: `fl_engine_send_key_event` is not part of the sources;
the framework's answer to an event that was sent to an attached engine with a
response handler reaches the responder as one call of that handler,
`handle_response`, with the answer. -/
def framework_responses (handled : Bool) : List Call → List Call
  | [] => []
  | Call.send_key_event true _ true :: rest =>
    handle_response handled ++ framework_responses handled rest
  | _ :: rest => framework_responses handled rest

/-- One call of `fl_key_embedder_responder_handle_event` followed by the
framework's answer `handled` to the events sent with the response handler. -/
def handle_event_and_response (km : KeyMapping) (self : FlKeyEmbedderResponder)
    (event : FlKeyEvent) (handled : Bool) : FlKeyEmbedderResponder × List Call :=
  let r := fl_key_embedder_responder_handle_event km self event
  (r.1, r.2 ++ framework_responses handled r.2)

/-- The calls made while handling a list of native events one after the other, in
order. -/
def handle_events_calls (km : KeyMapping) (self : FlKeyEmbedderResponder) :
    List FlKeyEvent → List Call
  | [] => []
  | event :: rest =>
    (fl_key_embedder_responder_handle_event km self event).2 ++
      handle_events_calls km (fl_key_embedder_responder_handle_event km self event).1 rest

/-- The logical keys that the synchronizers track: the primary logical key of
every lock key, and the primary and (if any) secondary logical key of every
modifier. -/
def tracked_logical_keys (modifiers locks : List (Nat × FlKeyEmbedderCheckedKey)) : List Nat :=
  locks.map (fun e => e.2.primary_logical_key) ++
  modifiers.flatMap (fun e =>
    if e.2.secondary_logical_key = 0 then [e.2.primary_logical_key]
    else [e.2.primary_logical_key, e.2.secondary_logical_key])

/-- The events for the logical key `logical_key` among the events sent, in order. -/
def events_of (logical_key : Nat) (calls : List Call) : List FlutterKeyEvent :=
  (sent_events calls).filter (fun ev => ev.logical = logical_key)

/-- The number of up events before the first down event of a list of events of
one key; `none` when the list has no down event. -/
def ups_before_next_down : List FlutterKeyEvent → Option Nat
  | [] => none
  | ev :: rest =>
    if ev.type = kFlutterKeyEventTypeDown then some 0
    else (ups_before_next_down rest).map (fun n => n + 1)

/-- In a list of the events of one key: between each synthesized down event and
the next down event (if there is one) there is exactly one up event. -/
def synthesized_downs_paired : List FlutterKeyEvent → Bool
  | [] => true
  | ev :: rest =>
    (if ev.type = kFlutterKeyEventTypeDown ∧ ev.synthesized = true then
      decide (ups_before_next_down rest = none ∨ ups_before_next_down rest = some 1)
     else true) && synthesized_downs_paired rest

/-- A list of the events of one key alternates between down and up, starting with
a down event exactly if the key is not held (`held = false`), and leaves the
key held exactly if `held2`. -/
def alternates : Bool → List FlutterKeyEvent → Bool → Prop
  | held, [], held2 => held2 = held
  | held, ev :: rest, held2 =>
    (ev.type = kFlutterKeyEventTypeDown ↔ held = false) ∧ alternates (!held) rest held2

/-- The records of the logical key `L` agree with its physical key `phys L`: the
mapping record of `L` is missing or `phys L`, the physical key is free or
pressed with `L`, and if it is pressed with `L` the mapping record is there. -/
def key_records_agree (phys : Nat → Nat) (s : FlKeyEmbedderResponder) (L : Nat) : Prop :=
  (lookup_hash_table s.mapping_records L = 0 ∨
    lookup_hash_table s.mapping_records L = phys L) ∧
  (lookup_hash_table s.pressing_records (phys L) = 0 ∨
    lookup_hash_table s.pressing_records (phys L) = L) ∧
  (lookup_hash_table s.pressing_records (phys L) = L →
    lookup_hash_table s.mapping_records L = phys L)

/-- Whether the physical key of the logical key `L` is recorded pressed with `L`. -/
def key_held (phys : Nat → Nat) (s : FlKeyEmbedderResponder) (L : Nat) : Bool :=
  decide (lookup_hash_table s.pressing_records (phys L) = L)

/-- A keyboard layout for the tracked keys `T`: tracked logical keys and their
physical keys are not 0, and different tracked logical keys have different
physical keys. -/
def keyboard_layout (T : Nat → Prop) (phys : Nat → Nat) : Prop :=
  (∀ L, T L → L ≠ 0 ∧ phys L ≠ 0) ∧
  ∀ L L2, T L → T L2 → phys L = phys L2 → L = L2

/-- From `s` to `s2` with the calls `calls`: the engine is attached afterwards,
the records of every tracked key agree with the layout afterwards, and the
events sent for every tracked key alternate in step with the record of the
key. -/
def pairing_step (T : Nat → Prop) (phys : Nat → Nat) (s : FlKeyEmbedderResponder)
    (calls : List Call) (s2 : FlKeyEmbedderResponder) : Prop :=
  s2.engine = true ∧
  ∀ L, T L → key_records_agree phys s2 L ∧
    alternates (key_held phys s L) (events_of L calls) (key_held phys s2 L)

/-- The native event `event` respects the layout: it carries a tracked logical key
exactly if it comes from the physical key of that logical key. -/
def event_respects_layout (km : KeyMapping) (T : Nat → Prop) (phys : Nat → Nat)
    (event : FlKeyEvent) : Prop :=
  ∀ L, T L → (event_to_logical_key km event = L ↔ event_to_physical_key km event = phys L)

/-- The physical keys of the sample keyboard for its tracked logical keys. -/
def samplePhysicalKey (logical_key : Nat) : Nat :=
  if logical_key = 0x200000102 then 0x700e1
  else if logical_key = 0x200000103 then 0x700e5
  else if logical_key = 0x200000100 then 0x700e0
  else if logical_key = 0x200000101 then 0x700e4
  else if logical_key = 0x100000104 then 0x70039
  else if logical_key = 0x10000010a then 0x70053
  else 0

/-- The row SelfState of the documented stage table of the lock cycle (the state
bit in the lock key's own event that leaves each stage), under the normal and
under the reversed logic. -/
def self_state (reverse_state_logic : Bool) (stage : Nat) : Nat :=
  if reverse_state_logic then ([1, 1, 0, 1] : List Nat).getD stage 0
  else ([0, 1, 1, 1] : List Nat).getD stage 0

/-- The row OthersState of the documented stage table of the lock cycle: the
state bit in the events of other keys at each stage. -/
def others_state (stage : Nat) : Nat :=
  ([0, 1, 1, 1] : List Nat).getD stage 0

/-- The number of forward steps in the 4-stage cycle from one stage to another. -/
def forward_steps (stage destination : Nat) : Nat :=
  (destination + 4 - stage) % 4

/-- The lower-case folding of ASCII and Latin-1 (ISO 8859-1) as the specification
words it, to be compared with `to_lower`: an upper-case letter, 0x41..0x5A or
0xC0..0xDE other than the multiplication sign 0xD7, is moved up by 0x20; every
other value is kept. -/
def latin1_to_lower (n : Nat) : Nat :=
  if (0x41 ≤ n ∧ n ≤ 0x5a) ∨ (0xc0 ≤ n ∧ n ≤ 0xde ∧ n ≠ 0xd7) then n + 0x20 else n

/-- The plane of a key identifier: the identifier without its value payload, the
bits inside `kValueMask`. -/
def plane_of (km : KeyMapping) (id : Nat) : Nat :=
  id - (id &&& km.kValueMask)

/-- Every bit set in `lock_records` is a bit of a key of
`lock_bit_to_checked_keys`. -/
def lock_bits_tracked (s : FlKeyEmbedderResponder) : Prop :=
  ∀ i, s.lock_records.testBit i = true →
    ∃ e ∈ s.lock_bit_to_checked_keys, e.1.testBit i = true

/-- Every value stored in `pressing_records` is a logical key other than 0. -/
def pressing_values_nonzero (s : FlKeyEmbedderResponder) : Prop :=
  ∀ kv ∈ s.pressing_records, kv.2 ≠ 0

/-- Every value stored in `logical_key_to_lock_bit` is a key of
`lock_bit_to_checked_keys`. -/
def lock_bit_table_sound (s : FlKeyEmbedderResponder) : Prop :=
  ∀ logical_key bit, g_hash_table_lookup s.logical_key_to_lock_bit logical_key = some bit →
    ∃ e ∈ s.lock_bit_to_checked_keys, e.1 = bit

/-! ## Container layers (`flow/layers/container_layer.cc`) -/

/-- A layer of the layer tree, as far as `container_layer.cc` looks at it: a
`ContainerLayer` with its child layers `layers_`, or a layer of another class. -/
inductive Layer
  | other (id : Nat)
  | container (layers_ : List Layer)

/-- The function `ContainerLayer::Add` on the child list of a container. -/
def ContainerLayer.Add (layers_ : List Layer) (layer : Layer) : List Layer :=
  layers_ ++ [layer]

/-- A `MergedContainerLayer`: a container layer, given by its direct children. -/
structure MergedContainerLayer where
  layers_ : List Layer

/-- The constructor `MergedContainerLayer::MergedContainerLayer`: it adds an empty
`ContainerLayer` as the only direct child. -/
def MergedContainerLayer.new : MergedContainerLayer :=
  { layers_ := ContainerLayer.Add [] (Layer.container []) }

/-- The function `MergedContainerLayer::GetChildContainer`, which returns the child
list of the child container; `none` when the check `layers().size() == 1` fails
or the only child is not a container. -/
def MergedContainerLayer.GetChildContainer (self : MergedContainerLayer) :
    Option (List Layer) :=
  match self.layers_ with
  | [Layer.container children] => some children
  | _ => none

/-- The function `MergedContainerLayer::Add`: the layer is added to the child
container. -/
def MergedContainerLayer.Add (self : MergedContainerLayer) (layer : Layer) :
    Option MergedContainerLayer :=
  match self.GetChildContainer with
  | some children => some { layers_ := [Layer.container (ContainerLayer.Add children layer)] }
  | none => none

/-- The function `MergedContainerLayer::GetCacheableChild`. -/
def MergedContainerLayer.GetCacheableChild (self : MergedContainerLayer) : Option Layer :=
  match self.GetChildContainer with
  | some children =>
    if children.length = 1 then children[0]? else some (Layer.container children)
  | none => none

/-- Conversion of an integer to `size_t`, 64 bits without sign. -/
def to_size_t (x : Int) : Int := x % 2 ^ 64

/-- Conversion of an integer to `int`, 32 bits in two's complement. -/
def to_int (x : Int) : Int := (x + 2 ^ 31) % 2 ^ 32 - 2 ^ 31

/-- The element of a vector at an index of type `int`; `none` when the index is
outside the vector. -/
def read_layer (layers : List Layer) (i : Int) : Option Layer :=
  if 0 ≤ i then layers[i.toNat]? else none

/-- The four local indices of `ContainerLayer::DiffChildren`. -/
structure DiffChildrenIndices where
  new_children_top : Int
  old_children_top : Int
  new_children_bottom : Int
  old_children_bottom : Int

/-- The first `while` loop of `ContainerLayer::DiffChildren`, which skips the
matching layers at the top; `is_replacing a b` is `a->IsReplacing(context, b)`.
The result is `none` when a vector is read outside its range or the fuel runs
out. -/
def diff_children_top_loop (is_replacing : Layer → Layer → Bool)
    (layers_ prev_layers : List Layer) : Nat → DiffChildrenIndices → Option DiffChildrenIndices
  | 0, _ => none
  | fuel + 1, d =>
    if d.old_children_top ≤ d.old_children_bottom ∧
        d.new_children_top ≤ d.new_children_bottom then
      match read_layer layers_ d.new_children_top, read_layer prev_layers d.old_children_top with
      | some layer, some prev_layer =>
        if !is_replacing layer prev_layer then some d
        else diff_children_top_loop is_replacing layers_ prev_layers fuel
          { d with new_children_top := d.new_children_top + 1,
                   old_children_top := d.old_children_top + 1 }
      | _, _ => none
    else some d

/-- The second `while` loop of `ContainerLayer::DiffChildren`, which skips the
matching layers at the bottom. -/
def diff_children_bottom_loop (is_replacing : Layer → Layer → Bool)
    (layers_ prev_layers : List Layer) : Nat → DiffChildrenIndices → Option DiffChildrenIndices
  | 0, _ => none
  | fuel + 1, d =>
    if d.old_children_top ≤ d.old_children_bottom ∧
        d.new_children_top ≤ d.new_children_bottom then
      match read_layer layers_ d.new_children_bottom,
          read_layer prev_layers d.old_children_bottom with
      | some layer, some prev_layer =>
        if !is_replacing layer prev_layer then some d
        else diff_children_bottom_loop is_replacing layers_ prev_layers fuel
          { d with new_children_bottom := d.new_children_bottom - 1,
                   old_children_bottom := d.old_children_bottom - 1 }
      | _, _ => none
    else some d

/-- The indices that `ContainerLayer::DiffChildren` computes on a subtree that is
not dirty, before it walks the old and the new children: both loops run with
fuel for one more iteration than the new list has layers. -/
def diff_children_indices (is_replacing : Layer → Layer → Bool)
    (layers_ prev_layers : List Layer) : Option DiffChildrenIndices :=
  let init : DiffChildrenIndices :=
    { new_children_top := 0, old_children_top := 0,
      new_children_bottom := to_int (to_size_t ((layers_.length : Int) - 1)),
      old_children_bottom := to_int (to_size_t ((prev_layers.length : Int) - 1)) }
  match diff_children_top_loop is_replacing layers_ prev_layers (layers_.length + 1) init with
  | some d => diff_children_bottom_loop is_replacing layers_ prev_layers (layers_.length + 1) d
  | none => none

/-- The local `i_prev` of `ContainerLayer::DiffChildren` for the index `i` of a
matched new layer: the conditional expression is computed in `size_t` and
converted to `int`. -/
def diff_children_i_prev (layers_ prev_layers : List Layer) (new_children_top i : Int) : Int :=
  to_int (if i < new_children_top then to_size_t i
    else to_size_t ((prev_layers.length : Int) -
      to_size_t ((layers_.length : Int) - to_size_t i)))

/-- The loop invariant of `ContainerLayer::DiffChildren` for a new list of `n` and
an old list of `m` layers: the tops are equal and not negative, each top is at
most one past its bottom, the bottoms are inside the lists, and the bottoms
are at the same distance from the ends. -/
def diff_children_invariant (n m : Int) (d : DiffChildrenIndices) : Prop :=
  0 ≤ d.new_children_top ∧ d.new_children_top = d.old_children_top ∧
  d.new_children_top ≤ d.new_children_bottom + 1 ∧
  d.old_children_top ≤ d.old_children_bottom + 1 ∧
  d.new_children_bottom ≤ n - 1 ∧ d.old_children_bottom ≤ m - 1 ∧
  n - 1 - d.new_children_bottom = m - 1 - d.old_children_bottom

/-! ## Frame timings recorder (`flow/frame_timings.h`) -/

/-- Modelled from the spec: `flow/frame_timings.h` and `flow/frame_timings.cc` are
not part of the sources, only their unit tests are.  These are the states of
`FrameTimingsRecorder::State` that the tests name, in the order of the life
cycle of a frame. -/
inductive FrameTimingsRecorder.State
  | kUninitialized
  | kVsync
  | kBuildStart
  | kBuildEnd
  | kRasterStart
  | kRasterEnd
  deriving DecidableEq, Repr

/-- Modelled from the spec: the position of a state in the life cycle of a frame
(the order of the enumeration, which is absent from the sources). -/
def FrameTimingsRecorder.State.index : FrameTimingsRecorder.State → Nat
  | kUninitialized => 0
  | kVsync => 1
  | kBuildStart => 2
  | kBuildEnd => 3
  | kRasterStart => 4
  | kRasterEnd => 5

/-- Modelled from the spec: the class `FrameTimingsRecorder` (absent from the
sources), "a simple state-gated timestamp ledger": the state, the frame number
and the recorded time points, as ticks. -/
structure FrameTimingsRecorder where
  state_ : FrameTimingsRecorder.State
  frame_number_ : Nat
  vsync_start_ : Nat
  vsync_target_ : Nat
  build_start_ : Nat
  build_end_ : Nat
  raster_start_ : Nat
  raster_end_ : Nat
  raster_end_wall_time_ : Nat
  deriving DecidableEq, Repr

/-- Modelled from the spec: the constructor of `FrameTimingsRecorder` (absent from
the sources): the recorder is uninitialized and takes its frame number from a
generator shared by all recorders, which is advanced; the result is the
recorder and the generator afterwards. -/
def FrameTimingsRecorder.new (frame_number_gen : Nat) : FrameTimingsRecorder × Nat :=
  ({ state_ := FrameTimingsRecorder.State.kUninitialized, frame_number_ := frame_number_gen,
     vsync_start_ := 0, vsync_target_ := 0, build_start_ := 0, build_end_ := 0,
     raster_start_ := 0, raster_end_ := 0, raster_end_wall_time_ := 0 },
   frame_number_gen + 1)

/-- Modelled from the spec: `FrameTimingsRecorder::RecordVsync` (absent from the
sources); the state check aborts with its message when it fails. -/
def FrameTimingsRecorder.RecordVsync (self : FrameTimingsRecorder)
    (vsync_start vsync_target : Nat) : Except String FrameTimingsRecorder :=
  if self.state_ = FrameTimingsRecorder.State.kUninitialized then
    Except.ok { self with state_ := FrameTimingsRecorder.State.kVsync,
                          vsync_start_ := vsync_start, vsync_target_ := vsync_target }
  else Except.error "Check failed: state_ == State::kUninitialized."

/-- Modelled from the spec: `FrameTimingsRecorder::RecordBuildStart` (absent from
the sources), with the check whose message the tests expect. -/
def FrameTimingsRecorder.RecordBuildStart (self : FrameTimingsRecorder)
    (build_start : Nat) : Except String FrameTimingsRecorder :=
  if self.state_ = FrameTimingsRecorder.State.kVsync then
    Except.ok { self with state_ := FrameTimingsRecorder.State.kBuildStart,
                          build_start_ := build_start }
  else Except.error "Check failed: state_ == State::kVsync."

/-- Modelled from the spec: `FrameTimingsRecorder::RecordBuildEnd` (absent from the
sources). -/
def FrameTimingsRecorder.RecordBuildEnd (self : FrameTimingsRecorder)
    (build_end : Nat) : Except String FrameTimingsRecorder :=
  if self.state_ = FrameTimingsRecorder.State.kBuildStart then
    Except.ok { self with state_ := FrameTimingsRecorder.State.kBuildEnd,
                          build_end_ := build_end }
  else Except.error "Check failed: state_ == State::kBuildStart."

/-- Modelled from the spec: `FrameTimingsRecorder::RecordRasterStart` (absent from
the sources), with the check whose message the tests expect. -/
def FrameTimingsRecorder.RecordRasterStart (self : FrameTimingsRecorder)
    (raster_start : Nat) : Except String FrameTimingsRecorder :=
  if self.state_ = FrameTimingsRecorder.State.kBuildEnd then
    Except.ok { self with state_ := FrameTimingsRecorder.State.kRasterStart,
                          raster_start_ := raster_start }
  else Except.error "Check failed: state_ == State::kBuildEnd."

/-- Modelled from the spec: `FrameTimingsRecorder::RecordRasterEnd` (absent from the
sources); it takes no argument, the two clock readings it records are `now`
and `wall_time`. -/
def FrameTimingsRecorder.RecordRasterEnd (self : FrameTimingsRecorder)
    (now wall_time : Nat) : Except String FrameTimingsRecorder :=
  if self.state_ = FrameTimingsRecorder.State.kRasterStart then
    Except.ok { self with state_ := FrameTimingsRecorder.State.kRasterEnd,
                          raster_end_ := now, raster_end_wall_time_ := wall_time }
  else Except.error "Check failed: state_ == State::kRasterStart."

/-- Modelled from the spec: `FrameTimingsRecorder::CloneUntil` (absent from the
sources): a recorder in state `state` with the frame number of this one and
its time points up to that state; the recorder must have reached the state. -/
def FrameTimingsRecorder.CloneUntil (self : FrameTimingsRecorder)
    (state : FrameTimingsRecorder.State) : Except String FrameTimingsRecorder :=
  if state.index ≤ self.state_.index then
    Except.ok
      { state_ := state
        frame_number_ := self.frame_number_
        vsync_start_ := if 1 ≤ state.index then self.vsync_start_ else 0
        vsync_target_ := if 1 ≤ state.index then self.vsync_target_ else 0
        build_start_ := if 2 ≤ state.index then self.build_start_ else 0
        build_end_ := if 3 ≤ state.index then self.build_end_ else 0
        raster_start_ := if 4 ≤ state.index then self.raster_start_ else 0
        raster_end_ := if 5 ≤ state.index then self.raster_end_ else 0
        raster_end_wall_time_ := if 5 ≤ state.index then self.raster_end_wall_time_ else 0 }
  else Except.error "Check failed: state_ >= state."

/-- Modelled from the spec: the getters of `FrameTimingsRecorder` (absent from the
sources) return the recorded values. -/
def FrameTimingsRecorder.GetFrameNumber (self : FrameTimingsRecorder) : Nat :=
  self.frame_number_

def FrameTimingsRecorder.GetVsyncStartTime (self : FrameTimingsRecorder) : Nat :=
  self.vsync_start_

def FrameTimingsRecorder.GetVsyncTargetTime (self : FrameTimingsRecorder) : Nat :=
  self.vsync_target_

def FrameTimingsRecorder.GetBuildStartTime (self : FrameTimingsRecorder) : Nat :=
  self.build_start_

def FrameTimingsRecorder.GetBuildEndTime (self : FrameTimingsRecorder) : Nat :=
  self.build_end_

def FrameTimingsRecorder.GetRasterStartTime (self : FrameTimingsRecorder) : Nat :=
  self.raster_start_

def FrameTimingsRecorder.GetRasterEndTime (self : FrameTimingsRecorder) : Nat :=
  self.raster_end_

def FrameTimingsRecorder.GetRasterEndWallTime (self : FrameTimingsRecorder) : Nat :=
  self.raster_end_wall_time_

/-! ## Vocabulary for the traversal order of the tables (C38) -/

/-- The records of two responders are the same: the engine, the derived lock-bit
table, `lock_records`, the inference, and the logical key recorded for every
physical key and the physical key recorded for every logical key.  The order
of the entries inside the hash tables and the two static tables are left
out. -/
def same_records (s s2 : FlKeyEmbedderResponder) : Prop :=
  s2.engine = s.engine ∧ s2.logical_key_to_lock_bit = s.logical_key_to_lock_bit ∧
  s2.lock_records = s.lock_records ∧
  s2.caps_lock_state_logic_inferrence = s.caps_lock_state_logic_inferrence ∧
  (∀ q, lookup_hash_table s2.pressing_records q = lookup_hash_table s.pressing_records q) ∧
  (∀ m, lookup_hash_table s2.mapping_records m = lookup_hash_table s.mapping_records m)

/-- Two responders agree on the physical keys in `Q` and the logical keys in `M`
(and on the engine and the derived lock-bit table). -/
def agree_on (Q M : Nat → Prop) (s s2 : FlKeyEmbedderResponder) : Prop :=
  s2.engine = s.engine ∧ s2.logical_key_to_lock_bit = s.logical_key_to_lock_bit ∧
  (∀ q, Q q → lookup_hash_table s2.pressing_records q =
    lookup_hash_table s.pressing_records q) ∧
  (∀ m, M m → lookup_hash_table s2.mapping_records m =
    lookup_hash_table s.mapping_records m)

/-- The step `B` reads nothing but its footprint: the physical keys in `Q`, the
logical keys in `M`, the bits `k` of `lock_records` and, if `i`, the inference.
On two responders that agree on the footprint it makes the same calls, leaves
the footprint in agreement, and flips the same bits of `lock_records`. -/
def body_local (Inv : FlKeyEmbedderResponder → Prop)
    (B : FlKeyEmbedderResponder → FlKeyEmbedderResponder × List Call)
    (Q M : Nat → Prop) (k : Nat) (i : Prop) : Prop :=
  ∀ s s2, Inv s → agree_on Q M s s2 →
    s2.lock_records &&& k = s.lock_records &&& k →
    (i → s2.caps_lock_state_logic_inferrence = s.caps_lock_state_logic_inferrence) →
    (B s2).2 = (B s).2 ∧ agree_on Q M (B s).1 (B s2).1 ∧
    (B s2).1.lock_records ^^^ s2.lock_records = (B s).1.lock_records ^^^ s.lock_records ∧
    (i → (B s2).1.caps_lock_state_logic_inferrence =
      (B s).1.caps_lock_state_logic_inferrence)

/-- The step `B` writes nothing but its footprint: it keeps `Inv`, the physical
keys outside `Q` and the logical keys outside `M`, every mask of `lock_records`
in `D`, and, unless `i`, the inference. -/
def body_frame (Inv : FlKeyEmbedderResponder → Prop)
    (B : FlKeyEmbedderResponder → FlKeyEmbedderResponder × List Call)
    (Q M : Nat → Prop) (D : Nat → Prop) (i : Prop) : Prop :=
  ∀ s, Inv s → Inv (B s).1 ∧
    agree_on (fun q => ¬ Q q) (fun m => ¬ M m) s (B s).1 ∧
    (∀ k2, D k2 → ((B s).1.lock_records ^^^ s.lock_records) &&& k2 = 0) ∧
    (¬ i → (B s).1.caps_lock_state_logic_inferrence = s.caps_lock_state_logic_inferrence)

/-- The responder `s` with the two static tables traversed in another order: the
lock-bit table as `locks` and the modifier-bit table as `modifiers`. -/
def with_traversal_order (s : FlKeyEmbedderResponder)
    (locks modifiers : List (Nat × FlKeyEmbedderCheckedKey)) : FlKeyEmbedderResponder :=
  { s with lock_bit_to_checked_keys := locks, modifier_bit_to_checked_keys := modifiers }

/-- The handler does not depend on the traversal order `locks`, `modifiers` at the
responder `s` and the native event `event`: the records it leaves are the same
and it makes the same calls up to their order. -/
def traversal_order_independent (km : KeyMapping) (s : FlKeyEmbedderResponder)
    (event : FlKeyEvent) (locks modifiers : List (Nat × FlKeyEmbedderCheckedKey)) : Prop :=
  same_records (fl_key_embedder_responder_handle_event km s event).1
    (fl_key_embedder_responder_handle_event km
      (with_traversal_order s locks modifiers) event).1 ∧
  (fl_key_embedder_responder_handle_event km s event).2.Perm
    (fl_key_embedder_responder_handle_event km
      (with_traversal_order s locks modifiers) event).2

/-- Modelled from the spec: the lookup tables of `key_mapping.cc` are not part of
the sources; this is the sample mapping with one more entry, the key value of
Control_L (0xffe3) for the logical key ControlLeft. -/
def controlKeyMapping : KeyMapping :=
  { sampleKeyMapping with
    gtk_keyval_to_logical_key_map := fun keyval =>
      if keyval = 0xffe3 then some 0x200000100
      else sampleKeyMapping.gtk_keyval_to_logical_key_map keyval }

/-- A native event in which the key code of KeyA (38) carries the key value of
Control_L, as a remapped keyboard sends it. -/
def remappedControlEvent (is_press : Bool) (state : Nat) : FlKeyEvent :=
  { time := 1, is_press := is_press, keycode := 38, keyval := 0xffe3, state := state }

/-- Native events after which the key code of KeyA, recorded for ShiftLeft, is
held with ControlLeft while ShiftRight is held: the key code carries Shift_L
down and up, then Control_L down, then ShiftRight goes down. -/
def remappedShiftThenControl : List FlKeyEvent :=
  [remappedShiftEvent true 0, remappedShiftEvent false 1, remappedControlEvent true 0,
   shiftRightEvent true 4]

/-- Two responders agree on the physical keys in `Q` and the logical keys in `M`,
and their `lock_records` differ from `c` and `c2` by the same bits. -/
def records_related (Q M : Nat → Prop) (c c2 : Nat) (s s2 : FlKeyEmbedderResponder) : Prop :=
  agree_on Q M s s2 ∧ s2.lock_records ^^^ c2 = s.lock_records ^^^ c

/-- A native down event of the key code of KeyA (38) that carries the key value 0,
for which `event_to_logical_key` derives the logical key 0 on the sample
mapping (no table entry, Unicode plane 0). -/
def zeroKeyvalEvent : FlKeyEvent :=
  { time := 1, is_press := true, keycode := 38, keyval := 0, state := 0 }

/-- The modifier `ck` with bit `key` spares the physical key `q` under the bitmask
`state`: `q` is neither its primary physical key nor the recorded physical key of
its primary logical key, and `q` is the recorded physical key of its secondary
logical key only if the bitmask has the modifier's bit. -/
def modifier_key_spares (state : Nat) (self : FlKeyEmbedderResponder) (key : Nat)
    (ck : FlKeyEmbedderCheckedKey) (q : Nat) : Prop :=
  ck.primary_physical_key ≠ q ∧
  lookup_hash_table self.mapping_records ck.primary_logical_key ≠ q ∧
  (state &&& key ≠ 0 ∨ lookup_hash_table self.mapping_records ck.secondary_logical_key ≠ q)

instance (state : Nat) (self : FlKeyEmbedderResponder) (key : Nat)
    (ck : FlKeyEmbedderCheckedKey) (q : Nat) :
    Decidable (modifier_key_spares state self key ck q) := by
  unfold modifier_key_spares
  infer_instance

/-! ## Lemmas on the hash-table model -/

theorem g_hash_table_lookup_remove (table : GHashTable) (key key2 : Nat) :
    g_hash_table_lookup (g_hash_table_remove table key) key2 =
      if key = key2 then none else g_hash_table_lookup table key2 := by
  induction table with
  | nil => simp [g_hash_table_remove, g_hash_table_lookup]
  | cons kv rest ih =>
    obtain ⟨k, v⟩ := kv
    unfold g_hash_table_remove at ih ⊢
    by_cases hk : k = key
    · subst hk
      by_cases h2 : k = key2
      · simp [List.filter, g_hash_table_lookup, h2] at ih ⊢
        simpa [h2] using ih
      · simp [List.filter, g_hash_table_lookup, h2] at ih ⊢
        simpa [h2] using ih
    · by_cases h2 : key = key2
      · subst h2
        simp [List.filter, g_hash_table_lookup, hk] at ih ⊢
        exact ih
      · simp [List.filter, g_hash_table_lookup, hk, h2] at ih ⊢
        rw [ih]

@[simp] theorem lookup_hash_table_nil (key : Nat) : lookup_hash_table [] key = 0 := rfl

@[simp] theorem lookup_hash_table_remove (table : GHashTable) (key key2 : Nat) :
    lookup_hash_table (g_hash_table_remove table key) key2 =
      if key = key2 then 0 else lookup_hash_table table key2 := by
  unfold lookup_hash_table
  rw [g_hash_table_lookup_remove]
  split <;> rfl

@[simp] theorem lookup_hash_table_insert (table : GHashTable) (key value key2 : Nat) :
    lookup_hash_table (g_hash_table_insert table key value) key2 =
      if key = key2 then value else lookup_hash_table table key2 := by
  unfold lookup_hash_table g_hash_table_insert
  by_cases h : key = key2
  · simp [g_hash_table_lookup, h]
  · simp [g_hash_table_lookup, h, g_hash_table_lookup_remove]

/-! ## Frame lemmas: what the record updates leave alone -/

theorem same_static_refl (a : FlKeyEmbedderResponder) : same_static a a :=
  ⟨rfl, rfl, rfl, rfl⟩

theorem same_static_trans {a b c : FlKeyEmbedderResponder} (h1 : same_static a b)
    (h2 : same_static b c) : same_static a c :=
  ⟨h2.1.trans h1.1, h2.2.1.trans h1.2.1, h2.2.2.1.trans h1.2.2.1, h2.2.2.2.trans h1.2.2.2⟩

theorem update_pressing_state_static (self : FlKeyEmbedderResponder) (p l : Nat) :
    same_static self (update_pressing_state self p l) := by
  unfold update_pressing_state same_static
  split <;> split <;> simp

theorem possibly_update_lock_bit_static (self : FlKeyEmbedderResponder) (l : Nat) (d : Bool) :
    same_static self (possibly_update_lock_bit self l d) := by
  unfold possibly_update_lock_bit same_static
  split
  · simp
  · simp only []
    split <;> simp

theorem update_mapping_record_static (self : FlKeyEmbedderResponder) (p l : Nat) :
    same_static self (update_mapping_record self p l) := by
  simp [update_mapping_record, same_static]

theorem update_caps_lock_state_logic_inferrence_static (self : FlKeyEmbedderResponder)
    (d e : Bool) (n : Nat) :
    same_static self (update_caps_lock_state_logic_inferrence self d e n) := by
  unfold update_caps_lock_state_logic_inferrence same_static
  split
  · simp
  · split
    · simp
    · simp only []
      split <;> simp

theorem synthesize_simple_event_calls (self : FlKeyEmbedderResponder)
    (type : FlutterKeyEventType) (p l t : Nat) :
    ∀ c ∈ synthesize_simple_event self type p l t, is_synthesized_call c := by
  intro c hc
  unfold synthesize_simple_event at hc
  split at hc
  · simp at hc
    exact ⟨_, hc, rfl, rfl⟩
  · simp at hc

theorem synchronize_pressed_states_for_static (context : SyncStateLoopContext) (pbs : Bool)
    (keys : List Nat) :
    ∀ (self : FlKeyEmbedderResponder) (pbr : Bool),
      same_static self (synchronize_pressed_states_for context pbs keys self pbr).self ∧
      ∀ c ∈ (synchronize_pressed_states_for context pbs keys self pbr).calls,
        is_synthesized_call c := by
  induction keys with
  | nil =>
    intro self pbr
    simp [synchronize_pressed_states_for, same_static_refl]
  | cons k rest ih =>
    intro self pbr
    unfold synchronize_pressed_states_for
    simp only []
    split
    · simp [same_static_refl]
    · split
      · have h := ih (update_pressing_state self (lookup_hash_table self.mapping_records k) 0)
          (pbr || decide (pressed_logical_key_before_event self k ≠ 0))
        refine ⟨same_static_trans (update_pressing_state_static _ _ _) h.1, ?_⟩
        intro c hc
        simp only [List.mem_append] at hc
        rcases hc with hc | hc
        · exact synthesize_simple_event_calls _ _ _ _ _ c hc
        · exact h.2 c hc
      · exact ih _ _

theorem synchronize_pressed_states_loop_body_static (key : Nat)
    (checked_key : FlKeyEmbedderCheckedKey) (context : SyncStateLoopContext)
    (self : FlKeyEmbedderResponder) :
    same_static self (synchronize_pressed_states_loop_body key checked_key context self).1 ∧
    ∀ c ∈ (synchronize_pressed_states_loop_body key checked_key context self).2,
      is_synthesized_call c := by
  unfold synchronize_pressed_states_loop_body
  simp only []
  generalize hr : synchronize_pressed_states_for context _ _ self false = r
  have h := synchronize_pressed_states_for_static context
    (decide (context.state &&& key ≠ 0))
    (if checked_key.secondary_logical_key = 0 then [checked_key.primary_logical_key]
      else [checked_key.primary_logical_key, checked_key.secondary_logical_key]) self false
  rw [hr] at h
  split
  · exact h
  · split
    · refine ⟨same_static_trans h.1 (same_static_trans ?_ (update_pressing_state_static _ _ _)), ?_⟩
      · split
        · exact update_mapping_record_static _ _ _
        · exact same_static_refl _
      · intro c hc
        simp only [List.mem_append] at hc
        rcases hc with hc | hc
        · exact h.2 c hc
        · exact synthesize_simple_event_calls _ _ _ _ _ c hc
    · exact h

theorem synchronize_lock_states_for_static (context : SyncStateLoopContext)
    (logical_key recorded_physical_key physical_key : Nat) (steps : Nat) :
    ∀ (current_stage : Nat) (self : FlKeyEmbedderResponder),
      same_static self (synchronize_lock_states_for context logical_key recorded_physical_key
        physical_key steps current_stage self).1 ∧
      ∀ c ∈ (synchronize_lock_states_for context logical_key recorded_physical_key
        physical_key steps current_stage self).2, is_synthesized_call c := by
  induction steps with
  | zero =>
    intro cs self
    simp [synchronize_lock_states_for, same_static_refl]
  | succ n ih =>
    intro cs self
    unfold synchronize_lock_states_for
    split
    · simp [same_static_refl]
    · simp only []
      generalize hs3 : possibly_update_lock_bit _ _ _ = self3
      have h := ih (cs + 1) self3
      refine ⟨same_static_trans ?_ h.1, ?_⟩
      · rw [← hs3]
        refine same_static_trans (same_static_trans ?_ (update_pressing_state_static _ _ _))
          (possibly_update_lock_bit_static _ _ _)
        split
        · exact update_mapping_record_static _ _ _
        · exact same_static_refl _
      · intro c hc
        simp only [List.mem_append] at hc
        rcases hc with hc | hc
        · exact synthesize_simple_event_calls _ _ _ _ _ c hc
        · exact h.2 c hc

theorem lock_inferrence_step_static (key : Nat) (checked_key : FlKeyEmbedderCheckedKey)
    (context : SyncStateLoopContext) (self : FlKeyEmbedderResponder) :
    same_static self (lock_inferrence_step key checked_key context self) := by
  unfold lock_inferrence_step
  simp only []
  split
  · exact update_caps_lock_state_logic_inferrence_static _ _ _ _
  · exact same_static_refl _

theorem synchronize_lock_states_loop_body_static (key : Nat)
    (checked_key : FlKeyEmbedderCheckedKey) (context : SyncStateLoopContext)
    (self : FlKeyEmbedderResponder) :
    same_static self (synchronize_lock_states_loop_body key checked_key context self).1 ∧
    ∀ c ∈ (synchronize_lock_states_loop_body key checked_key context self).2,
      is_synthesized_call c := by
  unfold synchronize_lock_states_loop_body
  simp only []
  have hi := lock_inferrence_step_static key checked_key context self
  split
  · simp [same_static_refl]
  · split
    · simp [hi]
    · split
      · simp [hi]
      · split
        · simp [hi]
        · have h := synchronize_lock_states_for_static context checked_key.primary_logical_key
            (lookup_hash_table self.mapping_records checked_key.primary_logical_key)
            (lock_physical_key checked_key self)
            (lock_destination_stage (lock_stage_by_event key checked_key context
              (lock_inferrence_step key checked_key context self)
              (lock_stage_by_record key checked_key self))
              (lock_stage_by_record key checked_key self) -
              lock_stage_by_record key checked_key self)
            (lock_stage_by_record key checked_key self)
            (lock_inferrence_step key checked_key context self)
          exact ⟨same_static_trans hi h.1, h.2⟩

theorem foreach_checked_key_static
    (body : Nat → FlKeyEmbedderCheckedKey → SyncStateLoopContext → FlKeyEmbedderResponder →
      FlKeyEmbedderResponder × List Call)
    (hbody : ∀ key ck context self, same_static self (body key ck context self).1 ∧
      ∀ c ∈ (body key ck context self).2, is_synthesized_call c)
    (context : SyncStateLoopContext) (entries : List (Nat × FlKeyEmbedderCheckedKey)) :
    ∀ self : FlKeyEmbedderResponder,
      same_static self (foreach_checked_key body context entries self).1 ∧
      ∀ c ∈ (foreach_checked_key body context entries self).2, is_synthesized_call c := by
  induction entries with
  | nil =>
    intro self
    simp [foreach_checked_key, same_static_refl]
  | cons e rest ih =>
    intro self
    obtain ⟨key, value⟩ := e
    unfold foreach_checked_key
    simp only []
    have h1 := hbody key value context self
    have h2 := ih (body key value context self).1
    refine ⟨same_static_trans h1.1 h2.1, ?_⟩
    intro c hc
    simp only [List.mem_append] at hc
    rcases hc with hc | hc
    · exact h1.2 c hc
    · exact h2.2 c hc

theorem synchronize_states_static (context : SyncStateLoopContext)
    (self : FlKeyEmbedderResponder) :
    same_static self (synchronize_states context self).1 ∧
    ∀ c ∈ (synchronize_states context self).2, is_synthesized_call c := by
  unfold synchronize_states
  simp only []
  have h1 := foreach_checked_key_static synchronize_lock_states_loop_body
    synchronize_lock_states_loop_body_static context self.lock_bit_to_checked_keys self
  have h2 := foreach_checked_key_static synchronize_pressed_states_loop_body
    synchronize_pressed_states_loop_body_static context
    (foreach_checked_key synchronize_lock_states_loop_body context
      self.lock_bit_to_checked_keys self).1.modifier_bit_to_checked_keys
    (foreach_checked_key synchronize_lock_states_loop_body context
      self.lock_bit_to_checked_keys self).1
  refine ⟨same_static_trans h1.1 h2.1, ?_⟩
  intro c hc
  simp only [List.mem_append] at hc
  rcases hc with hc | hc
  · exact h1.2 c hc
  · exact h2.2 c hc

/-! ## Field-by-field description of the record updates -/

@[simp] theorem update_pressing_state_engine (self : FlKeyEmbedderResponder) (p l : Nat) :
    (update_pressing_state self p l).engine = self.engine :=
  (update_pressing_state_static self p l).1

@[simp] theorem update_pressing_state_modifier_table (self : FlKeyEmbedderResponder) (p l : Nat) :
    (update_pressing_state self p l).modifier_bit_to_checked_keys =
      self.modifier_bit_to_checked_keys :=
  (update_pressing_state_static self p l).2.1

@[simp] theorem update_pressing_state_lock_table (self : FlKeyEmbedderResponder) (p l : Nat) :
    (update_pressing_state self p l).lock_bit_to_checked_keys = self.lock_bit_to_checked_keys :=
  (update_pressing_state_static self p l).2.2.1

@[simp] theorem update_pressing_state_lock_bit_table (self : FlKeyEmbedderResponder)
    (p l : Nat) :
    (update_pressing_state self p l).logical_key_to_lock_bit = self.logical_key_to_lock_bit :=
  (update_pressing_state_static self p l).2.2.2

@[simp] theorem update_pressing_state_lock_records (self : FlKeyEmbedderResponder) (p l : Nat) :
    (update_pressing_state self p l).lock_records = self.lock_records := by
  unfold update_pressing_state
  split <;> split <;> rfl

@[simp] theorem update_pressing_state_mapping_records (self : FlKeyEmbedderResponder)
    (p l : Nat) :
    (update_pressing_state self p l).mapping_records = self.mapping_records := by
  unfold update_pressing_state
  split <;> split <;> rfl

@[simp] theorem update_pressing_state_inferrence (self : FlKeyEmbedderResponder) (p l : Nat) :
    (update_pressing_state self p l).caps_lock_state_logic_inferrence =
      self.caps_lock_state_logic_inferrence := by
  unfold update_pressing_state
  split <;> split <;> rfl

/-- What `update_pressing_state` does to a lookup in `pressing_records`. -/
theorem lookup_update_pressing_state (self : FlKeyEmbedderResponder) (p l q : Nat) :
    lookup_hash_table (update_pressing_state self p l).pressing_records q =
      if p = q then
        (if l ≠ 0 then
          (if lookup_hash_table self.pressing_records p = 0 then l
            else lookup_hash_table self.pressing_records p)
          else 0)
      else lookup_hash_table self.pressing_records q := by
  unfold update_pressing_state
  by_cases hpq : p = q
  · subst hpq
    by_cases hl : l = 0 <;>
      by_cases hr : lookup_hash_table self.pressing_records p = 0 <;> simp [hl, hr]
  · by_cases hl : l = 0 <;>
      by_cases hr : lookup_hash_table self.pressing_records p = 0 <;> simp [hl, hr, hpq]

@[simp] theorem possibly_update_lock_bit_engine (self : FlKeyEmbedderResponder) (l : Nat)
    (d : Bool) : (possibly_update_lock_bit self l d).engine = self.engine :=
  (possibly_update_lock_bit_static self l d).1

@[simp] theorem possibly_update_lock_bit_modifier_table (self : FlKeyEmbedderResponder)
    (l : Nat) (d : Bool) :
    (possibly_update_lock_bit self l d).modifier_bit_to_checked_keys =
      self.modifier_bit_to_checked_keys :=
  (possibly_update_lock_bit_static self l d).2.1

@[simp] theorem possibly_update_lock_bit_lock_table (self : FlKeyEmbedderResponder)
    (l : Nat) (d : Bool) :
    (possibly_update_lock_bit self l d).lock_bit_to_checked_keys =
      self.lock_bit_to_checked_keys :=
  (possibly_update_lock_bit_static self l d).2.2.1

@[simp] theorem possibly_update_lock_bit_lock_bit_table (self : FlKeyEmbedderResponder)
    (l : Nat) (d : Bool) :
    (possibly_update_lock_bit self l d).logical_key_to_lock_bit =
      self.logical_key_to_lock_bit :=
  (possibly_update_lock_bit_static self l d).2.2.2

@[simp] theorem possibly_update_lock_bit_pressing_records (self : FlKeyEmbedderResponder)
    (l : Nat) (d : Bool) :
    (possibly_update_lock_bit self l d).pressing_records = self.pressing_records := by
  unfold possibly_update_lock_bit
  split
  · rfl
  · simp only []
    split <;> rfl

@[simp] theorem possibly_update_lock_bit_mapping_records (self : FlKeyEmbedderResponder)
    (l : Nat) (d : Bool) :
    (possibly_update_lock_bit self l d).mapping_records = self.mapping_records := by
  unfold possibly_update_lock_bit
  split
  · rfl
  · simp only []
    split <;> rfl

@[simp] theorem possibly_update_lock_bit_inferrence (self : FlKeyEmbedderResponder)
    (l : Nat) (d : Bool) :
    (possibly_update_lock_bit self l d).caps_lock_state_logic_inferrence =
      self.caps_lock_state_logic_inferrence := by
  unfold possibly_update_lock_bit
  split
  · rfl
  · simp only []
    split <;> rfl

/-- What `possibly_update_lock_bit` does to `lock_records`. -/
theorem possibly_update_lock_bit_lock_records (self : FlKeyEmbedderResponder)
    (l : Nat) (d : Bool) :
    (possibly_update_lock_bit self l d).lock_records =
      if d = true ∧ lookup_hash_table self.logical_key_to_lock_bit l ≠ 0 then
        self.lock_records ^^^ lookup_hash_table self.logical_key_to_lock_bit l
      else self.lock_records := by
  unfold possibly_update_lock_bit
  cases d <;> by_cases h : lookup_hash_table self.logical_key_to_lock_bit l = 0 <;> simp [h]

@[simp] theorem update_mapping_record_engine (self : FlKeyEmbedderResponder) (p l : Nat) :
    (update_mapping_record self p l).engine = self.engine := rfl

@[simp] theorem update_mapping_record_modifier_table (self : FlKeyEmbedderResponder)
    (p l : Nat) :
    (update_mapping_record self p l).modifier_bit_to_checked_keys =
      self.modifier_bit_to_checked_keys := rfl

@[simp] theorem update_mapping_record_lock_table (self : FlKeyEmbedderResponder) (p l : Nat) :
    (update_mapping_record self p l).lock_bit_to_checked_keys =
      self.lock_bit_to_checked_keys := rfl

@[simp] theorem update_mapping_record_lock_bit_table (self : FlKeyEmbedderResponder)
    (p l : Nat) :
    (update_mapping_record self p l).logical_key_to_lock_bit = self.logical_key_to_lock_bit :=
  rfl

@[simp] theorem update_mapping_record_pressing_records (self : FlKeyEmbedderResponder)
    (p l : Nat) :
    (update_mapping_record self p l).pressing_records = self.pressing_records := rfl

@[simp] theorem update_mapping_record_lock_records (self : FlKeyEmbedderResponder) (p l : Nat) :
    (update_mapping_record self p l).lock_records = self.lock_records := rfl

@[simp] theorem update_mapping_record_inferrence (self : FlKeyEmbedderResponder) (p l : Nat) :
    (update_mapping_record self p l).caps_lock_state_logic_inferrence =
      self.caps_lock_state_logic_inferrence := rfl

@[simp] theorem update_mapping_record_mapping_records (self : FlKeyEmbedderResponder)
    (p l : Nat) :
    (update_mapping_record self p l).mapping_records =
      g_hash_table_insert self.mapping_records l p := rfl

/-! ## The real event: suppression and record updates (C6, C7) -/

/-- The event that `fl_key_embedder_responder_handle_event` builds for the native
event itself. -/
theorem handle_real_event_cases (km : KeyMapping) (event : FlKeyEvent)
    (self : FlKeyEmbedderResponder) :
    (event.is_press = decide (lookup_hash_table self.pressing_records
        (event_to_physical_key km event) ≠ 0) →
      handle_real_event km event self =
        (self, [Call.send_key_event self.engine empty_event false, Call.callback true])) ∧
    (event.is_press ≠ decide (lookup_hash_table self.pressing_records
        (event_to_physical_key km event) ≠ 0) →
      (handle_real_event km event self).2 =
        if self.engine then
          [Call.send_key_event true
            { timestamp := event_to_timestamp event
              type := if event.is_press then kFlutterKeyEventTypeDown
                else kFlutterKeyEventTypeUp
              physical := event_to_physical_key km event
              logical := event_to_logical_key km event
              character := if event.is_press then km.event_to_character event else none
              synthesized := false } true]
        else [Call.callback true]) := by
  unfold handle_real_event
  cases hp : event.is_press <;>
    by_cases hl : lookup_hash_table self.pressing_records (event_to_physical_key km event) = 0
    <;> cases he : self.engine <;> simp [hl, he]


/-- Claim C6 (amended claim). With an engine attached, for every state and event
`fl_key_embedder_responder_handle_event` forwards a real key event (one sent with
the response handler, `synthesized = false`) iff, after the lock and modifier
synchronizers have run, "the event is a down event" differs from "the event's
physical key is recorded in `pressing_records`".  In the other case it makes,
after the synchronizers' calls, exactly the two calls "send `empty_event`" and
"callback with handled = true", and the responder is the one the synchronizers
left. -/
theorem handle_event_forwards_real_event_iff (km : KeyMapping)
    (self : FlKeyEmbedderResponder) (event : FlKeyEvent) (hengine : self.engine = true) :
    ((∃ ev, Call.send_key_event true ev true ∈
          (fl_key_embedder_responder_handle_event km self event).2 ∧ ev.synthesized = false) ↔
      event.is_press ≠ decide (lookup_hash_table
        (synchronize_states (sync_state_context km event) self).1.pressing_records
        (event_to_physical_key km event) ≠ 0)) ∧
    (event.is_press = decide (lookup_hash_table
        (synchronize_states (sync_state_context km event) self).1.pressing_records
        (event_to_physical_key km event) ≠ 0) →
      fl_key_embedder_responder_handle_event km self event =
        ((synchronize_states (sync_state_context km event) self).1,
         (synchronize_states (sync_state_context km event) self).2 ++
          [Call.send_key_event true empty_event false, Call.callback true])) := by
  have hs := synchronize_states_static (sync_state_context km event) self
  have heng : (synchronize_states (sync_state_context km event) self).1.engine = true := by
    rw [hs.1.1, hengine]
  have hc := handle_real_event_cases km event
    (synchronize_states (sync_state_context km event) self).1
  have hsync : ∀ ev, Call.send_key_event true ev true ∉
      (synchronize_states (sync_state_context km event) self).2 := by
    intro ev hmem
    obtain ⟨ev2, h2, _⟩ := hs.2 _ hmem
    simp at h2
  unfold fl_key_embedder_responder_handle_event
  simp only []
  by_cases hcase : event.is_press = decide (lookup_hash_table
        (synchronize_states (sync_state_context km event) self).1.pressing_records
        (event_to_physical_key km event) ≠ 0)
  · have h1 := hc.1 hcase
    rw [h1, heng]
    refine ⟨?_, fun _ => rfl⟩
    constructor
    · rintro ⟨ev, hmem, _⟩
      simp only [List.mem_append, List.mem_cons, List.mem_singleton] at hmem
      rcases hmem with hmem | hmem | hmem
      · exact absurd hmem (hsync ev)
      · simp at hmem
      · simp at hmem
    · intro hne
      exact absurd hcase hne
  · have h2 := hc.2 hcase
    rw [heng] at h2
    simp only [if_true] at h2
    refine ⟨?_, fun h => absurd h hcase⟩
    constructor
    · intro _
      exact hcase
    · intro _
      rw [h2]
      exact ⟨_, List.mem_append_right _ (List.mem_singleton.2 rfl), rfl⟩

/-- Claim C6 (counterexample). A responder whose engine pointer is null receives a
KeyA down event while KeyA is not recorded pressed: "down" differs from
"recorded", yet no key event at all is sent; the only call is the callback. -/
theorem handle_event_null_engine_forwards_nothing :
    (keyAEvent true 0).is_press ≠ decide (lookup_hash_table
        (synchronize_states (sync_state_context sampleKeyMapping (keyAEvent true 0))
          { sampleResponder with engine := false }).1.pressing_records
        (event_to_physical_key sampleKeyMapping (keyAEvent true 0)) ≠ 0) ∧
    (fl_key_embedder_responder_handle_event sampleKeyMapping
      { sampleResponder with engine := false } (keyAEvent true 0)).2 = [Call.callback true] := by
  decide

/-- Claim C6 (witness). KeyA down on a fresh sample responder is forwarded as a real
event. -/
theorem handle_event_forwards_real_event_iff_witness :
    sampleResponder.engine = true ∧
    ∃ ev, Call.send_key_event true ev true ∈
      (fl_key_embedder_responder_handle_event sampleKeyMapping sampleResponder
        (keyAEvent true 0)).2 ∧ ev.synthesized = false :=
  ⟨rfl, ((handle_event_forwards_real_event_iff sampleKeyMapping sampleResponder
    (keyAEvent true 0) rfl).1).2 (by decide)⟩


/-! ## The synchronizer loops on quiet keys -/

theorem foreach_checked_key_append
    (body : Nat → FlKeyEmbedderCheckedKey → SyncStateLoopContext → FlKeyEmbedderResponder →
      FlKeyEmbedderResponder × List Call)
    (context : SyncStateLoopContext) (xs ys : List (Nat × FlKeyEmbedderCheckedKey)) :
    ∀ self : FlKeyEmbedderResponder,
      foreach_checked_key body context (xs ++ ys) self =
        ((foreach_checked_key body context ys
            (foreach_checked_key body context xs self).1).1,
         (foreach_checked_key body context xs self).2 ++
          (foreach_checked_key body context ys
            (foreach_checked_key body context xs self).1).2) := by
  induction xs with
  | nil =>
    intro self
    simp [foreach_checked_key]
  | cons e rest ih =>
    intro self
    obtain ⟨key, value⟩ := e
    simp [foreach_checked_key, ih]

/-- A loop all of whose bodies leave the responder alone and make no call, as
long as a property `inv` of the responder holds. -/
theorem foreach_checked_key_noop
    (body : Nat → FlKeyEmbedderCheckedKey → SyncStateLoopContext → FlKeyEmbedderResponder →
      FlKeyEmbedderResponder × List Call)
    (context : SyncStateLoopContext) (self : FlKeyEmbedderResponder)
    (entries : List (Nat × FlKeyEmbedderCheckedKey))
    (h : ∀ e ∈ entries, body e.1 e.2 context self = (self, [])) :
    foreach_checked_key body context entries self = (self, []) := by
  induction entries with
  | nil => simp [foreach_checked_key]
  | cons e rest ih =>
    obtain ⟨key, value⟩ := e
    have h1 := h (key, value) (List.mem_cons_self _ _)
    simp only [] at h1
    unfold foreach_checked_key
    simp only [h1]
    rw [ih (fun e he => h e (List.mem_cons_of_mem _ he))]
    simp

/-- The lock synchronizer does nothing for a bystander lock key that has no
mapping record, is disabled in `lock_records` and disabled in the bitmask. -/
theorem synchronize_lock_states_loop_body_quiet (key : Nat)
    (checked_key : FlKeyEmbedderCheckedKey) (context : SyncStateLoopContext)
    (self : FlKeyEmbedderResponder)
    (hmap : lookup_hash_table self.mapping_records checked_key.primary_logical_key = 0)
    (hlock : self.lock_records &&& key = 0)
    (hstate : context.state &&& key = 0)
    (hother : checked_key.primary_logical_key ≠ context.event_logical_key) :
    synchronize_lock_states_loop_body key checked_key context self = (self, []) := by
  simp [synchronize_lock_states_loop_body, lock_pressed_logical_key, lock_stage_by_record,
    lock_inferrence_step, lock_stage_by_event, lock_destination_stage, hmap, hlock, hstate,
    hother, find_stage_by_record, find_stage_by_others_event]

/-- The modifier synchronizer does nothing for a modifier none of whose logical
keys has a mapping record when the bitmask lacks its bit. -/
theorem synchronize_pressed_states_loop_body_quiet (key : Nat)
    (checked_key : FlKeyEmbedderCheckedKey) (context : SyncStateLoopContext)
    (self : FlKeyEmbedderResponder)
    (hmap1 : lookup_hash_table self.mapping_records checked_key.primary_logical_key = 0)
    (hmap2 : lookup_hash_table self.mapping_records checked_key.secondary_logical_key = 0)
    (hstate : context.state &&& key = 0) :
    synchronize_pressed_states_loop_body key checked_key context self = (self, []) := by
  by_cases h2 : checked_key.secondary_logical_key = 0 <;>
  simp [synchronize_pressed_states_loop_body, synchronize_pressed_states_for,
    pressed_logical_key_before_event, hmap1, hmap2, hstate, h2]

/-- The modifier synchronizer presses the primary key of a modifier none of whose
logical keys has a mapping record when the bitmask has its bit. -/
theorem synchronize_pressed_states_loop_body_press (key : Nat)
    (checked_key : FlKeyEmbedderCheckedKey) (context : SyncStateLoopContext)
    (self : FlKeyEmbedderResponder)
    (hmap1 : lookup_hash_table self.mapping_records checked_key.primary_logical_key = 0)
    (hmap2 : lookup_hash_table self.mapping_records checked_key.secondary_logical_key = 0)
    (hstate : context.state &&& key ≠ 0) :
    synchronize_pressed_states_loop_body key checked_key context self =
      (update_pressing_state
        (update_mapping_record self checked_key.primary_physical_key
          checked_key.primary_logical_key)
        checked_key.primary_physical_key checked_key.primary_logical_key,
       synthesize_simple_event self kFlutterKeyEventTypeDown checked_key.primary_physical_key
        checked_key.primary_logical_key context.timestamp) := by
  by_cases h2 : checked_key.secondary_logical_key = 0 <;>
  simp [synchronize_pressed_states_loop_body, synchronize_pressed_states_for,
    pressed_logical_key_before_event, hmap1, hmap2, hstate, h2, synthesize_simple_event]


/-! ## A modifier key pressed on a fresh responder (C2) -/

/-- Claim C2 (amended claim). On a freshly constructed responder, a down event for
the primary key of a tracked modifier (ShiftLeft for Shift), with no other
tracked bit in its bitmask: if the bitmask has the modifier's bit, the modifier
synchronizer synthesizes one down event for the primary key and the native event
is then suppressed as a duplicate (empty event, callback with handled = true),
so no real event is forwarded; if the bitmask lacks the bit, nothing is
synthesized and exactly one real down event with the key's physical and logical
key is forwarded. -/
theorem modifier_down_on_fresh_responder (km : KeyMapping)
    (mods locks pre post : List (Nat × FlKeyEmbedderCheckedKey)) (bit : Nat)
    (ck : FlKeyEmbedderCheckedKey) (event : FlKeyEvent)
    (hmods : mods = pre ++ (bit, ck) :: post)
    (hpress : event.is_press = true)
    (hlog : event_to_logical_key km event = ck.primary_logical_key)
    (hphys : event_to_physical_key km event = ck.primary_physical_key)
    (hne : ck.primary_logical_key ≠ 0)
    (hothers : ∀ e ∈ pre ++ post, event.state &&& e.1 = 0 ∧
      e.2.primary_logical_key ≠ ck.primary_logical_key ∧
      e.2.secondary_logical_key ≠ ck.primary_logical_key)
    (hlocks : ∀ e ∈ locks, event.state &&& e.1 = 0 ∧
      e.2.primary_logical_key ≠ ck.primary_logical_key) :
    (event.state &&& bit ≠ 0 →
      (fl_key_embedder_responder_handle_event km
          (fl_key_embedder_responder_new mods locks) event).2 =
        [Call.send_key_event true
          { timestamp := event_to_timestamp event, type := kFlutterKeyEventTypeDown,
            physical := ck.primary_physical_key, logical := ck.primary_logical_key,
            character := none, synthesized := true } false,
         Call.send_key_event true empty_event false,
         Call.callback true]) ∧
    (event.state &&& bit = 0 →
      (fl_key_embedder_responder_handle_event km
          (fl_key_embedder_responder_new mods locks) event).2 =
        [Call.send_key_event true
          { timestamp := event_to_timestamp event, type := kFlutterKeyEventTypeDown,
            physical := ck.primary_physical_key, logical := ck.primary_logical_key,
            character := km.event_to_character event, synthesized := false } true]) := by
  have hlockloop : foreach_checked_key synchronize_lock_states_loop_body
      (sync_state_context km event) locks (fl_key_embedder_responder_new mods locks) =
      (fl_key_embedder_responder_new mods locks, []) := by
    apply foreach_checked_key_noop
    intro e he
    apply synchronize_lock_states_loop_body_quiet
    · simp [fl_key_embedder_responder_new]
    · simp [fl_key_embedder_responder_new]
    · exact (hlocks e he).1
    · simp [sync_state_context, hlog, (hlocks e he).2]
  have hpre : foreach_checked_key synchronize_pressed_states_loop_body
      (sync_state_context km event) pre (fl_key_embedder_responder_new mods locks) =
      (fl_key_embedder_responder_new mods locks, []) := by
    apply foreach_checked_key_noop
    intro e he
    apply synchronize_pressed_states_loop_body_quiet
    · simp [fl_key_embedder_responder_new]
    · simp [fl_key_embedder_responder_new]
    · exact (hothers e (List.mem_append_left _ he)).1
  constructor
  · intro hbit
    have hbody := synchronize_pressed_states_loop_body_press bit ck
      (sync_state_context km event) (fl_key_embedder_responder_new mods locks)
      (by simp [fl_key_embedder_responder_new]) (by simp [fl_key_embedder_responder_new])
      (by simpa [sync_state_context] using hbit)
    have hpost : ∀ s : FlKeyEmbedderResponder,
        s.mapping_records = g_hash_table_insert [] ck.primary_logical_key
          ck.primary_physical_key →
        foreach_checked_key synchronize_pressed_states_loop_body
          (sync_state_context km event) post s = (s, []) := by
      intro s hs
      apply foreach_checked_key_noop
      intro e he
      have ho := hothers e (List.mem_append_right _ he)
      apply synchronize_pressed_states_loop_body_quiet
      · simp [hs, Ne.symm ho.2.1]
      · simp [hs, Ne.symm ho.2.2]
      · exact ho.1
    unfold fl_key_embedder_responder_handle_event synchronize_states
    have hl : (fl_key_embedder_responder_new mods locks).lock_bit_to_checked_keys = locks := rfl
    have hm : (fl_key_embedder_responder_new mods locks).modifier_bit_to_checked_keys =
        pre ++ (bit, ck) :: post := by simp [fl_key_embedder_responder_new, hmods]
    simp only [hl, hlockloop, hm, foreach_checked_key_append, hpre]
    simp only [foreach_checked_key, hbody]
    rw [hpost _ (by simp [fl_key_embedder_responder_new])]
    simp [handle_real_event, hpress, hphys, lookup_update_pressing_state, hne,
      synthesize_simple_event, fl_key_embedder_responder_new, sync_state_context]
  · intro hbit
    have hbody := synchronize_pressed_states_loop_body_quiet bit ck
      (sync_state_context km event) (fl_key_embedder_responder_new mods locks)
      (by simp [fl_key_embedder_responder_new]) (by simp [fl_key_embedder_responder_new])
      (by simpa [sync_state_context] using hbit)
    have hpost : foreach_checked_key synchronize_pressed_states_loop_body
        (sync_state_context km event) post (fl_key_embedder_responder_new mods locks) =
        (fl_key_embedder_responder_new mods locks, []) := by
      apply foreach_checked_key_noop
      intro e he
      apply synchronize_pressed_states_loop_body_quiet
      · simp [fl_key_embedder_responder_new]
      · simp [fl_key_embedder_responder_new]
      · exact (hothers e (List.mem_append_right _ he)).1
    unfold fl_key_embedder_responder_handle_event synchronize_states
    have hl : (fl_key_embedder_responder_new mods locks).lock_bit_to_checked_keys = locks := rfl
    have hm : (fl_key_embedder_responder_new mods locks).modifier_bit_to_checked_keys =
        pre ++ (bit, ck) :: post := by simp [fl_key_embedder_responder_new, hmods]
    simp only [hl, hlockloop, hm, foreach_checked_key_append, hpre]
    simp only [foreach_checked_key, hbody, hpost]
    simp [handle_real_event, hpress, hphys, hlog, fl_key_embedder_responder_new]


/-- Claim C2 (counterexample). ShiftLeft down with the Shift bit set, on a fresh
sample responder: one synthesized ShiftLeft down is sent, then the empty event;
no real event is forwarded. -/
theorem shift_left_down_with_shift_bit_is_suppressed :
    (fl_key_embedder_responder_handle_event sampleKeyMapping sampleResponder
        (shiftLeftEvent true 1)).2 =
      [Call.send_key_event true
        { timestamp := 1000, type := kFlutterKeyEventTypeDown, physical := 0x700e1,
          logical := 0x200000102, character := none, synthesized := true } false,
       Call.send_key_event true empty_event false,
       Call.callback true] := by
  decide

/-- Claim C2 (witness). The amended claim at ShiftLeft down on
the sample tables, with and without the Shift bit. -/
theorem modifier_down_on_fresh_responder_witness :
    ((shiftLeftEvent true 1).state &&& 1 ≠ 0 ∧
     (fl_key_embedder_responder_handle_event sampleKeyMapping
        (fl_key_embedder_responder_new sampleModifiers sampleLocks)
        (shiftLeftEvent true 1)).2 =
      [Call.send_key_event true
        { timestamp := event_to_timestamp (shiftLeftEvent true 1),
          type := kFlutterKeyEventTypeDown,
          physical := sampleShift.primary_physical_key,
          logical := sampleShift.primary_logical_key,
          character := none, synthesized := true } false,
       Call.send_key_event true empty_event false,
       Call.callback true]) ∧
    ((shiftLeftEvent true 0).state &&& 1 = 0 ∧
     (fl_key_embedder_responder_handle_event sampleKeyMapping
        (fl_key_embedder_responder_new sampleModifiers sampleLocks)
        (shiftLeftEvent true 0)).2 =
      [Call.send_key_event true
        { timestamp := event_to_timestamp (shiftLeftEvent true 0),
          type := kFlutterKeyEventTypeDown,
          physical := sampleShift.primary_physical_key,
          logical := sampleShift.primary_logical_key,
          character := sampleKeyMapping.event_to_character (shiftLeftEvent true 0),
          synthesized := false } true]) :=
  ⟨⟨by decide,
    (modifier_down_on_fresh_responder sampleKeyMapping sampleModifiers sampleLocks []
      [(4, sampleControl)] 1 sampleShift (shiftLeftEvent true 1) rfl rfl (by decide)
      (by decide) (by decide) (by decide) (by decide)).1 (by decide)⟩,
   ⟨by decide,
    (modifier_down_on_fresh_responder sampleKeyMapping sampleModifiers sampleLocks []
      [(4, sampleControl)] 1 sampleShift (shiftLeftEvent true 0) rfl rfl (by decide)
      (by decide) (by decide) (by decide) (by decide)).2 (by decide)⟩⟩


/-! ## CapsLock pressed on a fresh responder (C3) -/

theorem lookup_initialize_logical_key_to_lock_bit_of_not_mem
    (entries : List (Nat × FlKeyEmbedderCheckedKey)) (logical_key : Nat)
    (h : ∀ e ∈ entries, e.2.primary_logical_key ≠ logical_key) :
    ∀ table : GHashTable,
      lookup_hash_table (initialize_logical_key_to_lock_bit entries table) logical_key =
        lookup_hash_table table logical_key := by
  induction entries with
  | nil =>
    intro table
    rfl
  | cons e rest ih =>
    intro table
    have h1 := h e (List.mem_cons_self _ _)
    have h2 := ih (fun e he => h e (List.mem_cons_of_mem _ he))
      (g_hash_table_insert table e.2.primary_logical_key e.1)
    simp only [initialize_logical_key_to_lock_bit, List.foldl_cons] at h2 ⊢
    rw [h2]
    simp [h1]

theorem lookup_initialize_logical_key_to_lock_bit
    (pre post : List (Nat × FlKeyEmbedderCheckedKey)) (bit : Nat)
    (ck : FlKeyEmbedderCheckedKey)
    (h : ∀ e ∈ post, e.2.primary_logical_key ≠ ck.primary_logical_key) :
    lookup_hash_table (initialize_logical_key_to_lock_bit (pre ++ (bit, ck) :: post) [])
      ck.primary_logical_key = bit := by
  have h2 := lookup_initialize_logical_key_to_lock_bit_of_not_mem post ck.primary_logical_key h
    (g_hash_table_insert (initialize_logical_key_to_lock_bit pre []) ck.primary_logical_key bit)
  simp only [initialize_logical_key_to_lock_bit, List.foldl_append, List.foldl_cons] at h2 ⊢
  rw [h2]
  simp

/-- The lock synchronizer on the first down event of the CapsLock key itself, with
the CapsLock bit set in the bitmask, while the key has no mapping record and is
disabled in `lock_records`: the inference becomes reversed and no event is
synthesized. -/
theorem synchronize_lock_states_loop_body_caps_first_down (key : Nat)
    (checked_key : FlKeyEmbedderCheckedKey) (context : SyncStateLoopContext)
    (self : FlKeyEmbedderResponder)
    (hmap : lookup_hash_table self.mapping_records checked_key.primary_logical_key = 0)
    (hlock : self.lock_records &&& key = 0)
    (hstate : context.state &&& key ≠ 0)
    (hkey : checked_key.primary_logical_key = context.event_logical_key)
    (hcaps : checked_key.is_caps_lock = true)
    (hdown : context.is_down = true)
    (hund : self.caps_lock_state_logic_inferrence = kStateLogicUndecided) :
    synchronize_lock_states_loop_body key checked_key context self =
      ({ self with caps_lock_state_logic_inferrence := kStateLogicReversed }, []) := by
  have hmap2 := hmap
  rw [hkey] at hmap2
  simp [synchronize_lock_states_loop_body, hmap2, lock_pressed_logical_key, lock_stage_by_record,
    lock_inferrence_step, lock_stage_by_event, lock_destination_stage, hmap, hlock, hstate,
    hkey, hcaps, hdown, hund, find_stage_by_record, find_stage_by_self_event,
    update_caps_lock_state_logic_inferrence]


/-- Claim C3 (amended claim). On a freshly constructed responder, a down event of the
CapsLock-flagged lock key whose bitmask has the CapsLock bit (and no other
tracked bit) resolves `caps_lock_state_logic_inferrence` to
`kStateLogicReversed` (not to normal), synthesizes no event, forwards exactly
one real down event for CapsLock, and leaves the CapsLock bit set in
`lock_records`. -/
theorem caps_lock_down_on_fresh_responder (km : KeyMapping)
    (mods locks pre post : List (Nat × FlKeyEmbedderCheckedKey)) (bit : Nat)
    (ck : FlKeyEmbedderCheckedKey) (event : FlKeyEvent)
    (hlocks : locks = pre ++ (bit, ck) :: post)
    (hcaps : ck.is_caps_lock = true)
    (hpress : event.is_press = true)
    (hlog : event_to_logical_key km event = ck.primary_logical_key)
    (hbit : event.state &&& bit ≠ 0)
    (hothers : ∀ e ∈ pre ++ post, event.state &&& e.1 = 0 ∧
      e.2.primary_logical_key ≠ ck.primary_logical_key)
    (hmods : ∀ e ∈ mods, event.state &&& e.1 = 0) :
    (fl_key_embedder_responder_handle_event km
        (fl_key_embedder_responder_new mods locks) event).1.caps_lock_state_logic_inferrence =
      kStateLogicReversed ∧
    (fl_key_embedder_responder_handle_event km
        (fl_key_embedder_responder_new mods locks) event).2 =
      [Call.send_key_event true
        { timestamp := event_to_timestamp event, type := kFlutterKeyEventTypeDown,
          physical := event_to_physical_key km event, logical := ck.primary_logical_key,
          character := km.event_to_character event, synthesized := false } true] ∧
    (fl_key_embedder_responder_handle_event km
        (fl_key_embedder_responder_new mods locks) event).1.lock_records = bit := by
  have hbit0 : bit ≠ 0 := by
    rintro rfl
    simp at hbit
  have hpre : foreach_checked_key synchronize_lock_states_loop_body
      (sync_state_context km event) pre (fl_key_embedder_responder_new mods locks) =
      (fl_key_embedder_responder_new mods locks, []) := by
    apply foreach_checked_key_noop
    intro e he
    have ho := hothers e (List.mem_append_left _ he)
    apply synchronize_lock_states_loop_body_quiet
    · simp [fl_key_embedder_responder_new]
    · simp [fl_key_embedder_responder_new]
    · exact ho.1
    · simp [sync_state_context, hlog, ho.2]
  have hbody := synchronize_lock_states_loop_body_caps_first_down bit ck
    (sync_state_context km event) (fl_key_embedder_responder_new mods locks)
    (by simp [fl_key_embedder_responder_new]) (by simp [fl_key_embedder_responder_new])
    (by simpa [sync_state_context] using hbit) (by simp [sync_state_context, hlog]) hcaps
    (by simp [sync_state_context, hpress]) rfl
  have hpost : ∀ s : FlKeyEmbedderResponder, s.mapping_records = [] → s.lock_records = 0 →
      foreach_checked_key synchronize_lock_states_loop_body
        (sync_state_context km event) post s = (s, []) := by
    intro s hs1 hs2
    apply foreach_checked_key_noop
    intro e he
    have ho := hothers e (List.mem_append_right _ he)
    apply synchronize_lock_states_loop_body_quiet
    · simp [hs1]
    · simp [hs2]
    · exact ho.1
    · simp [sync_state_context, hlog, ho.2]
  have hmod : ∀ s : FlKeyEmbedderResponder, s.mapping_records = [] →
      foreach_checked_key synchronize_pressed_states_loop_body
        (sync_state_context km event) mods s = (s, []) := by
    intro s hs1
    apply foreach_checked_key_noop
    intro e he
    apply synchronize_pressed_states_loop_body_quiet
    · simp [hs1]
    · simp [hs1]
    · exact hmods e he
  have htab := lookup_initialize_logical_key_to_lock_bit pre post bit ck
    (fun e he => (hothers e (List.mem_append_right _ he)).2)
  unfold fl_key_embedder_responder_handle_event synchronize_states
  have hl : (fl_key_embedder_responder_new mods locks).lock_bit_to_checked_keys =
      pre ++ (bit, ck) :: post := by simp [fl_key_embedder_responder_new, hlocks]
  simp only [hl, foreach_checked_key_append, hpre]
  simp only [foreach_checked_key, hbody]
  rw [hpost _ rfl rfl]
  simp only []
  have hm : ({ fl_key_embedder_responder_new mods locks with
      caps_lock_state_logic_inferrence := kStateLogicReversed }).modifier_bit_to_checked_keys
      = mods := rfl
  rw [hm, hmod _ rfl]
  subst hlocks
  simp [handle_real_event, hpress, hlog, fl_key_embedder_responder_new,
    possibly_update_lock_bit_lock_records, htab, hbit0]

/-- Claim C3 (counterexample). CapsLock down with the CapsLock bit set, on a fresh
sample responder: the inference is resolved to reversed, not to normal. -/
theorem caps_lock_down_with_lock_bit_infers_reversed :
    (fl_key_embedder_responder_handle_event sampleKeyMapping sampleResponder
        (capsLockEvent true 2)).1.caps_lock_state_logic_inferrence = kStateLogicReversed ∧
    (fl_key_embedder_responder_handle_event sampleKeyMapping sampleResponder
        (capsLockEvent true 2)).1.caps_lock_state_logic_inferrence ≠ kStateLogicNormal := by
  decide

/-- Claim C3 (witness). The amended claim on the sample tables. -/
theorem caps_lock_down_on_fresh_responder_witness :
    (capsLockEvent true 2).state &&& 2 ≠ 0 ∧
    (fl_key_embedder_responder_handle_event sampleKeyMapping
        (fl_key_embedder_responder_new sampleModifiers sampleLocks)
        (capsLockEvent true 2)).1.caps_lock_state_logic_inferrence = kStateLogicReversed ∧
    (fl_key_embedder_responder_handle_event sampleKeyMapping
        (fl_key_embedder_responder_new sampleModifiers sampleLocks)
        (capsLockEvent true 2)).1.lock_records = 2 :=
  ⟨by decide,
   (caps_lock_down_on_fresh_responder sampleKeyMapping sampleModifiers sampleLocks []
      [(16, sampleNumLock)] 2 sampleCapsLock (capsLockEvent true 2) rfl rfl rfl (by decide)
      (by decide) (by decide) (by decide)).1,
   (caps_lock_down_on_fresh_responder sampleKeyMapping sampleModifiers sampleLocks []
      [(16, sampleNumLock)] 2 sampleCapsLock (capsLockEvent true 2) rfl rfl rfl (by decide)
      (by decide) (by decide) (by decide)).2.2⟩

/-! ## The same down event twice (C1) -/

theorem real_events_append (xs ys : List Call) :
    real_events (xs ++ ys) = real_events xs ++ real_events ys := by
  induction xs with
  | nil => rfl
  | cons c rest ih =>
    cases c with
    | callback h => simpa [real_events] using ih
    | send_key_event engine event wr =>
      cases engine <;> cases wr <;> simp [real_events, ih]

theorem real_events_of_synthesized (calls : List Call)
    (h : ∀ c ∈ calls, is_synthesized_call c) : real_events calls = [] := by
  induction calls with
  | nil => rfl
  | cons c rest ih =>
    obtain ⟨ev, hc, _⟩ := h c (List.mem_cons_self _ _)
    subst hc
    simpa [real_events] using ih (fun c hc => h c (List.mem_cons_of_mem _ hc))

theorem real_events_synchronize_states (context : SyncStateLoopContext)
    (self : FlKeyEmbedderResponder) : real_events (synchronize_states context self).2 = [] :=
  real_events_of_synthesized _ (synchronize_states_static context self).2

/-- The handler on a down event whose physical key the synchronizers leave
unrecorded, engine attached. -/
theorem handle_event_down_not_recorded (km : KeyMapping) (self : FlKeyEmbedderResponder)
    (event : FlKeyEvent) (hengine : self.engine = true) (hdown : event.is_press = true)
    (hrec : lookup_hash_table
      (synchronize_states (sync_state_context km event) self).1.pressing_records
      (event_to_physical_key km event) = 0) :
    fl_key_embedder_responder_handle_event km self event =
      (update_mapping_record
        (possibly_update_lock_bit
          (update_pressing_state (synchronize_states (sync_state_context km event) self).1
            (event_to_physical_key km event) (event_to_logical_key km event))
          (event_to_logical_key km event) true)
        (event_to_physical_key km event) (event_to_logical_key km event),
       (synchronize_states (sync_state_context km event) self).2 ++
        [Call.send_key_event true
          { timestamp := event_to_timestamp event, type := kFlutterKeyEventTypeDown,
            physical := event_to_physical_key km event,
            logical := event_to_logical_key km event,
            character := km.event_to_character event, synthesized := false } true]) := by
  have heng : (synchronize_states (sync_state_context km event) self).1.engine = true := by
    rw [(synchronize_states_static _ self).1.1, hengine]
  simp [fl_key_embedder_responder_handle_event, handle_real_event, hdown, hrec, heng]

/-- The handler on a down event whose physical key is recorded after the
synchronizers. -/
theorem handle_event_down_recorded (km : KeyMapping) (self : FlKeyEmbedderResponder)
    (event : FlKeyEvent) (hdown : event.is_press = true)
    (hrec : lookup_hash_table
      (synchronize_states (sync_state_context km event) self).1.pressing_records
      (event_to_physical_key km event) ≠ 0) :
    fl_key_embedder_responder_handle_event km self event =
      ((synchronize_states (sync_state_context km event) self).1,
       (synchronize_states (sync_state_context km event) self).2 ++
        [Call.send_key_event (synchronize_states (sync_state_context km event) self).1.engine
          empty_event false, Call.callback true]) := by
  simp [fl_key_embedder_responder_handle_event, handle_real_event, hdown, hrec]

/-- Claim C1 (counterexample). ShiftLeft down with a bitmask without the Shift bit,
handled twice in a row by a fresh sample responder: the second call first
synthesizes a ShiftLeft release and then forwards the down event again, so two
real events are forwarded. -/
theorem duplicate_shift_left_down_forwards_two_real_events :
    real_events ((fl_key_embedder_responder_handle_event sampleKeyMapping sampleResponder
          (shiftLeftEvent true 0)).2 ++
        (fl_key_embedder_responder_handle_event sampleKeyMapping
          (fl_key_embedder_responder_handle_event sampleKeyMapping sampleResponder
            (shiftLeftEvent true 0)).1 (shiftLeftEvent true 0)).2) =
      [{ timestamp := 1000, type := kFlutterKeyEventTypeDown, physical := 0x700e1,
         logical := 0x200000102, character := none, synthesized := false },
       { timestamp := 1000, type := kFlutterKeyEventTypeDown, physical := 0x700e1,
         logical := 0x200000102, character := none, synthesized := false }] := by
  decide

/-! ## Frame lemmas: which records a synchronizer body can change -/

theorem mapping_grows_avoiding_refl (q : Nat) (s : FlKeyEmbedderResponder) :
    mapping_grows_avoiding q s s := fun _ => Or.inl rfl

theorem mapping_grows_avoiding_trans {q : Nat} {s s2 s3 : FlKeyEmbedderResponder}
    (h1 : mapping_grows_avoiding q s s2) (h2 : mapping_grows_avoiding q s2 s3) :
    mapping_grows_avoiding q s s3 := by
  intro m
  rcases h1 m with e1 | ⟨z1, n1⟩
  · rcases h2 m with e2 | ⟨z2, n2⟩
    · exact Or.inl (e2.trans e1)
    · exact Or.inr ⟨e1 ▸ z2, n2⟩
  · rcases h2 m with e2 | ⟨z2, n2⟩
    · exact Or.inr ⟨z1, e2 ▸ n1⟩
    · exact Or.inr ⟨z1, n2⟩

theorem mapping_grows_avoiding_of_grows {q : Nat} {s s2 : FlKeyEmbedderResponder}
    {ck : FlKeyEmbedderCheckedKey} (h : mapping_grows s s2 ck)
    (hq : ck.primary_physical_key ≠ q) : mapping_grows_avoiding q s s2 := by
  intro m
  rcases h m with e | ⟨_, z, e⟩
  · exact Or.inl e
  · exact Or.inr ⟨z, e ▸ hq⟩

theorem lock_key_avoids_of_grows {q : Nat} {s s2 : FlKeyEmbedderResponder}
    {ck : FlKeyEmbedderCheckedKey} (h : mapping_grows_avoiding q s s2)
    (ha : lock_key_avoids s ck q) : lock_key_avoids s2 ck q := by
  refine ⟨ha.1, ?_⟩
  rcases h ck.primary_logical_key with e | ⟨_, n⟩
  · rw [e]
    exact ha.2
  · exact n

theorem modifier_key_avoids_of_grows {q : Nat} {s s2 : FlKeyEmbedderResponder}
    {ck : FlKeyEmbedderCheckedKey} (h : mapping_grows_avoiding q s s2)
    (ha : modifier_key_avoids s ck q) : modifier_key_avoids s2 ck q := by
  refine ⟨ha.1, ?_, ?_⟩
  · rcases h ck.primary_logical_key with e | ⟨_, n⟩
    · rw [e]
      exact ha.2.1
    · exact n
  · rcases h ck.secondary_logical_key with e | ⟨_, n⟩
    · rw [e]
      exact ha.2.2
    · exact n

/-- The walk of the lock synchronizer changes `pressing_records` only at its
physical key, and `mapping_records` only by recording that physical key for
the logical key when there was no record. -/
theorem synchronize_lock_states_for_frame (context : SyncStateLoopContext)
    (logical_key recorded_physical_key physical_key : Nat) (steps : Nat) :
    ∀ (current_stage : Nat) (self : FlKeyEmbedderResponder),
      (∀ q, q ≠ physical_key →
        lookup_hash_table (synchronize_lock_states_for context logical_key
          recorded_physical_key physical_key steps current_stage self).1.pressing_records q =
          lookup_hash_table self.pressing_records q) ∧
      (∀ m, lookup_hash_table (synchronize_lock_states_for context logical_key
          recorded_physical_key physical_key steps current_stage self).1.mapping_records m =
          lookup_hash_table self.mapping_records m ∨
        (m = logical_key ∧ recorded_physical_key = 0 ∧
          lookup_hash_table (synchronize_lock_states_for context logical_key
            recorded_physical_key physical_key steps current_stage self).1.mapping_records m =
            physical_key)) := by
  induction steps with
  | zero =>
    intro cs self
    simp [synchronize_lock_states_for]
  | succ n ih =>
    intro cs self
    unfold synchronize_lock_states_for
    split
    · simp
    · simp only []
      generalize hs3 : possibly_update_lock_bit _ _ _ = self3
      have h := ih (cs + 1) self3
      have hp : ∀ q, q ≠ physical_key →
          lookup_hash_table self3.pressing_records q =
            lookup_hash_table self.pressing_records q := by
        intro q hq
        rw [← hs3]
        simp only [possibly_update_lock_bit_pressing_records, lookup_update_pressing_state,
          if_neg (Ne.symm hq)]
        split <;> simp
      have hm : ∀ m, lookup_hash_table self3.mapping_records m =
          lookup_hash_table self.mapping_records m ∨
          (m = logical_key ∧ recorded_physical_key = 0 ∧
            lookup_hash_table self3.mapping_records m = physical_key) := by
        intro m
        rw [← hs3]
        simp only [possibly_update_lock_bit_mapping_records,
          update_pressing_state_mapping_records]
        split
        · rename_i hc
          by_cases hml : logical_key = m
          · right
            simp [hml, hc.2]
          · left
            simp [hml]
        · left
          rfl
      refine ⟨fun q hq => (h.1 q hq).trans (hp q hq), ?_⟩
      intro m
      rcases h.2 m with e | ⟨e1, e2, e3⟩
      · rcases hm m with e' | ⟨e1', e2', e3'⟩
        · exact Or.inl (e.trans e')
        · exact Or.inr ⟨e1', e2', e.trans e3'⟩
      · exact Or.inr ⟨e1, e2, e3⟩


@[simp] theorem lock_inferrence_step_pressing_records (key : Nat)
    (ck : FlKeyEmbedderCheckedKey) (context : SyncStateLoopContext)
    (self : FlKeyEmbedderResponder) :
    (lock_inferrence_step key ck context self).pressing_records = self.pressing_records := by
  unfold lock_inferrence_step update_caps_lock_state_logic_inferrence
  simp only []
  split
  · split
    · rfl
    · split
      · rfl
      · split <;> rfl
  · rfl

@[simp] theorem lock_inferrence_step_mapping_records (key : Nat)
    (ck : FlKeyEmbedderCheckedKey) (context : SyncStateLoopContext)
    (self : FlKeyEmbedderResponder) :
    (lock_inferrence_step key ck context self).mapping_records = self.mapping_records := by
  unfold lock_inferrence_step update_caps_lock_state_logic_inferrence
  simp only []
  split
  · split
    · rfl
    · split
      · rfl
      · split <;> rfl
  · rfl

@[simp] theorem lock_inferrence_step_lock_records (key : Nat)
    (ck : FlKeyEmbedderCheckedKey) (context : SyncStateLoopContext)
    (self : FlKeyEmbedderResponder) :
    (lock_inferrence_step key ck context self).lock_records = self.lock_records := by
  unfold lock_inferrence_step update_caps_lock_state_logic_inferrence
  simp only []
  split
  · split
    · rfl
    · split
      · rfl
      · split <;> rfl
  · rfl

/-- The lock synchronizer body changes `pressing_records` only at the lock key's
physical key and `mapping_records` only by `mapping_grows`. -/
theorem synchronize_lock_states_loop_body_frame (key : Nat) (ck : FlKeyEmbedderCheckedKey)
    (context : SyncStateLoopContext) (self : FlKeyEmbedderResponder) :
    (∀ q, q ≠ lock_physical_key ck self →
      lookup_hash_table (synchronize_lock_states_loop_body key ck context self).1.pressing_records
        q = lookup_hash_table self.pressing_records q) ∧
    mapping_grows self (synchronize_lock_states_loop_body key ck context self).1 ck := by
  unfold synchronize_lock_states_loop_body mapping_grows
  simp only []
  split
  · simp
  · split
    · simp
    · split
      · simp
      · split
        · simp
        · have h := synchronize_lock_states_for_frame context ck.primary_logical_key
            (lookup_hash_table self.mapping_records ck.primary_logical_key)
            (lock_physical_key ck self)
            (lock_destination_stage (lock_stage_by_event key ck context
              (lock_inferrence_step key ck context self)
              (lock_stage_by_record key ck self))
              (lock_stage_by_record key ck self) - lock_stage_by_record key ck self)
            (lock_stage_by_record key ck self)
            (lock_inferrence_step key ck context self)
          refine ⟨fun q hq => by simpa using h.1 q hq, ?_⟩
          intro m
          rcases h.2 m with e | ⟨e1, e2, e3⟩
          · left
            simpa using e
          · right
            refine ⟨e1, by rw [e1]; exact e2, ?_⟩
            rw [e3]
            simp [lock_physical_key, e2]

/-- The `for` loop of the modifier synchronizer changes `pressing_records` only
at the recorded physical keys of the logical keys it visits, and leaves
`mapping_records` alone. -/
theorem synchronize_pressed_states_for_frame (context : SyncStateLoopContext) (pbs : Bool)
    (keys : List Nat) :
    ∀ (self : FlKeyEmbedderResponder) (pbr : Bool),
      (synchronize_pressed_states_for context pbs keys self pbr).self.mapping_records =
        self.mapping_records ∧
      (synchronize_pressed_states_for context pbs keys self pbr).self.lock_records =
        self.lock_records ∧
      (synchronize_pressed_states_for context pbs keys self pbr).self.caps_lock_state_logic_inferrence =
        self.caps_lock_state_logic_inferrence ∧
      ∀ q, (∀ k ∈ keys, lookup_hash_table self.mapping_records k ≠ q) →
        lookup_hash_table
          (synchronize_pressed_states_for context pbs keys self pbr).self.pressing_records q =
          lookup_hash_table self.pressing_records q := by
  induction keys with
  | nil =>
    intro self pbr
    simp [synchronize_pressed_states_for]
  | cons k rest ih =>
    intro self pbr
    unfold synchronize_pressed_states_for
    simp only []
    split
    · simp
    · split
      · have h := ih (update_pressing_state self (lookup_hash_table self.mapping_records k) 0)
          (pbr || decide (pressed_logical_key_before_event self k ≠ 0))
        simp only [update_pressing_state_mapping_records, update_pressing_state_lock_records,
          update_pressing_state_inferrence] at h
        refine ⟨h.1, h.2.1, h.2.2.1, ?_⟩
        intro q hq
        have hk := hq k (List.mem_cons_self _ _)
        rw [h.2.2.2 q (fun k2 hk2 => hq k2 (List.mem_cons_of_mem _ hk2))]
        simp [lookup_update_pressing_state, hk]
      · have h := ih self (pbr || decide (pressed_logical_key_before_event self k ≠ 0))
        exact ⟨h.1, h.2.1, h.2.2.1, fun q hq =>
          h.2.2.2 q (fun k2 hk2 => hq k2 (List.mem_cons_of_mem _ hk2))⟩

/-- The modifier synchronizer body changes `pressing_records` only at physical
keys the modifier uses and `mapping_records` only by `mapping_grows`. -/
theorem synchronize_pressed_states_loop_body_frame (key : Nat)
    (ck : FlKeyEmbedderCheckedKey) (context : SyncStateLoopContext)
    (self : FlKeyEmbedderResponder) :
    (∀ q, modifier_key_avoids self ck q →
      lookup_hash_table
        (synchronize_pressed_states_loop_body key ck context self).1.pressing_records q =
        lookup_hash_table self.pressing_records q) ∧
    mapping_grows self (synchronize_pressed_states_loop_body key ck context self).1 ck ∧
    (synchronize_pressed_states_loop_body key ck context self).1.lock_records =
      self.lock_records ∧
    (synchronize_pressed_states_loop_body key ck context self).1.caps_lock_state_logic_inferrence =
      self.caps_lock_state_logic_inferrence := by
  unfold synchronize_pressed_states_loop_body mapping_grows
  simp only []
  have h := synchronize_pressed_states_for_frame context
    (decide (context.state &&& key ≠ 0))
    (if ck.secondary_logical_key = 0 then [ck.primary_logical_key]
      else [ck.primary_logical_key, ck.secondary_logical_key]) self false
  generalize hr : synchronize_pressed_states_for context _ _ self false = r at h
  have hkeys : ∀ q, modifier_key_avoids self ck q →
      ∀ k ∈ (if ck.secondary_logical_key = 0 then [ck.primary_logical_key]
        else [ck.primary_logical_key, ck.secondary_logical_key]),
        lookup_hash_table self.mapping_records k ≠ q := by
    intro q ha k hk
    split at hk
    · simp at hk
      rw [hk]
      exact ha.2.1
    · simp at hk
      rcases hk with hk | hk
      · rw [hk]
        exact ha.2.1
      · rw [hk]
        exact ha.2.2
  split
  · exact ⟨fun q ha => h.2.2.2 q (hkeys q ha), fun m => Or.inl (by rw [h.1]), h.2.1, h.2.2.1⟩
  · split
    · refine ⟨?_, ?_, ?_, ?_⟩
      · intro q ha
        rw [lookup_update_pressing_state]
        have hne : ¬ ((if lookup_hash_table r.self.mapping_records ck.primary_logical_key ≠ 0
            then lookup_hash_table r.self.mapping_records ck.primary_logical_key
            else ck.primary_physical_key) = q) := by
          rw [h.1]
          split
          · exact ha.2.1
          · exact ha.1
        rw [if_neg hne]
        split
        · simpa using h.2.2.2 q (hkeys q ha)
        · exact h.2.2.2 q (hkeys q ha)
      · intro m
        simp only [update_pressing_state_mapping_records]
        by_cases h0 : lookup_hash_table self.mapping_records ck.primary_logical_key = 0
        · have h0r : lookup_hash_table r.self.mapping_records ck.primary_logical_key = 0 := by
            rw [h.1]
            exact h0
          simp only [h0r, if_true, ne_eq, not_true_eq_false, if_false,
            update_mapping_record_mapping_records, lookup_hash_table_insert]
          by_cases hm : ck.primary_logical_key = m
          · right
            subst hm
            simp [h0]
          · left
            simp [hm, h.1]
        · have h0r : ¬ lookup_hash_table r.self.mapping_records ck.primary_logical_key = 0 := by
            rw [h.1]
            exact h0
          left
          simp [h0, h0r, h.1]
      · simp only [update_pressing_state_lock_records]
        split
        · simpa using h.2.1
        · exact h.2.1
      · simp only [update_pressing_state_inferrence]
        split
        · simpa using h.2.2.1
        · exact h.2.2.1
    · exact ⟨fun q ha => h.2.2.2 q (hkeys q ha), fun m => Or.inl (by rw [h.1]), h.2.1, h.2.2.1⟩


theorem lock_physical_key_ne_of_avoids {self : FlKeyEmbedderResponder}
    {ck : FlKeyEmbedderCheckedKey} {q : Nat} (h : lock_key_avoids self ck q) :
    q ≠ lock_physical_key ck self := by
  unfold lock_physical_key
  simp only []
  split
  · exact Ne.symm h.2
  · exact Ne.symm h.1

/-- The lock loop leaves alone a physical key that no lock key uses. -/
theorem foreach_lock_frame (context : SyncStateLoopContext) (q : Nat)
    (entries : List (Nat × FlKeyEmbedderCheckedKey)) :
    ∀ self : FlKeyEmbedderResponder, (∀ e ∈ entries, lock_key_avoids self e.2 q) →
      lookup_hash_table (foreach_checked_key synchronize_lock_states_loop_body context
        entries self).1.pressing_records q = lookup_hash_table self.pressing_records q ∧
      mapping_grows_avoiding q self
        (foreach_checked_key synchronize_lock_states_loop_body context entries self).1 := by
  induction entries with
  | nil =>
    intro self _
    exact ⟨rfl, mapping_grows_avoiding_refl q self⟩
  | cons e rest ih =>
    intro self h
    obtain ⟨key, ck⟩ := e
    have ha := h (key, ck) (List.mem_cons_self _ _)
    have hb := synchronize_lock_states_loop_body_frame key ck context self
    have hg := mapping_grows_avoiding_of_grows hb.2 ha.1
    have hrest := ih (synchronize_lock_states_loop_body key ck context self).1
      (fun e he => lock_key_avoids_of_grows hg (h e (List.mem_cons_of_mem _ he)))
    unfold foreach_checked_key
    simp only []
    exact ⟨hrest.1.trans (hb.1 q (lock_physical_key_ne_of_avoids ha)),
      mapping_grows_avoiding_trans hg hrest.2⟩

/-- The modifier loop leaves alone a physical key that no modifier uses. -/
theorem foreach_modifier_frame (context : SyncStateLoopContext) (q : Nat)
    (entries : List (Nat × FlKeyEmbedderCheckedKey)) :
    ∀ self : FlKeyEmbedderResponder, (∀ e ∈ entries, modifier_key_avoids self e.2 q) →
      lookup_hash_table (foreach_checked_key synchronize_pressed_states_loop_body context
        entries self).1.pressing_records q = lookup_hash_table self.pressing_records q ∧
      mapping_grows_avoiding q self
        (foreach_checked_key synchronize_pressed_states_loop_body context entries self).1 := by
  induction entries with
  | nil =>
    intro self _
    exact ⟨rfl, mapping_grows_avoiding_refl q self⟩
  | cons e rest ih =>
    intro self h
    obtain ⟨key, ck⟩ := e
    have ha := h (key, ck) (List.mem_cons_self _ _)
    have hb := synchronize_pressed_states_loop_body_frame key ck context self
    have hg := mapping_grows_avoiding_of_grows hb.2.1 ha.1
    have hrest := ih (synchronize_pressed_states_loop_body key ck context self).1
      (fun e he => modifier_key_avoids_of_grows hg (h e (List.mem_cons_of_mem _ he)))
    unfold foreach_checked_key
    simp only []
    exact ⟨hrest.1.trans (hb.1 q ha), mapping_grows_avoiding_trans hg hrest.2⟩

/-- The two synchronizer loops leave alone a physical key that no tracked key
uses. -/
theorem synchronize_states_frame (context : SyncStateLoopContext) (q : Nat)
    (self : FlKeyEmbedderResponder)
    (hlocks : ∀ e ∈ self.lock_bit_to_checked_keys, lock_key_avoids self e.2 q)
    (hmods : ∀ e ∈ self.modifier_bit_to_checked_keys, modifier_key_avoids self e.2 q) :
    lookup_hash_table (synchronize_states context self).1.pressing_records q =
      lookup_hash_table self.pressing_records q ∧
    mapping_grows_avoiding q self (synchronize_states context self).1 := by
  have h1 := foreach_lock_frame context q self.lock_bit_to_checked_keys self hlocks
  have hs := (foreach_checked_key_static synchronize_lock_states_loop_body
    synchronize_lock_states_loop_body_static context self.lock_bit_to_checked_keys self).1
  have h2 := foreach_modifier_frame context q
    (foreach_checked_key synchronize_lock_states_loop_body context
      self.lock_bit_to_checked_keys self).1.modifier_bit_to_checked_keys
    (foreach_checked_key synchronize_lock_states_loop_body context
      self.lock_bit_to_checked_keys self).1
    (by
      rw [hs.2.1]
      exact fun e he => modifier_key_avoids_of_grows h1.2 (hmods e he))
  unfold synchronize_states
  simp only []
  exact ⟨h2.1.trans h1.1, mapping_grows_avoiding_trans h1.2 h2.2⟩

/-! ## An ordinary key pressed twice (C5) -/

/-- Recording the real down event of an untracked logical key does not make a
lock key use the event's physical key. -/
theorem lock_key_avoids_after_real_down (s : FlKeyEmbedderResponder)
    (ck : FlKeyEmbedderCheckedKey) (p l : Nat) (h : lock_key_avoids s ck p)
    (hl : ck.primary_logical_key ≠ l) :
    lock_key_avoids
      (update_mapping_record (possibly_update_lock_bit (update_pressing_state s p l) l true) p l)
      ck p := by
  unfold lock_key_avoids at h ⊢
  simp [Ne.symm hl, h.1, h.2]

/-- Recording the real down event of an untracked logical key does not make a
modifier use the event's physical key. -/
theorem modifier_key_avoids_after_real_down (s : FlKeyEmbedderResponder)
    (ck : FlKeyEmbedderCheckedKey) (p l : Nat) (h : modifier_key_avoids s ck p)
    (hl1 : ck.primary_logical_key ≠ l) (hl2 : ck.secondary_logical_key ≠ l) :
    modifier_key_avoids
      (update_mapping_record (possibly_update_lock_bit (update_pressing_state s p l) l true) p l)
      ck p := by
  unfold modifier_key_avoids at h ⊢
  simp [Ne.symm hl1, Ne.symm hl2, h.1, h.2.1, h.2.2]

/-- Claim C5 (amended claim). With an engine attached, for every down event whose
derived logical key is non-zero and is not a logical key of a tracked modifier
or lock key, and whose physical key no tracked key uses (neither as primary
physical key nor as recorded physical key in `mapping_records`), starting from
a state where that physical key is not recorded pressed: the first call sends,
after the synchronizers' events, exactly one real down event with that physical
and logical key; the second identical call forwards no real event and ends, after
its synchronizers' events, with the empty event and the callback invoked with
handled = true, the responder being the one its synchronizers left.  If
moreover the synchronizers find nothing to do when they run again on the state
the first call left, the second call sends only the empty event and leaves the
responder (`pressing_records`, `lock_records`, `mapping_records`) as the first
call left it. -/
theorem untracked_key_down_twice (km : KeyMapping) (self : FlKeyEmbedderResponder)
    (event : FlKeyEvent) (hengine : self.engine = true) (hdown : event.is_press = true)
    (hlog : event_to_logical_key km event ≠ 0)
    (hfree : lookup_hash_table self.pressing_records (event_to_physical_key km event) = 0)
    (hlocks : ∀ e ∈ self.lock_bit_to_checked_keys,
      lock_key_avoids self e.2 (event_to_physical_key km event) ∧
      e.2.primary_logical_key ≠ event_to_logical_key km event)
    (hmods : ∀ e ∈ self.modifier_bit_to_checked_keys,
      modifier_key_avoids self e.2 (event_to_physical_key km event) ∧
      e.2.primary_logical_key ≠ event_to_logical_key km event ∧
      e.2.secondary_logical_key ≠ event_to_logical_key km event) :
    (fl_key_embedder_responder_handle_event km self event).2 =
      (synchronize_states (sync_state_context km event) self).2 ++
        [Call.send_key_event true
          { timestamp := event_to_timestamp event, type := kFlutterKeyEventTypeDown,
            physical := event_to_physical_key km event,
            logical := event_to_logical_key km event,
            character := km.event_to_character event, synthesized := false } true] ∧
    real_events (fl_key_embedder_responder_handle_event km self event).2 =
      [{ timestamp := event_to_timestamp event, type := kFlutterKeyEventTypeDown,
         physical := event_to_physical_key km event,
         logical := event_to_logical_key km event,
         character := km.event_to_character event, synthesized := false }] ∧
    fl_key_embedder_responder_handle_event km
        (fl_key_embedder_responder_handle_event km self event).1 event =
      ((synchronize_states (sync_state_context km event)
          (fl_key_embedder_responder_handle_event km self event).1).1,
       (synchronize_states (sync_state_context km event)
          (fl_key_embedder_responder_handle_event km self event).1).2 ++
        [Call.send_key_event true empty_event false, Call.callback true]) ∧
    real_events (fl_key_embedder_responder_handle_event km
        (fl_key_embedder_responder_handle_event km self event).1 event).2 = [] ∧
    (synchronize_states (sync_state_context km event)
        (fl_key_embedder_responder_handle_event km self event).1 =
        ((fl_key_embedder_responder_handle_event km self event).1, []) →
      fl_key_embedder_responder_handle_event km
          (fl_key_embedder_responder_handle_event km self event).1 event =
        ((fl_key_embedder_responder_handle_event km self event).1,
         [Call.send_key_event true empty_event false, Call.callback true])) ∧
    empty_event = { timestamp := 0, type := kFlutterKeyEventTypeDown, physical := 0,
                    logical := 0, character := none, synthesized := false } := by
  have hfr0 := synchronize_states_frame (sync_state_context km event)
    (event_to_physical_key km event) self (fun e he => (hlocks e he).1)
    (fun e he => (hmods e he).1)
  have hfr := hfr0.1
  rw [hfree] at hfr
  have h1 := handle_event_down_not_recorded km self event hengine hdown hfr
  have hst := (synchronize_states_static (sync_state_context km event) self).1
  have heng : (synchronize_states (sync_state_context km event) self).1.engine = true := by
    rw [hst.1, hengine]
  -- the state the first call leaves
  generalize hS1 : fl_key_embedder_responder_handle_event km self event = r1 at *
  have hr1 : r1.1 = update_mapping_record
      (possibly_update_lock_bit
        (update_pressing_state (synchronize_states (sync_state_context km event) self).1
          (event_to_physical_key km event) (event_to_logical_key km event))
        (event_to_logical_key km event) true)
      (event_to_physical_key km event) (event_to_logical_key km event) := by
    rw [h1]
  have hpr1 : lookup_hash_table r1.1.pressing_records (event_to_physical_key km event) =
      event_to_logical_key km event := by
    rw [hr1]
    simp [lookup_update_pressing_state, hlog, hfr]
  have hlock1 : r1.1.lock_bit_to_checked_keys = self.lock_bit_to_checked_keys := by
    rw [hr1]
    simpa using hst.2.2.1
  have hmod1 : r1.1.modifier_bit_to_checked_keys = self.modifier_bit_to_checked_keys := by
    rw [hr1]
    simpa using hst.2.1
  have heng1 : r1.1.engine = true := by
    rw [hr1]
    simpa using heng
  have hfr1 := (synchronize_states_frame (sync_state_context km event)
    (event_to_physical_key km event) r1.1
    (by
      rw [hlock1, hr1]
      intro e he
      exact lock_key_avoids_after_real_down _ _ _ _
        (lock_key_avoids_of_grows hfr0.2 (hlocks e he).1) (hlocks e he).2)
    (by
      rw [hmod1, hr1]
      intro e he
      exact modifier_key_avoids_after_real_down _ _ _ _
        (modifier_key_avoids_of_grows hfr0.2 (hmods e he).1) (hmods e he).2.1
        (hmods e he).2.2)).1
  have hrec : lookup_hash_table
      (synchronize_states (sync_state_context km event) r1.1).1.pressing_records
      (event_to_physical_key km event) ≠ 0 := by
    rw [hfr1, hpr1]
    exact hlog
  have h2 := handle_event_down_recorded km r1.1 event hdown hrec
  have heng2 : (synchronize_states (sync_state_context km event) r1.1).1.engine = true := by
    rw [(synchronize_states_static _ r1.1).1.1, heng1]
  rw [heng2] at h2
  refine ⟨by rw [h1], ?_, h2, ?_, ?_, rfl⟩
  · rw [h1]
    simp [real_events_append, real_events_synchronize_states, real_events]
  · rw [h2]
    simp [real_events_append, real_events_synchronize_states, real_events]
  · intro hquiet
    rw [h2, hquiet]
    simp

/-- Claim C5 (counterexample). On the sample keyboard the key code of KeyA first
sends Shift_L (down, then up with the Shift bit set), which leaves KeyA's
physical key as the recorded physical key of ShiftLeft.  KeyA is then not
recorded pressed, and its logical key `a` is non-zero and untracked; yet a KeyA
down event with the Shift bit set forwards no real event: the modifier
synchronizer presses ShiftLeft on KeyA's physical key and the native event is
suppressed as a duplicate. -/
theorem key_a_down_is_suppressed_after_remapped_shift :
    lookup_hash_table
      (handle_events sampleKeyMapping sampleResponder
        [remappedShiftEvent true 0, remappedShiftEvent false 1]).pressing_records
      (event_to_physical_key sampleKeyMapping (keyAEvent true 1)) = 0 ∧
    event_to_logical_key sampleKeyMapping (keyAEvent true 1) = 0x61 ∧
    (fl_key_embedder_responder_handle_event sampleKeyMapping
      (handle_events sampleKeyMapping sampleResponder
        [remappedShiftEvent true 0, remappedShiftEvent false 1]) (keyAEvent true 1)).2 =
      [Call.send_key_event true
        { timestamp := 1000, type := kFlutterKeyEventTypeDown, physical := 0x70004,
          logical := 0x200000102, character := none, synthesized := true } false,
       Call.send_key_event true empty_event false,
       Call.callback true] := by
  decide

/-- Claim C5 (witness). KeyA down twice, with the NumLock bit in the bitmask, on a
fresh sample responder: the first call synthesizes a NumLock press and forwards
the real KeyA down; the second call sends only the empty event and
acknowledges, leaving the responder as it was. -/
theorem untracked_key_down_twice_witness :
    real_events (fl_key_embedder_responder_handle_event sampleKeyMapping sampleResponder
        (keyAEvent true 16)).2 =
      [{ timestamp := event_to_timestamp (keyAEvent true 16),
         type := kFlutterKeyEventTypeDown,
         physical := event_to_physical_key sampleKeyMapping (keyAEvent true 16),
         logical := event_to_logical_key sampleKeyMapping (keyAEvent true 16),
         character := sampleKeyMapping.event_to_character (keyAEvent true 16),
         synthesized := false }] ∧
    fl_key_embedder_responder_handle_event sampleKeyMapping
        (fl_key_embedder_responder_handle_event sampleKeyMapping sampleResponder
          (keyAEvent true 16)).1 (keyAEvent true 16) =
      ((fl_key_embedder_responder_handle_event sampleKeyMapping sampleResponder
          (keyAEvent true 16)).1,
       [Call.send_key_event true empty_event false, Call.callback true]) :=
  ⟨(untracked_key_down_twice sampleKeyMapping sampleResponder (keyAEvent true 16) rfl rfl
      (by decide) (by decide) (by decide) (by decide)).2.1,
   (untracked_key_down_twice sampleKeyMapping sampleResponder (keyAEvent true 16) rfl rfl
      (by decide) (by decide) (by decide) (by decide)).2.2.2.2.1 (by decide)⟩

/-! ## The modifier synchronizer on consistent records (C8, C9) -/

theorem recorded_pressed_iff_of_consistent (self : FlKeyEmbedderResponder) (logical_key : Nat)
    (h : key_consistent self logical_key) :
    recorded_pressed self logical_key ↔
      pressed_logical_key_before_event self logical_key ≠ 0 := by
  unfold key_consistent at h
  unfold recorded_pressed
  unfold pressed_logical_key_before_event at h ⊢
  simp only [] at h ⊢
  by_cases hm : lookup_hash_table self.mapping_records logical_key = 0
  · simp [hm]
  · simp only [hm, if_false] at h ⊢
    constructor
    · rintro ⟨_, h2, h3⟩
      rw [h2]
      exact h3
    · intro hne
      rcases h with h | h
      · exact absurd h hne
      · exact ⟨by simpa using hm, h, by rw [← h]; exact hne⟩

/-- One iteration of the loop for a logical key that is not pressed. -/
theorem synchronize_pressed_states_for_not_pressed (context : SyncStateLoopContext)
    (pbs : Bool) (k : Nat) (rest : List Nat) (self : FlKeyEmbedderResponder) (pbr : Bool)
    (h : pressed_logical_key_before_event self k = 0) :
    synchronize_pressed_states_for context pbs (k :: rest) self pbr =
      synchronize_pressed_states_for context pbs rest self pbr := by
  rw [synchronize_pressed_states_for]
  simp [h]

/-- One iteration of the loop for a pressed logical key that the bitmask demands
pressed. -/
theorem synchronize_pressed_states_for_pressed_demanded (context : SyncStateLoopContext)
    (k : Nat) (rest : List Nat) (self : FlKeyEmbedderResponder) (pbr : Bool)
    (h : pressed_logical_key_before_event self k = k) (hk : k ≠ 0) :
    synchronize_pressed_states_for context true (k :: rest) self pbr =
      synchronize_pressed_states_for context true rest self true := by
  rw [synchronize_pressed_states_for]
  simp [h, hk]

/-- One iteration of the loop for a pressed logical key that the bitmask does not
demand: a release is synthesized. -/
theorem synchronize_pressed_states_for_pressed_released (context : SyncStateLoopContext)
    (k : Nat) (rest : List Nat) (self : FlKeyEmbedderResponder) (pbr : Bool)
    (h : pressed_logical_key_before_event self k = k) (hk : k ≠ 0) :
    synchronize_pressed_states_for context false (k :: rest) self pbr =
      { synchronize_pressed_states_for context false rest
          (update_pressing_state self (lookup_hash_table self.mapping_records k) 0) true with
        calls := synthesize_simple_event self kFlutterKeyEventTypeUp
            (lookup_hash_table self.mapping_records k) k context.timestamp ++
          (synchronize_pressed_states_for context false rest
            (update_pressing_state self (lookup_hash_table self.mapping_records k) 0)
            true).calls } := by
  rw [synchronize_pressed_states_for]
  simp [h, hk]

/-- The recorded state of a logical key after another recorded physical key has
been released. -/
theorem pressed_logical_key_before_event_release (self : FlKeyEmbedderResponder)
    (p k : Nat) :
    pressed_logical_key_before_event (update_pressing_state self p 0) k =
      if p = lookup_hash_table self.mapping_records k then 0
      else pressed_logical_key_before_event self k := by
  unfold pressed_logical_key_before_event
  simp only [update_pressing_state_mapping_records, lookup_update_pressing_state]
  by_cases h0 : lookup_hash_table self.mapping_records k = 0 <;>
    by_cases hp : p = lookup_hash_table self.mapping_records k <;> simp [h0, hp]

/-- With consistent records and distinct logical keys, releasing the primary key
does not change what is recorded for the secondary key. -/
theorem pressed_logical_key_before_event_release_other (self : FlKeyEmbedderResponder)
    (k1 k2 : Nat) (h1 : pressed_logical_key_before_event self k1 = k1) (hk1 : k1 ≠ 0)
    (h2 : key_consistent self k2) (hne : k2 ≠ k1) :
    pressed_logical_key_before_event
      (update_pressing_state self (lookup_hash_table self.mapping_records k1) 0) k2 =
      pressed_logical_key_before_event self k2 := by
  rw [pressed_logical_key_before_event_release]
  split
  · rename_i heq
    have hm1 : lookup_hash_table self.mapping_records k1 ≠ 0 := by
      intro h0
      unfold pressed_logical_key_before_event at h1
      simp [h0] at h1
      exact hk1 h1.symm
    have e1 : pressed_logical_key_before_event self k1 =
        lookup_hash_table self.pressing_records (lookup_hash_table self.mapping_records k1) := by
      unfold pressed_logical_key_before_event
      simp [hm1]
    have e2 : pressed_logical_key_before_event self k2 =
        lookup_hash_table self.pressing_records (lookup_hash_table self.mapping_records k1) := by
      unfold pressed_logical_key_before_event
      rw [← heq]
      simp [hm1]
    rw [e2, ← e1, h1]
    rcases h2 with h2 | h2
    · rw [e2, ← e1, h1] at h2
      exact absurd h2 hk1
    · rw [e2, ← e1, h1] at h2
      exact absurd h2.symm hne
  · rfl


theorem pressed_of_consistent {self : FlKeyEmbedderResponder} {k : Nat}
    (hc : key_consistent self k) (hp : pressed_logical_key_before_event self k ≠ 0) :
    pressed_logical_key_before_event self k = k ∧ k ≠ 0 := by
  rcases hc with h | h
  · exact absurd h hp
  · exact ⟨h, by rw [← h]; exact hp⟩

/-- The modifier synchronizer body when the bitmask lacks the modifier's bit and
the records are consistent: every pressed logical key of the modifier is
released, in the order primary, secondary. -/
theorem synchronize_pressed_states_loop_body_release (key : Nat)
    (ck : FlKeyEmbedderCheckedKey) (context : SyncStateLoopContext)
    (self : FlKeyEmbedderResponder)
    (hc1 : key_consistent self ck.primary_logical_key)
    (hc2 : ck.secondary_logical_key ≠ 0 → key_consistent self ck.secondary_logical_key)
    (hne : ck.secondary_logical_key ≠ ck.primary_logical_key)
    (hb : context.state &&& key = 0) :
    synchronize_pressed_states_loop_body key ck context self =
      ((if ck.secondary_logical_key ≠ 0 ∧
            pressed_logical_key_before_event self ck.secondary_logical_key ≠ 0 then
          update_pressing_state
            (if pressed_logical_key_before_event self ck.primary_logical_key ≠ 0 then
              update_pressing_state self
                (lookup_hash_table self.mapping_records ck.primary_logical_key) 0
             else self)
            (lookup_hash_table self.mapping_records ck.secondary_logical_key) 0
        else
          (if pressed_logical_key_before_event self ck.primary_logical_key ≠ 0 then
            update_pressing_state self
              (lookup_hash_table self.mapping_records ck.primary_logical_key) 0
           else self)),
       (if pressed_logical_key_before_event self ck.primary_logical_key ≠ 0 then
          synthesize_simple_event self kFlutterKeyEventTypeUp
            (lookup_hash_table self.mapping_records ck.primary_logical_key)
            ck.primary_logical_key context.timestamp
        else []) ++
       (if ck.secondary_logical_key ≠ 0 ∧
            pressed_logical_key_before_event self ck.secondary_logical_key ≠ 0 then
          synthesize_simple_event self kFlutterKeyEventTypeUp
            (lookup_hash_table self.mapping_records ck.secondary_logical_key)
            ck.secondary_logical_key context.timestamp
        else [])) := by
  unfold synchronize_pressed_states_loop_body
  simp only [hb, ne_eq, not_true_eq_false, decide_False, Bool.false_and, Bool.false_eq_true,
    if_false]
  by_cases hs : ck.secondary_logical_key = 0
  · simp only [hs, if_true, not_true_eq_false, false_and, if_false, List.append_nil]
    by_cases h1 : pressed_logical_key_before_event self ck.primary_logical_key = 0
    · rw [synchronize_pressed_states_for_not_pressed _ _ _ _ _ _ h1]
      simp [synchronize_pressed_states_for, h1]
    · obtain ⟨e1, n1⟩ := pressed_of_consistent hc1 h1
      rw [synchronize_pressed_states_for_pressed_released _ _ _ _ _ e1 n1]
      simp [synchronize_pressed_states_for, h1, synthesize_simple_event]
  · have hc2 := hc2 hs
    simp only [hs, if_false, not_false_eq_true, true_and]
    by_cases h1 : pressed_logical_key_before_event self ck.primary_logical_key = 0
    · rw [synchronize_pressed_states_for_not_pressed _ _ _ _ _ _ h1]
      by_cases h2 : pressed_logical_key_before_event self ck.secondary_logical_key = 0
      · rw [synchronize_pressed_states_for_not_pressed _ _ _ _ _ _ h2]
        simp [synchronize_pressed_states_for, h1, h2]
      · obtain ⟨e2, n2⟩ := pressed_of_consistent hc2 h2
        rw [synchronize_pressed_states_for_pressed_released _ _ _ _ _ e2 n2]
        simp [synchronize_pressed_states_for, h1, h2, synthesize_simple_event]
    · obtain ⟨e1, n1⟩ := pressed_of_consistent hc1 h1
      rw [synchronize_pressed_states_for_pressed_released _ _ _ _ _ e1 n1]
      have hsame := pressed_logical_key_before_event_release_other self _ _ e1 n1 hc2 hne
      by_cases h2 : pressed_logical_key_before_event self ck.secondary_logical_key = 0
      · rw [synchronize_pressed_states_for_not_pressed _ _ _ _ _ _ (by rw [hsame]; exact h2)]
        simp [synchronize_pressed_states_for, h1, h2, synthesize_simple_event]
      · obtain ⟨e2, n2⟩ := pressed_of_consistent hc2 h2
        rw [synchronize_pressed_states_for_pressed_released _ _ _ _ _
          (by rw [hsame]; exact e2) n2]
        simp [synchronize_pressed_states_for, h1, h2, synthesize_simple_event]

/-- The modifier synchronizer body when the bitmask has the modifier's bit and the
records are consistent: the primary key is pressed when no logical key of the
modifier is pressed, and nothing happens otherwise. -/
theorem synchronize_pressed_states_loop_body_demanded (key : Nat)
    (ck : FlKeyEmbedderCheckedKey) (context : SyncStateLoopContext)
    (self : FlKeyEmbedderResponder)
    (hc1 : key_consistent self ck.primary_logical_key)
    (hc2 : ck.secondary_logical_key ≠ 0 → key_consistent self ck.secondary_logical_key)
    (hb : context.state &&& key ≠ 0) :
    synchronize_pressed_states_loop_body key ck context self =
      if pressed_logical_key_before_event self ck.primary_logical_key = 0 ∧
          ¬ (ck.secondary_logical_key ≠ 0 ∧
            pressed_logical_key_before_event self ck.secondary_logical_key ≠ 0) then
        (update_pressing_state
          (if lookup_hash_table self.mapping_records ck.primary_logical_key = 0 then
            update_mapping_record self ck.primary_physical_key ck.primary_logical_key
           else self)
          (if lookup_hash_table self.mapping_records ck.primary_logical_key ≠ 0 then
            lookup_hash_table self.mapping_records ck.primary_logical_key
           else ck.primary_physical_key)
          ck.primary_logical_key,
         synthesize_simple_event self kFlutterKeyEventTypeDown
           (if lookup_hash_table self.mapping_records ck.primary_logical_key ≠ 0 then
             lookup_hash_table self.mapping_records ck.primary_logical_key
            else ck.primary_physical_key)
           ck.primary_logical_key context.timestamp)
      else (self, []) := by
  unfold synchronize_pressed_states_loop_body
  simp only [hb, ne_eq, not_false_eq_true, decide_True, Bool.true_and]
  by_cases hs : ck.secondary_logical_key = 0
  · simp only [hs, if_true, not_true_eq_false, false_and, not_false_eq_true, and_true]
    by_cases h1 : pressed_logical_key_before_event self ck.primary_logical_key = 0
    · rw [synchronize_pressed_states_for_not_pressed _ _ _ _ _ _ h1]
      by_cases hm : lookup_hash_table self.mapping_records ck.primary_logical_key = 0 <;>
      simp [synchronize_pressed_states_for, h1, synthesize_simple_event, hm]
    · obtain ⟨e1, n1⟩ := pressed_of_consistent hc1 h1
      rw [synchronize_pressed_states_for_pressed_demanded _ _ _ _ _ e1 n1]
      simp [synchronize_pressed_states_for, h1]
  · have hc2 := hc2 hs
    simp only [hs, if_false, not_false_eq_true, true_and]
    by_cases h1 : pressed_logical_key_before_event self ck.primary_logical_key = 0
    · rw [synchronize_pressed_states_for_not_pressed _ _ _ _ _ _ h1]
      by_cases h2 : pressed_logical_key_before_event self ck.secondary_logical_key = 0
      · rw [synchronize_pressed_states_for_not_pressed _ _ _ _ _ _ h2]
        by_cases hm : lookup_hash_table self.mapping_records ck.primary_logical_key = 0 <;>
        simp [synchronize_pressed_states_for, h1, h2, synthesize_simple_event, hm]
      · obtain ⟨e2, n2⟩ := pressed_of_consistent hc2 h2
        rw [synchronize_pressed_states_for_pressed_demanded _ _ _ _ _ e2 n2]
        simp [synchronize_pressed_states_for, h1, h2]
    · obtain ⟨e1, n1⟩ := pressed_of_consistent hc1 h1
      rw [synchronize_pressed_states_for_pressed_demanded _ _ _ _ _ e1 n1]
      by_cases h2 : pressed_logical_key_before_event self ck.secondary_logical_key = 0
      · rw [synchronize_pressed_states_for_not_pressed _ _ _ _ _ _ h2]
        simp [synchronize_pressed_states_for, h1]
      · obtain ⟨e2, n2⟩ := pressed_of_consistent hc2 h2
        rw [synchronize_pressed_states_for_pressed_demanded _ _ _ _ _ e2 n2]
        simp [synchronize_pressed_states_for, h1]


theorem synthesize_simple_event_type (self : FlKeyEmbedderResponder)
    (type : FlutterKeyEventType) (p l t : Nat) :
    ∀ c ∈ synthesize_simple_event self type p l t,
      ∃ ev, c = Call.send_key_event true ev false ∧ ev.type = type := by
  intro c hc
  unfold synthesize_simple_event at hc
  split at hc
  · simp only [List.mem_singleton] at hc
    exact ⟨_, hc, rfl⟩
  · simp at hc

/-- The loop of the modifier synchronizer synthesizes release events only, and
only when the bitmask lacks the modifier's bit. -/
theorem synchronize_pressed_states_for_calls (context : SyncStateLoopContext) (pbs : Bool)
    (keys : List Nat) :
    ∀ (self : FlKeyEmbedderResponder) (pbr : Bool),
      ∀ c ∈ (synchronize_pressed_states_for context pbs keys self pbr).calls,
        pbs = false ∧ ∃ ev, c = Call.send_key_event true ev false ∧
          ev.type = kFlutterKeyEventTypeUp := by
  induction keys with
  | nil =>
    intro self pbr c hc
    simp [synchronize_pressed_states_for] at hc
  | cons k rest ih =>
    intro self pbr c hc
    unfold synchronize_pressed_states_for at hc
    simp only [] at hc
    split at hc
    · simp at hc
    · split at hc
      · rename_i hcond
        simp only [List.mem_append] at hc
        rcases hc with hc | hc
        · refine ⟨?_, synthesize_simple_event_type _ _ _ _ _ c hc⟩
          simp only [Bool.and_eq_true, Bool.not_eq_true'] at hcond
          exact hcond.2
        · exact ih _ _ c hc
      · exact ih _ _ c hc

/-- Claim C9 (amended claim). For every modifier bit and every state with an engine
attached in which the records of the modifier's logical keys are consistent
(the recorded physical key of each is either not pressed or pressed with that
logical key; this is what the function checks with `g_return_if_fail`) and the
secondary logical key differs from the primary, the events that
`synchronize_pressed_states_loop_body` synthesizes are exactly: one up event
(recorded physical key, logical key) for each of the modifier's logical keys
that is recorded pressed when the bitmask lacks the bit; one down event for the
primary logical key when the bitmask has the bit and none of its logical keys is
recorded pressed; and nothing otherwise.  In every state, consistent or not,
the calls of one invocation are either all releases or all presses. -/
theorem synchronize_pressed_states_loop_body_synthesizes (key : Nat)
    (ck : FlKeyEmbedderCheckedKey) (context : SyncStateLoopContext)
    (self : FlKeyEmbedderResponder) :
    (self.engine = true → key_consistent self ck.primary_logical_key →
      (ck.secondary_logical_key ≠ 0 → key_consistent self ck.secondary_logical_key) →
      ck.secondary_logical_key ≠ ck.primary_logical_key →
      (synchronize_pressed_states_loop_body key ck context self).2 =
        if context.state &&& key = 0 then
          (if recorded_pressed self ck.primary_logical_key then
            [Call.send_key_event true (synthesized_event kFlutterKeyEventTypeUp
              (lookup_hash_table self.mapping_records ck.primary_logical_key)
              ck.primary_logical_key context.timestamp) false]
           else []) ++
          (if ck.secondary_logical_key ≠ 0 ∧
              recorded_pressed self ck.secondary_logical_key then
            [Call.send_key_event true (synthesized_event kFlutterKeyEventTypeUp
              (lookup_hash_table self.mapping_records ck.secondary_logical_key)
              ck.secondary_logical_key context.timestamp) false]
           else [])
        else if ¬ recorded_pressed self ck.primary_logical_key ∧
            ¬ (ck.secondary_logical_key ≠ 0 ∧
              recorded_pressed self ck.secondary_logical_key) then
          [Call.send_key_event true (synthesized_event kFlutterKeyEventTypeDown
            (if lookup_hash_table self.mapping_records ck.primary_logical_key ≠ 0 then
              lookup_hash_table self.mapping_records ck.primary_logical_key
             else ck.primary_physical_key)
            ck.primary_logical_key context.timestamp) false]
        else []) ∧
    ((∀ c ∈ (synchronize_pressed_states_loop_body key ck context self).2,
        ∃ ev, c = Call.send_key_event true ev false ∧ ev.type = kFlutterKeyEventTypeUp) ∨
     (∀ c ∈ (synchronize_pressed_states_loop_body key ck context self).2,
        ∃ ev, c = Call.send_key_event true ev false ∧ ev.type = kFlutterKeyEventTypeDown)) := by
  constructor
  · intro hengine hc1 hc2 hne
    have hp1 := recorded_pressed_iff_of_consistent self ck.primary_logical_key hc1
    have hp2 : (ck.secondary_logical_key ≠ 0 ∧
        recorded_pressed self ck.secondary_logical_key) ↔
        (ck.secondary_logical_key ≠ 0 ∧
          pressed_logical_key_before_event self ck.secondary_logical_key ≠ 0) := by
      constructor
      · rintro ⟨a, b⟩
        exact ⟨a, (recorded_pressed_iff_of_consistent self _ (hc2 a)).1 b⟩
      · rintro ⟨a, b⟩
        exact ⟨a, (recorded_pressed_iff_of_consistent self _ (hc2 a)).2 b⟩
    simp only [hp1, hp2]
    by_cases hb : context.state &&& key = 0
    · rw [synchronize_pressed_states_loop_body_release key ck context self hc1 hc2 hne hb]
      simp [hb, synthesize_simple_event, hengine, synthesized_event]
    · rw [synchronize_pressed_states_loop_body_demanded key ck context self hc1 hc2 hb]
      simp only [hb, if_false]
      split <;> simp_all [synthesize_simple_event, synthesized_event]
  · have hfor := synchronize_pressed_states_for_calls context
      (decide (context.state &&& key ≠ 0))
      (if ck.secondary_logical_key = 0 then [ck.primary_logical_key]
        else [ck.primary_logical_key, ck.secondary_logical_key]) self false
    unfold synchronize_pressed_states_loop_body
    simp only []
    generalize synchronize_pressed_states_for context _ _ self false = r at hfor
    split
    · exact Or.inl (fun c hc => (hfor c hc).2)
    · split
      · rename_i hcond
        right
        intro c hc
        simp only [List.mem_append] at hc
        rcases hc with hc | hc
        · have := (hfor c hc).1
          simp only [Bool.and_eq_true] at hcond
          rw [this] at hcond
          simp at hcond
        · exact synthesize_simple_event_type _ _ _ _ _ c hc
      · exact Or.inl (fun c hc => (hfor c hc).2)

/-- Claim C9 (counterexample). In a state reached by native events in which
ShiftRight is recorded pressed while the recorded physical key of ShiftLeft is
pressed with another logical key, the function returns at its
`g_return_if_fail` on ShiftLeft: with a bitmask that lacks the Shift bit it
synthesizes no release for ShiftRight. -/
theorem synchronize_pressed_states_loop_body_guard_skips_release :
    recorded_pressed shiftRightHeldAfterRemap sampleShift.secondary_logical_key ∧
    (sync_state_context sampleKeyMapping (keyAEvent true 0)).state &&& 1 = 0 ∧
    (synchronize_pressed_states_loop_body 1 sampleShift
      (sync_state_context sampleKeyMapping (keyAEvent true 0)) shiftRightHeldAfterRemap).2 = [] := by
  decide

/-- Claim C9 (witness). With both Shift keys held on the sample responder and a
bitmask without the Shift bit, both are released, primary first. -/
theorem synchronize_pressed_states_loop_body_synthesizes_witness :
    (synchronize_pressed_states_loop_body 1 sampleShift
      (sync_state_context sampleKeyMapping (keyAEvent true 0)) bothShiftsHeld).2 =
      [Call.send_key_event true (synthesized_event kFlutterKeyEventTypeUp 0x700e1
        0x200000102 1000) false,
       Call.send_key_event true (synthesized_event kFlutterKeyEventTypeUp 0x700e5
        0x200000103 1000) false] :=
  ((synchronize_pressed_states_loop_body_synthesizes 1 sampleShift
      (sync_state_context sampleKeyMapping (keyAEvent true 0)) bothShiftsHeld).1
    (by decide) (by decide) (by decide) (by decide)).trans (by decide)

/-! ## The records after the modifier synchronizer (C8) -/

theorem pressed_of_recorded_pressed {self : FlKeyEmbedderResponder} {k : Nat}
    (h : recorded_pressed self k) : pressed_logical_key_before_event self k ≠ 0 := by
  obtain ⟨h1, h2, h3⟩ := h
  unfold pressed_logical_key_before_event
  simp only [h1, if_false, h2]
  exact h3

theorem recorded_pressed_of_pressed {self : FlKeyEmbedderResponder} {k : Nat}
    (h : pressed_logical_key_before_event self k = k) (hk : k ≠ 0) :
    recorded_pressed self k := by
  unfold pressed_logical_key_before_event at h
  simp only [] at h
  by_cases hm : lookup_hash_table self.mapping_records k = 0
  · simp only [hm, if_true] at h
    exact absurd h.symm hk
  · simp only [hm, if_false] at h
    exact ⟨hm, h, hk⟩

/-- Claim C8 (amended claim). For every state in which the records of the
modifier's logical keys are consistent (each recorded physical key is either not
pressed or pressed with that logical key), the primary logical key and primary
physical key are non-zero and differ from the secondary logical key, and the
primary physical key is not pressed in case the primary logical key has no
mapping record: immediately after `synchronize_pressed_states_loop_body` has
processed the modifier bit, if the event's bitmask has the bit then at least one
of the modifier's primary and secondary logical keys is recorded pressed
(possibly both), and if the bitmask lacks it then neither is recorded pressed. -/
theorem synchronize_pressed_states_loop_body_records (key : Nat)
    (ck : FlKeyEmbedderCheckedKey) (context : SyncStateLoopContext)
    (self : FlKeyEmbedderResponder)
    (hc1 : key_consistent self ck.primary_logical_key)
    (hc2 : ck.secondary_logical_key ≠ 0 → key_consistent self ck.secondary_logical_key)
    (hne : ck.secondary_logical_key ≠ ck.primary_logical_key)
    (hl1 : ck.primary_logical_key ≠ 0) (hpp : ck.primary_physical_key ≠ 0)
    (hfree : lookup_hash_table self.mapping_records ck.primary_logical_key = 0 →
      lookup_hash_table self.pressing_records ck.primary_physical_key = 0) :
    (context.state &&& key ≠ 0 →
      recorded_pressed (synchronize_pressed_states_loop_body key ck context self).1
          ck.primary_logical_key ∨
        recorded_pressed (synchronize_pressed_states_loop_body key ck context self).1
          ck.secondary_logical_key) ∧
    (context.state &&& key = 0 →
      ¬ recorded_pressed (synchronize_pressed_states_loop_body key ck context self).1
          ck.primary_logical_key ∧
      ¬ recorded_pressed (synchronize_pressed_states_loop_body key ck context self).1
          ck.secondary_logical_key) := by
  constructor
  · intro hb
    rw [synchronize_pressed_states_loop_body_demanded key ck context self hc1 hc2 hb]
    split
    · rename_i hnone
      left
      simp only []
      by_cases hm : lookup_hash_table self.mapping_records ck.primary_logical_key = 0
      · refine ⟨?_, ?_, hl1⟩
        · simp [hm, hpp]
        · simp [hm, lookup_update_pressing_state, hl1, hfree hm]
      · have h0 : lookup_hash_table self.pressing_records
            (lookup_hash_table self.mapping_records ck.primary_logical_key) = 0 := by
          have := hnone.1
          unfold pressed_logical_key_before_event at this
          simpa [hm] using this
        refine ⟨?_, ?_, hl1⟩
        · simp [hm]
        · simp [hm, lookup_update_pressing_state, hl1, h0]
    · rename_i hsome
      simp only []
      by_cases h1 : pressed_logical_key_before_event self ck.primary_logical_key = 0
      · right
        simp only [h1, true_and, not_not] at hsome
        obtain ⟨e2, n2⟩ := pressed_of_consistent (hc2 hsome.1) hsome.2
        exact recorded_pressed_of_pressed e2 n2
      · left
        obtain ⟨e1, n1⟩ := pressed_of_consistent hc1 h1
        exact recorded_pressed_of_pressed e1 n1
  · intro hb
    rw [synchronize_pressed_states_loop_body_release key ck context self hc1 hc2 hne hb]
    simp only []
    constructor
    · intro hrp
      have := pressed_of_recorded_pressed hrp
      apply this
      by_cases h1 : pressed_logical_key_before_event self ck.primary_logical_key = 0 <;>
      by_cases h2 : (ck.secondary_logical_key ≠ 0 ∧
            pressed_logical_key_before_event self ck.secondary_logical_key ≠ 0) <;>
      simp [h1, h2, pressed_logical_key_before_event_release]
    · intro hrp
      have hs : ck.secondary_logical_key ≠ 0 := hrp.2.2
      have := pressed_of_recorded_pressed hrp
      apply this
      by_cases h1 : pressed_logical_key_before_event self ck.primary_logical_key = 0 <;>
      by_cases h2 : pressed_logical_key_before_event self ck.secondary_logical_key = 0 <;>
      simp [h1, h2, hs, pressed_logical_key_before_event_release]

/-- Claim C8 (counterexample). After ShiftLeft down and then ShiftRight down (with
the Shift bit set), handled from a fresh sample responder, both sides are
recorded pressed; the modifier synchronizer run for a further event whose
bitmask has the Shift bit leaves both recorded pressed. -/
theorem synchronize_pressed_states_loop_body_keeps_both_sides :
    (sync_state_context sampleKeyMapping (keyAEvent true 1)).state &&& 1 ≠ 0 ∧
    recorded_pressed
      (synchronize_pressed_states_loop_body 1 sampleShift
        (sync_state_context sampleKeyMapping (keyAEvent true 1)) bothShiftsHeld).1
      sampleShift.primary_logical_key ∧
    recorded_pressed
      (synchronize_pressed_states_loop_body 1 sampleShift
        (sync_state_context sampleKeyMapping (keyAEvent true 1)) bothShiftsHeld).1
      sampleShift.secondary_logical_key := by
  decide

/-- Claim C8 (witness). On a fresh sample responder and a bitmask with the Shift
bit, one side is recorded pressed after the synchronizer. -/
theorem synchronize_pressed_states_loop_body_records_witness :
    (sync_state_context sampleKeyMapping (keyAEvent true 1)).state &&& 1 ≠ 0 ∧
    (recorded_pressed
        (synchronize_pressed_states_loop_body 1 sampleShift
          (sync_state_context sampleKeyMapping (keyAEvent true 1)) sampleResponder).1
        sampleShift.primary_logical_key ∨
      recorded_pressed
        (synchronize_pressed_states_loop_body 1 sampleShift
          (sync_state_context sampleKeyMapping (keyAEvent true 1)) sampleResponder).1
        sampleShift.secondary_logical_key) :=
  ⟨by decide,
   (synchronize_pressed_states_loop_body_records 1 sampleShift
      (sync_state_context sampleKeyMapping (keyAEvent true 1)) sampleResponder
      (by decide) (by decide) (by decide) (by decide) (by decide) (by decide)).1 (by decide)⟩

/-! ## The walk of the lock synchronizer (C10) -/

theorem and_two_pow_cases (a k : Nat) : a &&& 2 ^ k = 0 ∨ a &&& 2 ^ k = 2 ^ k := by
  rw [Nat.and_comm, Nat.two_pow_and]
  cases a.testBit k <;> simp

/-- Flipping a single lock bit with `^=` toggles whether the bit is set. -/
theorem xor_lock_bit_toggles (a key : Nat) (hbit : ∃ k, key = 2 ^ k) :
    ((a ^^^ key) &&& key ≠ 0) ↔ (a &&& key = 0) := by
  obtain ⟨k, rfl⟩ := hbit
  have hpos : (2 : Nat) ^ k ≠ 0 := by positivity
  rw [Nat.and_xor_distrib_right, Nat.and_self]
  rcases and_two_pow_cases a k with h | h
  · rw [h]
    simp [hpos]
  · rw [h]
    simp [hpos]

theorem lock_bit_ne_zero (key : Nat) (hbit : ∃ k, key = 2 ^ k) : key ≠ 0 := by
  obtain ⟨k, rfl⟩ := hbit
  positivity

/-- One iteration of the walk takes records that agree with a stage to records
that agree with the next stage; `d` is the local `is_down_event`. -/
theorem lock_walk_invariant_step (key logical_key recorded_physical_key physical_key : Nat)
    (current_stage : Nat) (s : FlKeyEmbedderResponder) (d : Bool)
    (hd : d = true ↔ (current_stage % 4 = 0 ∨ current_stage % 4 = 2))
    (hbit : ∃ k, key = 2 ^ k) (hl : logical_key ≠ 0)
    (hinv : lock_walk_invariant key logical_key recorded_physical_key physical_key
      current_stage s) :
    lock_walk_invariant key logical_key recorded_physical_key physical_key (current_stage + 1)
      (possibly_update_lock_bit
        (update_pressing_state
          (if d = true ∧ recorded_physical_key = 0 then
            update_mapping_record s physical_key logical_key
           else s)
          physical_key (if d = true then logical_key else 0))
        logical_key d) := by
  obtain ⟨htab, hlock, hrec⟩ := hinv
  have hk0 := lock_bit_ne_zero key hbit
  have hx := xor_lock_bit_toggles s.lock_records key hbit
  have hmod : current_stage % 4 = 0 ∨ current_stage % 4 = 1 ∨ current_stage % 4 = 2 ∨
      current_stage % 4 = 3 := by omega
  unfold lock_walk_invariant
  have hm1 : (current_stage + 1) % 4 = (current_stage % 4 + 1) % 4 := by omega
  have hp1 : (current_stage + 1) % 2 = (current_stage % 4 + 1) % 2 := by omega
  have hp : current_stage % 2 = (current_stage % 4) % 2 := by omega
  rw [hm1, hp1]
  rw [hp] at hrec
  generalize current_stage % 4 = c at hlock hrec hmod hd ⊢
  by_cases hr : recorded_physical_key = 0
  all_goals rcases hmod with h4 | h4 | h4 | h4
  all_goals
    subst h4
    cases d
    all_goals simp at hd
  all_goals
    simp only [hr, Nat.reduceMod, Nat.reduceAdd, Nat.reduceEqDiff, or_false, or_true, false_or,
      true_or, and_true, and_false, if_true, if_false, true_and,
      false_and, OfNat.ofNat_ne_zero, OfNat.zero_ne_ofNat, OfNat.ofNat_ne_one,
      OfNat.one_ne_ofNat, one_ne_zero, zero_ne_one, Bool.false_eq_true,
      update_pressing_state_lock_bit_table, update_mapping_record_lock_bit_table,
      possibly_update_lock_bit_lock_bit_table, possibly_update_lock_bit_pressing_records,
      possibly_update_lock_bit_mapping_records, update_pressing_state_mapping_records,
      update_mapping_record_mapping_records, update_mapping_record_pressing_records,
      possibly_update_lock_bit_lock_records, update_pressing_state_lock_records,
      update_mapping_record_lock_records, lookup_update_pressing_state,
      lookup_hash_table_insert, htab, hk0, ne_eq, not_false_eq_true, hl, not_true_eq_false,
      iff_false, iff_true, not_not] at hlock hrec ⊢
  all_goals
    refine ⟨?_, ?_⟩
    · first
      | exact hlock
      | exact hx.2 hlock
      | exact Classical.not_not.1 (fun h => hlock (hx.1 h))
    · first
      | (rcases hrec with ⟨h1, h2⟩ | ⟨h1, h2 | h2⟩ <;> simp [h1, h2, hl])
      | (obtain ⟨h1, h2⟩ := hrec
         simp [h1, h2])


/-- The walk takes records that agree with stage `current_stage` to records that
agree with stage `current_stage + steps`, as long as it stays below the
defensive bound 9. -/
theorem lock_walk_invariant_walk (context : SyncStateLoopContext)
    (key logical_key recorded_physical_key physical_key : Nat)
    (hbit : ∃ k, key = 2 ^ k) (hl : logical_key ≠ 0) (steps : Nat) :
    ∀ (current_stage : Nat) (s : FlKeyEmbedderResponder),
      lock_walk_invariant key logical_key recorded_physical_key physical_key current_stage s →
      current_stage + steps ≤ 9 →
      lock_walk_invariant key logical_key recorded_physical_key physical_key
        (current_stage + steps)
        (synchronize_lock_states_for context logical_key recorded_physical_key physical_key
          steps current_stage s).1 := by
  induction steps with
  | zero =>
    intro cs s hinv _
    simpa [synchronize_lock_states_for] using hinv
  | succ n ih =>
    intro cs s hinv hle
    have h9 : cs ≠ 9 := by omega
    unfold synchronize_lock_states_for
    simp only [h9, if_false]
    have hstep := lock_walk_invariant_step key logical_key recorded_physical_key physical_key
      cs s (decide (cs % kNumStages = 0 ∨ cs % kNumStages = 2))
      (by simp [kNumStages]) hbit hl hinv
    have := ih (cs + 1) _ hstep (by omega)
    have e : cs + 1 + n = cs + (n + 1) := by omega
    rw [e] at this
    exact this

theorem find_stage_by_record_cases (d e : Bool) :
    find_stage_by_record d e =
      if d then (if e then 1 else 3) else (if e then 2 else 0) := by
  cases d <;> cases e <;> rfl

theorem lock_stage_by_record_lt (key : Nat) (ck : FlKeyEmbedderCheckedKey)
    (s : FlKeyEmbedderResponder) : lock_stage_by_record key ck s < 4 := by
  unfold lock_stage_by_record
  rw [find_stage_by_record_cases]
  split <;> split <;> omega

theorem lock_stage_by_event_lt (key : Nat) (ck : FlKeyEmbedderCheckedKey)
    (context : SyncStateLoopContext) (s1 : FlKeyEmbedderResponder) (stage_by_record : Nat)
    (h : stage_by_record < 4) :
    lock_stage_by_event key ck context s1 stage_by_record < 4 := by
  unfold lock_stage_by_event find_stage_by_self_event find_stage_by_others_event
  simp only []
  repeat' split
  all_goals omega

/-- Records that agree with a stage have that stage as their recorded stage. -/
theorem lock_stage_by_record_of_invariant (key : Nat) (ck : FlKeyEmbedderCheckedKey)
    (recorded_physical_key physical_key current_stage : Nat) (s : FlKeyEmbedderResponder)
    (hl : ck.primary_logical_key ≠ 0) (hp : physical_key ≠ 0)
    (hinv : lock_walk_invariant key ck.primary_logical_key recorded_physical_key physical_key
      current_stage s) :
    lock_stage_by_record key ck s = current_stage % 4 := by
  obtain ⟨_, hlock, hrec⟩ := hinv
  unfold lock_stage_by_record lock_pressed_logical_key
  rw [find_stage_by_record_cases]
  have hmod : current_stage % 4 = 0 ∨ current_stage % 4 = 1 ∨ current_stage % 4 = 2 ∨
      current_stage % 4 = 3 := by omega
  have hpar : current_stage % 2 = (current_stage % 4) % 2 := by omega
  rw [hpar] at hrec
  generalize current_stage % 4 = c at hlock hrec hmod ⊢
  rcases hrec with ⟨h1, h2⟩ | ⟨_, h1, h3, h2⟩ <;> rcases hmod with h4 | h4 | h4 | h4 <;>
    subst h4 <;> simp_all


theorem lock_physical_key_ne_zero (ck : FlKeyEmbedderCheckedKey)
    (self : FlKeyEmbedderResponder) (hpp : ck.primary_physical_key ≠ 0) :
    lock_physical_key ck self ≠ 0 := by
  unfold lock_physical_key
  simp only []
  split
  · assumption
  · exact hpp

/-- Consistent records of a lock key agree with the stage that
`synchronize_lock_states_loop_body` computes from them. -/
theorem lock_walk_invariant_initial (key : Nat) (ck : FlKeyEmbedderCheckedKey)
    (context : SyncStateLoopContext) (self : FlKeyEmbedderResponder)
    (hcons : lookup_hash_table self.pressing_records (lock_physical_key ck self) = 0 ∨
      lookup_hash_table self.pressing_records (lock_physical_key ck self) =
        ck.primary_logical_key)
    (hl : ck.primary_logical_key ≠ 0)
    (htab : lookup_hash_table self.logical_key_to_lock_bit ck.primary_logical_key = key) :
    lock_walk_invariant key ck.primary_logical_key
      (lookup_hash_table self.mapping_records ck.primary_logical_key)
      (lock_physical_key ck self) (lock_stage_by_record key ck self)
      (lock_inferrence_step key ck context self) := by
  unfold lock_walk_invariant
  have hst := (lock_inferrence_step_static key ck context self).2.2.2
  simp only [lock_inferrence_step_mapping_records, lock_inferrence_step_pressing_records,
    lock_inferrence_step_lock_records, hst, htab, true_and]
  unfold lock_stage_by_record lock_pressed_logical_key
  rw [find_stage_by_record_cases]
  unfold lock_physical_key at hcons ⊢
  simp only [] at hcons ⊢
  by_cases hm : lookup_hash_table self.mapping_records ck.primary_logical_key = 0 <;>
    by_cases hen : self.lock_records &&& key = 0 <;>
    rcases hcons with hc | hc <;>
    simp_all

/-- Claim C10. For every lock key (lock bit a single bit, logical key and primary
physical key non-zero) whose records are consistent (its mapped physical key,
or its primary physical key when no mapping is recorded, is either absent from
`pressing_records` or recorded with this logical key; `logical_key_to_lock_bit`
maps its logical key to its lock bit) and for which the synchronizer does not
return on the CapsLock-undecided guard: after
`synchronize_lock_states_loop_body`, the stage computed by
`find_stage_by_record` from the updated `pressing_records` and `lock_records`
equals `stage_by_event`, which is below 4. -/
theorem synchronize_lock_states_loop_body_reaches_stage (key : Nat)
    (ck : FlKeyEmbedderCheckedKey) (context : SyncStateLoopContext)
    (self : FlKeyEmbedderResponder)
    (hbit : ∃ k, key = 2 ^ k) (hl : ck.primary_logical_key ≠ 0)
    (hpp : ck.primary_physical_key ≠ 0)
    (hcons : lookup_hash_table self.pressing_records (lock_physical_key ck self) = 0 ∨
      lookup_hash_table self.pressing_records (lock_physical_key ck self) =
        ck.primary_logical_key)
    (htab : lookup_hash_table self.logical_key_to_lock_bit ck.primary_logical_key = key)
    (hguard : ¬ ((ck.primary_logical_key = context.event_logical_key ∧
        ck.is_caps_lock = true) ∧
      (lock_inferrence_step key ck context self).caps_lock_state_logic_inferrence =
        kStateLogicUndecided)) :
    lock_stage_by_record key ck (synchronize_lock_states_loop_body key ck context self).1 =
      lock_stage_by_event key ck context (lock_inferrence_step key ck context self)
        (lock_stage_by_record key ck self) ∧
    lock_stage_by_event key ck context (lock_inferrence_step key ck context self)
        (lock_stage_by_record key ck self) < 4 := by
  have hinit := lock_walk_invariant_initial key ck context self hcons hl htab
  have hsr := lock_stage_by_record_lt key ck self
  have hse := lock_stage_by_event_lt key ck context (lock_inferrence_step key ck context self)
    (lock_stage_by_record key ck self) hsr
  have hp := lock_physical_key_ne_zero ck self hpp
  refine ⟨?_, hse⟩
  generalize hSE : lock_stage_by_event key ck context
    (lock_inferrence_step key ck context self) (lock_stage_by_record key ck self) = se at hse ⊢
  have hpl : lock_pressed_logical_key ck self = 0 ∨
      lock_pressed_logical_key ck self = ck.primary_logical_key := by
    unfold lock_pressed_logical_key
    unfold lock_physical_key at hcons
    simp only [] at hcons ⊢
    by_cases hm : lookup_hash_table self.mapping_records ck.primary_logical_key = 0
    · simp [hm]
    · simpa [hm] using hcons
  unfold synchronize_lock_states_loop_body
  simp only [hSE]
  rw [if_neg (not_not.2 hpl)]
  rw [if_neg (by simpa using hguard)]
  unfold lock_destination_stage
  simp only [kNumStages]
  by_cases hge : se ≥ lock_stage_by_record key ck self
  · simp only [hge, if_true, le_refl, not_true_eq_false, if_false]
    by_cases heq : lock_stage_by_record key ck self = se
    · simp only [heq, if_true, not_le]
      have := lock_stage_by_record_of_invariant key ck _ _ _ _ hl hp hinit
      rw [this, heq]
      omega
    · try simp only [heq, if_false]
      have hw := lock_walk_invariant_walk context key ck.primary_logical_key
        (lookup_hash_table self.mapping_records ck.primary_logical_key)
        (lock_physical_key ck self) hbit hl (se - lock_stage_by_record key ck self)
        (lock_stage_by_record key ck self) (lock_inferrence_step key ck context self) hinit
        (by omega)
      have := lock_stage_by_record_of_invariant key ck _ _ _ _ hl hp hw
      rw [this]
      omega
  · simp only [hge, if_false]
    rw [if_neg (by omega), if_neg (by omega)]
    have hw := lock_walk_invariant_walk context key ck.primary_logical_key
      (lookup_hash_table self.mapping_records ck.primary_logical_key)
      (lock_physical_key ck self) hbit hl (se + 4 - lock_stage_by_record key ck self)
      (lock_stage_by_record key ck self) (lock_inferrence_step key ck context self) hinit
      (by omega)
    have := lock_stage_by_record_of_invariant key ck _ _ _ _ hl hp hw
    rw [this]
    omega


/-- Claim C10 (witness). A KeyA down event whose bitmask has the CapsLock bit, on a
fresh sample responder: the lock synchronizer walks CapsLock from stage 0 to
stage 1. -/
theorem synchronize_lock_states_loop_body_reaches_stage_witness :
    lock_stage_by_record 2 sampleCapsLock sampleResponder = 0 ∧
    lock_stage_by_record 2 sampleCapsLock
      (synchronize_lock_states_loop_body 2 sampleCapsLock
        (sync_state_context sampleKeyMapping (keyAEvent true 2)) sampleResponder).1 = 1 :=
  ⟨by decide,
   (synchronize_lock_states_loop_body_reaches_stage 2 sampleCapsLock
      (sync_state_context sampleKeyMapping (keyAEvent true 2)) sampleResponder
      ⟨1, rfl⟩ (by decide) (by decide) (by decide) (by decide) (by decide)).1.trans
    (by decide)⟩

/-! ## Releasing a modifier that the bitmask no longer shows (C4) -/

/-- The loop of the modifier synchronizer only removes entries from
`pressing_records`. -/
theorem synchronize_pressed_states_for_removes (context : SyncStateLoopContext) (pbs : Bool)
    (keys : List Nat) :
    ∀ (self : FlKeyEmbedderResponder) (pbr : Bool) (q : Nat),
      lookup_hash_table self.pressing_records q = 0 →
      lookup_hash_table
        (synchronize_pressed_states_for context pbs keys self pbr).self.pressing_records q = 0 := by
  induction keys with
  | nil =>
    intro self pbr q h
    simpa [synchronize_pressed_states_for] using h
  | cons k rest ih =>
    intro self pbr q h
    unfold synchronize_pressed_states_for
    simp only []
    split
    · exact h
    · split
      · apply ih
        rw [lookup_update_pressing_state]
        split
        · simp
        · exact h
      · exact ih _ _ q h

/-- When the bitmask lacks the modifier's bit, the body is its loop. -/
theorem synchronize_pressed_states_loop_body_not_demanded (key : Nat)
    (ck : FlKeyEmbedderCheckedKey) (context : SyncStateLoopContext)
    (self : FlKeyEmbedderResponder) (hb : context.state &&& key = 0) :
    synchronize_pressed_states_loop_body key ck context self =
      ((synchronize_pressed_states_for context false
          (if ck.secondary_logical_key = 0 then [ck.primary_logical_key]
            else [ck.primary_logical_key, ck.secondary_logical_key]) self false).self,
       (synchronize_pressed_states_for context false
          (if ck.secondary_logical_key = 0 then [ck.primary_logical_key]
            else [ck.primary_logical_key, ck.secondary_logical_key]) self false).calls) := by
  unfold synchronize_pressed_states_loop_body
  simp [hb]

/-- The modifier synchronizer releases a recorded logical key of a modifier whose
bit the bitmask lacks: the primary key always, the secondary key when the
primary key's records are consistent. -/
theorem synchronize_pressed_states_loop_body_releases (key : Nat)
    (ck : FlKeyEmbedderCheckedKey) (context : SyncStateLoopContext)
    (self : FlKeyEmbedderResponder) (logical_key : Nat)
    (hengine : self.engine = true)
    (hrec : recorded_pressed self logical_key)
    (hside : logical_key = ck.primary_logical_key ∨
      (logical_key = ck.secondary_logical_key ∧
        ck.secondary_logical_key ≠ ck.primary_logical_key ∧
        key_consistent self ck.primary_logical_key))
    (hb : context.state &&& key = 0) :
    (∃ before after, (synchronize_pressed_states_loop_body key ck context self).2 =
      before ++ Call.send_key_event true (synthesized_event kFlutterKeyEventTypeUp
        (lookup_hash_table self.mapping_records logical_key) logical_key
        context.timestamp) false :: after) ∧
    lookup_hash_table (synchronize_pressed_states_loop_body key ck context self).1.pressing_records
      (lookup_hash_table self.mapping_records logical_key) = 0 ∧
    (synchronize_pressed_states_loop_body key ck context self).1.mapping_records =
      self.mapping_records := by
  have hpr : pressed_logical_key_before_event self logical_key = logical_key := by
    obtain ⟨h1, h2, _⟩ := hrec
    unfold pressed_logical_key_before_event
    simp [h1, h2]
  have hl : logical_key ≠ 0 := hrec.2.2
  rcases hside with h1 | ⟨h2, hne, hc1⟩
  · subst h1
    rw [synchronize_pressed_states_loop_body_not_demanded key ck context self hb]
    simp only []
    have hsplit : ∃ rest, (if ck.secondary_logical_key = 0 then [ck.primary_logical_key]
        else [ck.primary_logical_key, ck.secondary_logical_key]) =
        ck.primary_logical_key :: rest := by
      split
      · exact ⟨[], rfl⟩
      · exact ⟨[ck.secondary_logical_key], rfl⟩
    obtain ⟨rest, hrest⟩ := hsplit
    rw [hrest, synchronize_pressed_states_for_pressed_released _ _ _ _ _ hpr hl]
    simp only []
    refine ⟨⟨[], (synchronize_pressed_states_for context false rest
      (update_pressing_state self
        (lookup_hash_table self.mapping_records ck.primary_logical_key) 0) true).calls, ?_⟩,
      ?_, ?_⟩
    · simp [synthesize_simple_event, hengine, synthesized_event]
    · apply synchronize_pressed_states_for_removes
      simp [lookup_update_pressing_state]
    · rw [(synchronize_pressed_states_for_frame context false rest _ true).1]
      simp
  · subst h2
    have hs : ck.secondary_logical_key ≠ 0 := hl
    have hc2 : ck.secondary_logical_key ≠ 0 → key_consistent self ck.secondary_logical_key :=
      fun _ => Or.inr hpr
    rw [synchronize_pressed_states_loop_body_release key ck context self hc1 hc2 hne hb]
    have hp2 : pressed_logical_key_before_event self ck.secondary_logical_key ≠ 0 := by
      rw [hpr]
      exact hl
    simp only [hs, hp2, ne_eq, not_false_eq_true, and_self, if_true]
    refine ⟨⟨if pressed_logical_key_before_event self ck.primary_logical_key ≠ 0 then
        synthesize_simple_event self kFlutterKeyEventTypeUp
          (lookup_hash_table self.mapping_records ck.primary_logical_key)
          ck.primary_logical_key context.timestamp
      else [], [], ?_⟩, ?_, ?_⟩
    · simp [synthesize_simple_event, hengine, synthesized_event]
    · simp [lookup_update_pressing_state]
    · split <;> simp


theorem lookup_mapping_of_grows_avoiding {q : Nat} {s s2 : FlKeyEmbedderResponder}
    (h : mapping_grows_avoiding q s s2) (m : Nat)
    (hm : lookup_hash_table s.mapping_records m ≠ 0) :
    lookup_hash_table s2.mapping_records m = lookup_hash_table s.mapping_records m := by
  rcases h m with e | ⟨z, _⟩
  · exact e
  · exact absurd z hm

/-- Claim C4 (amended claim). With an engine attached, for every state in which a
tracked modifier's logical key L is recorded pressed (`mapping_records[L] = P`
and `pressing_records[P] = L`), no other tracked key uses the physical key P
(neither as primary physical key nor as the recorded physical key of one of its
logical keys), and, when L is the modifier's secondary key, the records of the
primary key are consistent when the synchronizer reaches this modifier: for
every native event whose bitmask lacks the modifier's bit,
`fl_key_embedder_responder_handle_event` sends a synthesized up event with
physical P and logical L before the event it emits for the native event itself,
and P is no longer in `pressing_records` when the native event's own event is
processed. -/
theorem handle_event_releases_stale_modifier (km : KeyMapping)
    (self : FlKeyEmbedderResponder) (event : FlKeyEvent)
    (pre post : List (Nat × FlKeyEmbedderCheckedKey)) (bit : Nat)
    (ck : FlKeyEmbedderCheckedKey) (logical_key : Nat)
    (hengine : self.engine = true)
    (hmods : self.modifier_bit_to_checked_keys = pre ++ (bit, ck) :: post)
    (hrec : recorded_pressed self logical_key)
    (hbit : event.state &&& bit = 0)
    (hlocks : ∀ e ∈ self.lock_bit_to_checked_keys,
      lock_key_avoids self e.2 (lookup_hash_table self.mapping_records logical_key))
    (hothers : ∀ e ∈ pre ++ post,
      modifier_key_avoids self e.2 (lookup_hash_table self.mapping_records logical_key))
    (hside : logical_key = ck.primary_logical_key ∨
      (logical_key = ck.secondary_logical_key ∧
        ck.secondary_logical_key ≠ ck.primary_logical_key ∧
        key_consistent
          (foreach_checked_key synchronize_pressed_states_loop_body
            (sync_state_context km event) pre
            (foreach_checked_key synchronize_lock_states_loop_body
              (sync_state_context km event) self.lock_bit_to_checked_keys self).1).1
          ck.primary_logical_key)) :
    (∃ before after, (fl_key_embedder_responder_handle_event km self event).2 =
      before ++ Call.send_key_event true (synthesized_event kFlutterKeyEventTypeUp
          (lookup_hash_table self.mapping_records logical_key) logical_key
          (event_to_timestamp event)) false ::
        (after ++ (handle_real_event km event
          (synchronize_states (sync_state_context km event) self).1).2)) ∧
    lookup_hash_table (synchronize_states (sync_state_context km event) self).1.pressing_records
      (lookup_hash_table self.mapping_records logical_key) = 0 := by
  obtain ⟨hm0, hpr0, hl⟩ := hrec
  generalize hP : lookup_hash_table self.mapping_records logical_key = p at *
  generalize hctx : sync_state_context km event = context at *
  have hts : context.timestamp = event_to_timestamp event := by rw [← hctx]; rfl
  have hst : context.state &&& bit = 0 := by rw [← hctx]; exact hbit
  -- the lock loop
  have h1 := foreach_lock_frame context p self.lock_bit_to_checked_keys self hlocks
  have hs1 := (foreach_checked_key_static synchronize_lock_states_loop_body
    synchronize_lock_states_loop_body_static context self.lock_bit_to_checked_keys self).1
  generalize hS1 : (foreach_checked_key synchronize_lock_states_loop_body context
    self.lock_bit_to_checked_keys self) = r1 at *
  -- the modifiers before this one
  have h2 := foreach_modifier_frame context p pre r1.1
    (fun e he => modifier_key_avoids_of_grows h1.2 (hothers e (List.mem_append_left _ he)))
  have hs2 := (foreach_checked_key_static synchronize_pressed_states_loop_body
    synchronize_pressed_states_loop_body_static context pre r1.1).1
  generalize hS2 : (foreach_checked_key synchronize_pressed_states_loop_body context
    pre r1.1) = r2 at *
  have hg2 := mapping_grows_avoiding_trans h1.2 h2.2
  have hm2 : lookup_hash_table r2.1.mapping_records logical_key = p := by
    rw [lookup_mapping_of_grows_avoiding hg2 logical_key (by rw [hP]; exact hm0), hP]
  have hp2 : lookup_hash_table r2.1.pressing_records p = logical_key := by
    rw [h2.1, h1.1, hpr0]
  have heng2 : r2.1.engine = true := by rw [hs2.1, hs1.1, hengine]
  -- this modifier
  have h3 := synchronize_pressed_states_loop_body_releases bit ck context r2.1 logical_key
    heng2 ⟨by rw [hm2]; exact hm0, by rw [hm2]; exact hp2, hl⟩ hside hst
  rw [hm2] at h3
  obtain ⟨⟨before, after, hcalls⟩, hp3, hm3⟩ := h3
  generalize hS3 : synchronize_pressed_states_loop_body bit ck context r2.1 = r3 at *
  -- the modifiers after this one
  have h4 := foreach_modifier_frame context p post r3.1
    (fun e he => by
      have ha := modifier_key_avoids_of_grows hg2 (hothers e (List.mem_append_right _ he))
      unfold modifier_key_avoids at ha ⊢
      rw [hm3]
      exact ha)
  -- assembling the calls
  have hsync : synchronize_states context self =
      ((foreach_checked_key synchronize_pressed_states_loop_body context post r3.1).1,
       r1.2 ++ (r2.2 ++ (r3.2 ++
        (foreach_checked_key synchronize_pressed_states_loop_body context post r3.1).2))) := by
    unfold synchronize_states
    simp only [hS1]
    rw [hs1.2.1, hmods, foreach_checked_key_append]
    simp only [hS2, foreach_checked_key, hS3]
  unfold fl_key_embedder_responder_handle_event
  simp only [hctx, hsync]
  refine ⟨⟨r1.2 ++ (r2.2 ++ before),
    after ++ (foreach_checked_key synchronize_pressed_states_loop_body context post r3.1).2,
    ?_⟩, ?_⟩
  · rw [hcalls, hts]
    simp
  · rw [h4.1]
    exact hp3


/-- Claim C4 (counterexample). In a state reached by native events, ShiftRight is
recorded pressed while the recorded physical key of ShiftLeft is pressed with
another logical key.  A KeyA down event whose bitmask lacks the Shift bit then
makes a single call, the real KeyA down event: the modifier synchronizer
returns at its `g_return_if_fail` on ShiftLeft, no release of ShiftRight is
synthesized, and ShiftRight's physical key is still in `pressing_records` when
the KeyA event is processed. -/
theorem handle_event_guard_keeps_stale_modifier :
    recorded_pressed shiftRightHeldAfterRemap sampleShift.secondary_logical_key ∧
    (keyAEvent true 0).state &&& 1 = 0 ∧
    (fl_key_embedder_responder_handle_event sampleKeyMapping shiftRightHeldAfterRemap
      (keyAEvent true 0)).2 = [Call.send_key_event true keyARealDown true] ∧
    lookup_hash_table
      (synchronize_states (sync_state_context sampleKeyMapping (keyAEvent true 0))
        shiftRightHeldAfterRemap).1.pressing_records
      (lookup_hash_table shiftRightHeldAfterRemap.mapping_records
        sampleShift.secondary_logical_key) = sampleShift.secondary_logical_key := by
  decide

/-- Claim C4 (witness). With both Shift keys held on the sample responder, a KeyA
down event without the Shift bit: ShiftRight (the secondary key) is released
before the KeyA event is processed. -/
theorem handle_event_releases_stale_modifier_witness :
    recorded_pressed bothShiftsHeld sampleShift.secondary_logical_key ∧
    (keyAEvent true 0).state &&& 1 = 0 ∧
    lookup_hash_table
      (synchronize_states (sync_state_context sampleKeyMapping (keyAEvent true 0))
        bothShiftsHeld).1.pressing_records
      (lookup_hash_table bothShiftsHeld.mapping_records sampleShift.secondary_logical_key) = 0 :=
  ⟨by decide, by decide,
   (handle_event_releases_stale_modifier sampleKeyMapping bothShiftsHeld (keyAEvent true 0)
      [] [(4, sampleControl)] 1 sampleShift sampleShift.secondary_logical_key
      (by decide) (by decide) (by decide) (by decide) (by decide) (by decide)
      (Or.inr ⟨rfl, by decide, by decide⟩)).2⟩

/-! ## The destination stage of the lock walk -/

theorem lock_destination_stage_bounds (stage_by_event stage_by_record : Nat)
    (he : stage_by_event < 4) (hr : stage_by_record < 4) :
    stage_by_record ≤ lock_destination_stage stage_by_event stage_by_record ∧
    lock_destination_stage stage_by_event stage_by_record ≤ stage_by_record + 3 ∧
    lock_destination_stage stage_by_event stage_by_record % 4 = stage_by_event := by
  unfold lock_destination_stage kNumStages
  split <;> omega

theorem synchronize_lock_states_for_length (context : SyncStateLoopContext)
    (logical_key recorded_physical_key physical_key : Nat) (steps : Nat) :
    ∀ (current_stage : Nat) (self : FlKeyEmbedderResponder),
      (synchronize_lock_states_for context logical_key recorded_physical_key physical_key
        steps current_stage self).2.length ≤ steps := by
  induction steps with
  | zero => intro c s; simp [synchronize_lock_states_for]
  | succ n ih =>
    intro c s
    unfold synchronize_lock_states_for
    split
    · simp
    · simp only [List.length_append]
      have h1 := ih (c + 1)
      have h2 : ∀ (s : FlKeyEmbedderResponder) (t : FlutterKeyEventType) (p l ts : Nat),
          (synthesize_simple_event s t p l ts).length ≤ 1 := by
        intro s t p l ts
        unfold synthesize_simple_event
        split <;> simp
      refine le_trans (Nat.add_le_add (h2 _ _ _ _ _) (h1 _)) ?_
      omega

theorem synchronize_lock_states_loop_body_length (key : Nat) (ck : FlKeyEmbedderCheckedKey)
    (context : SyncStateLoopContext) (self : FlKeyEmbedderResponder) :
    (synchronize_lock_states_loop_body key ck context self).2.length ≤ 3 := by
  have hr := lock_stage_by_record_lt key ck self
  have he := lock_stage_by_event_lt key ck context (lock_inferrence_step key ck context self)
    (lock_stage_by_record key ck self) hr
  have hb := lock_destination_stage_bounds _ _ he hr
  unfold synchronize_lock_states_loop_body
  simp only []
  have hw := synchronize_lock_states_for_length context ck.primary_logical_key
    (lookup_hash_table self.mapping_records ck.primary_logical_key) (lock_physical_key ck self)
    (lock_destination_stage
      (lock_stage_by_event key ck context (lock_inferrence_step key ck context self)
        (lock_stage_by_record key ck self))
      (lock_stage_by_record key ck self) - lock_stage_by_record key ck self)
    (lock_stage_by_record key ck self) (lock_inferrence_step key ck context self)
  repeat' split
  all_goals first
    | (simp; done)
    | omega

/-- Claim C12. For every recorded stage in 0..3 and every event, the destination
stage of `synchronize_lock_states_loop_body` lies between the recorded stage and
the recorded stage plus 3 and is congruent to the stage demanded by the event
modulo 4; hence the check that the recorded stage is at most the destination
never fails, no stage the walk visits is 9 (the defensive abort is unreachable),
and one call of the body synthesizes at most three events. -/
theorem lock_destination_stage_in_cycle (key : Nat) (ck : FlKeyEmbedderCheckedKey)
    (context : SyncStateLoopContext) (self self1 : FlKeyEmbedderResponder)
    (stage_by_record : Nat) (h : stage_by_record < 4) :
    stage_by_record ≤ lock_destination_stage
        (lock_stage_by_event key ck context self1 stage_by_record) stage_by_record ∧
    lock_destination_stage
        (lock_stage_by_event key ck context self1 stage_by_record) stage_by_record ≤
      stage_by_record + 3 ∧
    lock_destination_stage
        (lock_stage_by_event key ck context self1 stage_by_record) stage_by_record % 4 =
      lock_stage_by_event key ck context self1 stage_by_record ∧
    (∀ current_stage, stage_by_record ≤ current_stage →
      current_stage < lock_destination_stage
        (lock_stage_by_event key ck context self1 stage_by_record) stage_by_record →
      current_stage ≠ 9) ∧
    lock_stage_by_record key ck self < 4 ∧
    (synchronize_lock_states_loop_body key ck context self).2.length ≤ 3 := by
  have he := lock_stage_by_event_lt key ck context self1 stage_by_record h
  have hb := lock_destination_stage_bounds _ _ he h
  refine ⟨hb.1, hb.2.1, hb.2.2, ?_, lock_stage_by_record_lt key ck self,
    synchronize_lock_states_loop_body_length key ck context self⟩
  intro c h1 h2
  omega

/-- Claim C12 (witness). CapsLock on a fresh sample responder (recorded stage 0)
with a KeyA down event whose bitmask has the CapsLock bit: the destination
stage is 1, within the cycle bounds. -/
theorem lock_destination_stage_in_cycle_witness :
    lock_stage_by_record 2 sampleCapsLock sampleResponder = 0 ∧
    lock_destination_stage
        (lock_stage_by_event 2 sampleCapsLock
          (sync_state_context sampleKeyMapping (keyAEvent true 2)) sampleResponder 0) 0 ≤
      0 + 3 ∧
    lock_destination_stage
        (lock_stage_by_event 2 sampleCapsLock
          (sync_state_context sampleKeyMapping (keyAEvent true 2)) sampleResponder 0) 0 = 1 :=
  ⟨by decide,
   (lock_destination_stage_in_cycle 2 sampleCapsLock
      (sync_state_context sampleKeyMapping (keyAEvent true 2)) sampleResponder sampleResponder
      0 (by decide)).2.1,
   by decide⟩

/-! ## The CapsLock inference (C14) -/

/-- Claim C14. Called while the inference is undecided with a down event,
`update_caps_lock_state_logic_inferrence` sets the inference to reversed exactly
when the bitmask shows the lock enabled and the recorded stage is 0, or the
bitmask shows it disabled and the recorded stage is 2, and to normal in every
other case, touching no other field; called with a release event or with the
inference already decided it returns the responder unchanged. -/
theorem update_caps_lock_state_logic_inferrence_decides (self : FlKeyEmbedderResponder)
    (is_down_event enabled_by_state : Bool) (stage_by_record : Nat) :
    (self.caps_lock_state_logic_inferrence = kStateLogicUndecided → is_down_event = true →
      ((update_caps_lock_state_logic_inferrence self is_down_event enabled_by_state
          stage_by_record).caps_lock_state_logic_inferrence = kStateLogicReversed ↔
        (enabled_by_state = true ∧ stage_by_record = 0) ∨
        (enabled_by_state = false ∧ stage_by_record = 2)) ∧
      (¬ ((enabled_by_state = true ∧ stage_by_record = 0) ∨
          (enabled_by_state = false ∧ stage_by_record = 2)) →
        (update_caps_lock_state_logic_inferrence self is_down_event enabled_by_state
          stage_by_record).caps_lock_state_logic_inferrence = kStateLogicNormal) ∧
      ({ update_caps_lock_state_logic_inferrence self is_down_event enabled_by_state
          stage_by_record with
         caps_lock_state_logic_inferrence := kStateLogicUndecided } = self)) ∧
    (is_down_event = false ∨ self.caps_lock_state_logic_inferrence ≠ kStateLogicUndecided →
      update_caps_lock_state_logic_inferrence self is_down_event enabled_by_state
        stage_by_record = self) := by
  constructor
  · intro hu hd
    subst hd
    cases self with
    | mk e p l m c mt lt lb =>
      simp only at hu
      subst hu
      by_cases h0 : stage_by_record = 0
      · subst h0
        cases enabled_by_state <;>
          simp [update_caps_lock_state_logic_inferrence, find_stage_by_self_event]
      · by_cases h2 : stage_by_record = 2
        · subst h2
          cases enabled_by_state <;>
            simp [update_caps_lock_state_logic_inferrence, find_stage_by_self_event]
        · cases enabled_by_state <;>
            simp [update_caps_lock_state_logic_inferrence, find_stage_by_self_event, h0, h2]
  · intro h
    unfold update_caps_lock_state_logic_inferrence
    rcases h with h | h
    · subst h
      simp
    · simp [h]

/-- Claim C14 (witness). On a fresh sample responder (inference undecided), a down
event with the lock enabled in the bitmask and recorded stage 0 sets the
inference to reversed. -/
theorem update_caps_lock_state_logic_inferrence_decides_witness :
    sampleResponder.caps_lock_state_logic_inferrence = kStateLogicUndecided ∧
    (update_caps_lock_state_logic_inferrence sampleResponder true true
      0).caps_lock_state_logic_inferrence = kStateLogicReversed :=
  ⟨rfl,
   ((update_caps_lock_state_logic_inferrence_decides sampleResponder true true 0).1
      rfl rfl).1.2 (Or.inl ⟨rfl, rfl⟩)⟩

/-! ## The logical key of a native event (C20) -/

theorem to_lower_upper_case (n : Nat) (h1 : 0x41 ≤ n) (h2 : n ≤ 0x5a) :
    to_lower n = n + 0x20 ∧ to_lower (n + 0x20) = n + 0x20 := by
  unfold to_lower
  constructor
  · rw [if_pos ⟨h1, h2⟩]; omega
  · rw [if_neg (by omega), if_neg (by omega)]

/-- Claim C20. `event_to_logical_key` returns the entry of the key-value table
when there is one; otherwise, for a key value below 256 it returns the
lower-cased key value masked with `kValueMask` and tagged with the Unicode plane,
and for a key value of 256 or more the key value masked and tagged with the GTK
plane.  Consequently two events that carry an upper-case ASCII letter and its
lower-case letter, both without a table entry, have the same logical key. -/
theorem event_to_logical_key_cases (km : KeyMapping) (event : FlKeyEvent) :
    (∀ found, km.gtk_keyval_to_logical_key_map event.keyval = some found →
      event_to_logical_key km event = found) ∧
    (km.gtk_keyval_to_logical_key_map event.keyval = none → event.keyval < 256 →
      event_to_logical_key km event =
        ((to_lower event.keyval &&& km.kValueMask) ||| km.kUnicodePlane)) ∧
    (km.gtk_keyval_to_logical_key_map event.keyval = none → 256 ≤ event.keyval →
      event_to_logical_key km event = ((event.keyval &&& km.kValueMask) ||| km.kGtkPlane)) ∧
    (∀ lower : FlKeyEvent, 0x41 ≤ event.keyval → event.keyval ≤ 0x5a →
      lower.keyval = event.keyval + 0x20 →
      km.gtk_keyval_to_logical_key_map event.keyval = none →
      km.gtk_keyval_to_logical_key_map lower.keyval = none →
      event_to_logical_key km event = event_to_logical_key km lower) := by
  refine ⟨?_, ?_, ?_, ?_⟩
  · intro found h
    simp [event_to_logical_key, h]
  · intro h hlt
    simp [event_to_logical_key, h, hlt, apply_id_plane]
  · intro h hge
    have : ¬ event.keyval < 256 := by omega
    simp [event_to_logical_key, h, this, apply_id_plane]
  · intro lower h1 h2 hl hn hn2
    have ht := to_lower_upper_case event.keyval h1 h2
    have hlt : event.keyval < 256 := by omega
    have hlt2 : lower.keyval < 256 := by omega
    simp only [event_to_logical_key, hn, hn2, hlt, hlt2, if_true]
    rw [hl, ht.1, ht.2]

/-- Claim C20 (witness). On the sample keyboard the key values of the letters A
(0x41) and a (0x61) have no table entry, and events carrying them have the same
logical key, the letter a in the Unicode plane. -/
theorem event_to_logical_key_cases_witness :
    event_to_logical_key sampleKeyMapping { keyAEvent true 0 with keyval := 0x41 } =
      event_to_logical_key sampleKeyMapping (keyAEvent true 0) ∧
    event_to_logical_key sampleKeyMapping (keyAEvent true 0) = 0x61 :=
  ⟨(event_to_logical_key_cases sampleKeyMapping { keyAEvent true 0 with keyval := 0x41 }).2.2.2
      (keyAEvent true 0) (by decide) (by decide) rfl (by decide) (by decide),
   by decide⟩

/-! ## The events of the lock walk (C11) -/

/-- With an engine attached, the walk of the lock synchronizer over `steps` stages
from `current_stage` sends one synthesized event per stage, a down event at the
even stages and an up event at the odd ones. -/
theorem synchronize_lock_states_for_calls (context : SyncStateLoopContext)
    (logical_key recorded_physical_key physical_key : Nat) (steps : Nat) :
    ∀ (current_stage : Nat) (self : FlKeyEmbedderResponder), self.engine = true →
      current_stage + steps ≤ 9 →
      (synchronize_lock_states_for context logical_key recorded_physical_key physical_key
        steps current_stage self).2 =
        (List.range steps).map (fun k =>
          Call.send_key_event true
            (synthesized_event
              (if (current_stage + k) % 2 = 0 then kFlutterKeyEventTypeDown
                else kFlutterKeyEventTypeUp)
              physical_key logical_key context.timestamp) false) := by
  induction steps with
  | zero => intro c s _ _; simp [synchronize_lock_states_for]
  | succ n ih =>
    intro c s he hc
    unfold synchronize_lock_states_for
    rw [if_neg (by omega)]
    simp only []
    rw [ih (c + 1) _ (by simp; split <;> simp [he]) (by omega)]
    rw [List.range_succ_eq_map, List.map_cons, List.map_map]
    have hd : (decide (c % kNumStages = 0 ∨ c % kNumStages = 2) = true) ↔ c % 2 = 0 := by
      unfold kNumStages
      simp only [decide_eq_true_eq]
      omega
    have hcalls : ∀ s2 : FlKeyEmbedderResponder, s2.engine = true →
        ∀ t, synthesize_simple_event s2 t physical_key logical_key context.timestamp =
          [Call.send_key_event true
            (synthesized_event t physical_key logical_key context.timestamp) false] := by
      intro s2 h2 t
      simp [synthesize_simple_event, h2, synthesized_event]
    rw [hcalls _ (by simp; split <;> simp [he])]
    simp only [List.singleton_append, Nat.add_zero]
    congr 1
    · by_cases h0 : c % 2 = 0
      · simp [h0, hd.2 h0]
      · have : ¬ (decide (c % kNumStages = 0 ∨ c % kNumStages = 2) = true) :=
          fun h => h0 (hd.1 h)
        simp only [h0, if_false]
        simp only [Bool.not_eq_true] at this
        simp [this]
    · apply List.map_congr_left
      intro k _
      simp only [Function.comp, Nat.succ_eq_add_one]
      have : c + 1 + k = c + (k + 1) := by omega
      rw [this]

/-- Claim C11 (counterexample). After a KeyA down event whose bitmask has the
CapsLock bit, CapsLock is recorded pressed and enabled (stage 1) while the
inference is still undecided.  A CapsLock up event without the bit then demands
stage 0, three stages ahead, but the body returns at its inference guard and
synthesizes nothing. -/
theorem synchronize_lock_states_loop_body_guard_synthesizes_nothing :
    lock_stage_by_record 2 sampleCapsLock
      (handle_events sampleKeyMapping sampleResponder [keyAEvent true 2]) = 1 ∧
    lock_stage_by_event 2 sampleCapsLock
      (sync_state_context sampleKeyMapping (capsLockEvent false 0))
      (lock_inferrence_step 2 sampleCapsLock
        (sync_state_context sampleKeyMapping (capsLockEvent false 0))
        (handle_events sampleKeyMapping sampleResponder [keyAEvent true 2])) 1 = 0 ∧
    (0 + 4 - 1) % 4 = 3 ∧
    (synchronize_lock_states_loop_body 2 sampleCapsLock
      (sync_state_context sampleKeyMapping (capsLockEvent false 0))
      (handle_events sampleKeyMapping sampleResponder [keyAEvent true 2])).2 = [] := by
  decide

/-- Claim C11 (amended claim). With an engine attached, when the recorded physical
key of the lock key is not pressed with another logical key and the body does
not return at its CapsLock inference guard, the events that
`synchronize_lock_states_loop_body` synthesizes are exactly
(stage_by_event - stage_by_record) mod 4 events for the key, the k-th of them
(from 0) a down event if stage_by_record + k is even and an up event otherwise,
so that they strictly alternate; when the two stages are equal nothing is
synthesized. -/
theorem synchronize_lock_states_loop_body_events (key : Nat) (ck : FlKeyEmbedderCheckedKey)
    (context : SyncStateLoopContext) (self : FlKeyEmbedderResponder)
    (hengine : self.engine = true)
    (hcons : lock_pressed_logical_key ck self = 0 ∨
      lock_pressed_logical_key ck self = ck.primary_logical_key)
    (hguard : ¬ ((ck.primary_logical_key = context.event_logical_key ∧ ck.is_caps_lock = true) ∧
      (lock_inferrence_step key ck context self).caps_lock_state_logic_inferrence =
        kStateLogicUndecided)) :
    (synchronize_lock_states_loop_body key ck context self).2 =
      (List.range
        ((lock_stage_by_event key ck context (lock_inferrence_step key ck context self)
            (lock_stage_by_record key ck self) + 4 - lock_stage_by_record key ck self) % 4)).map
        (fun k =>
          Call.send_key_event true
            (synthesized_event
              (if (lock_stage_by_record key ck self + k) % 2 = 0 then kFlutterKeyEventTypeDown
                else kFlutterKeyEventTypeUp)
              (lock_physical_key ck self) ck.primary_logical_key context.timestamp) false) ∧
    (synchronize_lock_states_loop_body key ck context self).2.length =
      (lock_stage_by_event key ck context (lock_inferrence_step key ck context self)
          (lock_stage_by_record key ck self) + 4 - lock_stage_by_record key ck self) % 4 ∧
    (lock_stage_by_event key ck context (lock_inferrence_step key ck context self)
        (lock_stage_by_record key ck self) = lock_stage_by_record key ck self →
      (synchronize_lock_states_loop_body key ck context self).2 = []) := by
  have hr := lock_stage_by_record_lt key ck self
  have he := lock_stage_by_event_lt key ck context (lock_inferrence_step key ck context self)
    (lock_stage_by_record key ck self) hr
  have hb := lock_destination_stage_bounds _ _ he hr
  have hsteps : lock_destination_stage
      (lock_stage_by_event key ck context (lock_inferrence_step key ck context self)
        (lock_stage_by_record key ck self)) (lock_stage_by_record key ck self) -
        lock_stage_by_record key ck self =
      (lock_stage_by_event key ck context (lock_inferrence_step key ck context self)
        (lock_stage_by_record key ck self) + 4 - lock_stage_by_record key ck self) % 4 := by
    omega
  have h1 : (synchronize_lock_states_loop_body key ck context self).2 =
      (List.range
        ((lock_stage_by_event key ck context (lock_inferrence_step key ck context self)
            (lock_stage_by_record key ck self) + 4 - lock_stage_by_record key ck self) % 4)).map
        (fun k =>
          Call.send_key_event true
            (synthesized_event
              (if (lock_stage_by_record key ck self + k) % 2 = 0 then kFlutterKeyEventTypeDown
                else kFlutterKeyEventTypeUp)
              (lock_physical_key ck self) ck.primary_logical_key context.timestamp) false) := by
    have hw := synchronize_lock_states_for_calls context ck.primary_logical_key
      (lookup_hash_table self.mapping_records ck.primary_logical_key) (lock_physical_key ck self)
      (lock_destination_stage
        (lock_stage_by_event key ck context (lock_inferrence_step key ck context self)
          (lock_stage_by_record key ck self)) (lock_stage_by_record key ck self) -
        lock_stage_by_record key ck self)
      (lock_stage_by_record key ck self) (lock_inferrence_step key ck context self)
      ((lock_inferrence_step_static key ck context self).1.trans hengine) (by omega)
    rw [hsteps] at hw
    unfold synchronize_lock_states_loop_body
    simp only []
    rw [if_neg (not_not.2 hcons)]
    rw [if_neg (by
      intro h
      apply hguard
      refine ⟨by simpa using h.1, by simpa using h.2⟩)]
    rw [if_neg (not_not.2 hb.1)]
    split
    · rename_i heq
      have h0 : (lock_stage_by_event key ck context (lock_inferrence_step key ck context self)
          (lock_stage_by_record key ck self) + 4 - lock_stage_by_record key ck self) % 4 = 0 := by
        omega
      rw [h0]
      rfl
    · rw [hsteps]
      exact hw
  refine ⟨h1, ?_, ?_⟩
  · rw [h1]
    simp
  · intro heq
    rw [h1, heq]
    have : (lock_stage_by_record key ck self + 4 - lock_stage_by_record key ck self) % 4 = 0 := by
      omega
    rw [this]
    rfl

/-- Claim C11 (witness). CapsLock on the sample responder in stage 1 (pressed and
enabled, after a KeyA down event whose bitmask has the CapsLock bit), with a
KeyA up event whose bitmask lacks the bit: three events are synthesized for
CapsLock, up, down, up. -/
theorem synchronize_lock_states_loop_body_events_witness :
    (synchronize_lock_states_loop_body 2 sampleCapsLock
      (sync_state_context sampleKeyMapping (keyAEvent false 0))
      (handle_events sampleKeyMapping sampleResponder [keyAEvent true 2])).2 =
      [Call.send_key_event true
         (synthesized_event kFlutterKeyEventTypeUp 0x70039 0x100000104 1000) false,
       Call.send_key_event true
         (synthesized_event kFlutterKeyEventTypeDown 0x70039 0x100000104 1000) false,
       Call.send_key_event true
         (synthesized_event kFlutterKeyEventTypeUp 0x70039 0x100000104 1000) false] :=
  (synchronize_lock_states_loop_body_events 2 sampleCapsLock
    (sync_state_context sampleKeyMapping (keyAEvent false 0))
    (handle_events sampleKeyMapping sampleResponder [keyAEvent true 2])
    (by decide) (by decide) (by decide)).1.trans (by decide)

/-! ## Stability of the CapsLock inference (C13) -/

theorem synchronize_lock_states_for_inferrence (context : SyncStateLoopContext)
    (logical_key recorded_physical_key physical_key : Nat) (steps : Nat) :
    ∀ (current_stage : Nat) (self : FlKeyEmbedderResponder),
      (synchronize_lock_states_for context logical_key recorded_physical_key physical_key
        steps current_stage self).1.caps_lock_state_logic_inferrence =
        self.caps_lock_state_logic_inferrence := by
  induction steps with
  | zero => intro c s; simp [synchronize_lock_states_for]
  | succ n ih =>
    intro c s
    unfold synchronize_lock_states_for
    split
    · rfl
    · simp only []
      rw [ih]
      simp only [possibly_update_lock_bit_inferrence, update_pressing_state_inferrence]
      split <;> simp

/-- The inference step of the lock synchronizer changes the inference only from
undecided, for a down event whose logical key is the CapsLock-flagged key. -/
theorem lock_inferrence_step_inferrence (key : Nat) (ck : FlKeyEmbedderCheckedKey)
    (context : SyncStateLoopContext) (self : FlKeyEmbedderResponder) :
    (lock_inferrence_step key ck context self).caps_lock_state_logic_inferrence =
      self.caps_lock_state_logic_inferrence ∨
    (self.caps_lock_state_logic_inferrence = kStateLogicUndecided ∧ context.is_down = true ∧
      ck.primary_logical_key = context.event_logical_key ∧ ck.is_caps_lock = true) := by
  unfold lock_inferrence_step
  simp only []
  split
  · rename_i h
    simp only [Bool.and_eq_true, decide_eq_true_eq] at h
    unfold update_caps_lock_state_logic_inferrence
    split
    · exact Or.inl rfl
    · rename_i hu
      split
      · exact Or.inl rfl
      · rename_i hd
        right
        refine ⟨not_not.1 hu, by simpa using hd, h.1, h.2⟩
  · exact Or.inl rfl

theorem synchronize_lock_states_loop_body_inferrence (key : Nat)
    (ck : FlKeyEmbedderCheckedKey) (context : SyncStateLoopContext)
    (self : FlKeyEmbedderResponder) :
    (synchronize_lock_states_loop_body key ck context self).1.caps_lock_state_logic_inferrence =
      self.caps_lock_state_logic_inferrence ∨
    (self.caps_lock_state_logic_inferrence = kStateLogicUndecided ∧ context.is_down = true ∧
      ck.primary_logical_key = context.event_logical_key ∧ ck.is_caps_lock = true) := by
  have h := lock_inferrence_step_inferrence key ck context self
  unfold synchronize_lock_states_loop_body
  simp only []
  repeat' split
  all_goals first
    | exact Or.inl rfl
    | exact h
    | (rw [synchronize_lock_states_for_inferrence]; exact h)

theorem foreach_lock_inferrence (context : SyncStateLoopContext)
    (entries : List (Nat × FlKeyEmbedderCheckedKey)) :
    ∀ self : FlKeyEmbedderResponder,
      (foreach_checked_key synchronize_lock_states_loop_body context entries
        self).1.caps_lock_state_logic_inferrence = self.caps_lock_state_logic_inferrence ∨
      (self.caps_lock_state_logic_inferrence = kStateLogicUndecided ∧ context.is_down = true ∧
        ∃ e ∈ entries, e.2.is_caps_lock = true ∧
          e.2.primary_logical_key = context.event_logical_key) := by
  induction entries with
  | nil => intro s; exact Or.inl rfl
  | cons e rest ih =>
    intro s
    obtain ⟨key, ck⟩ := e
    simp only [foreach_checked_key]
    rcases synchronize_lock_states_loop_body_inferrence key ck context s with h1 | h1
    · rcases ih (synchronize_lock_states_loop_body key ck context s).1 with h2 | h2
      · exact Or.inl (h2.trans h1)
      · right
        obtain ⟨hu, hd, e2, he2, hc⟩ := h2
        exact ⟨h1 ▸ hu, hd, e2, List.mem_cons_of_mem _ he2, hc⟩
    · right
      exact ⟨h1.1, h1.2.1, (key, ck), List.mem_cons_self _ _, h1.2.2.2, h1.2.2.1⟩

theorem foreach_modifier_inferrence (context : SyncStateLoopContext)
    (entries : List (Nat × FlKeyEmbedderCheckedKey)) :
    ∀ self : FlKeyEmbedderResponder,
      (foreach_checked_key synchronize_pressed_states_loop_body context entries
        self).1.caps_lock_state_logic_inferrence = self.caps_lock_state_logic_inferrence := by
  induction entries with
  | nil => intro s; rfl
  | cons e rest ih =>
    intro s
    obtain ⟨key, ck⟩ := e
    simp only [foreach_checked_key]
    rw [ih]
    exact (synchronize_pressed_states_loop_body_frame key ck context s).2.2.2

theorem handle_real_event_inferrence (km : KeyMapping) (event : FlKeyEvent)
    (self : FlKeyEmbedderResponder) :
    (handle_real_event km event self).1.caps_lock_state_logic_inferrence =
      self.caps_lock_state_logic_inferrence := by
  unfold handle_real_event
  simp only []
  repeat' split
  all_goals simp

/-- One call of the handler changes the inference only from undecided, and only
for a down event whose logical key is a CapsLock-flagged checked key. -/
theorem handle_event_inferrence (km : KeyMapping) (self : FlKeyEmbedderResponder)
    (event : FlKeyEvent) :
    (fl_key_embedder_responder_handle_event km self event).1.caps_lock_state_logic_inferrence =
      self.caps_lock_state_logic_inferrence ∨
    (self.caps_lock_state_logic_inferrence = kStateLogicUndecided ∧ event.is_press = true ∧
      ∃ e ∈ self.lock_bit_to_checked_keys, e.2.is_caps_lock = true ∧
        e.2.primary_logical_key = event_to_logical_key km event) := by
  unfold fl_key_embedder_responder_handle_event synchronize_states
  simp only []
  rw [handle_real_event_inferrence, foreach_modifier_inferrence]
  exact foreach_lock_inferrence (sync_state_context km event) self.lock_bit_to_checked_keys self

/-- Claim C13. Once the CapsLock inference is normal or reversed, no sequence of
later calls of the handler changes it; and a call of the handler changes the
inference only when it was undecided and the event is a down event whose
logical key is the primary logical key of a CapsLock-flagged checked key. -/
theorem caps_lock_inferrence_is_stable (km : KeyMapping) (self : FlKeyEmbedderResponder) :
    (self.caps_lock_state_logic_inferrence ≠ kStateLogicUndecided →
      ∀ events : List FlKeyEvent,
        (handle_events km self events).caps_lock_state_logic_inferrence =
          self.caps_lock_state_logic_inferrence) ∧
    (∀ event : FlKeyEvent,
      (fl_key_embedder_responder_handle_event km self event).1.caps_lock_state_logic_inferrence ≠
        self.caps_lock_state_logic_inferrence →
      self.caps_lock_state_logic_inferrence = kStateLogicUndecided ∧ event.is_press = true ∧
      ∃ e ∈ self.lock_bit_to_checked_keys, e.2.is_caps_lock = true ∧
        e.2.primary_logical_key = event_to_logical_key km event) := by
  constructor
  · intro h events
    induction events generalizing self with
    | nil => rfl
    | cons e rest ih =>
      simp only [handle_events]
      have h1 : (fl_key_embedder_responder_handle_event km self
          e).1.caps_lock_state_logic_inferrence = self.caps_lock_state_logic_inferrence := by
        rcases handle_event_inferrence km self e with h1 | h1
        · exact h1
        · exact absurd h1.1 h
      rw [ih _ (h1 ▸ h), h1]
  · intro event hne
    rcases handle_event_inferrence km self event with h1 | h1
    · exact absurd h1 hne
    · exact h1

/-- Claim C13 (witness). A CapsLock down event whose bitmask has the CapsLock bit
takes the fresh sample responder from undecided to reversed; later events,
among them CapsLock down events with and without the bit, leave the inference
reversed. -/
theorem caps_lock_inferrence_is_stable_witness :
    (handle_events sampleKeyMapping sampleResponder
      [capsLockEvent true 2]).caps_lock_state_logic_inferrence = kStateLogicReversed ∧
    (handle_events sampleKeyMapping
      (handle_events sampleKeyMapping sampleResponder [capsLockEvent true 2])
      [capsLockEvent false 2, capsLockEvent true 0, keyAEvent true 2,
       capsLockEvent false 0]).caps_lock_state_logic_inferrence = kStateLogicReversed :=
  ⟨by decide,
   ((caps_lock_inferrence_is_stable sampleKeyMapping
      (handle_events sampleKeyMapping sampleResponder [capsLockEvent true 2])).1
      (by decide) _).trans (by decide)⟩

/-! ## The calls of one run of the handler (C16, C17, C19) -/

theorem sent_events_append (xs ys : List Call) :
    sent_events (xs ++ ys) = sent_events xs ++ sent_events ys := by
  induction xs with
  | nil => rfl
  | cons c rest ih => cases c <;> simp [sent_events, ih]

theorem callbacks_append (xs ys : List Call) :
    callbacks (xs ++ ys) = callbacks xs ++ callbacks ys := by
  induction xs with
  | nil => rfl
  | cons c rest ih => cases c <;> simp [callbacks, ih]

theorem framework_responses_append (handled : Bool) (xs ys : List Call) :
    framework_responses handled (xs ++ ys) =
      framework_responses handled xs ++ framework_responses handled ys := by
  induction xs with
  | nil => rfl
  | cons c rest ih =>
    cases c with
    | callback h => simp [framework_responses, ih]
    | send_key_event e ev w =>
      cases e <;> cases w <;> simp [framework_responses, ih]

/-- Calls of a synchronizer invoke no callback, ask for no response, and send
only synthesized events without character. -/
theorem synthesized_calls_quiet (calls : List Call) (h : ∀ c ∈ calls, is_synthesized_call c) :
    callbacks calls = [] ∧ (∀ handled, framework_responses handled calls = []) ∧
    ∀ ev ∈ sent_events calls, ev.synthesized = true ∧ ev.character = none := by
  induction calls with
  | nil => exact ⟨rfl, fun _ => rfl, by simp [sent_events]⟩
  | cons c rest ih =>
    obtain ⟨ev, hc, hs, hch⟩ := h c (List.mem_cons_self _ _)
    have ih2 := ih (fun c hc => h c (List.mem_cons_of_mem _ hc))
    subst hc
    refine ⟨by simpa [callbacks] using ih2.1, ?_, ?_⟩
    · intro handled
      simpa [framework_responses] using ih2.2.1 handled
    · intro e he
      simp only [sent_events, List.mem_cons] at he
      rcases he with he | he
      · subst he; exact ⟨hs, hch⟩
      · exact ih2.2.2 e he

/-- The calls of the part of the handler after the synchronizers: the empty event
and the callback with true, or one real event sent with the response handler to
the attached engine, or the callback with true alone when no engine is
attached. -/
theorem handle_real_event_calls (km : KeyMapping) (event : FlKeyEvent)
    (self : FlKeyEmbedderResponder) :
    (handle_real_event km event self).2 =
      [Call.send_key_event self.engine empty_event false, Call.callback true] ∨
    (self.engine = true ∧ ∃ ev : FlutterKeyEvent, ev.synthesized = false ∧
      (handle_real_event km event self).2 = [Call.send_key_event true ev true]) ∨
    (self.engine = false ∧ (handle_real_event km event self).2 = [Call.callback true]) := by
  unfold handle_real_event
  simp only []
  split
  · exact Or.inl rfl
  · split
    · exact Or.inl rfl
    · right
      have he : ∀ s : FlKeyEmbedderResponder, ∀ d : Bool, ∀ p l,
          (if d = true then update_mapping_record s p l else s).engine = s.engine := by
        intro s d p l
        split <;> simp
      cases hs : self.engine
      · right
        refine ⟨rfl, ?_⟩
        rw [if_neg (by rw [he]; simp [hs])]
      · left
        refine ⟨rfl,
          { timestamp := event_to_timestamp event
            type := if event.is_press then kFlutterKeyEventTypeDown else kFlutterKeyEventTypeUp
            physical := event_to_physical_key km event
            logical := event_to_logical_key km event
            character := if event.is_press then km.event_to_character event else none
            synthesized := false }, rfl, ?_⟩
        rw [if_pos (by rw [he]; simp [hs])]

/-- Claim C16. Every event that the lock synchronizer or the modifier synchronizer
emits during a call of the handler is sent with synthesized = true and without
character; the calls of the handler are those of the two synchronizers followed
by those for the native event itself, among which at most one event is sent
(the real event or the empty event), and that event has synthesized = false. -/
theorem handle_event_synthesized_flags (km : KeyMapping) (self : FlKeyEmbedderResponder)
    (event : FlKeyEvent) :
    (∀ c ∈ (foreach_checked_key synchronize_lock_states_loop_body
        (sync_state_context km event) self.lock_bit_to_checked_keys self).2,
      is_synthesized_call c) ∧
    (∀ c ∈ (foreach_checked_key synchronize_pressed_states_loop_body
        (sync_state_context km event) self.modifier_bit_to_checked_keys
        (foreach_checked_key synchronize_lock_states_loop_body
          (sync_state_context km event) self.lock_bit_to_checked_keys self).1).2,
      is_synthesized_call c) ∧
    (∀ ev ∈ sent_events (synchronize_states (sync_state_context km event) self).2,
      ev.synthesized = true ∧ ev.character = none) ∧
    (fl_key_embedder_responder_handle_event km self event).2 =
      (synchronize_states (sync_state_context km event) self).2 ++
      (handle_real_event km event (synchronize_states (sync_state_context km event) self).1).2 ∧
    (sent_events (handle_real_event km event
      (synchronize_states (sync_state_context km event) self).1).2).length ≤ 1 ∧
    (∀ ev ∈ sent_events (handle_real_event km event
      (synchronize_states (sync_state_context km event) self).1).2, ev.synthesized = false) := by
  have hl := foreach_checked_key_static synchronize_lock_states_loop_body
    synchronize_lock_states_loop_body_static (sync_state_context km event)
    self.lock_bit_to_checked_keys self
  have hm := foreach_checked_key_static synchronize_pressed_states_loop_body
    synchronize_pressed_states_loop_body_static (sync_state_context km event)
    self.modifier_bit_to_checked_keys
    (foreach_checked_key synchronize_lock_states_loop_body
      (sync_state_context km event) self.lock_bit_to_checked_keys self).1
  refine ⟨hl.2, hm.2,
    (synthesized_calls_quiet _ (synchronize_states_static _ self).2).2.2, rfl, ?_, ?_⟩
  · rcases handle_real_event_calls km event
      (synchronize_states (sync_state_context km event) self).1 with h | ⟨_, ev, _, h⟩ | ⟨_, h⟩
    all_goals rw [h]; simp [sent_events]
  · intro ev hev
    rcases handle_real_event_calls km event
      (synchronize_states (sync_state_context km event) self).1 with h | ⟨_, ev2, h2, h⟩ | ⟨_, h⟩
    · rw [h] at hev
      simp only [sent_events, List.mem_singleton] at hev
      subst hev
      rfl
    · rw [h] at hev
      simp only [sent_events, List.mem_singleton] at hev
      subst hev
      exact h2
    · rw [h] at hev
      simp [sent_events] at hev

/-- Claim C17. With an engine attached, the events that one call of the handler
sends are, in order: the events synthesized by the lock synchronizer, then the
events synthesized by the modifier synchronizer, then a single final event
(the real event or the empty event), which is last; all events before
the final one are synthesized and the final one is not. -/
theorem handle_event_sends_in_order (km : KeyMapping) (self : FlKeyEmbedderResponder)
    (event : FlKeyEvent) (hengine : self.engine = true) :
    ∃ final : FlutterKeyEvent, final.synthesized = false ∧
      sent_events (fl_key_embedder_responder_handle_event km self event).2 =
        sent_events (foreach_checked_key synchronize_lock_states_loop_body
          (sync_state_context km event) self.lock_bit_to_checked_keys self).2 ++
        sent_events (foreach_checked_key synchronize_pressed_states_loop_body
          (sync_state_context km event) self.modifier_bit_to_checked_keys
          (foreach_checked_key synchronize_lock_states_loop_body
            (sync_state_context km event) self.lock_bit_to_checked_keys self).1).2 ++
        [final] ∧
      (∀ ev ∈ sent_events (foreach_checked_key synchronize_lock_states_loop_body
          (sync_state_context km event) self.lock_bit_to_checked_keys self).2,
        ev.synthesized = true) ∧
      (∀ ev ∈ sent_events (foreach_checked_key synchronize_pressed_states_loop_body
          (sync_state_context km event) self.modifier_bit_to_checked_keys
          (foreach_checked_key synchronize_lock_states_loop_body
            (sync_state_context km event) self.lock_bit_to_checked_keys self).1).2,
        ev.synthesized = true) := by
  have hl := foreach_checked_key_static synchronize_lock_states_loop_body
    synchronize_lock_states_loop_body_static (sync_state_context km event)
    self.lock_bit_to_checked_keys self
  have hm := foreach_checked_key_static synchronize_pressed_states_loop_body
    synchronize_pressed_states_loop_body_static (sync_state_context km event)
    self.modifier_bit_to_checked_keys
    (foreach_checked_key synchronize_lock_states_loop_body
      (sync_state_context km event) self.lock_bit_to_checked_keys self).1
  have hst := (synchronize_states_static (sync_state_context km event) self).1
  have he : (synchronize_states (sync_state_context km event) self).1.engine = true :=
    hst.1.trans hengine
  have htab : (foreach_checked_key synchronize_lock_states_loop_body
      (sync_state_context km event) self.lock_bit_to_checked_keys
      self).1.modifier_bit_to_checked_keys = self.modifier_bit_to_checked_keys := hl.1.2.1
  have hcalls : (fl_key_embedder_responder_handle_event km self event).2 =
      ((foreach_checked_key synchronize_lock_states_loop_body
          (sync_state_context km event) self.lock_bit_to_checked_keys self).2 ++
        (foreach_checked_key synchronize_pressed_states_loop_body
          (sync_state_context km event) self.modifier_bit_to_checked_keys
          (foreach_checked_key synchronize_lock_states_loop_body
            (sync_state_context km event) self.lock_bit_to_checked_keys self).1).2) ++
      (handle_real_event km event (synchronize_states (sync_state_context km event) self).1).2 := by
    unfold fl_key_embedder_responder_handle_event synchronize_states
    simp only [htab]
  have hfinal : ∃ final : FlutterKeyEvent, final.synthesized = false ∧
      sent_events (handle_real_event km event
        (synchronize_states (sync_state_context km event) self).1).2 = [final] := by
    rcases handle_real_event_calls km event
      (synchronize_states (sync_state_context km event) self).1 with h | ⟨_, ev, h2, h⟩ | ⟨h0, _⟩
    · exact ⟨empty_event, rfl, by rw [h]; rfl⟩
    · exact ⟨ev, h2, by rw [h]; rfl⟩
    · rw [he] at h0
      cases h0
  obtain ⟨final, hf1, hf2⟩ := hfinal
  refine ⟨final, hf1, ?_, fun ev hev => ((synthesized_calls_quiet _ hl.2).2.2 ev hev).1,
    fun ev hev => ((synthesized_calls_quiet _ hm.2).2.2 ev hev).1⟩
  rw [hcalls, sent_events_append, sent_events_append, hf2]

/-- Claim C17 (witness). A KeyA down event whose bitmask has the CapsLock and Shift
bits, on the fresh sample responder: the CapsLock down event of the lock
synchronizer, then the ShiftLeft down event of the modifier synchronizer, then
the real KeyA down event. -/
theorem handle_event_sends_in_order_witness :
    sampleResponder.engine = true ∧
    sent_events (fl_key_embedder_responder_handle_event sampleKeyMapping sampleResponder
      (keyAEvent true 3)).2 =
      [synthesized_event kFlutterKeyEventTypeDown 0x70039 0x100000104 1000,
       synthesized_event kFlutterKeyEventTypeDown 0x700e1 0x200000102 1000,
       keyARealDown] ∧
    ∃ final : FlutterKeyEvent, final.synthesized = false ∧
      sent_events (fl_key_embedder_responder_handle_event sampleKeyMapping sampleResponder
        (keyAEvent true 3)).2 =
      sent_events (foreach_checked_key synchronize_lock_states_loop_body
        (sync_state_context sampleKeyMapping (keyAEvent true 3))
        sampleResponder.lock_bit_to_checked_keys sampleResponder).2 ++
      sent_events (foreach_checked_key synchronize_pressed_states_loop_body
        (sync_state_context sampleKeyMapping (keyAEvent true 3))
        sampleResponder.modifier_bit_to_checked_keys
        (foreach_checked_key synchronize_lock_states_loop_body
          (sync_state_context sampleKeyMapping (keyAEvent true 3))
          sampleResponder.lock_bit_to_checked_keys sampleResponder).1).2 ++
      [final] :=
  ⟨rfl, by decide,
   (handle_event_sends_in_order sampleKeyMapping sampleResponder (keyAEvent true 3) rfl).imp
     (fun _ h => ⟨h.1, h.2.1⟩)⟩

/-! ## The handler without an engine (C18) -/

/-- Claim C18 (failing input). KeyA is recorded pressed and no engine is attached.
On a further KeyA down event the handler still passes the empty event to the
send operation, with the null engine pointer, before it invokes the callback
with true. -/
theorem handle_event_null_engine_sends_empty_event :
    (fl_key_embedder_responder_handle_event sampleKeyMapping
      { handle_events sampleKeyMapping sampleResponder [keyAEvent true 0] with engine := false }
      (keyAEvent true 0)).2 =
      [Call.send_key_event false empty_event false, Call.callback true] ∧
    sent_events (fl_key_embedder_responder_handle_event sampleKeyMapping
      { handle_events sampleKeyMapping sampleResponder [keyAEvent true 0] with engine := false }
      (keyAEvent true 0)).2 = [empty_event] := by
  decide

/-! ## The framework's answer (C19) -/

/-- Claim C19. The records that a call of the handler leaves and the events it
sends are the same whichever answer the framework gives later; the answer is
only passed on to the caller's callback: when a real event was forwarded the
callback is invoked exactly once, with the framework's answer, and otherwise
exactly once with true, before any answer. -/
theorem handle_event_and_response_independent (km : KeyMapping)
    (self : FlKeyEmbedderResponder) (event : FlKeyEvent) (handled other : Bool) :
    (handle_event_and_response km self event handled).1 =
      (handle_event_and_response km self event other).1 ∧
    (handle_event_and_response km self event handled).1 =
      (fl_key_embedder_responder_handle_event km self event).1 ∧
    sent_events (handle_event_and_response km self event handled).2 =
      sent_events (handle_event_and_response km self event other).2 ∧
    sent_events (handle_event_and_response km self event handled).2 =
      sent_events (fl_key_embedder_responder_handle_event km self event).2 ∧
    callbacks (handle_event_and_response km self event handled).2 =
      (if real_events (fl_key_embedder_responder_handle_event km self event).2 = [] then [true]
        else [handled]) := by
  have hsync := synthesized_calls_quiet _
    (synchronize_states_static (sync_state_context km event) self).2
  have hreal := real_events_synchronize_states (sync_state_context km event) self
  have hcalls : (fl_key_embedder_responder_handle_event km self event).2 =
      (synchronize_states (sync_state_context km event) self).2 ++
      (handle_real_event km event (synchronize_states (sync_state_context km event) self).1).2 :=
    rfl
  have key : ∀ h : Bool,
      sent_events (framework_responses h
        (fl_key_embedder_responder_handle_event km self event).2) = [] ∧
      callbacks ((fl_key_embedder_responder_handle_event km self event).2 ++
        framework_responses h (fl_key_embedder_responder_handle_event km self event).2) =
      (if real_events (fl_key_embedder_responder_handle_event km self event).2 = [] then [true]
        else [h]) := by
    intro h
    rw [hcalls, framework_responses_append, hsync.2.1 h, real_events_append, hreal,
      callbacks_append, callbacks_append, hsync.1]
    rcases handle_real_event_calls km event
      (synchronize_states (sync_state_context km event) self).1 with h1 | ⟨_, ev, _, h1⟩ | ⟨_, h1⟩
    · rw [h1]
      cases (synchronize_states (sync_state_context km event) self).1.engine <;>
        simp [framework_responses, sent_events, callbacks, real_events]
    · rw [h1]
      simp [framework_responses, sent_events, callbacks, real_events, handle_response]
    · rw [h1]
      simp [framework_responses, sent_events, callbacks, real_events]
  refine ⟨rfl, rfl, ?_, ?_, ?_⟩
  · simp only [handle_event_and_response, sent_events_append, (key handled).1, (key other).1]
  · simp only [handle_event_and_response, sent_events_append, (key handled).1,
      List.append_nil]
  · exact (key handled).2

/-! ## Pairing of synthesized down events (C15): events of one key -/

theorem events_of_append (L : Nat) (xs ys : List Call) :
    events_of L (xs ++ ys) = events_of L xs ++ events_of L ys := by
  simp [events_of, sent_events_append]

theorem events_of_nil (L : Nat) : events_of L [] = [] := rfl

theorem alternates_append (xs ys : List FlutterKeyEvent) :
    ∀ (a b c : Bool), alternates a xs b → alternates b ys c → alternates a (xs ++ ys) c := by
  induction xs with
  | nil =>
    intro a b c h1 h2
    simp only [alternates] at h1
    subst h1
    exact h2
  | cons x rest ih =>
    intro a b c h1 h2
    simp only [alternates, List.cons_append] at h1 ⊢
    exact ⟨h1.1, ih _ _ _ h1.2 h2⟩

theorem event_type_cases (t : FlutterKeyEventType) :
    t = kFlutterKeyEventTypeDown ∨ t = kFlutterKeyEventTypeUp := by
  cases t <;> simp

theorem ups_before_next_down_of_alternates (xs : List FlutterKeyEvent) (b : Bool)
    (h : alternates true xs b) :
    ups_before_next_down xs = none ∨ ups_before_next_down xs = some 1 := by
  cases xs with
  | nil => exact Or.inl rfl
  | cons u rest =>
    simp only [alternates] at h
    have hu : ¬ u.type = kFlutterKeyEventTypeDown := fun hd => by simpa using h.1.1 hd
    cases rest with
    | nil => left; simp [ups_before_next_down, hu]
    | cons d rest2 =>
      have h2 := h.2
      simp only [alternates] at h2
      have hd : d.type = kFlutterKeyEventTypeDown := h2.1.2 rfl
      right
      simp [ups_before_next_down, hu, hd]

/-- In an alternating list of events of one key, every synthesized down event is
followed by exactly one up event before the next down event. -/
theorem synthesized_downs_paired_of_alternates (xs : List FlutterKeyEvent) :
    ∀ a b : Bool, alternates a xs b → synthesized_downs_paired xs = true := by
  induction xs with
  | nil => intro a b _; rfl
  | cons x rest ih =>
    intro a b h
    simp only [alternates] at h
    simp only [synthesized_downs_paired, Bool.and_eq_true]
    refine ⟨?_, ih _ _ h.2⟩
    split
    · rename_i hx
      have ha : a = false := h.1.1 hx.1
      subst ha
      simpa using ups_before_next_down_of_alternates rest b h.2
    · rfl

theorem events_of_synthesize_simple_event (s : FlKeyEmbedderResponder)
    (type : FlutterKeyEventType) (p l t L : Nat) (he : s.engine = true) :
    events_of L (synthesize_simple_event s type p l t) =
      if l = L then [synthesized_event type p l t] else [] := by
  simp only [synthesize_simple_event, he, if_true, events_of, sent_events, synthesized_event]
  by_cases h : l = L <;> simp [h]

/-- The records of a tracked key that a step does not touch keep agreeing, and no
event for it keeps the alternation. -/
theorem key_unchanged (phys : Nat → Nat) (s s2 : FlKeyEmbedderResponder) (calls : List Call)
    (L : Nat)
    (hp : lookup_hash_table s2.pressing_records (phys L) =
      lookup_hash_table s.pressing_records (phys L))
    (hm : lookup_hash_table s2.mapping_records L = lookup_hash_table s.mapping_records L)
    (hc : events_of L calls = []) (h : key_records_agree phys s L) :
    key_records_agree phys s2 L ∧
    alternates (key_held phys s L) (events_of L calls) (key_held phys s2 L) := by
  unfold key_records_agree key_held at *
  rw [hp, hm, hc]
  exact ⟨h, rfl⟩

theorem pairing_step_refl (T : Nat → Prop) (phys : Nat → Nat) (s : FlKeyEmbedderResponder)
    (he : s.engine = true) (h : ∀ L, T L → key_records_agree phys s L) :
    pairing_step T phys s [] s :=
  ⟨he, fun L hL => ⟨h L hL, rfl⟩⟩

theorem pairing_step_trans (T : Nat → Prop) (phys : Nat → Nat)
    (s s1 s2 : FlKeyEmbedderResponder) (c1 c2 : List Call)
    (h1 : pairing_step T phys s c1 s1) (h2 : pairing_step T phys s1 c2 s2) :
    pairing_step T phys s (c1 ++ c2) s2 := by
  refine ⟨h2.1, fun L hL => ⟨(h2.2 L hL).1, ?_⟩⟩
  rw [events_of_append]
  exact alternates_append _ _ _ _ _ (h1.2 L hL).2 (h2.2 L hL).2

/-! ## Pairing of synthesized down events (C15): steps on the records -/

/-- A step that touches the records and sends events of one tracked key `k` only. -/
theorem pairing_step_toggle (T : Nat → Prop) (phys : Nat → Nat)
    (hlay : keyboard_layout T phys) (s s2 : FlKeyEmbedderResponder) (calls : List Call)
    (k : Nat) (hk : T k) (he2 : s2.engine = true)
    (hagree : ∀ L, T L → key_records_agree phys s L)
    (hp : ∀ q, q ≠ phys k → lookup_hash_table s2.pressing_records q =
      lookup_hash_table s.pressing_records q)
    (hm : ∀ m, m ≠ k → lookup_hash_table s2.mapping_records m =
      lookup_hash_table s.mapping_records m)
    (hc : ∀ L, L ≠ k → events_of L calls = [])
    (hk2 : key_records_agree phys s2 k ∧
      alternates (key_held phys s k) (events_of k calls) (key_held phys s2 k)) :
    pairing_step T phys s calls s2 := by
  refine ⟨he2, fun L hL => ?_⟩
  by_cases h : L = k
  · subst h
    exact hk2
  · have hne : phys L ≠ phys k := fun hq => h (hlay.2 L k hL hk hq)
    exact key_unchanged phys s s2 calls L (hp _ hne) (hm _ h) (hc _ h) (hagree L hL)

/-- A step that touches no record and sends no event of a tracked key. -/
theorem pairing_step_untracked (T : Nat → Prop) (phys : Nat → Nat)
    (s s2 : FlKeyEmbedderResponder) (calls : List Call) (he2 : s2.engine = true)
    (hagree : ∀ L, T L → key_records_agree phys s L)
    (hp : ∀ L, T L → lookup_hash_table s2.pressing_records (phys L) =
      lookup_hash_table s.pressing_records (phys L))
    (hm : ∀ L, T L → lookup_hash_table s2.mapping_records L =
      lookup_hash_table s.mapping_records L)
    (hc : ∀ L, T L → events_of L calls = []) :
    pairing_step T phys s calls s2 :=
  ⟨he2, fun L hL => key_unchanged phys s s2 calls L (hp L hL) (hm L hL) (hc L hL) (hagree L hL)⟩

/-- Synthesizing an up event for a held tracked key and releasing it. -/
theorem pairing_step_release (T : Nat → Prop) (phys : Nat → Nat)
    (hlay : keyboard_layout T phys) (s : FlKeyEmbedderResponder) (k t : Nat) (hk : T k)
    (he : s.engine = true) (hagree : ∀ L, T L → key_records_agree phys s L)
    (hheld : lookup_hash_table s.pressing_records (phys k) = k) :
    pairing_step T phys s (synthesize_simple_event s kFlutterKeyEventTypeUp (phys k) k t)
      (update_pressing_state s (phys k) 0) := by
  have hk0 := (hlay.1 k hk).1
  apply pairing_step_toggle T phys hlay s _ _ k hk (by simpa using he) hagree
  · intro q hq
    rw [lookup_update_pressing_state, if_neg (fun h => hq h.symm)]
  · intro m _
    simp
  · intro L hL
    rw [events_of_synthesize_simple_event _ _ _ _ _ _ he, if_neg (fun h => hL h.symm)]
  · have hnew : lookup_hash_table (update_pressing_state s (phys k) 0).pressing_records
        (phys k) = 0 := by
      rw [lookup_update_pressing_state]
      simp
    refine ⟨⟨by simpa using (hagree k hk).1, Or.inl hnew, ?_⟩, ?_⟩
    · intro h
      rw [hnew] at h
      exact absurd h.symm hk0
    · rw [events_of_synthesize_simple_event _ _ _ _ _ _ he, if_pos rfl]
      simp only [alternates, key_held, hheld, hnew, synthesized_event]
      simp [Ne.symm hk0]

/-- Synthesizing a down event for a tracked key that is not held and pressing it,
after the mapping record of the key was set if it was missing. -/
theorem pairing_step_press (T : Nat → Prop) (phys : Nat → Nat)
    (hlay : keyboard_layout T phys) (s s1 : FlKeyEmbedderResponder) (k t : Nat) (hk : T k)
    (he : s.engine = true) (hagree : ∀ L, T L → key_records_agree phys s L)
    (hfree : lookup_hash_table s.pressing_records (phys k) ≠ k)
    (he1 : s1.engine = s.engine) (hp1 : s1.pressing_records = s.pressing_records)
    (hm1 : lookup_hash_table s1.mapping_records k = phys k)
    (hm2 : ∀ m, m ≠ k → lookup_hash_table s1.mapping_records m =
      lookup_hash_table s.mapping_records m) :
    pairing_step T phys s (synthesize_simple_event s1 kFlutterKeyEventTypeDown (phys k) k t)
      (update_pressing_state s1 (phys k) k) := by
  have hk0 := (hlay.1 k hk).1
  have he1t : s1.engine = true := he1.trans he
  have hzero : lookup_hash_table s.pressing_records (phys k) = 0 := by
    rcases (hagree k hk).2.1 with h | h
    · exact h
    · exact absurd h hfree
  apply pairing_step_toggle T phys hlay s _ _ k hk (by simpa using he1t) hagree
  · intro q hq
    rw [lookup_update_pressing_state, if_neg (fun h => hq h.symm), hp1]
  · intro m hm
    simpa using hm2 m hm
  · intro L hL
    rw [events_of_synthesize_simple_event _ _ _ _ _ _ he1t, if_neg (fun h => hL h.symm)]
  · have hnew : lookup_hash_table (update_pressing_state s1 (phys k) k).pressing_records
        (phys k) = k := by
      rw [lookup_update_pressing_state, hp1, hzero]
      simp [hk0]
    refine ⟨⟨Or.inr (by simpa using hm1), Or.inr hnew, fun _ => by simpa using hm1⟩, ?_⟩
    rw [events_of_synthesize_simple_event _ _ _ _ _ _ he1t, if_pos rfl]
    simp only [alternates, key_held, hnew, hzero, synthesized_event]
    simp [Ne.symm hk0]

/-! ## Pairing of synthesized down events (C15): the modifier synchronizer -/

/-- For a tracked key whose records agree with the layout, the logical key that
the synchronizers find pressed at its recorded physical key is the key itself
if it is held and 0 otherwise. -/
theorem pressed_logical_key_before_event_of_agree (T : Nat → Prop) (phys : Nat → Nat)
    (hlay : keyboard_layout T phys) (s : FlKeyEmbedderResponder) (k : Nat) (hk : T k)
    (h : key_records_agree phys s k) :
    pressed_logical_key_before_event s k =
      (if lookup_hash_table s.pressing_records (phys k) = k then k else 0) ∧
    (lookup_hash_table s.pressing_records (phys k) = k →
      lookup_hash_table s.mapping_records k = phys k) := by
  obtain ⟨hk0, hp0⟩ := hlay.1 k hk
  refine ⟨?_, h.2.2⟩
  unfold pressed_logical_key_before_event
  simp only []
  rcases h.1 with hm | hm
  · rw [if_pos hm, if_neg]
    intro hh
    rw [h.2.2 hh] at hm
    exact hp0 hm
  · rw [if_neg (by rw [hm]; exact hp0), hm]
    rcases h.2.1 with hz | hz
    · rw [hz, if_neg (Ne.symm hk0)]
    · rw [hz, if_pos rfl]

theorem synchronize_pressed_states_for_pressed_by_record (context : SyncStateLoopContext)
    (pbs : Bool) (keys : List Nat) :
    ∀ (s : FlKeyEmbedderResponder) (pbr : Bool), pbr = true →
      (synchronize_pressed_states_for context pbs keys s pbr).pressed_by_record = true := by
  induction keys with
  | nil => intro s pbr h; exact h
  | cons k rest ih =>
    intro s pbr h
    subst h
    unfold synchronize_pressed_states_for
    simp only []
    split
    · rfl
    · split
      · exact ih _ _ (by simp)
      · exact ih _ _ (by simp)

theorem synchronize_pressed_states_for_pairing (T : Nat → Prop) (phys : Nat → Nat)
    (hlay : keyboard_layout T phys) (context : SyncStateLoopContext) (keys : List Nat) :
    ∀ (s : FlKeyEmbedderResponder) (pbr : Bool), (∀ k ∈ keys, T k) → s.engine = true →
      (∀ L, T L → key_records_agree phys s L) →
      (synchronize_pressed_states_for context false keys s pbr).returned = false ∧
      pairing_step T phys s (synchronize_pressed_states_for context false keys s pbr).calls
        (synchronize_pressed_states_for context false keys s pbr).self := by
  induction keys with
  | nil =>
    intro s pbr _ he hagree
    exact ⟨rfl, pairing_step_refl T phys s he hagree⟩
  | cons k rest ih =>
    intro s pbr hkeys he hagree
    have hk : T k := hkeys k (List.mem_cons_self _ _)
    have hrest : ∀ k2 ∈ rest, T k2 := fun k2 h2 => hkeys k2 (List.mem_cons_of_mem _ h2)
    obtain ⟨hk0, hp0⟩ := hlay.1 k hk
    obtain ⟨hpb, hmap⟩ := pressed_logical_key_before_event_of_agree T phys hlay s k hk
      (hagree k hk)
    unfold synchronize_pressed_states_for
    simp only []
    by_cases hheld : lookup_hash_table s.pressing_records (phys k) = k
    · rw [if_pos hheld] at hpb
      rw [hpb, if_neg (by simp), hmap hheld]
      simp only [Bool.not_false, Bool.and_true, decide_eq_true_eq, ne_eq, hk0,
        not_false_eq_true, if_true]
      have h1 := pairing_step_release T phys hlay s k context.timestamp hk he hagree hheld
      have h2 := ih (update_pressing_state s (phys k) 0) (pbr || true) hrest h1.1
        (fun L hL => (h1.2 L hL).1)
      simp only [decide_True] at h2 ⊢
      exact ⟨h2.1, pairing_step_trans T phys _ _ _ _ _ h1 h2.2⟩
    · rw [if_neg hheld] at hpb
      rw [hpb, if_neg (by simp)]
      simp only [ne_eq, not_true_eq_false, decide_False, Bool.false_and, Bool.false_eq_true,
        if_false]
      exact ih s _ hrest he hagree

theorem synchronize_pressed_states_for_demanded_agree (T : Nat → Prop) (phys : Nat → Nat)
    (hlay : keyboard_layout T phys) (context : SyncStateLoopContext) (keys : List Nat) :
    ∀ (s : FlKeyEmbedderResponder) (pbr : Bool), (∀ k ∈ keys, T k) →
      (∀ L, T L → key_records_agree phys s L) →
      (synchronize_pressed_states_for context true keys s pbr).returned = false ∧
      (synchronize_pressed_states_for context true keys s pbr).self = s ∧
      (synchronize_pressed_states_for context true keys s pbr).calls = [] ∧
      ((synchronize_pressed_states_for context true keys s pbr).pressed_by_record = false →
        ∀ k ∈ keys, lookup_hash_table s.pressing_records (phys k) ≠ k) := by
  induction keys with
  | nil =>
    intro s pbr _ _
    exact ⟨rfl, rfl, rfl, fun _ k hk => by cases hk⟩
  | cons k rest ih =>
    intro s pbr hkeys hagree
    have hk : T k := hkeys k (List.mem_cons_self _ _)
    have hrest : ∀ k2 ∈ rest, T k2 := fun k2 h2 => hkeys k2 (List.mem_cons_of_mem _ h2)
    obtain ⟨hk0, hp0⟩ := hlay.1 k hk
    obtain ⟨hpb, hmap⟩ := pressed_logical_key_before_event_of_agree T phys hlay s k hk
      (hagree k hk)
    unfold synchronize_pressed_states_for
    simp only []
    by_cases hheld : lookup_hash_table s.pressing_records (phys k) = k
    · rw [if_pos hheld] at hpb
      rw [hpb, if_neg (by simp)]
      simp only [Bool.not_true, Bool.and_false, Bool.false_eq_true, if_false]
      have h2 := ih s (pbr || decide (k ≠ 0)) hrest hagree
      refine ⟨h2.1, h2.2.1, h2.2.2.1, ?_⟩
      intro hf
      exfalso
      have := synchronize_pressed_states_for_pressed_by_record context true rest s
        (pbr || decide (k ≠ 0)) (by simp [hk0])
      rw [this] at hf
      cases hf
    · rw [if_neg hheld] at hpb
      rw [hpb, if_neg (by simp)]
      simp only [ne_eq, not_true_eq_false, decide_False, Bool.false_and, Bool.false_eq_true,
        if_false]
      have h2 := ih s (pbr || false) hrest hagree
      refine ⟨h2.1, h2.2.1, h2.2.2.1, ?_⟩
      intro hf k2 hk2
      rcases List.mem_cons.1 hk2 with h | h
      · subst h; exact hheld
      · exact h2.2.2.2 hf k2 h

theorem synchronize_pressed_states_loop_body_pairing (T : Nat → Prop) (phys : Nat → Nat)
    (hlay : keyboard_layout T phys) (key : Nat) (ck : FlKeyEmbedderCheckedKey)
    (context : SyncStateLoopContext) (s : FlKeyEmbedderResponder)
    (h1 : T ck.primary_logical_key)
    (hphys : phys ck.primary_logical_key = ck.primary_physical_key)
    (h2 : ck.secondary_logical_key ≠ 0 → T ck.secondary_logical_key)
    (he : s.engine = true) (hagree : ∀ L, T L → key_records_agree phys s L) :
    pairing_step T phys s (synchronize_pressed_states_loop_body key ck context s).2
      (synchronize_pressed_states_loop_body key ck context s).1 := by
  have hkeys : ∀ k ∈ (if ck.secondary_logical_key = 0 then [ck.primary_logical_key]
      else [ck.primary_logical_key, ck.secondary_logical_key]), T k := by
    intro k hk
    split at hk
    · simp only [List.mem_singleton] at hk
      subst hk; exact h1
    · rename_i hne
      simp only [List.mem_cons, List.mem_singleton, List.not_mem_nil, or_false] at hk
      rcases hk with hk | hk
      · subst hk; exact h1
      · subst hk; exact h2 hne
  have hprim : ck.primary_logical_key ∈ (if ck.secondary_logical_key = 0 then
      [ck.primary_logical_key] else [ck.primary_logical_key, ck.secondary_logical_key]) := by
    split <;> simp
  unfold synchronize_pressed_states_loop_body
  simp only []
  generalize hkl : (if ck.secondary_logical_key = 0 then [ck.primary_logical_key]
      else [ck.primary_logical_key, ck.secondary_logical_key]) = keys at hkeys hprim
  cases hpbs : decide (context.state &&& key ≠ 0)
  · obtain ⟨hr, hstep⟩ := synchronize_pressed_states_for_pairing T phys hlay context keys s
      false hkeys he hagree
    rw [hr]
    simpa using hstep
  · obtain ⟨hr, hself, hcalls, hfree⟩ := synchronize_pressed_states_for_demanded_agree T phys
      hlay context keys s false hkeys hagree
    rw [hr, hself, hcalls]
    simp only [Bool.false_eq_true, if_false, Bool.true_and, List.nil_append]
    cases hpbr : (synchronize_pressed_states_for context true keys s false).pressed_by_record
    · simp only [Bool.not_false, if_true]
      have hf := hfree hpbr _ hprim
      obtain ⟨hk0, hp0⟩ := hlay.1 _ h1
      have hphysical : (if lookup_hash_table s.mapping_records ck.primary_logical_key ≠ 0 then
          lookup_hash_table s.mapping_records ck.primary_logical_key
          else ck.primary_physical_key) = phys ck.primary_logical_key := by
        rcases (hagree _ h1).1 with hm | hm
        · rw [if_neg (not_not.2 hm), hphys]
        · rw [if_pos (by rw [hm]; exact hp0), hm]
      rw [hphysical]
      apply pairing_step_press T phys hlay s _ _ context.timestamp h1 he hagree hf
      · split <;> simp
      · split <;> simp
      · rcases (hagree _ h1).1 with hm | hm
        · rw [if_pos hm]
          simp
        · rw [if_neg (by rw [hm]; exact hp0)]
          exact hm
      · intro m hm
        split
        · simp [Ne.symm hm]
        · rfl
    · simp only [Bool.not_true, Bool.false_eq_true, if_false]
      exact pairing_step_refl T phys s he hagree

/-! ## Pairing of synthesized down events (C15): the lock synchronizer -/

theorem pairing_step_congr (T : Nat → Prop) (phys : Nat → Nat)
    (s s2 s3 : FlKeyEmbedderResponder) (calls : List Call)
    (he : s3.engine = s2.engine) (hp : s3.pressing_records = s2.pressing_records)
    (hm : s3.mapping_records = s2.mapping_records) (h : pairing_step T phys s calls s2) :
    pairing_step T phys s calls s3 := by
  unfold pairing_step key_records_agree key_held at *
  rw [he, hp, hm]
  exact h

theorem synthesize_simple_event_congr (s s2 : FlKeyEmbedderResponder)
    (type : FlutterKeyEventType) (p l t : Nat) (he : s2.engine = s.engine) :
    synthesize_simple_event s2 type p l t = synthesize_simple_event s type p l t := by
  simp [synthesize_simple_event, he]

theorem synchronize_lock_states_for_pairing (T : Nat → Prop) (phys : Nat → Nat)
    (hlay : keyboard_layout T phys) (context : SyncStateLoopContext) (k r : Nat) (hk : T k)
    (steps : Nat) :
    ∀ (current_stage : Nat) (s : FlKeyEmbedderResponder), s.engine = true →
      (∀ L, T L → key_records_agree phys s L) →
      (r ≠ 0 → lookup_hash_table s.mapping_records k = phys k) →
      (current_stage % 2 = 0 ↔ lookup_hash_table s.pressing_records (phys k) ≠ k) →
      current_stage + steps ≤ 9 →
      pairing_step T phys s
        (synchronize_lock_states_for context k r (phys k) steps current_stage s).2
        (synchronize_lock_states_for context k r (phys k) steps current_stage s).1 := by
  obtain ⟨hk0, hp0⟩ := hlay.1 k hk
  induction steps with
  | zero =>
    intro c s he hagree _ _ _
    exact pairing_step_refl T phys s he hagree
  | succ n ih =>
    intro c s he hagree hmap hpar hc
    unfold synchronize_lock_states_for
    rw [if_neg (by omega)]
    simp only []
    have hd : (decide (c % kNumStages = 0 ∨ c % kNumStages = 2) = true) ↔ c % 2 = 0 := by
      unfold kNumStages
      simp only [decide_eq_true_eq]
      omega
    by_cases h0 : c % 2 = 0
    · have hdt : decide (c % kNumStages = 0 ∨ c % kNumStages = 2) = true := hd.2 h0
      rw [hdt]
      simp only [true_and, if_true]
      have hfree := hpar.1 h0
      have hstep := pairing_step_press T phys hlay s
        (if r = 0 then update_mapping_record s (phys k) k else s) k context.timestamp hk he
        hagree hfree (by split <;> simp) (by split <;> simp)
        (by
          by_cases hr : r = 0
          · rw [if_pos hr]; simp
          · rw [if_neg hr]; exact hmap hr)
        (by
          intro m hm
          split
          · simp [Ne.symm hm]
          · rfl)
      have hstep3 := pairing_step_congr T phys s _
        (possibly_update_lock_bit
          (update_pressing_state (if r = 0 then update_mapping_record s (phys k) k else s)
            (phys k) k) k true) _ (by simp) (by simp) (by simp) hstep
      rw [synthesize_simple_event_congr (if r = 0 then update_mapping_record s (phys k) k else s)
        (possibly_update_lock_bit
          (update_pressing_state (if r = 0 then update_mapping_record s (phys k) k else s)
            (phys k) k) k true) _ _ _ _ (by simp)]
      have hzero : lookup_hash_table s.pressing_records (phys k) = 0 := by
        rcases (hagree k hk).2.1 with h | h
        · exact h
        · exact absurd h hfree
      refine pairing_step_trans T phys _ _ _ _ _ hstep3
        (ih (c + 1) _ hstep3.1 (fun L hL => (hstep3.2 L hL).1) ?_ ?_ (by omega))
      · intro hr
        simp only [possibly_update_lock_bit_mapping_records,
          update_pressing_state_mapping_records, if_neg hr]
        exact hmap hr
      · have hnew : lookup_hash_table (possibly_update_lock_bit
            (update_pressing_state (if r = 0 then update_mapping_record s (phys k) k else s)
              (phys k) k) k true).pressing_records (phys k) = k := by
          simp only [possibly_update_lock_bit_pressing_records]
          rw [lookup_update_pressing_state]
          have : (if r = 0 then update_mapping_record s (phys k) k else s).pressing_records =
              s.pressing_records := by split <;> simp
          rw [this, hzero]
          simp [hk0]
        rw [hnew]
        constructor
        · intro h; omega
        · intro h; exact absurd rfl h
    · have hdf : decide (c % kNumStages = 0 ∨ c % kNumStages = 2) = false := by
        cases hx : decide (c % kNumStages = 0 ∨ c % kNumStages = 2)
        · rfl
        · exact absurd (hd.1 hx) h0
      rw [hdf]
      simp only [Bool.false_eq_true, false_and, if_false]
      have hheld : lookup_hash_table s.pressing_records (phys k) = k := by
        by_contra hne
        exact h0 (hpar.2 hne)
      have hstep := pairing_step_release T phys hlay s k context.timestamp hk he hagree hheld
      have hstep3 := pairing_step_congr T phys s _
        (possibly_update_lock_bit (update_pressing_state s (phys k) 0) k false) _
        (by simp) (by simp) (by simp) hstep
      rw [synthesize_simple_event_congr s
        (possibly_update_lock_bit (update_pressing_state s (phys k) 0) k false) _ _ _ _
        (by simp)]
      refine pairing_step_trans T phys _ _ _ _ _ hstep3
        (ih (c + 1) _ hstep3.1 (fun L hL => (hstep3.2 L hL).1) ?_ ?_ (by omega))
      · intro hr
        simp only [possibly_update_lock_bit_mapping_records,
          update_pressing_state_mapping_records]
        exact hmap hr
      · have hnew : lookup_hash_table (possibly_update_lock_bit
            (update_pressing_state s (phys k) 0) k false).pressing_records (phys k) = 0 := by
          simp only [possibly_update_lock_bit_pressing_records]
          rw [lookup_update_pressing_state]
          simp
        rw [hnew]
        constructor
        · intro _; exact Ne.symm hk0
        · intro _; omega

theorem lock_inferrence_step_engine (key : Nat) (ck : FlKeyEmbedderCheckedKey)
    (context : SyncStateLoopContext) (s : FlKeyEmbedderResponder) :
    (lock_inferrence_step key ck context s).engine = s.engine :=
  (lock_inferrence_step_static key ck context s).1

theorem synchronize_lock_states_loop_body_pairing (T : Nat → Prop) (phys : Nat → Nat)
    (hlay : keyboard_layout T phys) (key : Nat) (ck : FlKeyEmbedderCheckedKey)
    (context : SyncStateLoopContext) (s : FlKeyEmbedderResponder)
    (h1 : T ck.primary_logical_key)
    (hphys : phys ck.primary_logical_key = ck.primary_physical_key)
    (he : s.engine = true) (hagree : ∀ L, T L → key_records_agree phys s L) :
    pairing_step T phys s (synchronize_lock_states_loop_body key ck context s).2
      (synchronize_lock_states_loop_body key ck context s).1 := by
  obtain ⟨hk0, hp0⟩ := hlay.1 _ h1
  obtain ⟨hpb, hmap⟩ := pressed_logical_key_before_event_of_agree T phys hlay s _ h1
    (hagree _ h1)
  have hpl : lock_pressed_logical_key ck s =
      (if lookup_hash_table s.pressing_records (phys ck.primary_logical_key) =
        ck.primary_logical_key then ck.primary_logical_key else 0) := hpb
  have hphysical : lock_physical_key ck s = phys ck.primary_logical_key := by
    unfold lock_physical_key
    simp only []
    rcases (hagree _ h1).1 with hm | hm
    · rw [if_neg (not_not.2 hm), hphys]
    · rw [if_pos (by rw [hm]; exact hp0), hm]
  have hquiet : pairing_step T phys s [] (lock_inferrence_step key ck context s) :=
    pairing_step_congr T phys s s _ [] (lock_inferrence_step_engine key ck context s)
      (by simp) (by simp) (pairing_step_refl T phys s he hagree)
  have hr := lock_stage_by_record_lt key ck s
  have hev := lock_stage_by_event_lt key ck context (lock_inferrence_step key ck context s)
    (lock_stage_by_record key ck s) hr
  have hb := lock_destination_stage_bounds _ _ hev hr
  have hpar : lock_stage_by_record key ck s % 2 = 0 ↔
      lookup_hash_table s.pressing_records (phys ck.primary_logical_key) ≠
        ck.primary_logical_key := by
    unfold lock_stage_by_record
    rw [find_stage_by_record_cases, hpl]
    by_cases hheld : lookup_hash_table s.pressing_records (phys ck.primary_logical_key) =
        ck.primary_logical_key
    · rw [if_pos hheld]
      simp only [ne_eq, hk0, not_false_eq_true, decide_True, if_true, hheld, not_true_eq_false,
        iff_false]
      split <;> omega
    · rw [if_neg hheld]
      simp only [ne_eq, not_true_eq_false, decide_False, Bool.false_eq_true, if_false, hheld,
        not_false_eq_true, iff_true]
      split <;> omega
  unfold synchronize_lock_states_loop_body
  simp only []
  rw [if_neg (by
    rw [hpl]
    intro h
    apply h
    split
    · exact Or.inr rfl
    · exact Or.inl rfl)]
  split
  · exact hquiet
  · rw [if_neg (not_not.2 hb.1)]
    split
    · exact hquiet
    · rw [hphysical, ← List.nil_append (synchronize_lock_states_for _ _ _ _ _ _ _).2]
      refine pairing_step_trans T phys _ _ _ _ _ hquiet ?_
      apply synchronize_lock_states_for_pairing T phys hlay context _ _ h1
      · rw [lock_inferrence_step_engine]; exact he
      · exact fun L hL => (hquiet.2 L hL).1
      · intro hrne
        simp only [lock_inferrence_step_mapping_records]
        rcases (hagree _ h1).1 with hm | hm
        · exact absurd hm hrne
        · exact hm
      · simp only [lock_inferrence_step_pressing_records]
        exact hpar
      · omega

/-! ## Pairing of synthesized down events (C15): the native event -/

theorem handle_real_event_down (km : KeyMapping) (event : FlKeyEvent)
    (s : FlKeyEmbedderResponder) (he : s.engine = true) (hd : event.is_press = true)
    (hz : lookup_hash_table s.pressing_records (event_to_physical_key km event) = 0) :
    handle_real_event km event s =
      (update_mapping_record
        (possibly_update_lock_bit
          (update_pressing_state s (event_to_physical_key km event)
            (event_to_logical_key km event))
          (event_to_logical_key km event) true)
        (event_to_physical_key km event) (event_to_logical_key km event),
       [Call.send_key_event true
          { timestamp := event_to_timestamp event, type := kFlutterKeyEventTypeDown,
            physical := event_to_physical_key km event,
            logical := event_to_logical_key km event,
            character := km.event_to_character event, synthesized := false } true]) := by
  unfold handle_real_event
  simp [hd, hz, he]

theorem handle_real_event_up (km : KeyMapping) (event : FlKeyEvent)
    (s : FlKeyEmbedderResponder) (he : s.engine = true) (hd : event.is_press = false)
    (hz : lookup_hash_table s.pressing_records (event_to_physical_key km event) ≠ 0) :
    handle_real_event km event s =
      (possibly_update_lock_bit
          (update_pressing_state s (event_to_physical_key km event) 0)
          (event_to_logical_key km event) false,
       [Call.send_key_event true
          { timestamp := event_to_timestamp event, type := kFlutterKeyEventTypeUp,
            physical := event_to_physical_key km event,
            logical := event_to_logical_key km event,
            character := none, synthesized := false } true]) := by
  unfold handle_real_event
  simp [hd, hz, he]

theorem events_of_singleton (L : Nat) (engine : Bool) (ev : FlutterKeyEvent) (w : Bool) :
    events_of L [Call.send_key_event engine ev w] = if ev.logical = L then [ev] else [] := by
  simp only [events_of, sent_events]
  by_cases h : ev.logical = L <;> simp [h]

theorem handle_real_event_pairing (T : Nat → Prop) (phys : Nat → Nat)
    (hlay : keyboard_layout T phys) (km : KeyMapping) (event : FlKeyEvent)
    (s : FlKeyEmbedderResponder) (hev : event_respects_layout km T phys event)
    (he : s.engine = true) (hagree : ∀ L, T L → key_records_agree phys s L) :
    pairing_step T phys s (handle_real_event km event s).2 (handle_real_event km event s).1 := by
  by_cases hsup : event.is_press = decide (lookup_hash_table s.pressing_records
      (event_to_physical_key km event) ≠ 0)
  · rw [(handle_real_event_cases km event s).1 hsup]
    apply pairing_step_untracked T phys s s _ he hagree (fun _ _ => rfl) (fun _ _ => rfl)
    intro L hL
    have hL0 := (hlay.1 L hL).1
    simp only [events_of, sent_events, empty_event]
    simp [Ne.symm hL0]
  · have hother : ∀ (s2 : FlKeyEmbedderResponder) (calls : List Call), s2.engine = true →
        (∀ q, q ≠ event_to_physical_key km event →
          lookup_hash_table s2.pressing_records q = lookup_hash_table s.pressing_records q) →
        (∀ m, m ≠ event_to_logical_key km event →
          lookup_hash_table s2.mapping_records m = lookup_hash_table s.mapping_records m) →
        (∀ L, L ≠ event_to_logical_key km event → events_of L calls = []) →
        (T (event_to_logical_key km event) →
          key_records_agree phys s2 (event_to_logical_key km event) ∧
          alternates (key_held phys s (event_to_logical_key km event))
            (events_of (event_to_logical_key km event) calls)
            (key_held phys s2 (event_to_logical_key km event))) →
        pairing_step T phys s calls s2 := by
      intro s2 calls he2 hp hm hc hk2
      by_cases hT : T (event_to_logical_key km event)
      · have hP := (hev _ hT).1 rfl
        rw [hP] at hp
        exact pairing_step_toggle T phys hlay s s2 calls _ hT he2 hagree hp hm hc (hk2 hT)
      · have hne : ∀ L, T L → L ≠ event_to_logical_key km event ∧
            phys L ≠ event_to_physical_key km event := by
          intro L hL
          constructor
          · intro h; exact hT (h ▸ hL)
          · intro h
            exact hT (((hev L hL).2 h.symm).symm ▸ hL)
        exact pairing_step_untracked T phys s s2 calls he2 hagree
          (fun L hL => hp _ (hne L hL).2) (fun L hL => hm _ (hne L hL).1)
          (fun L hL => hc _ (hne L hL).1)
    cases hd : event.is_press
    · have hz : lookup_hash_table s.pressing_records (event_to_physical_key km event) ≠ 0 := by
        intro h
        apply hsup
        rw [hd, h]
        simp
      rw [handle_real_event_up km event s he hd hz]
      apply hother _ _ (by simpa using he)
      · intro q hq
        simp only [possibly_update_lock_bit_pressing_records]
        rw [lookup_update_pressing_state, if_neg (fun h => hq h.symm)]
      · intro m _
        simp
      · intro L hL
        rw [events_of_singleton, if_neg (fun h => hL h.symm)]
      · intro hT
        have hP := (hev _ hT).1 rfl
        have hk0 := (hlay.1 _ hT).1
        have hheld : lookup_hash_table s.pressing_records
            (phys (event_to_logical_key km event)) = event_to_logical_key km event := by
          rcases (hagree _ hT).2.1 with h | h
          · rw [← hP] at h
            exact absurd h hz
          · exact h
        have hnew : lookup_hash_table (possibly_update_lock_bit
            (update_pressing_state s (event_to_physical_key km event) 0)
            (event_to_logical_key km event) false).pressing_records
            (phys (event_to_logical_key km event)) = 0 := by
          simp only [possibly_update_lock_bit_pressing_records]
          rw [lookup_update_pressing_state, hP]
          simp
        refine ⟨⟨by simpa using (hagree _ hT).1, Or.inl hnew, ?_⟩, ?_⟩
        · intro h
          rw [hnew] at h
          exact absurd h.symm hk0
        · rw [events_of_singleton, if_pos rfl]
          simp only [alternates, key_held, hheld, hnew]
          simp [Ne.symm hk0]
    · have hz : lookup_hash_table s.pressing_records (event_to_physical_key km event) = 0 := by
        by_contra h
        apply hsup
        rw [hd]
        simp [h]
      rw [handle_real_event_down km event s he hd hz]
      apply hother _ _ (by simpa using he)
      · intro q hq
        simp only [update_mapping_record_pressing_records,
          possibly_update_lock_bit_pressing_records]
        rw [lookup_update_pressing_state, if_neg (fun h => hq h.symm)]
      · intro m hm
        simp [Ne.symm hm]
      · intro L hL
        rw [events_of_singleton, if_neg (fun h => hL h.symm)]
      · intro hT
        have hP := (hev _ hT).1 rfl
        have hk0 := (hlay.1 _ hT).1
        have hnew : lookup_hash_table (update_mapping_record (possibly_update_lock_bit
            (update_pressing_state s (event_to_physical_key km event)
              (event_to_logical_key km event))
            (event_to_logical_key km event) true) (event_to_physical_key km event)
            (event_to_logical_key km event)).pressing_records
            (phys (event_to_logical_key km event)) = event_to_logical_key km event := by
          simp only [update_mapping_record_pressing_records,
            possibly_update_lock_bit_pressing_records]
          rw [lookup_update_pressing_state, hP, if_pos rfl, ← hP, hz]
          simp [hk0]
        have hmapped : lookup_hash_table (update_mapping_record (possibly_update_lock_bit
            (update_pressing_state s (event_to_physical_key km event)
              (event_to_logical_key km event))
            (event_to_logical_key km event) true) (event_to_physical_key km event)
            (event_to_logical_key km event)).mapping_records
            (event_to_logical_key km event) = phys (event_to_logical_key km event) := by
          simp [hP]
        refine ⟨⟨Or.inr hmapped, Or.inr hnew, fun _ => hmapped⟩, ?_⟩
        rw [events_of_singleton, if_pos rfl]
        have hzero : lookup_hash_table s.pressing_records
            (phys (event_to_logical_key km event)) = 0 := by rw [← hP]; exact hz
        simp only [alternates, key_held, hnew, hzero]
        simp [Ne.symm hk0]

/-! ## Pairing of synthesized down events (C15): the handler -/

theorem handle_real_event_static (km : KeyMapping) (event : FlKeyEvent)
    (s : FlKeyEmbedderResponder) : same_static s (handle_real_event km event s).1 := by
  unfold handle_real_event same_static
  simp only []
  repeat' split
  all_goals simp

theorem handle_event_static (km : KeyMapping) (s : FlKeyEmbedderResponder)
    (event : FlKeyEvent) :
    same_static s (fl_key_embedder_responder_handle_event km s event).1 :=
  same_static_trans (synchronize_states_static (sync_state_context km event) s).1
    (handle_real_event_static km event _)

theorem foreach_checked_key_pairing (T : Nat → Prop) (phys : Nat → Nat)
    (body : Nat → FlKeyEmbedderCheckedKey → SyncStateLoopContext → FlKeyEmbedderResponder →
      FlKeyEmbedderResponder × List Call)
    (context : SyncStateLoopContext) (entries : List (Nat × FlKeyEmbedderCheckedKey))
    (hbody : ∀ e ∈ entries, ∀ s : FlKeyEmbedderResponder, s.engine = true →
      (∀ L, T L → key_records_agree phys s L) →
      pairing_step T phys s (body e.1 e.2 context s).2 (body e.1 e.2 context s).1) :
    ∀ s : FlKeyEmbedderResponder, s.engine = true →
      (∀ L, T L → key_records_agree phys s L) →
      pairing_step T phys s (foreach_checked_key body context entries s).2
        (foreach_checked_key body context entries s).1 := by
  induction entries with
  | nil => intro s he hagree; exact pairing_step_refl T phys s he hagree
  | cons e rest ih =>
    intro s he hagree
    obtain ⟨key, ck⟩ := e
    simp only [foreach_checked_key]
    have h1 := hbody (key, ck) (List.mem_cons_self _ _) s he hagree
    have h2 := ih (fun e2 he2 => hbody e2 (List.mem_cons_of_mem _ he2)) _ h1.1
      (fun L hL => (h1.2 L hL).1)
    exact pairing_step_trans T phys _ _ _ _ _ h1 h2

/-- One call of the handler for an event that respects the layout, on a responder
whose static tables fit the layout: the primary logical key of every checked
key is tracked and its physical key is the primary physical key, and the
secondary logical key of a modifier, if any, is tracked. -/
theorem handle_event_pairing (T : Nat → Prop) (phys : Nat → Nat)
    (hlay : keyboard_layout T phys) (km : KeyMapping) (s : FlKeyEmbedderResponder)
    (event : FlKeyEvent)
    (hlocks : ∀ e ∈ s.lock_bit_to_checked_keys, T e.2.primary_logical_key ∧
      phys e.2.primary_logical_key = e.2.primary_physical_key)
    (hmods : ∀ e ∈ s.modifier_bit_to_checked_keys, T e.2.primary_logical_key ∧
      phys e.2.primary_logical_key = e.2.primary_physical_key ∧
      (e.2.secondary_logical_key ≠ 0 → T e.2.secondary_logical_key))
    (hev : event_respects_layout km T phys event)
    (he : s.engine = true) (hagree : ∀ L, T L → key_records_agree phys s L) :
    pairing_step T phys s (fl_key_embedder_responder_handle_event km s event).2
      (fl_key_embedder_responder_handle_event km s event).1 := by
  have hl := foreach_checked_key_pairing T phys synchronize_lock_states_loop_body
    (sync_state_context km event) s.lock_bit_to_checked_keys
    (fun e hmem s2 he2 ha2 => synchronize_lock_states_loop_body_pairing T phys hlay e.1 e.2 _ s2
      (hlocks e hmem).1 (hlocks e hmem).2 he2 ha2) s he hagree
  have hst := foreach_checked_key_static synchronize_lock_states_loop_body
    synchronize_lock_states_loop_body_static (sync_state_context km event)
    s.lock_bit_to_checked_keys s
  have htab : (foreach_checked_key synchronize_lock_states_loop_body
      (sync_state_context km event) s.lock_bit_to_checked_keys
      s).1.modifier_bit_to_checked_keys = s.modifier_bit_to_checked_keys := hst.1.2.1
  have hm := foreach_checked_key_pairing T phys synchronize_pressed_states_loop_body
    (sync_state_context km event) s.modifier_bit_to_checked_keys
    (fun e hmem s2 he2 ha2 => synchronize_pressed_states_loop_body_pairing T phys hlay e.1 e.2 _
      s2 (hmods e hmem).1 (hmods e hmem).2.1 (hmods e hmem).2.2 he2 ha2)
    _ hl.1 (fun L hL => (hl.2 L hL).1)
  have hsync : pairing_step T phys s (synchronize_states (sync_state_context km event) s).2
      (synchronize_states (sync_state_context km event) s).1 := by
    unfold synchronize_states
    simp only [htab]
    exact pairing_step_trans T phys _ _ _ _ _ hl hm
  have hreal := handle_real_event_pairing T phys hlay km event
    (synchronize_states (sync_state_context km event) s).1 hev hsync.1
    (fun L hL => (hsync.2 L hL).1)
  exact pairing_step_trans T phys _ _ _ _ _ hsync hreal

theorem handle_events_pairing (T : Nat → Prop) (phys : Nat → Nat)
    (hlay : keyboard_layout T phys) (km : KeyMapping) (events : List FlKeyEvent) :
    ∀ s : FlKeyEmbedderResponder,
      (∀ e ∈ s.lock_bit_to_checked_keys, T e.2.primary_logical_key ∧
        phys e.2.primary_logical_key = e.2.primary_physical_key) →
      (∀ e ∈ s.modifier_bit_to_checked_keys, T e.2.primary_logical_key ∧
        phys e.2.primary_logical_key = e.2.primary_physical_key ∧
        (e.2.secondary_logical_key ≠ 0 → T e.2.secondary_logical_key)) →
      (∀ ev ∈ events, event_respects_layout km T phys ev) →
      s.engine = true → (∀ L, T L → key_records_agree phys s L) →
      pairing_step T phys s (handle_events_calls km s events) (handle_events km s events) := by
  induction events with
  | nil =>
    intro s _ _ _ he hagree
    exact pairing_step_refl T phys s he hagree
  | cons ev rest ih =>
    intro s hlocks hmods hevs he hagree
    simp only [handle_events_calls, handle_events]
    have h1 := handle_event_pairing T phys hlay km s ev hlocks hmods
      (hevs ev (List.mem_cons_self _ _)) he hagree
    have hst := handle_event_static km s ev
    have h2 := ih (fl_key_embedder_responder_handle_event km s ev).1
      (by rw [hst.2.2.1]; exact hlocks) (by rw [hst.2.1]; exact hmods)
      (fun e2 he2 => hevs e2 (List.mem_cons_of_mem _ he2)) h1.1 (fun L hL => (h1.2 L hL).1)
    exact pairing_step_trans T phys _ _ _ _ _ h1 h2

/-! ## Pairing of synthesized down events (C15) -/

/-- Claim C15 (counterexample). The key code of ShiftLeft is pressed carrying the
letter x; a KeyA down event with the Shift bit synthesizes a ShiftLeft down event
whose press is not recorded, the physical key being taken; after the letter is
released, a KeyA up event with the Shift bit synthesizes a second ShiftLeft down
event, with no ShiftLeft up event in between. -/
theorem synthesized_shift_left_down_twice :
    events_of 0x200000102
      (handle_events_calls sampleKeyMapping sampleResponder
        [remappedLetterEvent true 0, keyAEvent true 1, remappedLetterEvent false 1,
         keyAEvent false 1]) =
      [synthesized_event kFlutterKeyEventTypeDown 0x700e1 0x200000102 1000,
       synthesized_event kFlutterKeyEventTypeDown 0x700e1 0x200000102 1000] ∧
    synthesized_downs_paired (events_of 0x200000102
      (handle_events_calls sampleKeyMapping sampleResponder
        [remappedLetterEvent true 0, keyAEvent true 1, remappedLetterEvent false 1,
         keyAEvent false 1])) = false := by
  decide

theorem tracked_logical_keys_mem (modifiers locks : List (Nat × FlKeyEmbedderCheckedKey)) :
    (∀ e ∈ locks, e.2.primary_logical_key ∈ tracked_logical_keys modifiers locks) ∧
    (∀ e ∈ modifiers, e.2.primary_logical_key ∈ tracked_logical_keys modifiers locks ∧
      (e.2.secondary_logical_key ≠ 0 →
        e.2.secondary_logical_key ∈ tracked_logical_keys modifiers locks)) := by
  unfold tracked_logical_keys
  refine ⟨fun e he => ?_, fun e he => ⟨?_, fun hne => ?_⟩⟩
  · exact List.mem_append_left _ (List.mem_map_of_mem _ he)
  · apply List.mem_append_right
    rw [List.mem_flatMap]
    exact ⟨e, he, by split <;> simp⟩
  · apply List.mem_append_right
    rw [List.mem_flatMap]
    exact ⟨e, he, by rw [if_neg hne]; simp⟩

/-- Claim C15 (amended claim). On a keyboard whose tracked logical keys each have
their own physical key (not 0, the primary physical key for a primary logical
key), for every sequence of native events that carry a tracked logical key
exactly when they come from its physical key, handled from a freshly
constructed responder: in the events sent for a tracked logical key, between a
synthesized down event and the next down event (synthesized or real) there is
exactly one up event (synthesized or real); in fact the down and up events of
the key alternate, starting with a down event. -/
theorem synthesized_downs_are_paired (km : KeyMapping)
    (modifiers locks : List (Nat × FlKeyEmbedderCheckedKey)) (phys : Nat → Nat)
    (events : List FlKeyEvent)
    (hkeys : ∀ L ∈ tracked_logical_keys modifiers locks, L ≠ 0 ∧ phys L ≠ 0)
    (hinj : ∀ L ∈ tracked_logical_keys modifiers locks,
      ∀ L2 ∈ tracked_logical_keys modifiers locks, phys L = phys L2 → L = L2)
    (hlocks : ∀ e ∈ locks, phys e.2.primary_logical_key = e.2.primary_physical_key)
    (hmods : ∀ e ∈ modifiers, phys e.2.primary_logical_key = e.2.primary_physical_key)
    (hev : ∀ ev ∈ events, ∀ L ∈ tracked_logical_keys modifiers locks,
      (event_to_logical_key km ev = L ↔ event_to_physical_key km ev = phys L)) :
    ∀ L ∈ tracked_logical_keys modifiers locks,
      synthesized_downs_paired (events_of L (handle_events_calls km
        (fl_key_embedder_responder_new modifiers locks) events)) = true ∧
      alternates false
        (events_of L (handle_events_calls km
          (fl_key_embedder_responder_new modifiers locks) events))
        (key_held phys (handle_events km
          (fl_key_embedder_responder_new modifiers locks) events) L) := by
  intro L hL
  have hlay : keyboard_layout (fun L => L ∈ tracked_logical_keys modifiers locks) phys :=
    ⟨hkeys, fun L L2 h1 h2 => hinj L h1 L2 h2⟩
  have hmem := tracked_logical_keys_mem modifiers locks
  have hstep := handle_events_pairing (fun L => L ∈ tracked_logical_keys modifiers locks) phys
    hlay km events (fl_key_embedder_responder_new modifiers locks)
    (fun e he => ⟨hmem.1 e he, hlocks e he⟩)
    (fun e he => ⟨(hmem.2 e he).1, hmods e he, (hmem.2 e he).2⟩)
    hev rfl
    (fun L2 hL2 => by
      refine ⟨Or.inl rfl, Or.inl rfl, fun h => ?_⟩
      exact absurd (show (0 : Nat) = L2 from h) (Ne.symm (hkeys L2 hL2).1))
  have halt := (hstep.2 L hL).2
  have h0 : key_held phys (fl_key_embedder_responder_new modifiers locks) L = false := by
    have : lookup_hash_table (fl_key_embedder_responder_new modifiers locks).pressing_records
        (phys L) = 0 := rfl
    simp only [key_held, this]
    simp [Ne.symm (hkeys L hL).1]
  rw [h0] at halt
  exact ⟨synthesized_downs_paired_of_alternates _ _ _ halt, halt⟩

/-- Claim C15 (witness). On the sample keyboard: a KeyA down event with the Shift
bit, a KeyA up event without it, a ShiftLeft down event, a KeyA down event
without the Shift bit and a CapsLock down event all respect the layout; the
events sent for ShiftLeft are a synthesized down, a synthesized up, the real
down and a synthesized up event. -/
theorem synthesized_downs_are_paired_witness :
    (events_of 0x200000102 (handle_events_calls sampleKeyMapping sampleResponder
      [keyAEvent true 1, keyAEvent false 0, shiftLeftEvent true 0, keyAEvent true 0,
       capsLockEvent true 2])).map (fun ev => (ev.type, ev.synthesized)) =
      [(kFlutterKeyEventTypeDown, true), (kFlutterKeyEventTypeUp, true),
       (kFlutterKeyEventTypeDown, false), (kFlutterKeyEventTypeUp, true)] ∧
    synthesized_downs_paired (events_of 0x200000102
      (handle_events_calls sampleKeyMapping sampleResponder
        [keyAEvent true 1, keyAEvent false 0, shiftLeftEvent true 0, keyAEvent true 0,
         capsLockEvent true 2])) = true :=
  ⟨by decide,
   (synthesized_downs_are_paired sampleKeyMapping sampleModifiers sampleLocks
      samplePhysicalKey
      [keyAEvent true 1, keyAEvent false 0, shiftLeftEvent true 0, keyAEvent true 0,
       capsLockEvent true 2]
      (by decide) (by decide) (by decide) (by decide) (by decide)
      0x200000102 (by decide)).1⟩

/-- Claim C16 (witness). A KeyA down event whose bitmask has the CapsLock and Shift
bits, on the fresh sample responder: the CapsLock down event that the lock
synchronizer sends is a synthesized call, and the real KeyA down event is sent
with synthesized = false. -/
theorem handle_event_synthesized_flags_witness :
    is_synthesized_call (Call.send_key_event true
      (synthesized_event kFlutterKeyEventTypeDown 0x70039 0x100000104 1000) false) ∧
    keyARealDown.synthesized = false :=
  ⟨(handle_event_synthesized_flags sampleKeyMapping sampleResponder (keyAEvent true 3)).1
      _ (by decide),
   (handle_event_synthesized_flags sampleKeyMapping sampleResponder
      (keyAEvent true 3)).2.2.2.2.2 _ (by decide)⟩

/-! ## The stage functions of the lock cycle (C23, C24, C25) -/

/-- Claim C23. `find_stage_by_record` maps (released, disabled) to 0, (pressed,
enabled) to 1, (released, enabled) to 2 and (pressed, disabled) to 3; it is
injective on the four pairs and onto 0..3; its result is odd exactly if the
key is pressed, and is 1 or 2 exactly if the lock is enabled. -/
theorem find_stage_by_record_bijection :
    find_stage_by_record false false = 0 ∧ find_stage_by_record true true = 1 ∧
    find_stage_by_record false true = 2 ∧ find_stage_by_record true false = 3 ∧
    (∀ d e d2 e2 : Bool, find_stage_by_record d e = find_stage_by_record d2 e2 →
      d = d2 ∧ e = e2) ∧
    (∀ n, n < 4 → ∃ d e : Bool, find_stage_by_record d e = n) ∧
    (∀ d e : Bool, find_stage_by_record d e < 4 ∧
      (find_stage_by_record d e % 2 = 1 ↔ d = true) ∧
      ((find_stage_by_record d e = 1 ∨ find_stage_by_record d e = 2) ↔ e = true)) := by
  decide

/-- Claim C23 (witness). The pairs (pressed, disabled) and (released, enabled) have
different stages, 3 and 2. -/
theorem find_stage_by_record_bijection_witness :
    find_stage_by_record true false = 3 ∧ find_stage_by_record false true = 2 ∧
    ∃ d e : Bool, find_stage_by_record d e = 3 :=
  ⟨find_stage_by_record_bijection.2.2.2.1, find_stage_by_record_bijection.2.2.1,
   find_stage_by_record_bijection.2.2.2.2.2.1 3 (by decide)⟩

/-- Claim C24. For a recorded stage in 0..3, `find_stage_by_self_event` on a down
event returns the one even stage whose SelfState entry, in the row of the logic
in use, equals the enabled flag of the bitmask; the result under the reversed
logic is the result under the normal logic with 0 and 2 swapped; on an up event
with the flag enabled it returns the recorded stage; the result is always in
0..3. -/
theorem find_stage_by_self_event_table (stage_by_record : Nat)
    (is_state_on reverse_state_logic : Bool) (h : stage_by_record < 4) :
    (find_stage_by_self_event stage_by_record true is_state_on reverse_state_logic = 0 ∨
      find_stage_by_self_event stage_by_record true is_state_on reverse_state_logic = 2) ∧
    self_state reverse_state_logic
      (find_stage_by_self_event stage_by_record true is_state_on reverse_state_logic) =
      is_state_on.toNat ∧
    (∀ stage, stage = 0 ∨ stage = 2 →
      self_state reverse_state_logic stage = is_state_on.toNat →
      stage = find_stage_by_self_event stage_by_record true is_state_on reverse_state_logic) ∧
    find_stage_by_self_event stage_by_record true is_state_on true =
      2 - find_stage_by_self_event stage_by_record true is_state_on false ∧
    find_stage_by_self_event stage_by_record false true reverse_state_logic =
      stage_by_record ∧
    (∀ is_down_event : Bool,
      find_stage_by_self_event stage_by_record is_down_event is_state_on
        reverse_state_logic < 4) := by
  refine ⟨?_, ?_, ?_, ?_, ?_, ?_⟩
  · cases is_state_on <;> cases reverse_state_logic <;> simp [find_stage_by_self_event]
  · cases is_state_on <;> cases reverse_state_logic <;>
      simp [find_stage_by_self_event, self_state]
  · intro stage hs
    rcases hs with hs | hs <;> subst hs <;> cases is_state_on <;> cases reverse_state_logic <;>
      simp [find_stage_by_self_event, self_state]
  · cases is_state_on <;> simp [find_stage_by_self_event]
  · simp [find_stage_by_self_event]
  · intro d
    cases is_state_on <;> cases reverse_state_logic <;> cases d <;>
      simp [find_stage_by_self_event, h]

/-- Claim C24 (witness). Recorded stage 1 with a down event whose bitmask has the
lock enabled: stage 2 under the normal logic, stage 0 under the reversed one. -/
theorem find_stage_by_self_event_table_witness :
    find_stage_by_self_event 1 true true false = 2 ∧
    find_stage_by_self_event 1 true true true =
      2 - find_stage_by_self_event 1 true true false :=
  ⟨by decide, (find_stage_by_self_event_table 1 true true (by decide)).2.2.2.1⟩

/-- Claim C25. For a recorded stage in 0..3, `find_stage_by_others_event` returns 0
when the bitmask says disabled, 1 when it says enabled and the recorded stage
is 0, and the recorded stage otherwise; the result is a stage whose OthersState
entry equals the flag of the bitmask, and no other such stage is reached from
the recorded stage with fewer forward steps. -/
theorem find_stage_by_others_event_table (stage_by_record : Nat) (is_state_on : Bool)
    (h : stage_by_record < 4) :
    (is_state_on = false → find_stage_by_others_event stage_by_record is_state_on = 0) ∧
    (is_state_on = true → stage_by_record = 0 →
      find_stage_by_others_event stage_by_record is_state_on = 1) ∧
    (is_state_on = true → stage_by_record ≠ 0 →
      find_stage_by_others_event stage_by_record is_state_on = stage_by_record) ∧
    find_stage_by_others_event stage_by_record is_state_on < 4 ∧
    others_state (find_stage_by_others_event stage_by_record is_state_on) =
      is_state_on.toNat ∧
    (∀ stage, stage < 4 → others_state stage = is_state_on.toNat →
      forward_steps stage_by_record
          (find_stage_by_others_event stage_by_record is_state_on) ≤
        forward_steps stage_by_record stage) := by
  have key : ∀ s, s < 4 → ∀ b : Bool,
      (b = false → find_stage_by_others_event s b = 0) ∧
      (b = true → s = 0 → find_stage_by_others_event s b = 1) ∧
      (b = true → s ≠ 0 → find_stage_by_others_event s b = s) ∧
      find_stage_by_others_event s b < 4 ∧
      others_state (find_stage_by_others_event s b) = b.toNat ∧
      (∀ stage, stage < 4 → others_state stage = b.toNat →
        forward_steps s (find_stage_by_others_event s b) ≤ forward_steps s stage) := by
    decide
  exact key stage_by_record h is_state_on

/-- Claim C25 (witness). Recorded stage 0 with the lock enabled in the bitmask of
another key's event: stage 1, one step forward. -/
theorem find_stage_by_others_event_table_witness :
    find_stage_by_others_event 0 true = 1 ∧
    forward_steps 0 (find_stage_by_others_event 0 true) ≤ forward_steps 0 3 :=
  ⟨(find_stage_by_others_event_table 0 true (by decide)).2.1 rfl rfl,
   (find_stage_by_others_event_table 0 true (by decide)).2.2.2.2.2 3 (by decide)
     (by decide)⟩

/-! ## Lower-case folding (C22) -/

/-- Away from the multiplication sign 0xD7, `to_lower` is the ASCII / Latin-1
lower-case folding. -/
theorem to_lower_eq_latin1_to_lower (n : Nat) (h : n ≠ 0xd7) :
    to_lower n = latin1_to_lower n := by
  unfold to_lower latin1_to_lower
  by_cases h1 : n ≥ 0x41 ∧ n ≤ 0x5a
  · rw [if_pos h1, if_pos (Or.inl h1)]
    omega
  · rw [if_neg h1]
    by_cases h2 : n ≥ 0xc0 ∧ n ≤ 0xde ∧ n ≠ 0xf7
    · rw [if_pos h2, if_pos (Or.inr ⟨h2.1, h2.2.1, h⟩)]
      omega
    · rw [if_neg h2, if_neg]
      intro h3
      rcases h3 with h3 | h3
      · exact h1 h3
      · exact h2 ⟨h3.1, h3.2.1, by omega⟩

/-- Claim C22 (failing input). The multiplication sign 0xD7 is not a letter and the
Latin-1 folding keeps it, but `to_lower` moves it to the division sign 0xF7: the
value excluded from the range 0xC0..0xDE in the code is 0xF7, which is outside
that range.  An unmapped key value 0xD7 therefore gets the logical key of the
key value 0xF7. -/
theorem to_lower_multiplication_sign :
    to_lower 0xd7 = 0xf7 ∧ latin1_to_lower 0xd7 = 0xd7 ∧
    event_to_logical_key sampleKeyMapping { keyAEvent true 0 with keyval := 0xd7 } =
      event_to_logical_key sampleKeyMapping { keyAEvent true 0 with keyval := 0xf7 } := by
  decide

/-! ## The record updates (C26, C27) -/

theorem possibly_update_lock_bit_down (self : FlKeyEmbedderResponder)
    (logical_key : Nat) :
    possibly_update_lock_bit self logical_key true =
      { self with lock_records := self.lock_records ^^^
          lookup_hash_table self.logical_key_to_lock_bit logical_key } := by
  unfold possibly_update_lock_bit
  simp only [Bool.not_true, Bool.false_eq_true, if_false]
  split
  · rfl
  · rename_i h
    rw [not_not.1 h, Nat.xor_zero]

/-- Claim C26. `possibly_update_lock_bit` returns the responder unchanged when
`is_down` is false and when the logical key has no entry in
`logical_key_to_lock_bit`; with `is_down` true it changes nothing but
`lock_records`, into which it XORs the lock bit of the key (0 without an
entry), so that each bit of `lock_records` flips exactly if it is set in that
lock bit; applying it twice with `is_down` true gives back the responder. -/
theorem possibly_update_lock_bit_effect (self : FlKeyEmbedderResponder) (logical_key : Nat)
    (is_down : Bool) :
    (is_down = false → possibly_update_lock_bit self logical_key is_down = self) ∧
    (g_hash_table_lookup self.logical_key_to_lock_bit logical_key = none →
      possibly_update_lock_bit self logical_key is_down = self) ∧
    possibly_update_lock_bit self logical_key true =
      { self with lock_records := self.lock_records ^^^
          lookup_hash_table self.logical_key_to_lock_bit logical_key } ∧
    (∀ i, (possibly_update_lock_bit self logical_key true).lock_records.testBit i =
      xor (self.lock_records.testBit i)
        ((lookup_hash_table self.logical_key_to_lock_bit logical_key).testBit i)) ∧
    possibly_update_lock_bit (possibly_update_lock_bit self logical_key true) logical_key
      true = self := by
  have h3 := possibly_update_lock_bit_down self logical_key
  refine ⟨?_, ?_, h3, ?_, ?_⟩
  · intro h
    subst h
    simp [possibly_update_lock_bit]
  · intro h
    have h0 : lookup_hash_table self.logical_key_to_lock_bit logical_key = 0 := by
      simp [lookup_hash_table, h]
    cases is_down
    · simp [possibly_update_lock_bit]
    · rw [h3, h0, Nat.xor_zero]
  · intro i
    rw [h3]
    simp only [Nat.testBit_xor]
  · rw [h3]
    have h4 := possibly_update_lock_bit_down
      { self with lock_records := self.lock_records ^^^
          lookup_hash_table self.logical_key_to_lock_bit logical_key } logical_key
    rw [h4]
    simp only [Nat.xor_assoc, Nat.xor_self, Nat.xor_zero]

/-- Claim C26 (witness). On the fresh sample responder, the NumLock logical key has
lock bit 16: one press sets bit 16 of `lock_records`, a second press clears it
again; a release changes nothing. -/
theorem possibly_update_lock_bit_effect_witness :
    (possibly_update_lock_bit sampleResponder 0x10000010a true).lock_records = 16 ∧
    possibly_update_lock_bit (possibly_update_lock_bit sampleResponder 0x10000010a true)
      0x10000010a true = sampleResponder ∧
    possibly_update_lock_bit sampleResponder 0x10000010a false = sampleResponder :=
  ⟨by decide,
   (possibly_update_lock_bit_effect sampleResponder 0x10000010a true).2.2.2.2,
   (possibly_update_lock_bit_effect sampleResponder 0x10000010a false).1 rfl⟩

/-- Claim C27. `update_pressing_state` with a logical key other than 0 inserts the
entry for the physical key when the physical key has no logical key recorded,
and leaves the responder unchanged when it has one; with logical key 0 it
removes the entry of the physical key when one is recorded and leaves the
responder unchanged when none is; the entries of all other physical keys are
the same in every case. -/
theorem update_pressing_state_effect (self : FlKeyEmbedderResponder)
    (physical_key logical_key : Nat) :
    (logical_key ≠ 0 → lookup_hash_table self.pressing_records physical_key = 0 →
      update_pressing_state self physical_key logical_key =
        { self with pressing_records :=
            g_hash_table_insert self.pressing_records physical_key logical_key } ∧
      lookup_hash_table (update_pressing_state self physical_key
        logical_key).pressing_records physical_key = logical_key) ∧
    (logical_key ≠ 0 → lookup_hash_table self.pressing_records physical_key ≠ 0 →
      update_pressing_state self physical_key logical_key = self) ∧
    (logical_key = 0 → lookup_hash_table self.pressing_records physical_key ≠ 0 →
      update_pressing_state self physical_key logical_key =
        { self with pressing_records :=
            g_hash_table_remove self.pressing_records physical_key } ∧
      lookup_hash_table (update_pressing_state self physical_key
        logical_key).pressing_records physical_key = 0) ∧
    (logical_key = 0 → lookup_hash_table self.pressing_records physical_key = 0 →
      update_pressing_state self physical_key logical_key = self) ∧
    (∀ q, q ≠ physical_key →
      lookup_hash_table (update_pressing_state self physical_key
        logical_key).pressing_records q = lookup_hash_table self.pressing_records q) := by
  refine ⟨?_, ?_, ?_, ?_, ?_⟩
  · intro hl hz
    refine ⟨by simp [update_pressing_state, hl, hz], ?_⟩
    rw [lookup_update_pressing_state]
    simp [hl, hz]
  · intro hl hz
    simp [update_pressing_state, hl, hz]
  · intro hl hz
    subst hl
    refine ⟨by simp [update_pressing_state, hz], ?_⟩
    rw [lookup_update_pressing_state]
    simp
  · intro hl hz
    subst hl
    simp [update_pressing_state, hz]
  · intro q hq
    rw [lookup_update_pressing_state, if_neg (fun h => hq h.symm)]

/-- Claim C27 (witness). On the fresh sample responder the physical key of KeyA is
not recorded: pressing it with the logical key of the letter a records it, a
second press keeps the record, and a release removes it. -/
theorem update_pressing_state_effect_witness :
    lookup_hash_table (update_pressing_state sampleResponder 0x70004
      0x61).pressing_records 0x70004 = 0x61 ∧
    update_pressing_state (update_pressing_state sampleResponder 0x70004 0x61) 0x70004 0x62 =
      update_pressing_state sampleResponder 0x70004 0x61 ∧
    lookup_hash_table (update_pressing_state
      (update_pressing_state sampleResponder 0x70004 0x61) 0x70004 0).pressing_records
      0x70004 = 0 :=
  ⟨((update_pressing_state_effect sampleResponder 0x70004 0x61).1 (by decide)
      (by decide)).2,
   (update_pressing_state_effect (update_pressing_state sampleResponder 0x70004 0x61)
      0x70004 0x62).2.1 (by decide) (by decide),
   ((update_pressing_state_effect (update_pressing_state sampleResponder 0x70004 0x61)
      0x70004 0).2.2.1 rfl (by decide)).2⟩

/-! ## The physical key of a native event (C21) -/

/-- A value below 2^32 tagged with a plane that has no bit in the 32-bit value
mask: the plane is added to the value. -/
theorem apply_id_plane_of_lt (km : KeyMapping) (value plane : Nat)
    (hmask : km.kValueMask = 0xFFFFFFFF) (hplane : plane &&& km.kValueMask = 0)
    (hlt : value < 2 ^ 32) :
    apply_id_plane km value plane = plane + value ∧ plane % 2 ^ 32 = 0 := by
  have hm : km.kValueMask = 2 ^ 32 - 1 := by rw [hmask]; norm_num
  rw [hm, Nat.and_pow_two_sub_one_eq_mod] at hplane
  refine ⟨?_, hplane⟩
  unfold apply_id_plane
  rw [hm, Nat.and_pow_two_sub_one_eq_mod, Nat.mod_eq_of_lt hlt]
  have hp : plane = 2 ^ 32 * (plane / 2 ^ 32) := by
    have := Nat.div_add_mod plane (2 ^ 32)
    omega
  rw [hp, Nat.or_comm, ← Nat.mul_add_lt_is_or hlt]

/-- Claim C21. `event_to_physical_key` returns the entry of the key-code table when
there is one, and otherwise the key code masked with `kValueMask` and tagged with
the GTK plane.  When `kValueMask` is the 32-bit mask, `kGtkPlane` has no bit
inside it and differs from `kUnicodePlane`, then for an unmapped key code below
2^32 the low 32 bits of the result are the key code, the plane of the result is
the GTK plane and not the Unicode plane, and another unmapped key code below
2^32 has a different physical key. -/
theorem event_to_physical_key_cases (km : KeyMapping) (event : FlKeyEvent) :
    (∀ found, km.xkb_to_physical_key_map event.keycode = some found →
      event_to_physical_key km event = found) ∧
    (km.xkb_to_physical_key_map event.keycode = none →
      event_to_physical_key km event =
        ((event.keycode &&& km.kValueMask) ||| km.kGtkPlane)) ∧
    (km.kValueMask = 0xFFFFFFFF → km.kGtkPlane &&& km.kValueMask = 0 →
      km.kGtkPlane ≠ km.kUnicodePlane →
      km.xkb_to_physical_key_map event.keycode = none → event.keycode < 2 ^ 32 →
      event_to_physical_key km event % 2 ^ 32 = event.keycode ∧
      plane_of km (event_to_physical_key km event) = km.kGtkPlane ∧
      plane_of km (event_to_physical_key km event) ≠ km.kUnicodePlane ∧
      ∀ other : FlKeyEvent, km.xkb_to_physical_key_map other.keycode = none →
        other.keycode < 2 ^ 32 → other.keycode ≠ event.keycode →
        event_to_physical_key km other ≠ event_to_physical_key km event) := by
  refine ⟨?_, ?_, ?_⟩
  · intro found h
    simp [event_to_physical_key, h]
  · intro h
    simp [event_to_physical_key, h, apply_id_plane]
  · intro hmask hplane hne hnone hlt
    have hval : ∀ ev : FlKeyEvent, km.xkb_to_physical_key_map ev.keycode = none →
        ev.keycode < 2 ^ 32 →
        event_to_physical_key km ev = km.kGtkPlane + ev.keycode ∧
        event_to_physical_key km ev % 2 ^ 32 = ev.keycode := by
      intro ev hn hl
      obtain ⟨h1, h2⟩ := apply_id_plane_of_lt km ev.keycode km.kGtkPlane hmask hplane hl
      have h3 : event_to_physical_key km ev = km.kGtkPlane + ev.keycode := by
        simp only [event_to_physical_key, hn]
        exact h1
      refine ⟨h3, ?_⟩
      rw [h3]
      omega
    obtain ⟨h1, h2⟩ := hval event hnone hlt
    have hp : plane_of km (event_to_physical_key km event) = km.kGtkPlane := by
      unfold plane_of
      have hm : km.kValueMask = 2 ^ 32 - 1 := by rw [hmask]; norm_num
      rw [hm, Nat.and_pow_two_sub_one_eq_mod, h2, h1]
      omega
    refine ⟨h2, hp, by rw [hp]; exact hne, ?_⟩
    intro other hn2 hl2 hk heq
    have h4 := (hval other hn2 hl2).2
    rw [heq, h2] at h4
    exact hk h4.symm

/-- Claim C21 (witness). On the sample keyboard the key codes 10 and 11 have no
table entry: their physical keys are the key codes in the GTK plane, and
differ. -/
theorem event_to_physical_key_cases_witness :
    event_to_physical_key sampleKeyMapping { keyAEvent true 0 with keycode := 10 } =
      0x150000000a ∧
    event_to_physical_key sampleKeyMapping { keyAEvent true 0 with keycode := 11 } ≠
      event_to_physical_key sampleKeyMapping { keyAEvent true 0 with keycode := 10 } ∧
    plane_of sampleKeyMapping
      (event_to_physical_key sampleKeyMapping { keyAEvent true 0 with keycode := 10 }) =
      0x1500000000 :=
  ⟨by decide,
   ((event_to_physical_key_cases sampleKeyMapping
      { keyAEvent true 0 with keycode := 10 }).2.2 (by decide) (by decide) (by decide)
      (by decide) (by decide)).2.2.2 { keyAEvent true 0 with keycode := 11 } (by decide)
      (by decide) (by decide),
   ((event_to_physical_key_cases sampleKeyMapping
      { keyAEvent true 0 with keycode := 10 }).2.2 (by decide) (by decide) (by decide)
      (by decide) (by decide)).2.1⟩

/-! ## The constructed responder (C30) -/

theorem g_hash_table_lookup_insert (table : GHashTable) (key value key2 : Nat) :
    g_hash_table_lookup (g_hash_table_insert table key value) key2 =
      if key = key2 then some value else g_hash_table_lookup table key2 := by
  unfold g_hash_table_insert
  by_cases h : key = key2
  · simp [g_hash_table_lookup, h]
  · simp [g_hash_table_lookup, h, g_hash_table_lookup_remove]

theorem g_hash_table_lookup_initialize_of_not_mem
    (entries : List (Nat × FlKeyEmbedderCheckedKey)) (logical_key : Nat)
    (h : ∀ e ∈ entries, e.2.primary_logical_key ≠ logical_key) :
    ∀ table : GHashTable,
      g_hash_table_lookup (initialize_logical_key_to_lock_bit entries table) logical_key =
        g_hash_table_lookup table logical_key := by
  induction entries with
  | nil => intro table; rfl
  | cons e rest ih =>
    intro table
    have h1 := h e (List.mem_cons_self _ _)
    have h2 := ih (fun e he => h e (List.mem_cons_of_mem _ he))
      (g_hash_table_insert table e.2.primary_logical_key e.1)
    simp only [initialize_logical_key_to_lock_bit, List.foldl_cons] at h2 ⊢
    rw [h2, g_hash_table_lookup_insert, if_neg h1]

theorem g_hash_table_lookup_initialize_of_mem
    (entries : List (Nat × FlKeyEmbedderCheckedKey))
    (hnodup : (entries.map (fun e => e.2.primary_logical_key)).Nodup) :
    ∀ table : GHashTable, ∀ e ∈ entries,
      g_hash_table_lookup (initialize_logical_key_to_lock_bit entries table)
        e.2.primary_logical_key = some e.1 := by
  induction entries with
  | nil => intro table e he; cases he
  | cons e0 rest ih =>
    intro table e he
    rw [List.map_cons, List.nodup_cons] at hnodup
    have hstep : initialize_logical_key_to_lock_bit (e0 :: rest) table =
        initialize_logical_key_to_lock_bit rest
          (g_hash_table_insert table e0.2.primary_logical_key e0.1) := by
      simp [initialize_logical_key_to_lock_bit]
    rw [hstep]
    rcases List.mem_cons.1 he with h | h
    · subst h
      rw [g_hash_table_lookup_initialize_of_not_mem rest e.2.primary_logical_key
        (fun e2 he2 heq => hnodup.1 (List.mem_map.2 ⟨e2, he2, heq⟩)),
        g_hash_table_lookup_insert, if_pos rfl]
    · exact ih hnodup.2 _ e h

theorem g_hash_table_lookup_initialize_source
    (entries : List (Nat × FlKeyEmbedderCheckedKey)) (logical_key bit : Nat) :
    ∀ table : GHashTable,
      g_hash_table_lookup (initialize_logical_key_to_lock_bit entries table) logical_key =
        some bit →
      (∃ e ∈ entries, e.2.primary_logical_key = logical_key ∧ e.1 = bit) ∨
      g_hash_table_lookup table logical_key = some bit := by
  induction entries with
  | nil => intro table h; exact Or.inr h
  | cons e0 rest ih =>
    intro table h
    have hstep : initialize_logical_key_to_lock_bit (e0 :: rest) table =
        initialize_logical_key_to_lock_bit rest
          (g_hash_table_insert table e0.2.primary_logical_key e0.1) := by
      simp [initialize_logical_key_to_lock_bit]
    rw [hstep] at h
    rcases ih _ h with ⟨e, he, h1, h2⟩ | h1
    · exact Or.inl ⟨e, List.mem_cons_of_mem _ he, h1, h2⟩
    · rw [g_hash_table_lookup_insert] at h1
      split at h1
      · rename_i hk
        left
        exact ⟨e0, List.mem_cons_self _ _, hk, by simpa using h1⟩
      · exact Or.inr h1

theorem initialize_logical_key_to_lock_bit_length
    (entries : List (Nat × FlKeyEmbedderCheckedKey))
    (hnodup : (entries.map (fun e => e.2.primary_logical_key)).Nodup) :
    ∀ table : GHashTable,
      (∀ e ∈ entries, ∀ kv ∈ table, kv.1 ≠ e.2.primary_logical_key) →
      (initialize_logical_key_to_lock_bit entries table).length =
        table.length + entries.length := by
  induction entries with
  | nil => intro table _; rfl
  | cons e0 rest ih =>
    intro table h
    rw [List.map_cons, List.nodup_cons] at hnodup
    have hstep : initialize_logical_key_to_lock_bit (e0 :: rest) table =
        initialize_logical_key_to_lock_bit rest
          (g_hash_table_insert table e0.2.primary_logical_key e0.1) := by
      simp [initialize_logical_key_to_lock_bit]
    have hfilter : g_hash_table_remove table e0.2.primary_logical_key = table := by
      unfold g_hash_table_remove
      rw [List.filter_eq_self]
      intro kv hkv
      simpa using h e0 (List.mem_cons_self _ _) kv hkv
    rw [hstep, ih hnodup.2]
    · simp only [g_hash_table_insert, hfilter, List.length_cons]
      omega
    · intro e he kv hkv
      simp only [g_hash_table_insert, hfilter, List.mem_cons] at hkv
      rcases hkv with hkv | hkv
      · subst hkv
        intro heq
        exact hnodup.1 (List.mem_map.2 ⟨e, he, heq.symm⟩)
      · exact h e (List.mem_cons_of_mem _ he) kv hkv

/-- Claim C30. A responder returned by `fl_key_embedder_responder_new` has empty
`pressing_records` and `mapping_records`, `lock_records` 0 and the inference
undecided.  Every entry of its `logical_key_to_lock_bit` is the primary logical
key of an entry of `lock_bit_to_checked_keys` with that entry's lock bit; when
the primary logical keys of the lock keys are distinct, the table has exactly
one entry for each lock key, and looking up the logical key of a lock key gives
its own lock bit. -/
theorem fl_key_embedder_responder_new_records
    (modifiers locks : List (Nat × FlKeyEmbedderCheckedKey)) :
    (fl_key_embedder_responder_new modifiers locks).pressing_records = [] ∧
    (fl_key_embedder_responder_new modifiers locks).mapping_records = [] ∧
    (fl_key_embedder_responder_new modifiers locks).lock_records = 0 ∧
    (fl_key_embedder_responder_new modifiers locks).caps_lock_state_logic_inferrence =
      kStateLogicUndecided ∧
    (∀ logical_key bit,
      g_hash_table_lookup (fl_key_embedder_responder_new modifiers
        locks).logical_key_to_lock_bit logical_key = some bit →
      ∃ e ∈ locks, e.2.primary_logical_key = logical_key ∧ e.1 = bit) ∧
    ((locks.map (fun e => e.2.primary_logical_key)).Nodup →
      (fl_key_embedder_responder_new modifiers locks).logical_key_to_lock_bit.length =
        locks.length ∧
      ∀ e ∈ locks,
        g_hash_table_lookup (fl_key_embedder_responder_new modifiers
          locks).logical_key_to_lock_bit e.2.primary_logical_key = some e.1 ∧
        lookup_hash_table (fl_key_embedder_responder_new modifiers
          locks).logical_key_to_lock_bit e.2.primary_logical_key = e.1) := by
  refine ⟨rfl, rfl, rfl, rfl, ?_, ?_⟩
  · intro L bit h
    rcases g_hash_table_lookup_initialize_source locks L bit [] h with h1 | h1
    · exact h1
    · simp [g_hash_table_lookup] at h1
  · intro hnodup
    refine ⟨?_, ?_⟩
    · have := initialize_logical_key_to_lock_bit_length locks hnodup []
        (fun _ _ kv hkv => by cases hkv)
      simpa [fl_key_embedder_responder_new] using this
    · intro e he
      have h1 := g_hash_table_lookup_initialize_of_mem locks hnodup [] e he
      refine ⟨h1, ?_⟩
      show (g_hash_table_lookup (initialize_logical_key_to_lock_bit locks [])
        e.2.primary_logical_key).getD 0 = e.1
      rw [h1]
      rfl

/-- Claim C30 (witness). The sample lock keys CapsLock and NumLock have distinct
primary logical keys; looking up NumLock's logical key in the table of the
fresh sample responder gives its lock bit 16, and the table has two entries. -/
theorem fl_key_embedder_responder_new_records_witness :
    lookup_hash_table sampleResponder.logical_key_to_lock_bit 0x10000010a = 16 ∧
    sampleResponder.logical_key_to_lock_bit.length = 2 :=
  ⟨(((fl_key_embedder_responder_new_records sampleModifiers sampleLocks).2.2.2.2.2
      (by decide)).2 (16, sampleNumLock) (by decide)).2,
   ((fl_key_embedder_responder_new_records sampleModifiers sampleLocks).2.2.2.2.2
      (by decide)).1⟩

/-! ## The synthesized events: keys and timestamp (C28, C29) -/

theorem mem_synthesize_simple_event (self : FlKeyEmbedderResponder)
    (type : FlutterKeyEventType) (p l t : Nat) (c : Call)
    (hc : c ∈ synthesize_simple_event self type p l t) :
    c = Call.send_key_event true (synthesized_event type p l t) false := by
  unfold synthesize_simple_event at hc
  split at hc
  · simpa [synthesized_event] using hc
  · simp at hc

/-- The loop of the modifier synchronizer leaves `mapping_records` alone, and each
event it synthesizes is an up event for one of the logical keys, at the
physical key recorded for that logical key. -/
theorem synchronize_pressed_states_for_events (context : SyncStateLoopContext) (pbs : Bool)
    (keys : List Nat) :
    ∀ (s : FlKeyEmbedderResponder) (pbr : Bool),
      (synchronize_pressed_states_for context pbs keys s pbr).self.mapping_records =
        s.mapping_records ∧
      ∀ c ∈ (synchronize_pressed_states_for context pbs keys s pbr).calls,
        ∃ L ∈ keys, lookup_hash_table s.mapping_records L ≠ 0 ∧
          c = Call.send_key_event true
            (synthesized_event kFlutterKeyEventTypeUp (lookup_hash_table s.mapping_records L)
              L context.timestamp) false := by
  induction keys with
  | nil =>
    intro s pbr
    simp [synchronize_pressed_states_for]
  | cons k rest ih =>
    intro s pbr
    unfold synchronize_pressed_states_for
    simp only []
    split
    · simp
    · split
      · rename_i hpressed
        have h := ih (update_pressing_state s (lookup_hash_table s.mapping_records k) 0)
          (pbr || decide (pressed_logical_key_before_event s k ≠ 0))
        simp only [update_pressing_state_mapping_records] at h
        refine ⟨h.1, ?_⟩
        intro c hc
        simp only [List.mem_append] at hc
        rcases hc with hc | hc
        · refine ⟨k, List.mem_cons_self _ _, ?_, mem_synthesize_simple_event _ _ _ _ _ c hc⟩
          intro h0
          simp [pressed_logical_key_before_event, h0] at hpressed
        · obtain ⟨L, hL, h1, h2⟩ := h.2 c hc
          exact ⟨L, List.mem_cons_of_mem _ hL, h1, h2⟩
      · have h := ih s (pbr || decide (pressed_logical_key_before_event s k ≠ 0))
        refine ⟨h.1, ?_⟩
        intro c hc
        obtain ⟨L, hL, h1, h2⟩ := h.2 c hc
        exact ⟨L, List.mem_cons_of_mem _ hL, h1, h2⟩

/-- Each event that the modifier synchronizer synthesizes for a checked key is for
its primary or its secondary logical key, at the physical key recorded for that
logical key if there is one and at the primary physical key otherwise, with the
timestamp of the context; a down event is for the primary logical key, and if
that key had no mapping record it has the primary physical key afterwards. -/
theorem synchronize_pressed_states_loop_body_events (key : Nat)
    (ck : FlKeyEmbedderCheckedKey) (context : SyncStateLoopContext)
    (s : FlKeyEmbedderResponder) :
    ∀ c ∈ (synchronize_pressed_states_loop_body key ck context s).2,
      ∃ (type : FlutterKeyEventType) (L : Nat),
        (L = ck.primary_logical_key ∨
          (L = ck.secondary_logical_key ∧ ck.secondary_logical_key ≠ 0)) ∧
        c = Call.send_key_event true
          (synthesized_event type
            (if lookup_hash_table s.mapping_records L ≠ 0 then
              lookup_hash_table s.mapping_records L else ck.primary_physical_key)
            L context.timestamp) false ∧
        (type = kFlutterKeyEventTypeDown → L = ck.primary_logical_key ∧
          (lookup_hash_table s.mapping_records L = 0 →
            lookup_hash_table
              (synchronize_pressed_states_loop_body key ck context s).1.mapping_records L =
              ck.primary_physical_key)) := by
  have hloop := synchronize_pressed_states_for_events context
    (decide (context.state &&& key ≠ 0))
    (if ck.secondary_logical_key = 0 then [ck.primary_logical_key]
      else [ck.primary_logical_key, ck.secondary_logical_key]) s false
  have hfromloop : ∀ c ∈ (synchronize_pressed_states_for context
      (decide (context.state &&& key ≠ 0))
      (if ck.secondary_logical_key = 0 then [ck.primary_logical_key]
        else [ck.primary_logical_key, ck.secondary_logical_key]) s false).calls,
      ∃ (L : Nat),
        (L = ck.primary_logical_key ∨
          (L = ck.secondary_logical_key ∧ ck.secondary_logical_key ≠ 0)) ∧
        c = Call.send_key_event true
          (synthesized_event kFlutterKeyEventTypeUp
            (if lookup_hash_table s.mapping_records L ≠ 0 then
              lookup_hash_table s.mapping_records L else ck.primary_physical_key)
            L context.timestamp) false := by
    intro c hc
    obtain ⟨L, hL, h1, h2⟩ := hloop.2 c hc
    refine ⟨L, ?_, by rw [if_pos h1]; exact h2⟩
    split at hL
    · simp only [List.mem_singleton] at hL
      exact Or.inl hL
    · rename_i hne
      simp only [List.mem_cons, List.mem_singleton, List.not_mem_nil, or_false] at hL
      rcases hL with hL | hL
      · exact Or.inl hL
      · exact Or.inr ⟨hL, hne⟩
  unfold synchronize_pressed_states_loop_body
  simp only []
  generalize hr : synchronize_pressed_states_for context _ _ s false = r at hloop hfromloop
  intro c hc
  split at hc
  · obtain ⟨L, hL, h2⟩ := hfromloop c hc
    exact ⟨kFlutterKeyEventTypeUp, L, hL, h2, fun h => by cases h⟩
  · split at hc
    · simp only [List.mem_append] at hc
      rcases hc with hc | hc
      · obtain ⟨L, hL, h2⟩ := hfromloop c hc
        exact ⟨kFlutterKeyEventTypeUp, L, hL, h2, fun h => by cases h⟩
      · have h1 := mem_synthesize_simple_event _ _ _ _ _ c hc
        rw [hloop.1] at h1
        refine ⟨kFlutterKeyEventTypeDown, ck.primary_logical_key, Or.inl rfl, h1, fun _ =>
          ⟨rfl, ?_⟩⟩
        intro h0
        rw [if_neg (by assumption), if_pos (by simp_all)]
        simp [hloop.1, h0]
    · obtain ⟨L, hL, h2⟩ := hfromloop c hc
      exact ⟨kFlutterKeyEventTypeUp, L, hL, h2, fun h => by cases h⟩

/-- Once the logical key is mapped to the physical key of the walk, the walk of the
lock synchronizer keeps that mapping record. -/
theorem synchronize_lock_states_for_mapping_fixed (context : SyncStateLoopContext)
    (logical_key recorded_physical_key physical_key : Nat) (steps : Nat) :
    ∀ (current_stage : Nat) (s : FlKeyEmbedderResponder),
      lookup_hash_table s.mapping_records logical_key = physical_key →
      lookup_hash_table (synchronize_lock_states_for context logical_key
        recorded_physical_key physical_key steps current_stage s).1.mapping_records
        logical_key = physical_key := by
  induction steps with
  | zero => intro c s h; exact h
  | succ n ih =>
    intro c s h
    unfold synchronize_lock_states_for
    split
    · exact h
    · simp only []
      apply ih
      simp only [possibly_update_lock_bit_mapping_records,
        update_pressing_state_mapping_records]
      split
      · simp
      · exact h

/-- Each event of the walk of the lock synchronizer is for the logical key and the
physical key of the walk, with the timestamp of the context; after a down
event of a key that had no mapping record, the key is mapped to that physical
key. -/
theorem synchronize_lock_states_for_events (context : SyncStateLoopContext)
    (logical_key recorded_physical_key physical_key : Nat) (steps : Nat) :
    ∀ (current_stage : Nat) (s : FlKeyEmbedderResponder),
      ∀ c ∈ (synchronize_lock_states_for context logical_key recorded_physical_key
        physical_key steps current_stage s).2,
        ∃ type : FlutterKeyEventType,
          c = Call.send_key_event true
            (synthesized_event type physical_key logical_key context.timestamp) false ∧
          (type = kFlutterKeyEventTypeDown → recorded_physical_key = 0 →
            lookup_hash_table (synchronize_lock_states_for context logical_key
              recorded_physical_key physical_key steps current_stage s).1.mapping_records
              logical_key = physical_key) := by
  induction steps with
  | zero =>
    intro cs s c hc
    simp [synchronize_lock_states_for] at hc
  | succ n ih =>
    intro cs s c hc
    unfold synchronize_lock_states_for at hc ⊢
    split at hc
    · simp at hc
    · rename_i h9
      rw [if_neg h9]
      simp only [] at hc ⊢
      simp only [List.mem_append] at hc
      rcases hc with hc | hc
      · have h1 := mem_synthesize_simple_event _ _ _ _ _ c hc
        refine ⟨_, h1, ?_⟩
        intro hdown hr
        apply synchronize_lock_states_for_mapping_fixed
        simp only [possibly_update_lock_bit_mapping_records,
          update_pressing_state_mapping_records]
        have hd : decide (cs % kNumStages = 0 ∨ cs % kNumStages = 2) = true := by
          by_contra hne
          simp only [hne] at hdown
          cases hdown
        rw [if_pos ⟨hd, hr⟩]
        simp
      · exact ih _ _ c hc

/-- Each event that the lock synchronizer synthesizes for a checked key is for its
primary logical key, at the physical key recorded for that logical key if there
is one and at the primary physical key otherwise, with the timestamp of the
context; after a down event of a key that had no mapping record, the key is
mapped to the primary physical key. -/
theorem synchronize_lock_states_loop_body_events_shape (key : Nat)
    (ck : FlKeyEmbedderCheckedKey) (context : SyncStateLoopContext)
    (s : FlKeyEmbedderResponder) :
    ∀ c ∈ (synchronize_lock_states_loop_body key ck context s).2,
      ∃ type : FlutterKeyEventType,
        c = Call.send_key_event true
          (synthesized_event type
            (if lookup_hash_table s.mapping_records ck.primary_logical_key ≠ 0 then
              lookup_hash_table s.mapping_records ck.primary_logical_key
              else ck.primary_physical_key)
            ck.primary_logical_key context.timestamp) false ∧
        (type = kFlutterKeyEventTypeDown →
          lookup_hash_table s.mapping_records ck.primary_logical_key = 0 →
          lookup_hash_table
            (synchronize_lock_states_loop_body key ck context s).1.mapping_records
            ck.primary_logical_key = ck.primary_physical_key) := by
  intro c hc
  unfold synchronize_lock_states_loop_body at hc ⊢
  simp only [] at hc ⊢
  split at hc
  · simp at hc
  · rename_i h1
    rw [if_neg h1]
    split at hc
    · simp at hc
    · rename_i h2
      rw [if_neg h2]
      split at hc
      · simp at hc
      · rename_i h3
        rw [if_neg h3]
        split at hc
        · simp at hc
        · rename_i h4
          rw [if_neg h4]
          obtain ⟨type, hc1, hc2⟩ := synchronize_lock_states_for_events context _ _ _ _ _ _ c hc
          refine ⟨type, hc1, ?_⟩
          intro hd h0
          have := hc2 hd h0
          simpa [lock_physical_key, h0] using this

theorem foreach_checked_key_keeps_mapping
    (body : Nat → FlKeyEmbedderCheckedKey → SyncStateLoopContext → FlKeyEmbedderResponder →
      FlKeyEmbedderResponder × List Call)
    (hbody : ∀ key ck context s, mapping_grows s (body key ck context s).1 ck)
    (context : SyncStateLoopContext) (entries : List (Nat × FlKeyEmbedderCheckedKey)) :
    ∀ (s : FlKeyEmbedderResponder) (m : Nat), lookup_hash_table s.mapping_records m ≠ 0 →
      lookup_hash_table (foreach_checked_key body context entries s).1.mapping_records m =
        lookup_hash_table s.mapping_records m := by
  induction entries with
  | nil => intro s m _; rfl
  | cons e rest ih =>
    intro s m hm
    obtain ⟨key, ck⟩ := e
    simp only [foreach_checked_key]
    have h1 : lookup_hash_table (body key ck context s).1.mapping_records m =
        lookup_hash_table s.mapping_records m := by
      rcases hbody key ck context s m with h | h
      · exact h
      · exact absurd h.2.1 hm
    rw [ih _ m (by rw [h1]; exact hm), h1]

/-- Claim C28. Every event that the lock synchronizer or the modifier synchronizer
synthesizes for a checked key is for one of its logical keys and carries the
physical key in the mapping record of that logical key when there is one, and
the primary physical key of the checked key otherwise; after a synthesized down
event for a logical key without mapping record, the mapping record of that key
is the primary physical key; and a synchronizer never changes or removes a
mapping record that exists. -/
theorem synthesized_events_use_mapping_records (key : Nat) (ck : FlKeyEmbedderCheckedKey)
    (context : SyncStateLoopContext) (s : FlKeyEmbedderResponder) :
    (∀ c ∈ (synchronize_lock_states_loop_body key ck context s).2,
      ∃ ev : FlutterKeyEvent, c = Call.send_key_event true ev false ∧
        ev.logical = ck.primary_logical_key ∧
        ev.physical = (if lookup_hash_table s.mapping_records ev.logical ≠ 0 then
          lookup_hash_table s.mapping_records ev.logical else ck.primary_physical_key) ∧
        (ev.type = kFlutterKeyEventTypeDown →
          lookup_hash_table s.mapping_records ev.logical = 0 →
          lookup_hash_table
            (synchronize_lock_states_loop_body key ck context s).1.mapping_records
            ev.logical = ck.primary_physical_key)) ∧
    (∀ c ∈ (synchronize_pressed_states_loop_body key ck context s).2,
      ∃ ev : FlutterKeyEvent, c = Call.send_key_event true ev false ∧
        (ev.logical = ck.primary_logical_key ∨ ev.logical = ck.secondary_logical_key) ∧
        ev.physical = (if lookup_hash_table s.mapping_records ev.logical ≠ 0 then
          lookup_hash_table s.mapping_records ev.logical else ck.primary_physical_key) ∧
        (ev.type = kFlutterKeyEventTypeDown →
          lookup_hash_table s.mapping_records ev.logical = 0 →
          lookup_hash_table
            (synchronize_pressed_states_loop_body key ck context s).1.mapping_records
            ev.logical = ck.primary_physical_key)) ∧
    (∀ m, lookup_hash_table s.mapping_records m ≠ 0 →
      lookup_hash_table (synchronize_lock_states_loop_body key ck context s).1.mapping_records
        m = lookup_hash_table s.mapping_records m) ∧
    (∀ m, lookup_hash_table s.mapping_records m ≠ 0 →
      lookup_hash_table
        (synchronize_pressed_states_loop_body key ck context s).1.mapping_records m =
        lookup_hash_table s.mapping_records m) ∧
    (∀ m, lookup_hash_table s.mapping_records m ≠ 0 →
      lookup_hash_table (synchronize_states context s).1.mapping_records m =
        lookup_hash_table s.mapping_records m) := by
  refine ⟨?_, ?_, ?_, ?_, ?_⟩
  · intro c hc
    obtain ⟨type, h1, h2⟩ := synchronize_lock_states_loop_body_events_shape key ck context s c hc
    exact ⟨_, h1, rfl, rfl, h2⟩
  · intro c hc
    obtain ⟨type, L, hL, h1, h2⟩ :=
      synchronize_pressed_states_loop_body_events key ck context s c hc
    refine ⟨_, h1, ?_, rfl, fun hd h0 => (h2 hd).2 h0⟩
    rcases hL with hL | hL
    · exact Or.inl hL
    · exact Or.inr hL.1
  · intro m hm
    rcases (synchronize_lock_states_loop_body_frame key ck context s).2 m with h | h
    · exact h
    · exact absurd h.2.1 hm
  · intro m hm
    rcases (synchronize_pressed_states_loop_body_frame key ck context s).2.1 m with h | h
    · exact h
    · exact absurd h.2.1 hm
  · intro m hm
    unfold synchronize_states
    simp only []
    have h1 := foreach_checked_key_keeps_mapping synchronize_lock_states_loop_body
      (fun key ck context s => (synchronize_lock_states_loop_body_frame key ck context s).2)
      context s.lock_bit_to_checked_keys s m hm
    rw [foreach_checked_key_keeps_mapping synchronize_pressed_states_loop_body
      (fun key ck context s => (synchronize_pressed_states_loop_body_frame key ck context s).2.1)
      context _ _ m (by rw [h1]; exact hm), h1]

/-- Claim C28 (witness). After a real ShiftLeft press and release, ShiftLeft is
mapped to its physical key 0x700e1; the synchronizers of a KeyA down event with
the Shift bit, which synthesize a ShiftLeft down event, keep that record. -/
theorem synthesized_events_use_mapping_records_witness :
    lookup_hash_table (handle_events sampleKeyMapping sampleResponder
      [shiftLeftEvent true 0, shiftLeftEvent false 1]).mapping_records 0x200000102 =
      0x700e1 ∧
    lookup_hash_table (synchronize_states
      (sync_state_context sampleKeyMapping (keyAEvent true 1))
      (handle_events sampleKeyMapping sampleResponder
        [shiftLeftEvent true 0, shiftLeftEvent false 1])).1.mapping_records 0x200000102 =
      0x700e1 :=
  ⟨by decide,
   ((synthesized_events_use_mapping_records 1 sampleShift
      (sync_state_context sampleKeyMapping (keyAEvent true 1))
      (handle_events sampleKeyMapping sampleResponder
        [shiftLeftEvent true 0, shiftLeftEvent false 1])).2.2.2.2 0x200000102
      (by decide)).trans (by decide)⟩

/-! ## Timestamps (C29) -/

theorem to_double_of_lt (n : Nat) (h : n < 2 ^ 53) : to_double n = n := by
  unfold to_double
  rw [if_pos h]

/-- For a 32-bit time the product of `event_to_timestamp` is exact in `double` and
fits the `uint64_t` return value. -/
theorem event_to_timestamp_of_lt (event : FlKeyEvent) (h : event.time < 2 ^ 32) :
    event_to_timestamp event = 1000 * event.time := by
  unfold event_to_timestamp kMicrosecondsPerMillisecond
  rw [to_double_of_lt 1000 (by norm_num), to_double_of_lt event.time (by omega),
    to_double_of_lt (1000 * event.time) (by omega)]
  exact Nat.mod_eq_of_lt (by omega)

theorem foreach_checked_key_calls (P : Call → Prop)
    (body : Nat → FlKeyEmbedderCheckedKey → SyncStateLoopContext → FlKeyEmbedderResponder →
      FlKeyEmbedderResponder × List Call)
    (context : SyncStateLoopContext)
    (hbody : ∀ key ck s, ∀ c ∈ (body key ck context s).2, P c)
    (entries : List (Nat × FlKeyEmbedderCheckedKey)) :
    ∀ s : FlKeyEmbedderResponder,
      ∀ c ∈ (foreach_checked_key body context entries s).2, P c := by
  induction entries with
  | nil => intro s c hc; simp [foreach_checked_key] at hc
  | cons e rest ih =>
    intro s c hc
    obtain ⟨key, ck⟩ := e
    simp only [foreach_checked_key, List.mem_append] at hc
    rcases hc with hc | hc
    · exact hbody key ck s c hc
    · exact ih _ c hc

/-- Every event that the synchronizers send carries the timestamp of the context. -/
theorem synchronize_states_timestamp (context : SyncStateLoopContext)
    (s : FlKeyEmbedderResponder) :
    ∀ ev ∈ sent_events (synchronize_states context s).2, ev.timestamp = context.timestamp := by
  have hall : ∀ c ∈ (synchronize_states context s).2,
      ∃ ev : FlutterKeyEvent, c = Call.send_key_event true ev false ∧
        ev.timestamp = context.timestamp := by
    intro c hc
    unfold synchronize_states at hc
    simp only [List.mem_append] at hc
    rcases hc with hc | hc
    · refine foreach_checked_key_calls
        (fun c => ∃ ev : FlutterKeyEvent, c = Call.send_key_event true ev false ∧
        ev.timestamp = context.timestamp)
        synchronize_lock_states_loop_body context ?_ _ _ c hc
      intro key ck s2 c2 hc2
      obtain ⟨type, h1, _⟩ :=
        synchronize_lock_states_loop_body_events_shape key ck context s2 c2 hc2
      exact ⟨_, h1, rfl⟩
    · refine foreach_checked_key_calls
        (fun c => ∃ ev : FlutterKeyEvent, c = Call.send_key_event true ev false ∧
        ev.timestamp = context.timestamp)
        synchronize_pressed_states_loop_body context ?_ _ _ c hc
      intro key ck s2 c2 hc2
      obtain ⟨type, L, _, h1, _⟩ :=
        synchronize_pressed_states_loop_body_events key ck context s2 c2 hc2
      exact ⟨_, h1, rfl⟩
  generalize (synchronize_states context s).2 = calls at hall
  induction calls with
  | nil => intro ev hev; simp [sent_events] at hev
  | cons c rest ih =>
    intro ev hev
    obtain ⟨ev2, hc, ht⟩ := hall c (List.mem_cons_self _ _)
    subst hc
    simp only [sent_events, List.mem_cons] at hev
    rcases hev with hev | hev
    · rw [hev]; exact ht
    · exact ih (fun c hc => hall c (List.mem_cons_of_mem _ hc)) ev hev

theorem real_events_handle_real_event_timestamp (km : KeyMapping) (event : FlKeyEvent)
    (s : FlKeyEmbedderResponder) :
    ∀ ev ∈ real_events (handle_real_event km event s).2,
      ev.timestamp = event_to_timestamp event := by
  intro ev hev
  by_cases hsup : event.is_press = decide (lookup_hash_table s.pressing_records
      (event_to_physical_key km event) ≠ 0)
  · rw [(handle_real_event_cases km event s).1 hsup] at hev
    cases hs : s.engine <;> simp [hs, real_events] at hev
  · rw [(handle_real_event_cases km event s).2 hsup] at hev
    cases hs : s.engine
    · simp [hs, real_events] at hev
    · simp only [hs, if_true, real_events, List.mem_singleton] at hev
      rw [hev]

/-- Claim C29. For a native event with a 32-bit millisecond time t, the timestamp
computed by `event_to_timestamp` is exactly 1000 * t: the conversions to
`double`, the product in `double` and the conversions back lose nothing and the
result is below 2^64; every event that the synchronizers synthesize during the
call of the handler and the real event it forwards carry this timestamp. -/
theorem handle_event_timestamps (km : KeyMapping) (s : FlKeyEmbedderResponder)
    (event : FlKeyEvent) (h : event.time < 2 ^ 32) :
    event_to_timestamp event = 1000 * event.time ∧
    to_double event.time = event.time ∧
    to_double (1000 * event.time) = 1000 * event.time ∧
    1000 * event.time < 2 ^ 64 ∧
    to_double (event_to_timestamp event) = event_to_timestamp event ∧
    (∀ ev ∈ sent_events (synchronize_states (sync_state_context km event) s).2,
      ev.timestamp = 1000 * event.time) ∧
    (∀ ev ∈ real_events (fl_key_embedder_responder_handle_event km s event).2,
      ev.timestamp = 1000 * event.time) := by
  have ht := event_to_timestamp_of_lt event h
  refine ⟨ht, to_double_of_lt _ (by omega), to_double_of_lt _ (by omega), by omega, ?_, ?_, ?_⟩
  · rw [ht]
    exact to_double_of_lt _ (by omega)
  · intro ev hev
    rw [synchronize_states_timestamp _ s ev hev]
    exact ht
  · intro ev hev
    have hcalls : (fl_key_embedder_responder_handle_event km s event).2 =
        (synchronize_states (sync_state_context km event) s).2 ++
        (handle_real_event km event
          (synchronize_states (sync_state_context km event) s).1).2 := rfl
    rw [hcalls, real_events_append, real_events_synchronize_states, List.nil_append] at hev
    rw [real_events_handle_real_event_timestamp km event _ ev hev]
    exact ht

/-- Claim C29 (witness). A KeyA down event at time 1 ms whose bitmask has the
CapsLock and Shift bits, on the fresh sample responder: the two synthesized
events and the real event carry the timestamp 1000. -/
theorem handle_event_timestamps_witness :
    (sent_events (fl_key_embedder_responder_handle_event sampleKeyMapping sampleResponder
      (keyAEvent true 3)).2).map (fun ev => ev.timestamp) = [1000, 1000, 1000] ∧
    event_to_timestamp (keyAEvent true 3) = 1000 * (keyAEvent true 3).time :=
  ⟨by decide,
   (handle_event_timestamps sampleKeyMapping sampleResponder (keyAEvent true 3)
      (by decide)).1⟩

/-! ## Idempotence of the lower-case folding (C40) -/

/-- Claim C40. `to_lower` is idempotent; it maps values below 256 to values below
256, which the 32-bit value mask keeps; and on 64-bit values its arithmetic
does not wrap: the result is again a 64-bit value. -/
theorem to_lower_idempotent (n : Nat) :
    to_lower (to_lower n) = to_lower n ∧
    (n < 256 → to_lower n < 256 ∧ to_lower n &&& 0xFFFFFFFF = to_lower n) ∧
    (n < 2 ^ 64 → to_lower n < 2 ^ 64) := by
  have hcases : to_lower n = n ∨ (0x61 ≤ to_lower n ∧ to_lower n ≤ 0x7a) ∨
      (0xe0 ≤ to_lower n ∧ to_lower n ≤ 0xfe) := by
    unfold to_lower
    split
    · right; left; omega
    · split
      · right; right; omega
      · left; rfl
  have hfix : ∀ m, (0x61 ≤ m ∧ m ≤ 0x7a) ∨ (0xe0 ≤ m ∧ m ≤ 0xfe) → to_lower m = m := by
    intro m hm
    unfold to_lower
    rw [if_neg (by omega), if_neg (by omega)]
  have hle : to_lower n ≤ n + 0x20 ∧ (n < 256 → to_lower n < 256) := by
    unfold to_lower
    split
    · omega
    · split <;> omega
  refine ⟨?_, ?_, ?_⟩
  · rcases hcases with h | h
    · rw [h, h]
    · exact hfix _ h
  · intro h
    refine ⟨hle.2 h, ?_⟩
    have h256 := hle.2 h
    have : (0xFFFFFFFF : Nat) = 2 ^ 32 - 1 := by norm_num
    rw [this, Nat.and_pow_two_sub_one_eq_mod]
    exact Nat.mod_eq_of_lt (by omega)
  · intro h
    unfold to_lower
    split
    · omega
    · split <;> omega

/-- Claim C40 (witness). The upper-case letter A (0x41) is folded to a (0x61), which
is kept by a second folding and lies inside the value mask. -/
theorem to_lower_idempotent_witness :
    to_lower 0x41 = 0x61 ∧ to_lower (to_lower 0x41) = to_lower 0x41 ∧
    to_lower 0x41 &&& 0xFFFFFFFF = to_lower 0x41 :=
  ⟨by decide, (to_lower_idempotent 0x41).1, ((to_lower_idempotent 0x41).2.1 (by decide)).2⟩

/-! ## The CapsLock guard of the lock synchronizer (C36) -/

/-- Claim C36. If the logical key of the event is the primary logical key of a
CapsLock-flagged checked key, the event is a release and the inference is
still undecided, then `synchronize_lock_states_loop_body` for that key
synthesizes no event and returns the responder unchanged, whatever the bitmask
says. -/
theorem synchronize_lock_states_loop_body_undecided_release (key : Nat)
    (ck : FlKeyEmbedderCheckedKey) (context : SyncStateLoopContext)
    (self : FlKeyEmbedderResponder)
    (hkey : ck.primary_logical_key = context.event_logical_key)
    (hcaps : ck.is_caps_lock = true) (hup : context.is_down = false)
    (hund : self.caps_lock_state_logic_inferrence = kStateLogicUndecided) :
    synchronize_lock_states_loop_body key ck context self = (self, []) := by
  have hstep : lock_inferrence_step key ck context self = self := by
    unfold lock_inferrence_step update_caps_lock_state_logic_inferrence
    simp [hkey, hcaps, hup, hund]
  unfold synchronize_lock_states_loop_body
  simp only [hstep]
  split
  · rfl
  · rw [if_pos]
    simp [hkey, hcaps, hund]

/-- Claim C36 (witness). A CapsLock up event whose bitmask has the CapsLock bit, on
the fresh sample responder, whose inference is undecided: nothing is
synthesized and the responder is unchanged. -/
theorem synchronize_lock_states_loop_body_undecided_release_witness :
    synchronize_lock_states_loop_body 2 sampleCapsLock
      (sync_state_context sampleKeyMapping (capsLockEvent false 2)) sampleResponder =
      (sampleResponder, []) :=
  synchronize_lock_states_loop_body_undecided_release 2 sampleCapsLock
    (sync_state_context sampleKeyMapping (capsLockEvent false 2)) sampleResponder
    (by decide) (by decide) (by decide) (by decide)

/-! ## Bystander lock keys (C35) -/

/-- For a lock key with consistent records for which the body does not return at
its CapsLock guard, the stage recorded after the body is the stage demanded by
the event. -/
theorem synchronize_lock_states_loop_body_stage_after (key : Nat)
    (ck : FlKeyEmbedderCheckedKey) (context : SyncStateLoopContext)
    (self : FlKeyEmbedderResponder)
    (hbit : ∃ k, key = 2 ^ k) (hl : ck.primary_logical_key ≠ 0)
    (hpp : ck.primary_physical_key ≠ 0)
    (hcons : lookup_hash_table self.pressing_records (lock_physical_key ck self) = 0 ∨
      lookup_hash_table self.pressing_records (lock_physical_key ck self) =
        ck.primary_logical_key)
    (htab : lookup_hash_table self.logical_key_to_lock_bit ck.primary_logical_key = key)
    (hguard : ¬ ((ck.primary_logical_key = context.event_logical_key ∧
        ck.is_caps_lock = true) ∧
      (lock_inferrence_step key ck context self).caps_lock_state_logic_inferrence =
        kStateLogicUndecided)) :
    lock_stage_by_record key ck (synchronize_lock_states_loop_body key ck context self).1 =
      lock_stage_by_event key ck context (lock_inferrence_step key ck context self)
        (lock_stage_by_record key ck self) ∧
    lock_stage_by_event key ck context (lock_inferrence_step key ck context self)
        (lock_stage_by_record key ck self) < 4 := by
  have hinit := lock_walk_invariant_initial key ck context self hcons hl htab
  have hsr := lock_stage_by_record_lt key ck self
  have hse := lock_stage_by_event_lt key ck context (lock_inferrence_step key ck context self)
    (lock_stage_by_record key ck self) hsr
  have hp := lock_physical_key_ne_zero ck self hpp
  refine ⟨?_, hse⟩
  generalize hSE : lock_stage_by_event key ck context
    (lock_inferrence_step key ck context self) (lock_stage_by_record key ck self) = se at hse ⊢
  have hpl : lock_pressed_logical_key ck self = 0 ∨
      lock_pressed_logical_key ck self = ck.primary_logical_key := by
    unfold lock_pressed_logical_key
    unfold lock_physical_key at hcons
    simp only [] at hcons ⊢
    by_cases hm : lookup_hash_table self.mapping_records ck.primary_logical_key = 0
    · simp [hm]
    · simpa [hm] using hcons
  unfold synchronize_lock_states_loop_body
  simp only [hSE]
  rw [if_neg (not_not.2 hpl)]
  rw [if_neg (by simpa using hguard)]
  unfold lock_destination_stage
  simp only [kNumStages]
  by_cases hge : se ≥ lock_stage_by_record key ck self
  · simp only [hge, if_true, le_refl, not_true_eq_false, if_false]
    by_cases heq : lock_stage_by_record key ck self = se
    · simp only [heq, if_true, not_le]
      have := lock_stage_by_record_of_invariant key ck _ _ _ _ hl hp hinit
      rw [this, heq]
      omega
    · try simp only [heq, if_false]
      have hw := lock_walk_invariant_walk context key ck.primary_logical_key
        (lookup_hash_table self.mapping_records ck.primary_logical_key)
        (lock_physical_key ck self) hbit hl (se - lock_stage_by_record key ck self)
        (lock_stage_by_record key ck self) (lock_inferrence_step key ck context self) hinit
        (by omega)
      have := lock_stage_by_record_of_invariant key ck _ _ _ _ hl hp hw
      rw [this]
      omega
  · simp only [hge, if_false]
    rw [if_neg (by omega), if_neg (by omega)]
    have hw := lock_walk_invariant_walk context key ck.primary_logical_key
      (lookup_hash_table self.mapping_records ck.primary_logical_key)
      (lock_physical_key ck self) hbit hl (se + 4 - lock_stage_by_record key ck self)
      (lock_stage_by_record key ck self) (lock_inferrence_step key ck context self) hinit
      (by omega)
    have := lock_stage_by_record_of_invariant key ck _ _ _ _ hl hp hw
    rw [this]
    omega

/-- Claim C35. For a lock key that is not the key of the event and whose records
are consistent (its physical key is free or recorded with its logical key, and
`logical_key_to_lock_bit` maps its logical key to its lock bit): after
`synchronize_lock_states_loop_body` its recorded stage is 0 when the bitmask of
the event lacks its lock bit, and 1, 2 or 3 when the bitmask has it; and when
the bitmask has the bit and the recorded stage was already 1, 2 or 3, nothing is
synthesized and the responder is unchanged. -/
theorem synchronize_lock_states_loop_body_bystander (key : Nat)
    (ck : FlKeyEmbedderCheckedKey) (context : SyncStateLoopContext)
    (self : FlKeyEmbedderResponder)
    (hbit : ∃ k, key = 2 ^ k) (hl : ck.primary_logical_key ≠ 0)
    (hpp : ck.primary_physical_key ≠ 0)
    (hcons : lookup_hash_table self.pressing_records (lock_physical_key ck self) = 0 ∨
      lookup_hash_table self.pressing_records (lock_physical_key ck self) =
        ck.primary_logical_key)
    (htab : lookup_hash_table self.logical_key_to_lock_bit ck.primary_logical_key = key)
    (hother : ck.primary_logical_key ≠ context.event_logical_key) :
    (context.state &&& key = 0 →
      lock_stage_by_record key ck
        (synchronize_lock_states_loop_body key ck context self).1 = 0) ∧
    (context.state &&& key ≠ 0 →
      lock_stage_by_record key ck
          (synchronize_lock_states_loop_body key ck context self).1 = 1 ∨
      lock_stage_by_record key ck
          (synchronize_lock_states_loop_body key ck context self).1 = 2 ∨
      lock_stage_by_record key ck
          (synchronize_lock_states_loop_body key ck context self).1 = 3) ∧
    (context.state &&& key ≠ 0 → lock_stage_by_record key ck self ≠ 0 →
      synchronize_lock_states_loop_body key ck context self = (self, [])) := by
  have hsr := lock_stage_by_record_lt key ck self
  have hstep : lock_inferrence_step key ck context self = self := by
    unfold lock_inferrence_step
    simp [hother]
  have hse : lock_stage_by_event key ck context (lock_inferrence_step key ck context self)
      (lock_stage_by_record key ck self) =
      find_stage_by_others_event (lock_stage_by_record key ck self)
        (decide (context.state &&& key ≠ 0)) := by
    unfold lock_stage_by_event
    simp [hother]
  have hafter := (synchronize_lock_states_loop_body_stage_after key ck context self hbit hl hpp
    hcons htab (fun h => hother h.1.1)).1
  rw [hse] at hafter
  refine ⟨?_, ?_, ?_⟩
  · intro h0
    rw [hafter]
    simp [find_stage_by_others_event, hsr, h0]
  · intro h1
    rw [hafter]
    unfold find_stage_by_others_event
    simp only [hsr, not_true_eq_false, if_false, h1, ne_eq, not_false_eq_true, decide_True,
      Bool.not_true, Bool.false_eq_true]
    split <;> omega
  · intro h1 hne
    have hse2 : find_stage_by_others_event (lock_stage_by_record key ck self)
        (decide (context.state &&& key ≠ 0)) = lock_stage_by_record key ck self := by
      unfold find_stage_by_others_event
      simp [hsr, h1, hne]
    have hse3 : lock_stage_by_event key ck context self (lock_stage_by_record key ck self) =
        lock_stage_by_record key ck self := by
      rw [hstep] at hse
      exact hse.trans hse2
    unfold synchronize_lock_states_loop_body
    simp only [hstep, hse3]
    split
    · rfl
    · split
      · rfl
      · unfold lock_destination_stage
        simp

/-- Claim C35 (witness). NumLock on the fresh sample responder (stage 0) with a KeyA
down event: with NumLock's bit 16 in the bitmask the recorded stage afterwards
is 1; a further KeyA event with the bit changes nothing. -/
theorem synchronize_lock_states_loop_body_bystander_witness :
    lock_stage_by_record 16 sampleNumLock
      (synchronize_lock_states_loop_body 16 sampleNumLock
        (sync_state_context sampleKeyMapping (keyAEvent true 16)) sampleResponder).1 = 1 ∧
    synchronize_lock_states_loop_body 16 sampleNumLock
      (sync_state_context sampleKeyMapping (keyAEvent false 16))
      (synchronize_lock_states_loop_body 16 sampleNumLock
        (sync_state_context sampleKeyMapping (keyAEvent true 16)) sampleResponder).1 =
      ((synchronize_lock_states_loop_body 16 sampleNumLock
        (sync_state_context sampleKeyMapping (keyAEvent true 16)) sampleResponder).1, []) :=
  ⟨by decide,
   (synchronize_lock_states_loop_body_bystander 16 sampleNumLock
      (sync_state_context sampleKeyMapping (keyAEvent false 16))
      (synchronize_lock_states_loop_body 16 sampleNumLock
        (sync_state_context sampleKeyMapping (keyAEvent true 16)) sampleResponder).1
      ⟨4, rfl⟩ (by decide) (by decide) (by decide) (by decide) (by decide)).2.2
      (by decide) (by decide)⟩

/-! ## Invariants of the records (C37) -/

/-- A property of the responder that the four record updates keep is kept by the
walk of the lock synchronizer. -/
theorem synchronize_lock_states_for_preserves (P : FlKeyEmbedderResponder → Prop)
    (h1 : ∀ s p l, P s → P (update_pressing_state s p l))
    (h2 : ∀ s l d, P s → P (possibly_update_lock_bit s l d))
    (h3 : ∀ s p l, P s → P (update_mapping_record s p l))
    (context : SyncStateLoopContext) (logical_key recorded_physical_key physical_key : Nat)
    (steps : Nat) :
    ∀ (current_stage : Nat) (s : FlKeyEmbedderResponder), P s →
      P (synchronize_lock_states_for context logical_key recorded_physical_key physical_key
        steps current_stage s).1 := by
  induction steps with
  | zero => intro c s h; exact h
  | succ n ih =>
    intro c s h
    unfold synchronize_lock_states_for
    split
    · exact h
    · simp only []
      apply ih
      apply h2
      apply h1
      split
      · exact h3 _ _ _ h
      · exact h

theorem synchronize_lock_states_loop_body_preserves (P : FlKeyEmbedderResponder → Prop)
    (h1 : ∀ s p l, P s → P (update_pressing_state s p l))
    (h2 : ∀ s l d, P s → P (possibly_update_lock_bit s l d))
    (h3 : ∀ s p l, P s → P (update_mapping_record s p l))
    (h4 : ∀ s d e n, P s → P (update_caps_lock_state_logic_inferrence s d e n))
    (key : Nat) (ck : FlKeyEmbedderCheckedKey) (context : SyncStateLoopContext)
    (s : FlKeyEmbedderResponder) (h : P s) :
    P (synchronize_lock_states_loop_body key ck context s).1 := by
  have hstep : P (lock_inferrence_step key ck context s) := by
    unfold lock_inferrence_step
    simp only []
    split
    · exact h4 _ _ _ _ h
    · exact h
  unfold synchronize_lock_states_loop_body
  simp only []
  repeat' split
  all_goals first
    | exact h
    | exact hstep
    | exact synchronize_lock_states_for_preserves P h1 h2 h3 _ _ _ _ _ _ _ hstep

theorem synchronize_pressed_states_for_preserves (P : FlKeyEmbedderResponder → Prop)
    (h1 : ∀ s p l, P s → P (update_pressing_state s p l))
    (context : SyncStateLoopContext) (pbs : Bool) (keys : List Nat) :
    ∀ (s : FlKeyEmbedderResponder) (pbr : Bool), P s →
      P (synchronize_pressed_states_for context pbs keys s pbr).self := by
  induction keys with
  | nil => intro s pbr h; exact h
  | cons k rest ih =>
    intro s pbr h
    unfold synchronize_pressed_states_for
    simp only []
    split
    · exact h
    · split
      · exact ih _ _ (h1 _ _ _ h)
      · exact ih _ _ h

theorem synchronize_pressed_states_loop_body_preserves (P : FlKeyEmbedderResponder → Prop)
    (h1 : ∀ s p l, P s → P (update_pressing_state s p l))
    (h3 : ∀ s p l, P s → P (update_mapping_record s p l))
    (key : Nat) (ck : FlKeyEmbedderCheckedKey) (context : SyncStateLoopContext)
    (s : FlKeyEmbedderResponder) (h : P s) :
    P (synchronize_pressed_states_loop_body key ck context s).1 := by
  unfold synchronize_pressed_states_loop_body
  simp only []
  have hloop := synchronize_pressed_states_for_preserves P h1 context
    (decide (context.state &&& key ≠ 0))
    (if ck.secondary_logical_key = 0 then [ck.primary_logical_key]
      else [ck.primary_logical_key, ck.secondary_logical_key]) s false h
  generalize synchronize_pressed_states_for context _ _ s false = r at hloop
  split
  · exact hloop
  · split
    · apply h1
      split
      · exact h3 _ _ _ hloop
      · exact hloop
    · exact hloop

theorem foreach_checked_key_preserves (P : FlKeyEmbedderResponder → Prop)
    (body : Nat → FlKeyEmbedderCheckedKey → SyncStateLoopContext → FlKeyEmbedderResponder →
      FlKeyEmbedderResponder × List Call)
    (hbody : ∀ key ck context s, P s → P (body key ck context s).1)
    (context : SyncStateLoopContext) (entries : List (Nat × FlKeyEmbedderCheckedKey)) :
    ∀ s : FlKeyEmbedderResponder, P s → P (foreach_checked_key body context entries s).1 := by
  induction entries with
  | nil => intro s h; exact h
  | cons e rest ih =>
    intro s h
    obtain ⟨key, ck⟩ := e
    simp only [foreach_checked_key]
    exact ih _ (hbody key ck context s h)

/-- A property of the responder that the four record updates keep is kept by the
handler. -/
theorem handle_event_preserves (P : FlKeyEmbedderResponder → Prop)
    (h1 : ∀ s p l, P s → P (update_pressing_state s p l))
    (h2 : ∀ s l d, P s → P (possibly_update_lock_bit s l d))
    (h3 : ∀ s p l, P s → P (update_mapping_record s p l))
    (h4 : ∀ s d e n, P s → P (update_caps_lock_state_logic_inferrence s d e n))
    (km : KeyMapping) (s : FlKeyEmbedderResponder) (event : FlKeyEvent) (h : P s) :
    P (fl_key_embedder_responder_handle_event km s event).1 := by
  have hsync : P (synchronize_states (sync_state_context km event) s).1 := by
    unfold synchronize_states
    simp only []
    apply foreach_checked_key_preserves P _
      (fun key ck context s => synchronize_pressed_states_loop_body_preserves P h1 h3 key ck
        context s)
    exact foreach_checked_key_preserves P _
      (fun key ck context s => synchronize_lock_states_loop_body_preserves P h1 h2 h3 h4 key ck
        context s) _ _ s h
  unfold fl_key_embedder_responder_handle_event
  simp only []
  generalize (synchronize_states (sync_state_context km event) s).1 = s1 at hsync
  unfold handle_real_event
  simp only []
  repeat' split
  all_goals first
    | exact hsync
    | exact h3 _ _ _ (h2 _ _ _ (h1 _ _ _ hsync))
    | exact h2 _ _ _ (h1 _ _ _ hsync)

theorem handle_events_preserves (P : FlKeyEmbedderResponder → Prop)
    (h1 : ∀ s p l, P s → P (update_pressing_state s p l))
    (h2 : ∀ s l d, P s → P (possibly_update_lock_bit s l d))
    (h3 : ∀ s p l, P s → P (update_mapping_record s p l))
    (h4 : ∀ s d e n, P s → P (update_caps_lock_state_logic_inferrence s d e n))
    (km : KeyMapping) (events : List FlKeyEvent) :
    ∀ s : FlKeyEmbedderResponder, P s → P (handle_events km s events) := by
  induction events with
  | nil => intro s h; exact h
  | cons e rest ih =>
    intro s h
    simp only [handle_events]
    exact ih _ (handle_event_preserves P h1 h2 h3 h4 km s e h)

theorem g_hash_table_lookup_eq_some_of_lookup_ne_zero (table : GHashTable) (key : Nat)
    (h : lookup_hash_table table key ≠ 0) :
    g_hash_table_lookup table key = some (lookup_hash_table table key) := by
  unfold lookup_hash_table at h ⊢
  cases hl : g_hash_table_lookup table key with
  | none => simp [hl] at h
  | some v => simp

theorem fl_key_embedder_responder_new_sound
    (modifiers locks : List (Nat × FlKeyEmbedderCheckedKey)) :
    lock_bit_table_sound (fl_key_embedder_responder_new modifiers locks) := by
  intro L bit h
  rcases g_hash_table_lookup_initialize_source locks L bit [] h with ⟨e, he, _, h2⟩ | h1
  · exact ⟨e, he, h2⟩
  · simp [g_hash_table_lookup] at h1

/-- Claim C37. In every state reached from a freshly constructed responder by a
sequence of calls of the handler, every bit set in `lock_records` is a bit of
a key of `lock_bit_to_checked_keys`, and every value stored in
`pressing_records` is non-zero. -/
theorem handle_events_records_well_formed (km : KeyMapping)
    (modifiers locks : List (Nat × FlKeyEmbedderCheckedKey)) (events : List FlKeyEvent) :
    lock_bits_tracked
      (handle_events km (fl_key_embedder_responder_new modifiers locks) events) ∧
    pressing_values_nonzero
      (handle_events km (fl_key_embedder_responder_new modifiers locks) events) ∧
    (∀ physical_key logical_key,
      g_hash_table_lookup
        (handle_events km (fl_key_embedder_responder_new modifiers locks)
          events).pressing_records physical_key = some logical_key → logical_key ≠ 0) := by
  have hinv := handle_events_preserves
    (fun s => lock_bit_table_sound s ∧ lock_bits_tracked s ∧ pressing_values_nonzero s)
    (by
      intro s p l h
      refine ⟨?_, ?_, ?_⟩
      · have := h.1
        unfold lock_bit_table_sound at this ⊢
        simpa using this
      · have := h.2.1
        unfold lock_bits_tracked at this ⊢
        simpa using this
      · have h3 := h.2.2
        unfold pressing_values_nonzero at h3 ⊢
        unfold update_pressing_state
        split
        · rename_i hl
          split
          · intro kv hkv
            simp only [g_hash_table_insert, g_hash_table_remove, List.mem_cons,
              List.mem_filter] at hkv
            rcases hkv with hkv | hkv
            · rw [hkv]; exact hl
            · exact h3 kv hkv.1
          · exact h3
        · split
          · intro kv hkv
            simp only [g_hash_table_remove, List.mem_filter] at hkv
            exact h3 kv hkv.1
          · exact h3)
    (by
      intro s l d h
      refine ⟨?_, ?_, ?_⟩
      · have := h.1
        unfold lock_bit_table_sound at this ⊢
        simpa using this
      · have hs := h.1
        have ht := h.2.1
        unfold lock_bits_tracked at ht ⊢
        unfold lock_bit_table_sound at hs
        cases d
        · simpa [possibly_update_lock_bit] using ht
        · rw [possibly_update_lock_bit_down]
          simp only [Nat.testBit_xor]
          intro i hi
          by_cases hx : s.lock_records.testBit i = true
          · exact ht i hx
          · have hb : (lookup_hash_table s.logical_key_to_lock_bit l).testBit i = true := by
              cases hc : (lookup_hash_table s.logical_key_to_lock_bit l).testBit i
              · simp [hc] at hi
                exact absurd hi hx
              · rfl
            have hne : lookup_hash_table s.logical_key_to_lock_bit l ≠ 0 := by
              intro h0
              rw [h0] at hb
              simp at hb
            obtain ⟨e, he, heq⟩ := hs l _
              (g_hash_table_lookup_eq_some_of_lookup_ne_zero _ _ hne)
            exact ⟨e, he, by rw [heq]; exact hb⟩
      · have := h.2.2
        unfold pressing_values_nonzero at this ⊢
        simpa using this)
    (by
      intro s p l h
      exact h)
    (by
      intro s d e n h
      have hst := update_caps_lock_state_logic_inferrence_static s d e n
      have hrec : (update_caps_lock_state_logic_inferrence s d e n).lock_records =
            s.lock_records ∧
          (update_caps_lock_state_logic_inferrence s d e n).pressing_records =
            s.pressing_records := by
        unfold update_caps_lock_state_logic_inferrence
        simp only []
        repeat' split
        all_goals exact ⟨rfl, rfl⟩
      unfold lock_bit_table_sound lock_bits_tracked pressing_values_nonzero at h ⊢
      rw [hst.2.2.1, hst.2.2.2, hrec.1, hrec.2]
      exact h)
    km events (fl_key_embedder_responder_new modifiers locks)
    ⟨by
      intro L bit h
      exact (fl_key_embedder_responder_new_sound modifiers locks) L bit h,
     by
      intro i hi
      simp [fl_key_embedder_responder_new] at hi,
     by
      intro kv hkv
      simp [fl_key_embedder_responder_new] at hkv⟩
  refine ⟨hinv.2.1, hinv.2.2, ?_⟩
  intro p l hl
  have hmem : (p, l) ∈ (handle_events km (fl_key_embedder_responder_new modifiers locks)
      events).pressing_records := by
    generalize (handle_events km (fl_key_embedder_responder_new modifiers locks)
      events).pressing_records = table at hl
    induction table with
    | nil => simp [g_hash_table_lookup] at hl
    | cons kv rest ih =>
      obtain ⟨k, v⟩ := kv
      simp only [g_hash_table_lookup] at hl
      split at hl
      · rename_i hk
        simp only [Option.some.injEq] at hl
        rw [hk, hl]
        exact List.mem_cons_self _ _
      · exact List.mem_cons_of_mem _ (ih hl)
  exact hinv.2.2 _ hmem

/-- Claim C37 (witness). After a KeyA down event whose bitmask has the CapsLock and
Shift bits, handled by the fresh sample responder, `lock_records` is 2, the
CapsLock bit, and the three physical keys recorded pressed carry non-zero
logical keys. -/
theorem handle_events_records_well_formed_witness :
    (handle_events sampleKeyMapping sampleResponder [keyAEvent true 3]).lock_records = 2 ∧
    (handle_events sampleKeyMapping sampleResponder
      [keyAEvent true 3]).pressing_records.length = 3 ∧
    pressing_values_nonzero
      (handle_events sampleKeyMapping sampleResponder [keyAEvent true 3]) :=
  ⟨by decide, by decide,
   (handle_events_records_well_formed sampleKeyMapping sampleModifiers sampleLocks
      [keyAEvent true 3]).2.1⟩

/-! ## The merged container layer (C34) -/

theorem merged_container_layer_add_all (added : List Layer) :
    ∀ children : List Layer,
      added.foldlM MergedContainerLayer.Add { layers_ := [Layer.container children] } =
        some { layers_ := [Layer.container (children ++ added)] } := by
  induction added with
  | nil => intro children; simp
  | cons layer rest ih =>
    intro children
    simp only [List.foldlM_cons]
    have h : MergedContainerLayer.Add { layers_ := [Layer.container children] } layer =
        some { layers_ := [Layer.container (children ++ [layer])] } := rfl
    rw [h]
    simp only [Option.bind_eq_bind, Option.some_bind]
    rw [ih]
    simp

/-- Claim C34. After any sequence of calls of `MergedContainerLayer::Add` on a newly
constructed `MergedContainerLayer`, every call passing its check, the merged
layer has exactly one direct child, the child container; the children of that
container are the added layers in insertion order; and `GetCacheableChild`
returns the added layer when exactly one layer was added and the child
container otherwise. -/
theorem merged_container_layer_children (added : List Layer) :
    added.foldlM MergedContainerLayer.Add MergedContainerLayer.new =
      some { layers_ := [Layer.container added] } ∧
    MergedContainerLayer.GetChildContainer { layers_ := [Layer.container added] } =
      some added ∧
    (∀ layer, added = [layer] →
      MergedContainerLayer.GetCacheableChild { layers_ := [Layer.container added] } =
        some layer) ∧
    (added.length ≠ 1 →
      MergedContainerLayer.GetCacheableChild { layers_ := [Layer.container added] } =
        some (Layer.container added)) := by
  refine ⟨?_, rfl, ?_, ?_⟩
  · have := merged_container_layer_add_all added []
    simpa [MergedContainerLayer.new, ContainerLayer.Add] using this
  · intro layer h
    subst h
    rfl
  · intro h
    simp [MergedContainerLayer.GetCacheableChild, MergedContainerLayer.GetChildContainer, h]

/-- Claim C34 (witness). One added layer is the cacheable child; with two added
layers the child container is. -/
theorem merged_container_layer_children_witness :
    MergedContainerLayer.GetCacheableChild { layers_ := [Layer.container [Layer.other 7]] } =
      some (Layer.other 7) ∧
    MergedContainerLayer.GetCacheableChild
      { layers_ := [Layer.container [Layer.other 7, Layer.other 8]] } =
      some (Layer.container [Layer.other 7, Layer.other 8]) :=
  ⟨(merged_container_layer_children [Layer.other 7]).2.2.1 _ rfl,
   (merged_container_layer_children [Layer.other 7, Layer.other 8]).2.2.2 (by decide)⟩

/-! ## Indices of `DiffChildren` (C39) -/

theorem to_int_to_size_t_of_range (x : Int) (h1 : -2 ^ 31 ≤ x) (h2 : x < 2 ^ 31) :
    to_int (to_size_t x) = x := by
  unfold to_int to_size_t
  omega

theorem read_layer_some (layers : List Layer) (i : Int) (h0 : 0 ≤ i)
    (h1 : i < layers.length) : ∃ layer, read_layer layers i = some layer := by
  unfold read_layer
  rw [if_pos h0]
  have hlt : i.toNat < layers.length := by omega
  exact ⟨layers[i.toNat], List.getElem?_eq_getElem hlt⟩

theorem diff_children_top_loop_invariant (is_replacing : Layer → Layer → Bool)
    (layers_ prev_layers : List Layer) (fuel : Nat) :
    ∀ d : DiffChildrenIndices,
      diff_children_invariant layers_.length prev_layers.length d →
      d.new_children_bottom + 1 - d.new_children_top < fuel →
      ∃ d2, diff_children_top_loop is_replacing layers_ prev_layers fuel d = some d2 ∧
        diff_children_invariant layers_.length prev_layers.length d2 := by
  induction fuel with
  | zero =>
    intro d hinv hf
    unfold diff_children_invariant at hinv
    omega
  | succ n ih =>
    intro d hinv hf
    unfold diff_children_top_loop
    split
    · rename_i hcond
      have hinv2 := hinv
      unfold diff_children_invariant at hinv2
      obtain ⟨a, ha⟩ := read_layer_some layers_ d.new_children_top (by omega) (by omega)
      obtain ⟨b, hb⟩ := read_layer_some prev_layers d.old_children_top (by omega) (by omega)
      rw [ha, hb]
      simp only []
      split
      · exact ⟨d, rfl, hinv⟩
      · apply ih
        · unfold diff_children_invariant
          simp only []
          omega
        · simp only []
          omega
    · exact ⟨d, rfl, hinv⟩

theorem diff_children_bottom_loop_invariant (is_replacing : Layer → Layer → Bool)
    (layers_ prev_layers : List Layer) (fuel : Nat) :
    ∀ d : DiffChildrenIndices,
      diff_children_invariant layers_.length prev_layers.length d →
      d.new_children_bottom + 1 - d.new_children_top < fuel →
      ∃ d2, diff_children_bottom_loop is_replacing layers_ prev_layers fuel d = some d2 ∧
        diff_children_invariant layers_.length prev_layers.length d2 := by
  induction fuel with
  | zero =>
    intro d hinv hf
    unfold diff_children_invariant at hinv
    omega
  | succ n ih =>
    intro d hinv hf
    unfold diff_children_bottom_loop
    split
    · rename_i hcond
      have hinv2 := hinv
      unfold diff_children_invariant at hinv2
      obtain ⟨a, ha⟩ := read_layer_some layers_ d.new_children_bottom (by omega) (by omega)
      obtain ⟨b, hb⟩ := read_layer_some prev_layers d.old_children_bottom (by omega) (by omega)
      rw [ha, hb]
      simp only []
      split
      · exact ⟨d, rfl, hinv⟩
      · apply ih
        · unfold diff_children_invariant
          simp only []
          omega
        · simp only []
          omega
    · exact ⟨d, rfl, hinv⟩

/-- On lists of fewer than 2^31 layers both loops of `DiffChildren` end without
reading outside a list, and the indices they leave satisfy the loop
invariant. -/
theorem diff_children_indices_invariant (is_replacing : Layer → Layer → Bool)
    (layers_ prev_layers : List Layer) (hn : layers_.length < 2 ^ 31)
    (hm : prev_layers.length < 2 ^ 31) :
    ∃ d, diff_children_indices is_replacing layers_ prev_layers = some d ∧
      diff_children_invariant layers_.length prev_layers.length d := by
  unfold diff_children_indices
  simp only []
  have hnb : to_int (to_size_t ((layers_.length : Int) - 1)) = (layers_.length : Int) - 1 :=
    to_int_to_size_t_of_range _ (by omega) (by omega)
  have hob : to_int (to_size_t ((prev_layers.length : Int) - 1)) =
      (prev_layers.length : Int) - 1 :=
    to_int_to_size_t_of_range _ (by omega) (by omega)
  rw [hnb, hob]
  obtain ⟨d1, h1, hinv1⟩ := diff_children_top_loop_invariant is_replacing layers_ prev_layers
    (layers_.length + 1)
    { new_children_top := 0, old_children_top := 0,
      new_children_bottom := (layers_.length : Int) - 1,
      old_children_bottom := (prev_layers.length : Int) - 1 }
    (by
      unfold diff_children_invariant
      dsimp only
      refine ⟨?_, ?_, ?_, ?_, ?_, ?_, ?_⟩ <;> omega)
    (by dsimp only; omega)
  rw [h1]
  simp only []
  have hinv1b := hinv1
  unfold diff_children_invariant at hinv1b
  exact diff_children_bottom_loop_invariant is_replacing layers_ prev_layers
    (layers_.length + 1) d1 hinv1 (by omega)

/-- Claim C39. In `ContainerLayer::DiffChildren` on a subtree that is not dirty, for
every new and old child list (of fewer than 2^31 layers, so that the sizes fit
`int`): the two loops end without reading outside a list; the matched prefix and
the matched suffix of the new list do not overlap and are as long as those of
the old list; every index of the unmatched old range lies inside the old list;
and for every matched new index `i` the index `i_prev` lies inside the old
list, is `i` for an element of the prefix, and is at the same distance from the
end as `i` for an element of the suffix. -/
theorem diff_children_indices_in_range (is_replacing : Layer → Layer → Bool)
    (layers_ prev_layers : List Layer) (hn : layers_.length < 2 ^ 31)
    (hm : prev_layers.length < 2 ^ 31) :
    ∃ d, diff_children_indices is_replacing layers_ prev_layers = some d ∧
      0 ≤ d.new_children_top ∧ d.new_children_top ≤ d.new_children_bottom + 1 ∧
      d.new_children_bottom < layers_.length ∧
      d.new_children_top = d.old_children_top ∧
      (layers_.length : Int) - 1 - d.new_children_bottom =
        (prev_layers.length : Int) - 1 - d.old_children_bottom ∧
      (∀ i : Int, d.old_children_top ≤ i → i ≤ d.old_children_bottom →
        0 ≤ i ∧ i < prev_layers.length ∧ ∃ layer, read_layer prev_layers i = some layer) ∧
      (∀ i : Int, 0 ≤ i → i < layers_.length →
        i < d.new_children_top ∨ d.new_children_bottom < i →
        0 ≤ diff_children_i_prev layers_ prev_layers d.new_children_top i ∧
        diff_children_i_prev layers_ prev_layers d.new_children_top i < prev_layers.length ∧
        (∃ layer, read_layer prev_layers
          (diff_children_i_prev layers_ prev_layers d.new_children_top i) = some layer) ∧
        (i < d.new_children_top →
          diff_children_i_prev layers_ prev_layers d.new_children_top i = i) ∧
        (d.new_children_bottom < i →
          (prev_layers.length : Int) -
              diff_children_i_prev layers_ prev_layers d.new_children_top i =
            (layers_.length : Int) - i)) := by
  obtain ⟨d, hd, hinv⟩ := diff_children_indices_invariant is_replacing layers_ prev_layers hn hm
  unfold diff_children_invariant at hinv
  refine ⟨d, hd, by omega, by omega, by omega, by omega, by omega, ?_, ?_⟩
  · intro i h1 h2
    exact ⟨by omega, by omega, read_layer_some prev_layers i (by omega) (by omega)⟩
  · intro i h0 hlt hmatched
    have hprev : diff_children_i_prev layers_ prev_layers d.new_children_top i =
        if i < d.new_children_top then i
        else (prev_layers.length : Int) - ((layers_.length : Int) - i) := by
      unfold diff_children_i_prev
      split
      · exact to_int_to_size_t_of_range i (by omega) (by omega)
      · have h1 : to_size_t i = i := by unfold to_size_t; omega
        have h2 : to_size_t ((layers_.length : Int) - i) = (layers_.length : Int) - i := by
          unfold to_size_t; omega
        rw [h1, h2]
        exact to_int_to_size_t_of_range _ (by omega) (by omega)
    rw [hprev]
    by_cases hi : i < d.new_children_top
    · rw [if_pos hi]
      exact ⟨h0, by omega, read_layer_some prev_layers i h0 (by omega), fun _ => rfl,
        fun h => by omega⟩
    · rw [if_neg hi]
      have hb : d.new_children_bottom < i := by
        rcases hmatched with h | h
        · exact absurd h hi
        · exact h
      exact ⟨by omega, by omega, read_layer_some prev_layers _ (by omega) (by omega),
        fun h => absurd h hi, fun _ => by omega⟩

/-- Claim C39 (witness). New children 1, 2, 3, 5 against old children 1, 4, 5, with
layers replacing each other when they are equal: one layer matches at the top
and one at the bottom; the last new layer, at index 3, is paired with the old
layer at index 2. -/
theorem diff_children_indices_in_range_witness :
    (diff_children_indices
      (fun a b => match a, b with
        | Layer.other x, Layer.other y => decide (x = y)
        | _, _ => false)
      [Layer.other 1, Layer.other 2, Layer.other 3, Layer.other 5]
      [Layer.other 1, Layer.other 4, Layer.other 5]).map
      (fun d => (d.new_children_top, d.old_children_top, d.new_children_bottom,
        d.old_children_bottom)) = some (1, 1, 2, 1) ∧
    diff_children_i_prev [Layer.other 1, Layer.other 2, Layer.other 3, Layer.other 5]
      [Layer.other 1, Layer.other 4, Layer.other 5] 1 3 = 2 ∧
    ∃ d, diff_children_indices
      (fun a b => match a, b with
        | Layer.other x, Layer.other y => decide (x = y)
        | _, _ => false)
      [Layer.other 1, Layer.other 2, Layer.other 3, Layer.other 5]
      [Layer.other 1, Layer.other 4, Layer.other 5] = some d ∧ 0 ≤ d.new_children_top :=
  ⟨by decide, by decide,
   (diff_children_indices_in_range
      (fun a b => match a, b with
        | Layer.other x, Layer.other y => decide (x = y)
        | _, _ => false)
      [Layer.other 1, Layer.other 2, Layer.other 3, Layer.other 5]
      [Layer.other 1, Layer.other 4, Layer.other 5] (by decide) (by decide)).imp
     (fun _ h => ⟨h.1, h.2.1⟩)⟩

/-! ## The frame timings recorder (C31, C32, C33) -/

/-- Claim C31. The recorder accepts each recording operation exactly in the state
that the previous operation of the order RecordVsync, RecordBuildStart,
RecordBuildEnd, RecordRasterStart, RecordRasterEnd leaves, and moves to the next
state; so `RecordBuildStart` on a fresh recorder fails the check
`state_ == State::kVsync`, and `RecordRasterStart` after `RecordVsync` alone
fails the check `state_ == State::kBuildEnd`. -/
theorem frame_timings_recorder_order (self : FrameTimingsRecorder)
    (frame_number_gen t1 t2 t3 : Nat) :
    ((∃ r, self.RecordVsync t1 t2 = Except.ok r) ↔
      self.state_ = FrameTimingsRecorder.State.kUninitialized) ∧
    ((∃ r, self.RecordBuildStart t1 = Except.ok r) ↔
      self.state_ = FrameTimingsRecorder.State.kVsync) ∧
    ((∃ r, self.RecordBuildEnd t1 = Except.ok r) ↔
      self.state_ = FrameTimingsRecorder.State.kBuildStart) ∧
    ((∃ r, self.RecordRasterStart t1 = Except.ok r) ↔
      self.state_ = FrameTimingsRecorder.State.kBuildEnd) ∧
    ((∃ r, self.RecordRasterEnd t1 t2 = Except.ok r) ↔
      self.state_ = FrameTimingsRecorder.State.kRasterStart) ∧
    (∀ r, self.RecordVsync t1 t2 = Except.ok r →
      r.state_ = FrameTimingsRecorder.State.kVsync) ∧
    (∀ r, self.RecordBuildStart t1 = Except.ok r →
      r.state_ = FrameTimingsRecorder.State.kBuildStart) ∧
    (∀ r, self.RecordBuildEnd t1 = Except.ok r →
      r.state_ = FrameTimingsRecorder.State.kBuildEnd) ∧
    (∀ r, self.RecordRasterStart t1 = Except.ok r →
      r.state_ = FrameTimingsRecorder.State.kRasterStart) ∧
    (∀ r, self.RecordRasterEnd t1 t2 = Except.ok r →
      r.state_ = FrameTimingsRecorder.State.kRasterEnd) ∧
    (FrameTimingsRecorder.new frame_number_gen).1.RecordBuildStart t1 =
      Except.error "Check failed: state_ == State::kVsync." ∧
    ((FrameTimingsRecorder.new frame_number_gen).1.RecordVsync t1 t2 >>=
        fun r => r.RecordRasterStart t3) =
      Except.error "Check failed: state_ == State::kBuildEnd." := by
  refine ⟨?_, ?_, ?_, ?_, ?_, ?_, ?_, ?_, ?_, ?_, rfl, rfl⟩
  · unfold FrameTimingsRecorder.RecordVsync
    split <;> simp_all
  · unfold FrameTimingsRecorder.RecordBuildStart
    split <;> simp_all
  · unfold FrameTimingsRecorder.RecordBuildEnd
    split <;> simp_all
  · unfold FrameTimingsRecorder.RecordRasterStart
    split <;> simp_all
  · unfold FrameTimingsRecorder.RecordRasterEnd
    split <;> simp_all
  · intro r h
    unfold FrameTimingsRecorder.RecordVsync at h
    split at h
    · injection h with h; rw [← h]
    · cases h
  · intro r h
    unfold FrameTimingsRecorder.RecordBuildStart at h
    split at h
    · injection h with h; rw [← h]
    · cases h
  · intro r h
    unfold FrameTimingsRecorder.RecordBuildEnd at h
    split at h
    · injection h with h; rw [← h]
    · cases h
  · intro r h
    unfold FrameTimingsRecorder.RecordRasterStart at h
    split at h
    · injection h with h; rw [← h]
    · cases h
  · intro r h
    unfold FrameTimingsRecorder.RecordRasterEnd at h
    split at h
    · injection h with h; rw [← h]
    · cases h

/-- Claim C31 (witness). `RecordBuildEnd` on a fresh recorder is refused, because a
fresh recorder is not in the state that `RecordBuildStart` leaves. -/
theorem frame_timings_recorder_order_witness :
    ¬ ∃ r, (FrameTimingsRecorder.new 0).1.RecordBuildEnd 5 = Except.ok r :=
  fun h => absurd ((frame_timings_recorder_order (FrameTimingsRecorder.new 0).1
    0 5 0 0).2.2.1.1 h) (by decide)

/-- Claim C32. Recorded in the valid order on a fresh recorder, every operation is
accepted and the getters return what was recorded: after `RecordVsync (s, t)`
the vsync start and target times are `s` and `t`; after `RecordBuildStart (b)`
and `RecordBuildEnd (e)` the build start and end times are `b` and `e`; after
`RecordRasterStart (r)` the raster start time is `r`; and the later recordings
leave the values recorded earlier as they are. -/
theorem frame_timings_recorder_getters (frame_number_gen s t b e r now wall_time : Nat) :
    ∃ r1 r2 r3 r4 r5 : FrameTimingsRecorder,
      (FrameTimingsRecorder.new frame_number_gen).1.RecordVsync s t = Except.ok r1 ∧
      r1.RecordBuildStart b = Except.ok r2 ∧ r2.RecordBuildEnd e = Except.ok r3 ∧
      r3.RecordRasterStart r = Except.ok r4 ∧
      r4.RecordRasterEnd now wall_time = Except.ok r5 ∧
      r1.GetVsyncStartTime = s ∧ r1.GetVsyncTargetTime = t ∧
      r2.GetBuildStartTime = b ∧ r3.GetBuildStartTime = b ∧ r3.GetBuildEndTime = e ∧
      r4.GetRasterStartTime = r ∧
      (∀ x ∈ [r2, r3, r4, r5], x.GetVsyncStartTime = s ∧ x.GetVsyncTargetTime = t) ∧
      (∀ x ∈ [r3, r4, r5], x.GetBuildStartTime = b) ∧
      (∀ x ∈ [r4, r5], x.GetBuildEndTime = e) ∧
      r5.GetRasterStartTime = r ∧ r5.GetRasterEndTime = now ∧
      r5.GetRasterEndWallTime = wall_time ∧
      (∀ x ∈ [r1, r2, r3, r4, r5], x.GetFrameNumber = frame_number_gen) := by
  refine ⟨_, _, _, _, _, rfl, rfl, rfl, rfl, rfl, rfl, rfl, rfl, rfl, rfl, rfl, ?_, ?_, ?_,
    rfl, rfl, rfl, ?_⟩
  all_goals
    intro x hx
    simp only [List.mem_cons, List.mem_singleton, List.not_mem_nil, or_false] at hx
    repeat' rcases hx with hx | hx
    all_goals first | rfl | exact ⟨rfl, rfl⟩

/-- Claim C32 (witness). Vsync recorded on the recorder with frame number 0 at the
time points 1 and 2. -/
theorem frame_timings_recorder_getters_witness :
    ∃ r1 : FrameTimingsRecorder,
      (FrameTimingsRecorder.new 0).1.RecordVsync 1 2 = Except.ok r1 ∧
      r1.GetVsyncStartTime = 1 ∧ r1.GetVsyncTargetTime = 2 := by
  obtain ⟨r1, _, _, _, _, h1, _, _, _, _, h6, h7, _⟩ :=
    frame_timings_recorder_getters 0 1 2 3 4 5 6 7
  exact ⟨r1, h1, h6, h7⟩

/-- Claim C33. For a recorder that has reached the state `state`, `CloneUntil` is
accepted and returns a recorder in that state with the same frame number and
the same value of every time point recorded up to and including that state;
and of two recorders constructed one after the other, the later one has the
strictly greater frame number. -/
theorem frame_timings_recorder_clone (self : FrameTimingsRecorder)
    (state : FrameTimingsRecorder.State) (frame_number_gen : Nat)
    (h : state.index ≤ self.state_.index) :
    (∃ cloned, self.CloneUntil state = Except.ok cloned ∧ cloned.state_ = state ∧
      cloned.GetFrameNumber = self.GetFrameNumber ∧
      (1 ≤ state.index → cloned.GetVsyncStartTime = self.GetVsyncStartTime ∧
        cloned.GetVsyncTargetTime = self.GetVsyncTargetTime) ∧
      (2 ≤ state.index → cloned.GetBuildStartTime = self.GetBuildStartTime) ∧
      (3 ≤ state.index → cloned.GetBuildEndTime = self.GetBuildEndTime) ∧
      (4 ≤ state.index → cloned.GetRasterStartTime = self.GetRasterStartTime) ∧
      (5 ≤ state.index → cloned.GetRasterEndTime = self.GetRasterEndTime ∧
        cloned.GetRasterEndWallTime = self.GetRasterEndWallTime)) ∧
    (FrameTimingsRecorder.new frame_number_gen).1.GetFrameNumber <
      (FrameTimingsRecorder.new
        (FrameTimingsRecorder.new frame_number_gen).2).1.GetFrameNumber := by
  constructor
  · unfold FrameTimingsRecorder.CloneUntil
    rw [if_pos h]
    refine ⟨_, rfl, rfl, rfl, ?_, ?_, ?_, ?_, ?_⟩
    · intro h1
      simp [FrameTimingsRecorder.GetVsyncStartTime, FrameTimingsRecorder.GetVsyncTargetTime, h1]
    · intro h1
      simp [FrameTimingsRecorder.GetBuildStartTime, h1]
    · intro h1
      simp [FrameTimingsRecorder.GetBuildEndTime, h1]
    · intro h1
      simp [FrameTimingsRecorder.GetRasterStartTime, h1]
    · intro h1
      simp [FrameTimingsRecorder.GetRasterEndTime, FrameTimingsRecorder.GetRasterEndWallTime, h1]
  · simp [FrameTimingsRecorder.new, FrameTimingsRecorder.GetFrameNumber]

/-- Claim C33 (witness). A recorder on which vsync and the build start were
recorded, cloned until the state after the build start: the clone has the
frame number and the build start time of the original. -/
theorem frame_timings_recorder_clone_witness :
    ∃ cloned,
      FrameTimingsRecorder.CloneUntil
        { (FrameTimingsRecorder.new 4).1 with
          state_ := FrameTimingsRecorder.State.kBuildStart, vsync_start_ := 1,
          vsync_target_ := 2, build_start_ := 3 }
        FrameTimingsRecorder.State.kBuildStart = Except.ok cloned ∧
      cloned.GetFrameNumber = 4 ∧ cloned.GetBuildStartTime = 3 := by
  obtain ⟨cloned, h1, _, h2, _, h3, _⟩ := (frame_timings_recorder_clone
    { (FrameTimingsRecorder.new 4).1 with
      state_ := FrameTimingsRecorder.State.kBuildStart, vsync_start_ := 1,
      vsync_target_ := 2, build_start_ := 3 }
    FrameTimingsRecorder.State.kBuildStart 0 (by decide)).1
  exact ⟨cloned, h1, h2, h3 (by decide)⟩

/-! ## Traversal order of the tables (C38): steps with disjoint footprints -/

theorem xor_eq_cancel (x y f : Nat) (h : x ^^^ y = f) : x = f ^^^ y := by
  rw [← h, Nat.xor_assoc, Nat.xor_self, Nat.xor_zero]

theorem and_of_xor_disjoint (f x k : Nat) (h : f &&& k = 0) :
    (f ^^^ x) &&& k = x &&& k := by
  rw [Nat.and_xor_distrib_right, h, Nat.zero_xor]

theorem same_records_refl (s : FlKeyEmbedderResponder) : same_records s s :=
  ⟨rfl, rfl, rfl, rfl, fun _ => rfl, fun _ => rfl⟩

theorem same_records_symm {s s2 : FlKeyEmbedderResponder} (h : same_records s s2) :
    same_records s2 s :=
  ⟨h.1.symm, h.2.1.symm, h.2.2.1.symm, h.2.2.2.1.symm, fun q => (h.2.2.2.2.1 q).symm,
    fun m => (h.2.2.2.2.2 m).symm⟩

theorem same_records_trans {s s2 s3 : FlKeyEmbedderResponder} (h1 : same_records s s2)
    (h2 : same_records s2 s3) : same_records s s3 :=
  ⟨h2.1.trans h1.1, h2.2.1.trans h1.2.1, h2.2.2.1.trans h1.2.2.1,
    h2.2.2.2.1.trans h1.2.2.2.1, fun q => (h2.2.2.2.2.1 q).trans (h1.2.2.2.2.1 q),
    fun m => (h2.2.2.2.2.2 m).trans (h1.2.2.2.2.2 m)⟩

/-- A step that is local to its footprint and frames the rest maps responders with
the same records to responders with the same records, with the same calls. -/
theorem body_congr (Inv : FlKeyEmbedderResponder → Prop)
    (B : FlKeyEmbedderResponder → FlKeyEmbedderResponder × List Call)
    (Q M D : Nat → Prop) (k : Nat) (i : Prop)
    (hloc : body_local Inv B Q M k i) (hfrm : body_frame Inv B Q M D i)
    (s s2 : FlKeyEmbedderResponder) (hs : Inv s) (hs2 : Inv s2) (h : same_records s s2) :
    same_records (B s).1 (B s2).1 ∧ (B s2).2 = (B s).2 := by
  obtain ⟨he, ht, hlr, hinf, hp, hm⟩ := h
  obtain ⟨hc, hag, hflip, hi⟩ := hloc s s2 hs ⟨he, ht, fun q _ => hp q, fun m _ => hm m⟩
    (by rw [hlr]) (fun _ => hinf)
  obtain ⟨_, hf1, _, hi1⟩ := hfrm s hs
  obtain ⟨_, hf2, _, hi2⟩ := hfrm s2 hs2
  refine ⟨⟨hag.1, hag.2.1, ?_, ?_, ?_, ?_⟩, hc⟩
  · rw [xor_eq_cancel _ _ _ hflip, hlr]
    exact (xor_eq_cancel _ _ _ rfl).symm
  · by_cases hii : i
    · exact hi hii
    · rw [hi2 hii, hi1 hii, hinf]
  · intro q
    by_cases hq : Q q
    · exact hag.2.2.1 q hq
    · rw [hf2.2.2.1 q hq, hf1.2.2.1 q hq, hp q]
  · intro m
    by_cases hmm : M m
    · exact hag.2.2.2 m hmm
    · rw [hf2.2.2.2 m hmm, hf1.2.2.2 m hmm, hm m]

/-! ## Traversal order of the tables (C38) -/

/-- Claim C38 (counterexample). The sample tables have pairwise distinct logical
keys and primary physical keys. After the key code of KeyA has carried Shift_L
(down, up) and then Control_L (down), and ShiftRight has gone down, a KeyA down
event without modifier bits is handled. With the Shift entry traversed first the
loop body of Shift returns at its guard (the physical key recorded for ShiftLeft
is held with ControlLeft) and ShiftRight stays recorded pressed; with the Control
entry traversed first ControlLeft is released first, the guard passes, and
ShiftRight is released by a synthesized up event that the other order does not
send. -/
theorem handle_event_depends_on_modifier_order :
    lookup_hash_table
      (fl_key_embedder_responder_handle_event controlKeyMapping
        (handle_events controlKeyMapping sampleResponder remappedShiftThenControl)
        (keyAEvent true 0)).1.pressing_records 0x700e5 = 0x200000103 ∧
    lookup_hash_table
      (fl_key_embedder_responder_handle_event controlKeyMapping
        (with_traversal_order
          (handle_events controlKeyMapping sampleResponder remappedShiftThenControl)
          sampleLocks [(4, sampleControl), (1, sampleShift)])
        (keyAEvent true 0)).1.pressing_records 0x700e5 = 0 ∧
    events_of 0x200000103
      (fl_key_embedder_responder_handle_event controlKeyMapping
        (handle_events controlKeyMapping sampleResponder remappedShiftThenControl)
        (keyAEvent true 0)).2 = [] ∧
    events_of 0x200000103
      (fl_key_embedder_responder_handle_event controlKeyMapping
        (with_traversal_order
          (handle_events controlKeyMapping sampleResponder remappedShiftThenControl)
          sampleLocks [(4, sampleControl), (1, sampleShift)])
        (keyAEvent true 0)).2 =
      [synthesized_event kFlutterKeyEventTypeUp 0x700e5 0x200000103 1000] ∧
    handle_events controlKeyMapping
      (fl_key_embedder_responder_new [(4, sampleControl), (1, sampleShift)] sampleLocks)
      remappedShiftThenControl =
      with_traversal_order
        (handle_events controlKeyMapping sampleResponder remappedShiftThenControl)
        sampleLocks [(4, sampleControl), (1, sampleShift)] ∧
    ¬ traversal_order_independent controlKeyMapping
      (handle_events controlKeyMapping sampleResponder remappedShiftThenControl)
      (keyAEvent true 0) sampleLocks [(4, sampleControl), (1, sampleShift)] := by
  refine ⟨by decide, by decide, by decide, by decide, by decide, ?_⟩
  intro h
  have h2 := h.1.2.2.2.2.1 0x700e5
  revert h2
  decide

/-- Two steps with independent footprints commute: either order leaves the same
records, and each step makes the calls it makes when it goes first. -/
theorem body_comm (Inv : FlKeyEmbedderResponder → Prop)
    (A B : FlKeyEmbedderResponder → FlKeyEmbedderResponder × List Call)
    (Qa Ma Da : Nat → Prop) (ka : Nat) (ia : Prop)
    (Qb Mb Db : Nat → Prop) (kb : Nat) (ib : Prop)
    (hlocA : body_local Inv A Qa Ma ka ia) (hfrmA : body_frame Inv A Qa Ma Da ia)
    (hlocB : body_local Inv B Qb Mb kb ib) (hfrmB : body_frame Inv B Qb Mb Db ib)
    (hQ : ∀ q, Qa q → ¬ Qb q) (hM : ∀ m, Ma m → ¬ Mb m) (hDa : Da kb) (hDb : Db ka)
    (hi : ¬ (ia ∧ ib)) (s : FlKeyEmbedderResponder) (hs : Inv s) :
    same_records (B (A s).1).1 (A (B s).1).1 ∧ (A (B s).1).2 = (A s).2 ∧
      (B (A s).1).2 = (B s).2 := by
  obtain ⟨hIA, hfA, hdA, hiA⟩ := hfrmA s hs
  obtain ⟨hIB, hfB, hdB, hiB⟩ := hfrmB s hs
  have hagA : agree_on Qa Ma s (B s).1 :=
    ⟨hfB.1, hfB.2.1, fun q hq => hfB.2.2.1 q (hQ q hq), fun m hm => hfB.2.2.2 m (hM m hm)⟩
  have hagB : agree_on Qb Mb s (A s).1 :=
    ⟨hfA.1, hfA.2.1, fun q hq => hfA.2.2.1 q (fun h => hQ q h hq),
      fun m hm => hfA.2.2.2 m (fun h => hM m h hm)⟩
  have hlrA : (B s).1.lock_records &&& ka = s.lock_records &&& ka := by
    have h := and_of_xor_disjoint _ s.lock_records ka (hdB ka hDb)
    rwa [Nat.xor_assoc, Nat.xor_self, Nat.xor_zero] at h
  have hlrB : (A s).1.lock_records &&& kb = s.lock_records &&& kb := by
    have h := and_of_xor_disjoint _ s.lock_records kb (hdA kb hDa)
    rwa [Nat.xor_assoc, Nat.xor_self, Nat.xor_zero] at h
  obtain ⟨hcA, hagA2, hflA, hinfA⟩ := hlocA s (B s).1 hs hagA hlrA
    (fun h => hiB (fun hb => hi ⟨h, hb⟩))
  obtain ⟨hcB, hagB2, hflB, hinfB⟩ := hlocB s (A s).1 hs hagB hlrB
    (fun h => hiA (fun ha => hi ⟨ha, h⟩))
  obtain ⟨_, hfBA, _, hiBA⟩ := hfrmB (A s).1 hIA
  obtain ⟨_, hfAB, _, hiAB⟩ := hfrmA (B s).1 hIB
  refine ⟨⟨?_, ?_, ?_, ?_, ?_, ?_⟩, hcA, hcB⟩
  · rw [hfAB.1, hfB.1, hfBA.1, hfA.1]
  · rw [hfAB.2.1, hfB.2.1, hfBA.2.1, hfA.2.1]
  · rw [xor_eq_cancel _ _ _ hflA, xor_eq_cancel _ _ _ hflB,
      xor_eq_cancel _ _ _ (rfl : (A s).1.lock_records ^^^ s.lock_records = _),
      xor_eq_cancel _ _ _ (rfl : (B s).1.lock_records ^^^ s.lock_records = _)]
    simp only [Nat.xor_assoc, Nat.xor_self, Nat.xor_zero]
    ac_rfl
  · by_cases ha : ia
    · rw [hinfA ha, hiBA (fun hb => hi ⟨ha, hb⟩)]
    · by_cases hb : ib
      · rw [hiAB ha, hinfB hb]
      · rw [hiAB ha, hiB hb, hiBA hb, hiA ha]
  · intro q
    by_cases ha : Qa q
    · rw [hagA2.2.2.1 q ha, hfBA.2.2.1 q (hQ q ha)]
    · by_cases hb : Qb q
      · rw [hfAB.2.2.1 q ha, hagB2.2.2.1 q hb]
      · rw [hfAB.2.2.1 q ha, hfB.2.2.1 q hb, hfBA.2.2.1 q hb, hfA.2.2.1 q ha]
  · intro m
    by_cases ha : Ma m
    · rw [hagA2.2.2.2 m ha, hfBA.2.2.2 m (hM m ha)]
    · by_cases hb : Mb m
      · rw [hfAB.2.2.2 m ha, hagB2.2.2.2 m hb]
      · rw [hfAB.2.2.2 m ha, hfB.2.2.2 m hb, hfBA.2.2.2 m hb, hfA.2.2.2 m ha]

/-- A traversal whose steps are local and framing maps responders with the same
records to responders with the same records, with the same calls. -/
theorem foreach_checked_key_congr (Inv : FlKeyEmbedderResponder → Prop)
    (body : Nat → FlKeyEmbedderCheckedKey → SyncStateLoopContext → FlKeyEmbedderResponder →
      FlKeyEmbedderResponder × List Call)
    (context : SyncStateLoopContext)
    (Q M D : Nat × FlKeyEmbedderCheckedKey → Nat → Prop)
    (k : Nat × FlKeyEmbedderCheckedKey → Nat) (i E : Nat × FlKeyEmbedderCheckedKey → Prop)
    (hInv : ∀ s s2, same_records s s2 → Inv s → Inv s2)
    (hloc : ∀ e, E e → body_local Inv (body e.1 e.2 context) (Q e) (M e) (k e) (i e))
    (hfrm : ∀ e, E e → body_frame Inv (body e.1 e.2 context) (Q e) (M e) (D e) (i e)) :
    ∀ (l : List (Nat × FlKeyEmbedderCheckedKey)), (∀ e ∈ l, E e) →
      ∀ s s2, Inv s → same_records s s2 →
        same_records (foreach_checked_key body context l s).1
          (foreach_checked_key body context l s2).1 ∧
        (foreach_checked_key body context l s2).2 = (foreach_checked_key body context l s).2 ∧
        Inv (foreach_checked_key body context l s).1 := by
  intro l
  induction l with
  | nil => intro _ s s2 hs h; exact ⟨h, rfl, hs⟩
  | cons e rest ih =>
    intro hE s s2 hs h
    obtain ⟨key, value⟩ := e
    have hEe := hE (key, value) (List.mem_cons_self _ _)
    have hc := body_congr Inv _ _ _ _ _ _ (hloc _ hEe) (hfrm _ hEe) s s2 hs (hInv s s2 h hs) h
    have hI := (hfrm _ hEe s hs).1
    obtain ⟨h1, h2, h3⟩ := ih (fun e he => hE e (List.mem_cons_of_mem _ he)) _ _ hI hc.1
    simp only [foreach_checked_key]
    exact ⟨h1, by rw [hc.2, h2], h3⟩

/-- A traversal whose steps are local, framing and pairwise independent leaves
the same records and makes the same calls, up to their order, in whatever order
the entries are visited. -/
theorem foreach_checked_key_perm (Inv : FlKeyEmbedderResponder → Prop)
    (body : Nat → FlKeyEmbedderCheckedKey → SyncStateLoopContext → FlKeyEmbedderResponder →
      FlKeyEmbedderResponder × List Call)
    (context : SyncStateLoopContext)
    (Q M D : Nat × FlKeyEmbedderCheckedKey → Nat → Prop)
    (k : Nat × FlKeyEmbedderCheckedKey → Nat) (i E : Nat × FlKeyEmbedderCheckedKey → Prop)
    (indep : Nat × FlKeyEmbedderCheckedKey → Nat × FlKeyEmbedderCheckedKey → Prop)
    (hInv : ∀ s s2, same_records s s2 → Inv s → Inv s2)
    (hloc : ∀ e, E e → body_local Inv (body e.1 e.2 context) (Q e) (M e) (k e) (i e))
    (hfrm : ∀ e, E e → body_frame Inv (body e.1 e.2 context) (Q e) (M e) (D e) (i e))
    (hsymm : ∀ a b, indep a b → indep b a)
    (hind : ∀ a b, E a → E b → indep a b →
      (∀ q, Q a q → ¬ Q b q) ∧ (∀ m, M a m → ¬ M b m) ∧ D a (k b) ∧ ¬ (i a ∧ i b))
    {l l2 : List (Nat × FlKeyEmbedderCheckedKey)} (hp : l.Perm l2) :
    (∀ e ∈ l, E e) → l.Pairwise indep → ∀ s s2, Inv s → same_records s s2 →
      same_records (foreach_checked_key body context l s).1
        (foreach_checked_key body context l2 s2).1 ∧
      (foreach_checked_key body context l s).2.Perm
        (foreach_checked_key body context l2 s2).2 := by
  induction hp with
  | nil => intro _ _ s s2 _ h; exact ⟨h, List.Perm.refl _⟩
  | cons e p ih =>
    intro hE hpw s s2 hs h
    obtain ⟨key, value⟩ := e
    have hEe := hE (key, value) (List.mem_cons_self _ _)
    have hc := body_congr Inv _ _ _ _ _ _ (hloc _ hEe) (hfrm _ hEe) s s2 hs (hInv s s2 h hs) h
    have hI := (hfrm _ hEe s hs).1
    obtain ⟨h1, h2⟩ := ih (fun e he => hE e (List.mem_cons_of_mem _ he))
      (List.Pairwise.of_cons hpw) _ _ hI hc.1
    simp only [foreach_checked_key]
    exact ⟨h1, by rw [hc.2]; exact List.Perm.append_left _ h2⟩
  | swap a b rest =>
    intro hE hpw s s2 hs h
    obtain ⟨ka, va⟩ := a
    obtain ⟨kb, vb⟩ := b
    have hEb := hE (kb, vb) (List.mem_cons_self _ _)
    have hEa := hE (ka, va) (List.mem_cons_of_mem _ (List.mem_cons_self _ _))
    have hErest : ∀ e ∈ rest, E e := fun e he =>
      hE e (List.mem_cons_of_mem _ (List.mem_cons_of_mem _ he))
    have hab : indep (kb, vb) (ka, va) :=
      List.rel_of_pairwise_cons hpw (List.mem_cons_self _ _)
    obtain ⟨hQ, hM, hD, hi⟩ := hind _ _ hEb hEa hab
    obtain ⟨_, _, hD2, _⟩ := hind _ _ hEa hEb (hsymm _ _ hab)
    obtain ⟨hrec, hcb, hca⟩ := body_comm Inv (body kb vb context) (body ka va context)
      _ _ _ _ _ _ _ _ _ _ (hloc _ hEb) (hfrm _ hEb) (hloc _ hEa) (hfrm _ hEa) hQ hM hD hD2 hi s hs
    -- the other order, from `s2`
    have hIs2 := hInv s s2 h hs
    have hc1 := body_congr Inv _ _ _ _ _ _ (hloc _ hEa) (hfrm _ hEa) s s2 hs hIs2 h
    have hIa := (hfrm _ hEa s hs).1
    have hIa2 := (hfrm _ hEa s2 hIs2).1
    have hc2 := body_congr Inv _ _ _ _ _ _ (hloc _ hEb) (hfrm _ hEb) _ _ hIa hIa2 hc1.1
    have hIb := (hfrm _ hEb s hs).1
    have hIab := (hfrm _ hEa _ hIb).1
    have hfin := same_records_trans hrec hc2.1
    obtain ⟨h1, h2, _⟩ := foreach_checked_key_congr Inv body context Q M D k i E hInv hloc hfrm
      rest hErest _ _ hIab hfin
    simp only [foreach_checked_key]
    refine ⟨h1, ?_⟩
    rw [h2, hc2.2, hcb, hc1.2, hca, ← List.append_assoc, ← List.append_assoc]
    exact List.Perm.append_right _ List.perm_append_comm
  | trans p1 p2 ih1 ih2 =>
    intro hE hpw s s2 hs h
    obtain ⟨h1, h2⟩ := ih1 hE hpw s s hs (same_records_refl s)
    obtain ⟨h3, h4⟩ := ih2 (fun e he => hE e (p1.mem_iff.mpr he))
      ((p1.pairwise_iff (fun {a b} => hsymm a b)).mp hpw) s s2 hs h
    exact ⟨same_records_trans h1 h3, h2.trans h4⟩

/-! ## Traversal order of the tables (C38): the record updates are local -/

theorem update_pressing_state_related (Q M : Nat → Prop) (c c2 : Nat)
    (s s2 : FlKeyEmbedderResponder) (p l : Nat) (hp : Q p)
    (h : records_related Q M c c2 s s2) :
    records_related Q M c c2 (update_pressing_state s p l) (update_pressing_state s2 p l) := by
  obtain ⟨⟨he, ht, hq, hm⟩, hlr⟩ := h
  refine ⟨⟨by simpa using he, by simpa using ht, fun q hQ => ?_, fun m hM => ?_⟩,
    by simpa using hlr⟩
  · rw [lookup_update_pressing_state, lookup_update_pressing_state, hq p hp, hq q hQ]
  · simpa using hm m hM

theorem update_mapping_record_related (Q M : Nat → Prop) (c c2 : Nat)
    (s s2 : FlKeyEmbedderResponder) (p l : Nat) (h : records_related Q M c c2 s s2) :
    records_related Q M c c2 (update_mapping_record s p l) (update_mapping_record s2 p l) := by
  obtain ⟨⟨he, ht, hq, hm⟩, hlr⟩ := h
  refine ⟨⟨by simpa using he, by simpa using ht, fun q hQ => by simpa using hq q hQ,
    fun m hM => ?_⟩, by simpa using hlr⟩
  simp only [update_mapping_record_mapping_records, lookup_hash_table_insert, hm m hM]

theorem possibly_update_lock_bit_related (Q M : Nat → Prop) (c c2 : Nat)
    (s s2 : FlKeyEmbedderResponder) (l : Nat) (d : Bool)
    (h : records_related Q M c c2 s s2) :
    records_related Q M c c2 (possibly_update_lock_bit s l d)
      (possibly_update_lock_bit s2 l d) := by
  obtain ⟨⟨he, ht, hq, hm⟩, hlr⟩ := h
  refine ⟨⟨by simpa using he, by simpa using ht, fun q hQ => by simpa using hq q hQ,
    fun m hM => by simpa using hm m hM⟩, ?_⟩
  rw [possibly_update_lock_bit_lock_records, possibly_update_lock_bit_lock_records, ht]
  have hx : ∀ x b y : Nat, (x ^^^ b) ^^^ y = (x ^^^ y) ^^^ b := by
    intro x b y
    ac_rfl
  split
  · rw [hx s2.lock_records, hx s.lock_records, hlr]
  · exact hlr

/-- The walk of the lock synchronizer is local to its physical key. -/
theorem synchronize_lock_states_for_related (context : SyncStateLoopContext)
    (logical_key recorded_physical_key physical_key : Nat) (Q M : Nat → Prop) (c c2 : Nat)
    (hP : Q physical_key) (steps : Nat) :
    ∀ (current_stage : Nat) (s s2 : FlKeyEmbedderResponder),
      records_related Q M c c2 s s2 →
      (synchronize_lock_states_for context logical_key recorded_physical_key physical_key
        steps current_stage s2).2 =
        (synchronize_lock_states_for context logical_key recorded_physical_key physical_key
          steps current_stage s).2 ∧
      records_related Q M c c2
        (synchronize_lock_states_for context logical_key recorded_physical_key physical_key
          steps current_stage s).1
        (synchronize_lock_states_for context logical_key recorded_physical_key physical_key
          steps current_stage s2).1 := by
  induction steps with
  | zero => intro stage s s2 h; exact ⟨rfl, h⟩
  | succ n ih =>
    intro stage s s2 h
    unfold synchronize_lock_states_for
    by_cases h9 : stage = 9
    · simp only [h9, if_true]
      exact ⟨trivial, h⟩
    · simp only [h9, if_false]
      have h1 : records_related Q M c c2
          (if (decide (stage % kNumStages = 0 ∨ stage % kNumStages = 2) = true) ∧
              recorded_physical_key = 0 then
            update_mapping_record s physical_key logical_key else s)
          (if (decide (stage % kNumStages = 0 ∨ stage % kNumStages = 2) = true) ∧
              recorded_physical_key = 0 then
            update_mapping_record s2 physical_key logical_key else s2) := by
        split
        · exact update_mapping_record_related _ _ _ _ _ _ _ _ h
        · exact h
      have h2 := update_pressing_state_related Q M c c2 _ _ physical_key
        (if (decide (stage % kNumStages = 0 ∨ stage % kNumStages = 2) = true) then logical_key
          else 0) hP h1
      have h3 := possibly_update_lock_bit_related Q M c c2 _ _ logical_key
        (decide (stage % kNumStages = 0 ∨ stage % kNumStages = 2)) h2
      obtain ⟨i1, i2⟩ := ih (stage + 1) _ _ h3
      refine ⟨?_, i2⟩
      rw [i1, synthesize_simple_event_congr _ _ _ _ _ _ h3.1.1]

/-- The inference step of the lock synchronizer changes nothing but the
inference. -/
theorem lock_inferrence_step_records (key : Nat) (ck : FlKeyEmbedderCheckedKey)
    (context : SyncStateLoopContext) (s : FlKeyEmbedderResponder) :
    (lock_inferrence_step key ck context s).engine = s.engine ∧
    (lock_inferrence_step key ck context s).logical_key_to_lock_bit =
      s.logical_key_to_lock_bit ∧
    (lock_inferrence_step key ck context s).pressing_records = s.pressing_records ∧
    (lock_inferrence_step key ck context s).mapping_records = s.mapping_records ∧
    (lock_inferrence_step key ck context s).lock_records = s.lock_records := by
  unfold lock_inferrence_step update_caps_lock_state_logic_inferrence
  simp only []
  repeat' split
  all_goals exact ⟨rfl, rfl, rfl, rfl, rfl⟩

/-- The lock synchronizer body is local: it reads the mapping record of its
logical key, the pressing record of its physical key, its own bit of
`lock_records` and, for the CapsLock-flagged key of the event, the inference. -/
theorem synchronize_lock_states_loop_body_related (key : Nat) (ck : FlKeyEmbedderCheckedKey)
    (context : SyncStateLoopContext) (Q M : Nat → Prop) (s s2 : FlKeyEmbedderResponder)
    (hag : agree_on Q M s s2) (hM : M ck.primary_logical_key)
    (hP : Q ck.primary_physical_key)
    (hrec : lookup_hash_table s.mapping_records ck.primary_logical_key ≠ 0 →
      Q (lookup_hash_table s.mapping_records ck.primary_logical_key))
    (hlr : s2.lock_records &&& key = s.lock_records &&& key)
    (hinf : (ck.primary_logical_key = context.event_logical_key ∧ ck.is_caps_lock = true) →
      s2.caps_lock_state_logic_inferrence = s.caps_lock_state_logic_inferrence) :
    (synchronize_lock_states_loop_body key ck context s2).2 =
      (synchronize_lock_states_loop_body key ck context s).2 ∧
    agree_on Q M (synchronize_lock_states_loop_body key ck context s).1
      (synchronize_lock_states_loop_body key ck context s2).1 ∧
    (synchronize_lock_states_loop_body key ck context s2).1.lock_records ^^^ s2.lock_records =
      (synchronize_lock_states_loop_body key ck context s).1.lock_records ^^^ s.lock_records ∧
    ((ck.primary_logical_key = context.event_logical_key ∧ ck.is_caps_lock = true) →
      (synchronize_lock_states_loop_body key ck context s2).1.caps_lock_state_logic_inferrence =
        (synchronize_lock_states_loop_body key ck context s).1.caps_lock_state_logic_inferrence) := by
  have em : lookup_hash_table s2.mapping_records ck.primary_logical_key =
      lookup_hash_table s.mapping_records ck.primary_logical_key := hag.2.2.2 _ hM
  have ephys : lock_physical_key ck s2 = lock_physical_key ck s := by
    unfold lock_physical_key
    simp only [em]
  have epress : lock_pressed_logical_key ck s2 = lock_pressed_logical_key ck s := by
    unfold lock_pressed_logical_key
    simp only [em]
    split
    · rfl
    · rename_i h0
      exact hag.2.2.1 _ (hrec h0)
  have hQphys : Q (lock_physical_key ck s) := by
    unfold lock_physical_key
    simp only []
    split
    · rename_i h0
      exact hrec h0
    · exact hP
  have esbr : lock_stage_by_record key ck s2 = lock_stage_by_record key ck s := by
    unfold lock_stage_by_record
    rw [epress, hlr]
  have r1 := lock_inferrence_step_records key ck context s
  have r2 := lock_inferrence_step_records key ck context s2
  have hstep_rel : records_related Q M s.lock_records s2.lock_records
      (lock_inferrence_step key ck context s) (lock_inferrence_step key ck context s2) := by
    refine ⟨⟨?_, ?_, ?_, ?_⟩, ?_⟩
    · rw [r1.1, r2.1]; exact hag.1
    · rw [r1.2.1, r2.2.1]; exact hag.2.1
    · intro q hq; rw [r1.2.2.1, r2.2.2.1]; exact hag.2.2.1 q hq
    · intro m hm; rw [r1.2.2.2.1, r2.2.2.2.1]; exact hag.2.2.2 m hm
    · rw [r1.2.2.2.2, r2.2.2.2.2, Nat.xor_self, Nat.xor_self]
  have hstep_inf : (ck.primary_logical_key = context.event_logical_key ∧
      ck.is_caps_lock = true) →
      (lock_inferrence_step key ck context s2).caps_lock_state_logic_inferrence =
        (lock_inferrence_step key ck context s).caps_lock_state_logic_inferrence := by
    intro hi
    have hi2 := hinf hi
    unfold lock_inferrence_step update_caps_lock_state_logic_inferrence
    simp only [esbr, hi2]
    repeat' split
    all_goals first | rfl | exact hi2
  have hg2 : ((decide (ck.primary_logical_key = context.event_logical_key) &&
        ck.is_caps_lock) = true ∧
      ¬ ((lock_inferrence_step key ck context s2).caps_lock_state_logic_inferrence ≠
        kStateLogicUndecided)) ↔
      ((decide (ck.primary_logical_key = context.event_logical_key) &&
        ck.is_caps_lock) = true ∧
      ¬ ((lock_inferrence_step key ck context s).caps_lock_state_logic_inferrence ≠
        kStateLogicUndecided)) := by
    constructor
    · rintro ⟨h1, h2⟩
      have hi : ck.primary_logical_key = context.event_logical_key ∧ ck.is_caps_lock = true := by
        simpa using h1
      exact ⟨h1, by rw [← hstep_inf hi]; exact h2⟩
    · rintro ⟨h1, h2⟩
      have hi : ck.primary_logical_key = context.event_logical_key ∧ ck.is_caps_lock = true := by
        simpa using h1
      exact ⟨h1, by rw [hstep_inf hi]; exact h2⟩
  have hsbe : ∀ sbr, lock_stage_by_event key ck context
      (lock_inferrence_step key ck context s2) sbr =
      lock_stage_by_event key ck context (lock_inferrence_step key ck context s) sbr := by
    intro sbr
    unfold lock_stage_by_event
    simp only []
    split
    · rename_i hev
      cases hc : ck.is_caps_lock
      · simp
      · rw [hstep_inf ⟨by simpa using hev, hc⟩]
    · rfl
  have hloop := fun steps stage => synchronize_lock_states_for_related context
    ck.primary_logical_key (lookup_hash_table s.mapping_records ck.primary_logical_key)
    (lock_physical_key ck s) Q M s.lock_records s2.lock_records hQphys steps stage _ _ hstep_rel
  unfold synchronize_lock_states_loop_body
  simp only [ephys, epress, esbr, em, hsbe, hg2]
  by_cases g1 : lock_pressed_logical_key ck s = 0 ∨
      lock_pressed_logical_key ck s = ck.primary_logical_key
  · simp only [g1, not_true_eq_false, if_false]
    have hstep_all : agree_on Q M (lock_inferrence_step key ck context s)
          (lock_inferrence_step key ck context s2) ∧
        (lock_inferrence_step key ck context s2).lock_records ^^^ s2.lock_records =
          (lock_inferrence_step key ck context s).lock_records ^^^ s.lock_records ∧
        ((ck.primary_logical_key = context.event_logical_key ∧ ck.is_caps_lock = true) →
          (lock_inferrence_step key ck context s2).caps_lock_state_logic_inferrence =
            (lock_inferrence_step key ck context s).caps_lock_state_logic_inferrence) :=
      ⟨hstep_rel.1, hstep_rel.2, hstep_inf⟩
    split
    · exact ⟨rfl, hstep_all⟩
    · split
      · exact ⟨rfl, hstep_all⟩
      · split
        · exact ⟨rfl, hstep_all⟩
        · obtain ⟨l1, l2⟩ := hloop
            (lock_destination_stage (lock_stage_by_event key ck context
              (lock_inferrence_step key ck context s) (lock_stage_by_record key ck s))
              (lock_stage_by_record key ck s) - lock_stage_by_record key ck s)
            (lock_stage_by_record key ck s)
          refine ⟨l1, l2.1, l2.2, fun hi => ?_⟩
          rw [synchronize_lock_states_for_inferrence, synchronize_lock_states_for_inferrence]
          exact hstep_inf hi
  · simp only [g1, not_false_eq_true, if_true]
    exact ⟨trivial, hag, by rw [Nat.xor_self, Nat.xor_self], hinf⟩

/-! ## Traversal order of the tables (C38): what the lock synchronizer leaves alone -/

/-- The walk of the lock synchronizer changes `lock_records` inside the lock bit
of its logical key only. -/
theorem synchronize_lock_states_for_other_bits (context : SyncStateLoopContext)
    (logical_key recorded_physical_key physical_key k2 : Nat) (steps : Nat) :
    ∀ (current_stage : Nat) (s : FlKeyEmbedderResponder),
      lookup_hash_table s.logical_key_to_lock_bit logical_key &&& k2 = 0 →
      (synchronize_lock_states_for context logical_key recorded_physical_key physical_key
        steps current_stage s).1.lock_records &&& k2 = s.lock_records &&& k2 := by
  induction steps with
  | zero => intro stage s _; rfl
  | succ n ih =>
    intro stage s h
    unfold synchronize_lock_states_for
    split
    · rfl
    · simp only []
      have hb : ∀ x : FlKeyEmbedderResponder,
          x.logical_key_to_lock_bit = s.logical_key_to_lock_bit →
          x.lock_records = s.lock_records →
          ∀ l d, (possibly_update_lock_bit (update_pressing_state x physical_key l)
            logical_key d).logical_key_to_lock_bit = s.logical_key_to_lock_bit ∧
          (possibly_update_lock_bit (update_pressing_state x physical_key l)
            logical_key d).lock_records &&& k2 = s.lock_records &&& k2 := by
        intro x hx1 hx2 l d
        refine ⟨by simpa using hx1, ?_⟩
        rw [possibly_update_lock_bit_lock_records]
        simp only [update_pressing_state_lock_bit_table, update_pressing_state_lock_records,
          hx1, hx2]
        split
        · rw [Nat.and_xor_distrib_right, h, Nat.xor_zero]
        · rfl
      split
      · have hx := hb (update_mapping_record s physical_key logical_key) rfl rfl
          (if (decide (stage % kNumStages = 0 ∨ stage % kNumStages = 2) = true) then logical_key
            else 0) (decide (stage % kNumStages = 0 ∨ stage % kNumStages = 2))
        rw [ih _ _ (by rw [hx.1]; exact h)]
        exact hx.2
      · have hx := hb s rfl rfl
          (if (decide (stage % kNumStages = 0 ∨ stage % kNumStages = 2) = true) then logical_key
            else 0) (decide (stage % kNumStages = 0 ∨ stage % kNumStages = 2))
        rw [ih _ _ (by rw [hx.1]; exact h)]
        exact hx.2

/-- What the lock synchronizer body leaves alone, for a lock key whose logical key
is recorded under no other physical key than its primary physical key. -/
theorem synchronize_lock_states_loop_body_footprint (key : Nat)
    (ck : FlKeyEmbedderCheckedKey) (context : SyncStateLoopContext)
    (s : FlKeyEmbedderResponder)
    (hfit : lookup_hash_table s.mapping_records ck.primary_logical_key = 0 ∨
      lookup_hash_table s.mapping_records ck.primary_logical_key = ck.primary_physical_key) :
    (synchronize_lock_states_loop_body key ck context s).1.engine = s.engine ∧
    (synchronize_lock_states_loop_body key ck context s).1.logical_key_to_lock_bit =
      s.logical_key_to_lock_bit ∧
    (∀ q, q ≠ ck.primary_physical_key →
      lookup_hash_table (synchronize_lock_states_loop_body key ck context s).1.pressing_records q =
        lookup_hash_table s.pressing_records q) ∧
    mapping_grows s (synchronize_lock_states_loop_body key ck context s).1 ck ∧
    (∀ k2, lookup_hash_table s.logical_key_to_lock_bit ck.primary_logical_key &&& k2 = 0 →
      ((synchronize_lock_states_loop_body key ck context s).1.lock_records ^^^ s.lock_records)
        &&& k2 = 0) ∧
    (¬ (ck.primary_logical_key = context.event_logical_key ∧ ck.is_caps_lock = true) →
      (synchronize_lock_states_loop_body key ck context s).1.caps_lock_state_logic_inferrence =
        s.caps_lock_state_logic_inferrence) := by
  have hst := (synchronize_lock_states_loop_body_static key ck context s).1
  have hfr := synchronize_lock_states_loop_body_frame key ck context s
  have hphys : lock_physical_key ck s = ck.primary_physical_key := by
    unfold lock_physical_key
    simp only []
    split
    · rename_i h0
      rcases hfit with h | h
      · exact absurd h h0
      · exact h
    · rfl
  refine ⟨hst.1, hst.2.2.2, fun q hq => hfr.1 q (by rw [hphys]; exact hq), hfr.2, ?_, ?_⟩
  · intro k2 hk
    have hlr : (synchronize_lock_states_loop_body key ck context s).1.lock_records &&& k2 =
        s.lock_records &&& k2 := by
      have r1 := lock_inferrence_step_records key ck context s
      unfold synchronize_lock_states_loop_body
      simp only []
      repeat' split
      all_goals first
        | rfl
        | exact congrArg (· &&& k2) r1.2.2.2.2
        | (rw [synchronize_lock_states_for_other_bits _ _ _ _ _ _ _ _ (by rw [r1.2.1]; exact hk)]
           exact congrArg (· &&& k2) r1.2.2.2.2)
    rw [Nat.and_xor_distrib_right, hlr, Nat.xor_self]
  · intro hi
    rcases synchronize_lock_states_loop_body_inferrence key ck context s with h | h
    · exact h
    · exact absurd ⟨h.2.2.1, h.2.2.2⟩ hi

/-! ## Traversal order of the tables (C38): the modifier synchronizer is local -/

/-- The `for` loop of the modifier synchronizer is local to the mapping records of
the logical keys it visits and the pressing records of their recorded physical
keys. -/
theorem synchronize_pressed_states_for_related (context : SyncStateLoopContext) (pbs : Bool)
    (Q M : Nat → Prop) (c c2 : Nat) (keys : List Nat) :
    ∀ (s s2 : FlKeyEmbedderResponder) (pbr : Bool), records_related Q M c c2 s s2 →
      (∀ k ∈ keys, M k ∧ (lookup_hash_table s.mapping_records k ≠ 0 →
        Q (lookup_hash_table s.mapping_records k))) →
      (synchronize_pressed_states_for context pbs keys s2 pbr).calls =
        (synchronize_pressed_states_for context pbs keys s pbr).calls ∧
      (synchronize_pressed_states_for context pbs keys s2 pbr).pressed_by_record =
        (synchronize_pressed_states_for context pbs keys s pbr).pressed_by_record ∧
      (synchronize_pressed_states_for context pbs keys s2 pbr).returned =
        (synchronize_pressed_states_for context pbs keys s pbr).returned ∧
      records_related Q M c c2 (synchronize_pressed_states_for context pbs keys s pbr).self
        (synchronize_pressed_states_for context pbs keys s2 pbr).self := by
  induction keys with
  | nil => intro s s2 pbr h _; exact ⟨rfl, rfl, rfl, h⟩
  | cons k rest ih =>
    intro s s2 pbr h hk
    have hk1 := hk k (List.mem_cons_self _ _)
    have em : lookup_hash_table s2.mapping_records k = lookup_hash_table s.mapping_records k :=
      h.1.2.2.2 k hk1.1
    have ep : pressed_logical_key_before_event s2 k = pressed_logical_key_before_event s k := by
      unfold pressed_logical_key_before_event
      simp only [em]
      split
      · rfl
      · rename_i h0
        exact h.1.2.2.1 _ (hk1.2 h0)
    unfold synchronize_pressed_states_for
    simp only [em, ep]
    split
    · exact ⟨rfl, rfl, rfl, h⟩
    · split
      · rename_i hc
        have hne : lookup_hash_table s.mapping_records k ≠ 0 := by
          intro h0
          have hz : pressed_logical_key_before_event s k = 0 := by
            unfold pressed_logical_key_before_event
            simp [h0]
          simp [hz] at hc
        have hr := update_pressing_state_related Q M c c2 s s2
          (lookup_hash_table s.mapping_records k) 0 (hk1.2 hne) h
        obtain ⟨i1, i2, i3, i4⟩ := ih _ _
          (pbr || decide (pressed_logical_key_before_event s k ≠ 0)) hr
          (fun k2 hk2 => by simpa using hk k2 (List.mem_cons_of_mem _ hk2))
        refine ⟨?_, i2, i3, i4⟩
        simp only []
        rw [i1, synthesize_simple_event_congr _ _ _ _ _ _ h.1.1]
      · exact ih _ _ _ h (fun k2 hk2 => hk k2 (List.mem_cons_of_mem _ hk2))

/-- The modifier synchronizer body is local: it reads the mapping records of its
logical keys and the pressing records of their physical keys. -/
theorem synchronize_pressed_states_loop_body_related (key : Nat)
    (ck : FlKeyEmbedderCheckedKey) (context : SyncStateLoopContext) (Q M : Nat → Prop)
    (c c2 : Nat) (s s2 : FlKeyEmbedderResponder) (h : records_related Q M c c2 s s2)
    (hk : ∀ k ∈ (if ck.secondary_logical_key = 0 then [ck.primary_logical_key]
        else [ck.primary_logical_key, ck.secondary_logical_key]),
      M k ∧ (lookup_hash_table s.mapping_records k ≠ 0 →
        Q (lookup_hash_table s.mapping_records k)))
    (hP : Q ck.primary_physical_key) :
    (synchronize_pressed_states_loop_body key ck context s2).2 =
      (synchronize_pressed_states_loop_body key ck context s).2 ∧
    records_related Q M c c2 (synchronize_pressed_states_loop_body key ck context s).1
      (synchronize_pressed_states_loop_body key ck context s2).1 := by
  obtain ⟨l1, l2, l3, l4⟩ := synchronize_pressed_states_for_related context
    (decide (context.state &&& key ≠ 0)) Q M c c2 _ s s2 false h hk
  have hmap := (synchronize_pressed_states_for_frame context
    (decide (context.state &&& key ≠ 0))
    (if ck.secondary_logical_key = 0 then [ck.primary_logical_key]
      else [ck.primary_logical_key, ck.secondary_logical_key]) s false).1
  have hk1 : M ck.primary_logical_key ∧
      (lookup_hash_table s.mapping_records ck.primary_logical_key ≠ 0 →
        Q (lookup_hash_table s.mapping_records ck.primary_logical_key)) :=
    hk _ (by split <;> simp)
  unfold synchronize_pressed_states_loop_body
  simp only []
  generalize synchronize_pressed_states_for context (decide (context.state &&& key ≠ 0))
    (if ck.secondary_logical_key = 0 then [ck.primary_logical_key]
      else [ck.primary_logical_key, ck.secondary_logical_key]) s false = r at l1 l2 l3 l4 hmap
  generalize synchronize_pressed_states_for context (decide (context.state &&& key ≠ 0))
    (if ck.secondary_logical_key = 0 then [ck.primary_logical_key]
      else [ck.primary_logical_key, ck.secondary_logical_key]) s2 false = r2 at l1 l2 l3 l4
  have em : lookup_hash_table r2.self.mapping_records ck.primary_logical_key =
      lookup_hash_table r.self.mapping_records ck.primary_logical_key :=
    l4.1.2.2.2 _ hk1.1
  simp only [l1, l2, l3, em]
  split
  · exact ⟨rfl, l4⟩
  · split
    · have hQ : Q (if lookup_hash_table r.self.mapping_records ck.primary_logical_key ≠ 0 then
          lookup_hash_table r.self.mapping_records ck.primary_logical_key
          else ck.primary_physical_key) := by
        split
        · rename_i h0
          rw [hmap] at h0 ⊢
          exact hk1.2 h0
        · exact hP
      have h1 : records_related Q M c c2
          (if lookup_hash_table r.self.mapping_records ck.primary_logical_key = 0 then
            update_mapping_record r.self
              (if lookup_hash_table r.self.mapping_records ck.primary_logical_key ≠ 0 then
                lookup_hash_table r.self.mapping_records ck.primary_logical_key
                else ck.primary_physical_key) ck.primary_logical_key
            else r.self)
          (if lookup_hash_table r.self.mapping_records ck.primary_logical_key = 0 then
            update_mapping_record r2.self
              (if lookup_hash_table r.self.mapping_records ck.primary_logical_key ≠ 0 then
                lookup_hash_table r.self.mapping_records ck.primary_logical_key
                else ck.primary_physical_key) ck.primary_logical_key
            else r2.self) := by
        split
        · exact update_mapping_record_related _ _ _ _ _ _ _ _ l4
        · exact l4
      have h2 := update_pressing_state_related Q M c c2 _ _ _ ck.primary_logical_key hQ h1
      refine ⟨?_, h2⟩
      simp only []
      rw [synthesize_simple_event_congr _ _ _ _ _ _ h1.1.1]
    · exact ⟨rfl, l4⟩

/-- The `for` loop of the modifier synchronizer leaves the pressing record of a
physical key alone that is not the recorded physical key of a logical key it
visits. -/
theorem synchronize_pressed_states_for_frame_recorded (context : SyncStateLoopContext)
    (pbs : Bool) (q : Nat) (keys : List Nat) :
    ∀ (s : FlKeyEmbedderResponder) (pbr : Bool),
      (∀ k ∈ keys, lookup_hash_table s.mapping_records k ≠ 0 →
        lookup_hash_table s.mapping_records k ≠ q) →
      lookup_hash_table
        (synchronize_pressed_states_for context pbs keys s pbr).self.pressing_records q =
        lookup_hash_table s.pressing_records q := by
  induction keys with
  | nil => intro s pbr _; rfl
  | cons k rest ih =>
    intro s pbr hk
    unfold synchronize_pressed_states_for
    simp only []
    split
    · rfl
    · split
      · rename_i hc
        have hne : lookup_hash_table s.mapping_records k ≠ 0 := by
          intro h0
          have hz : pressed_logical_key_before_event s k = 0 := by
            unfold pressed_logical_key_before_event
            simp [h0]
          simp [hz] at hc
        rw [ih _ _ (fun k2 hk2 => by simpa using hk k2 (List.mem_cons_of_mem _ hk2))]
        rw [lookup_update_pressing_state, if_neg (hk k (List.mem_cons_self _ _) hne)]
      · exact ih _ _ (fun k2 hk2 => hk k2 (List.mem_cons_of_mem _ hk2))

/-- The modifier synchronizer body leaves the pressing record of a physical key
alone that is neither its primary physical key nor the recorded physical key of
one of its logical keys. -/
theorem synchronize_pressed_states_loop_body_footprint (key : Nat)
    (ck : FlKeyEmbedderCheckedKey) (context : SyncStateLoopContext)
    (s : FlKeyEmbedderResponder) (q : Nat) (hP : ck.primary_physical_key ≠ q)
    (hk : ∀ k ∈ (if ck.secondary_logical_key = 0 then [ck.primary_logical_key]
        else [ck.primary_logical_key, ck.secondary_logical_key]),
      lookup_hash_table s.mapping_records k ≠ 0 → lookup_hash_table s.mapping_records k ≠ q) :
    lookup_hash_table (synchronize_pressed_states_loop_body key ck context s).1.pressing_records q =
      lookup_hash_table s.pressing_records q := by
  have hl := synchronize_pressed_states_for_frame_recorded context
    (decide (context.state &&& key ≠ 0)) q _ s false hk
  have hmap := (synchronize_pressed_states_for_frame context
    (decide (context.state &&& key ≠ 0))
    (if ck.secondary_logical_key = 0 then [ck.primary_logical_key]
      else [ck.primary_logical_key, ck.secondary_logical_key]) s false).1
  have hk1 := hk ck.primary_logical_key (by split <;> simp)
  unfold synchronize_pressed_states_loop_body
  simp only []
  generalize synchronize_pressed_states_for context (decide (context.state &&& key ≠ 0))
    (if ck.secondary_logical_key = 0 then [ck.primary_logical_key]
      else [ck.primary_logical_key, ck.secondary_logical_key]) s false = r at hl hmap
  split
  · exact hl
  · split
    · rw [lookup_update_pressing_state, if_neg]
      · split
        · exact hl
        · exact hl
      · split
        · rename_i h0
          rw [hmap] at h0 ⊢
          exact hk1 h0
        · exact hP
    · exact hl

/-! ## Traversal order of the tables (C38): the two traversals -/

/-- The lock traversal in another order: same records, same calls up to order. -/
theorem foreach_lock_perm (context : SyncStateLoopContext) (phys : Nat → Nat)
    (TL : List Nat) (tbl : GHashTable) (locks locks2 : List (Nat × FlKeyEmbedderCheckedKey))
    (hinj : ∀ L ∈ TL, ∀ L2 ∈ TL, phys L = phys L2 → L = L2)
    (hE : ∀ e ∈ locks, e.2.primary_logical_key ∈ TL ∧
      phys e.2.primary_logical_key = e.2.primary_physical_key ∧
      lookup_hash_table tbl e.2.primary_logical_key = e.1)
    (hpw : locks.Pairwise (fun a b =>
      a.2.primary_logical_key ≠ b.2.primary_logical_key ∧ a.1 &&& b.1 = 0))
    (hp : locks.Perm locks2) (s s2 : FlKeyEmbedderResponder)
    (hfit : ∀ L ∈ TL, lookup_hash_table s.mapping_records L = 0 ∨
      lookup_hash_table s.mapping_records L = phys L)
    (htbl : s.logical_key_to_lock_bit = tbl) (h : same_records s s2) :
    same_records (foreach_checked_key synchronize_lock_states_loop_body context locks s).1
      (foreach_checked_key synchronize_lock_states_loop_body context locks2 s2).1 ∧
    (foreach_checked_key synchronize_lock_states_loop_body context locks s).2.Perm
      (foreach_checked_key synchronize_lock_states_loop_body context locks2 s2).2 ∧
    (∀ L ∈ TL, lookup_hash_table
        (foreach_checked_key synchronize_lock_states_loop_body context locks s).1.mapping_records
        L = 0 ∨
      lookup_hash_table
        (foreach_checked_key synchronize_lock_states_loop_body context locks s).1.mapping_records
        L = phys L) := by
  have hInv : ∀ x x2 : FlKeyEmbedderResponder, same_records x x2 →
      ((∀ L ∈ TL, lookup_hash_table x.mapping_records L = 0 ∨
        lookup_hash_table x.mapping_records L = phys L) ∧ x.logical_key_to_lock_bit = tbl) →
      ((∀ L ∈ TL, lookup_hash_table x2.mapping_records L = 0 ∨
        lookup_hash_table x2.mapping_records L = phys L) ∧ x2.logical_key_to_lock_bit = tbl) := by
    intro x x2 hx hI
    refine ⟨fun L hL => ?_, hx.2.1.trans hI.2⟩
    rw [hx.2.2.2.2.2 L]
    exact hI.1 L hL
  have hloc : ∀ e : Nat × FlKeyEmbedderCheckedKey,
      (e.2.primary_logical_key ∈ TL ∧ phys e.2.primary_logical_key = e.2.primary_physical_key ∧
        lookup_hash_table tbl e.2.primary_logical_key = e.1) →
      body_local (fun x => (∀ L ∈ TL, lookup_hash_table x.mapping_records L = 0 ∨
          lookup_hash_table x.mapping_records L = phys L) ∧ x.logical_key_to_lock_bit = tbl)
        (synchronize_lock_states_loop_body e.1 e.2 context)
        (fun q => q = phys e.2.primary_logical_key) (fun m => m = e.2.primary_logical_key) e.1
        (e.2.primary_logical_key = context.event_logical_key ∧ e.2.is_caps_lock = true) := by
    intro e he x x2 hI hag hlr hinf
    refine synchronize_lock_states_loop_body_related e.1 e.2 context _ _ x x2 hag rfl
      he.2.1.symm (fun h0 => ?_) hlr hinf
    rcases hI.1 _ he.1 with h1 | h1
    · exact absurd h1 h0
    · exact h1
  have hfrm : ∀ e : Nat × FlKeyEmbedderCheckedKey,
      (e.2.primary_logical_key ∈ TL ∧ phys e.2.primary_logical_key = e.2.primary_physical_key ∧
        lookup_hash_table tbl e.2.primary_logical_key = e.1) →
      body_frame (fun x => (∀ L ∈ TL, lookup_hash_table x.mapping_records L = 0 ∨
          lookup_hash_table x.mapping_records L = phys L) ∧ x.logical_key_to_lock_bit = tbl)
        (synchronize_lock_states_loop_body e.1 e.2 context)
        (fun q => q = phys e.2.primary_logical_key) (fun m => m = e.2.primary_logical_key)
        (fun k2 => e.1 &&& k2 = 0)
        (e.2.primary_logical_key = context.event_logical_key ∧ e.2.is_caps_lock = true) := by
    intro e he x hI
    obtain ⟨f1, f2, f3, f4, f5, f6⟩ := synchronize_lock_states_loop_body_footprint e.1 e.2
      context x (by rw [← he.2.1]; exact hI.1 _ he.1)
    refine ⟨⟨fun L hL => ?_, f2.trans hI.2⟩, ⟨f1, f2, fun q hq => ?_, fun m hm => ?_⟩,
      fun k2 hk2 => ?_, f6⟩
    · rcases f4 L with h1 | ⟨h1, _, h3⟩
      · rw [h1]
        exact hI.1 L hL
      · right
        rw [h3, h1, he.2.1]
    · exact f3 q (by rw [← he.2.1]; exact hq)
    · rcases f4 m with h1 | ⟨h1, _, _⟩
      · exact h1
      · exact absurd h1 hm
    · exact f5 k2 (by rw [hI.2, he.2.2]; exact hk2)
  have hperm := foreach_checked_key_perm _ synchronize_lock_states_loop_body context
    (fun e q => q = phys e.2.primary_logical_key) (fun e m => m = e.2.primary_logical_key)
    (fun e k2 => e.1 &&& k2 = 0) (fun e => e.1)
    (fun e => e.2.primary_logical_key = context.event_logical_key ∧ e.2.is_caps_lock = true)
    (fun e => e.2.primary_logical_key ∈ TL ∧
      phys e.2.primary_logical_key = e.2.primary_physical_key ∧
      lookup_hash_table tbl e.2.primary_logical_key = e.1)
    (fun a b => a.2.primary_logical_key ≠ b.2.primary_logical_key ∧ a.1 &&& b.1 = 0)
    hInv hloc hfrm
    (fun a b hab => ⟨Ne.symm hab.1, by rw [Nat.and_comm]; exact hab.2⟩)
    (fun a b ha hb hab => ⟨fun q hq1 hq2 => hab.1 (hinj _ ha.1 _ hb.1 (hq1.symm.trans hq2)),
      fun m hm1 hm2 => hab.1 (hm1.symm.trans hm2), hab.2,
      fun hi => hab.1 (hi.1.1.trans hi.2.1.symm)⟩)
    hp hE hpw s s2 ⟨hfit, htbl⟩ h
  have hcongr := foreach_checked_key_congr _ synchronize_lock_states_loop_body context
    (fun e q => q = phys e.2.primary_logical_key) (fun e m => m = e.2.primary_logical_key)
    (fun e k2 => e.1 &&& k2 = 0) (fun e => e.1)
    (fun e => e.2.primary_logical_key = context.event_logical_key ∧ e.2.is_caps_lock = true)
    (fun e => e.2.primary_logical_key ∈ TL ∧
      phys e.2.primary_logical_key = e.2.primary_physical_key ∧
      lookup_hash_table tbl e.2.primary_logical_key = e.1)
    hInv hloc hfrm locks hE s s ⟨hfit, htbl⟩ (same_records_refl s)
  exact ⟨hperm.1, hperm.2, hcongr.2.2.1⟩

/-- The modifier traversal in another order: same records, same calls up to
order. -/
theorem foreach_modifier_perm (context : SyncStateLoopContext) (phys : Nat → Nat)
    (TL : List Nat) (modifiers modifiers2 : List (Nat × FlKeyEmbedderCheckedKey))
    (hinj : ∀ L ∈ TL, ∀ L2 ∈ TL, phys L = phys L2 → L = L2)
    (hE : ∀ e ∈ modifiers,
      (∀ k ∈ (if e.2.secondary_logical_key = 0 then [e.2.primary_logical_key]
        else [e.2.primary_logical_key, e.2.secondary_logical_key]), k ∈ TL) ∧
      phys e.2.primary_logical_key = e.2.primary_physical_key)
    (hpw : modifiers.Pairwise (fun a b => List.Disjoint
      (if a.2.secondary_logical_key = 0 then [a.2.primary_logical_key]
        else [a.2.primary_logical_key, a.2.secondary_logical_key])
      (if b.2.secondary_logical_key = 0 then [b.2.primary_logical_key]
        else [b.2.primary_logical_key, b.2.secondary_logical_key])))
    (hp : modifiers.Perm modifiers2) (s s2 : FlKeyEmbedderResponder)
    (hfit : ∀ L ∈ TL, lookup_hash_table s.mapping_records L = 0 ∨
      lookup_hash_table s.mapping_records L = phys L)
    (h : same_records s s2) :
    same_records
      (foreach_checked_key synchronize_pressed_states_loop_body context modifiers s).1
      (foreach_checked_key synchronize_pressed_states_loop_body context modifiers2 s2).1 ∧
    (foreach_checked_key synchronize_pressed_states_loop_body context modifiers s).2.Perm
      (foreach_checked_key synchronize_pressed_states_loop_body context modifiers2 s2).2 := by
  have hInv : ∀ x x2 : FlKeyEmbedderResponder, same_records x x2 →
      (∀ L ∈ TL, lookup_hash_table x.mapping_records L = 0 ∨
        lookup_hash_table x.mapping_records L = phys L) →
      (∀ L ∈ TL, lookup_hash_table x2.mapping_records L = 0 ∨
        lookup_hash_table x2.mapping_records L = phys L) := by
    intro x x2 hx hI L hL
    rw [hx.2.2.2.2.2 L]
    exact hI L hL
  have hprim : ∀ ck : FlKeyEmbedderCheckedKey, ck.primary_logical_key ∈
      (if ck.secondary_logical_key = 0 then [ck.primary_logical_key]
        else [ck.primary_logical_key, ck.secondary_logical_key]) := by
    intro ck
    split <;> simp
  have hloc : ∀ e : Nat × FlKeyEmbedderCheckedKey,
      ((∀ k ∈ (if e.2.secondary_logical_key = 0 then [e.2.primary_logical_key]
        else [e.2.primary_logical_key, e.2.secondary_logical_key]), k ∈ TL) ∧
        phys e.2.primary_logical_key = e.2.primary_physical_key) →
      body_local (fun x => ∀ L ∈ TL, lookup_hash_table x.mapping_records L = 0 ∨
          lookup_hash_table x.mapping_records L = phys L)
        (synchronize_pressed_states_loop_body e.1 e.2 context)
        (fun q => ∃ k ∈ (if e.2.secondary_logical_key = 0 then [e.2.primary_logical_key]
          else [e.2.primary_logical_key, e.2.secondary_logical_key]), q = phys k)
        (fun m => m ∈ (if e.2.secondary_logical_key = 0 then [e.2.primary_logical_key]
          else [e.2.primary_logical_key, e.2.secondary_logical_key])) 0 False := by
    intro e he x x2 hI hag _ _
    obtain ⟨c, r⟩ := synchronize_pressed_states_loop_body_related e.1 e.2 context _ _
      x.lock_records x2.lock_records x x2 ⟨hag, by rw [Nat.xor_self, Nat.xor_self]⟩
      (fun k hk => ⟨hk, fun h0 => ⟨k, hk, by
        rcases hI k (he.1 k hk) with h1 | h1
        · exact absurd h1 h0
        · exact h1⟩⟩)
      ⟨e.2.primary_logical_key, hprim e.2, he.2.symm⟩
    exact ⟨c, r.1, r.2, fun hf => hf.elim⟩
  have hfrm : ∀ e : Nat × FlKeyEmbedderCheckedKey,
      ((∀ k ∈ (if e.2.secondary_logical_key = 0 then [e.2.primary_logical_key]
        else [e.2.primary_logical_key, e.2.secondary_logical_key]), k ∈ TL) ∧
        phys e.2.primary_logical_key = e.2.primary_physical_key) →
      body_frame (fun x => ∀ L ∈ TL, lookup_hash_table x.mapping_records L = 0 ∨
          lookup_hash_table x.mapping_records L = phys L)
        (synchronize_pressed_states_loop_body e.1 e.2 context)
        (fun q => ∃ k ∈ (if e.2.secondary_logical_key = 0 then [e.2.primary_logical_key]
          else [e.2.primary_logical_key, e.2.secondary_logical_key]), q = phys k)
        (fun m => m ∈ (if e.2.secondary_logical_key = 0 then [e.2.primary_logical_key]
          else [e.2.primary_logical_key, e.2.secondary_logical_key]))
        (fun _ => True) False := by
    intro e he x hI
    have hst := (synchronize_pressed_states_loop_body_static e.1 e.2 context x).1
    obtain ⟨_, f4, f5, f6⟩ := synchronize_pressed_states_loop_body_frame e.1 e.2 context x
    refine ⟨fun L hL => ?_, ⟨hst.1, hst.2.2.2, fun q hq => ?_, fun m hm => ?_⟩,
      fun k2 _ => ?_, fun _ => f6⟩
    · rcases f4 L with h1 | ⟨h1, _, h3⟩
      · rw [h1]
        exact hI L hL
      · right
        rw [h3, h1, he.2]
    · refine synchronize_pressed_states_loop_body_footprint e.1 e.2 context x q
        (fun hc => hq ⟨e.2.primary_logical_key, hprim e.2, by rw [← hc, he.2]⟩)
        (fun k hk h0 hc => hq ⟨k, hk, ?_⟩)
      rcases hI k (he.1 k hk) with h1 | h1
      · exact absurd h1 h0
      · rw [← hc, h1]
    · rcases f4 m with h1 | ⟨h1, _, _⟩
      · exact h1
      · exact absurd (by rw [h1]; exact hprim e.2) hm
    · rw [f5, Nat.xor_self, Nat.zero_and]
  exact foreach_checked_key_perm _ synchronize_pressed_states_loop_body context
    (fun e q => ∃ k ∈ (if e.2.secondary_logical_key = 0 then [e.2.primary_logical_key]
      else [e.2.primary_logical_key, e.2.secondary_logical_key]), q = phys k)
    (fun e m => m ∈ (if e.2.secondary_logical_key = 0 then [e.2.primary_logical_key]
      else [e.2.primary_logical_key, e.2.secondary_logical_key]))
    (fun _ _ => True) (fun _ => 0) (fun _ => False)
    (fun e => (∀ k ∈ (if e.2.secondary_logical_key = 0 then [e.2.primary_logical_key]
        else [e.2.primary_logical_key, e.2.secondary_logical_key]), k ∈ TL) ∧
      phys e.2.primary_logical_key = e.2.primary_physical_key)
    (fun a b => List.Disjoint
      (if a.2.secondary_logical_key = 0 then [a.2.primary_logical_key]
        else [a.2.primary_logical_key, a.2.secondary_logical_key])
      (if b.2.secondary_logical_key = 0 then [b.2.primary_logical_key]
        else [b.2.primary_logical_key, b.2.secondary_logical_key]))
    hInv hloc hfrm
    (fun a b hab => hab.symm)
    (fun a b ha hb hab => ⟨fun q hq1 hq2 => by
        obtain ⟨k1, hk1, e1⟩ := hq1
        obtain ⟨k2, hk2, e2⟩ := hq2
        have hkk := hinj _ (ha.1 k1 hk1) _ (hb.1 k2 hk2) (e1.symm.trans e2)
        exact hab hk1 (by rw [hkk]; exact hk2),
      fun m hm1 hm2 => hab hm1 hm2, trivial, fun hi => hi.1⟩)
    hp hE hpw s s2 hfit h

/-- The part of the handler after the synchronizers maps responders with the same
records to responders with the same records, with the same calls. -/
theorem handle_real_event_congr (km : KeyMapping) (event : FlKeyEvent)
    (s s2 : FlKeyEmbedderResponder) (h : same_records s s2) :
    same_records (handle_real_event km event s).1 (handle_real_event km event s2).1 ∧
    (handle_real_event km event s2).2 = (handle_real_event km event s).2 := by
  obtain ⟨he, ht, hlr, hinf, hp, hm⟩ := h
  have hrel : records_related (fun _ => True) (fun _ => True) 0 0 s s2 :=
    ⟨⟨he, ht, fun q _ => hp q, fun m _ => hm m⟩, by rw [hlr]⟩
  have h1 := update_pressing_state_related _ _ 0 0 s s2 (event_to_physical_key km event)
    (if event.is_press = true then event_to_logical_key km event else 0) trivial hrel
  have h2 := possibly_update_lock_bit_related _ _ 0 0 _ _ (event_to_logical_key km event)
    event.is_press h1
  have h3 := update_mapping_record_related _ _ 0 0 _ _ (event_to_physical_key km event)
    (event_to_logical_key km event) h2
  have hsame : ∀ x x2 : FlKeyEmbedderResponder,
      records_related (fun _ => True) (fun _ => True) 0 0 x x2 →
      x2.caps_lock_state_logic_inferrence = x.caps_lock_state_logic_inferrence →
      same_records x x2 := by
    intro x x2 hx hi
    exact ⟨hx.1.1, hx.1.2.1, by simpa using hx.2, hi, fun q => hx.1.2.2.1 q trivial,
      fun m => hx.1.2.2.2 m trivial⟩
  unfold handle_real_event
  simp only [hp (event_to_physical_key km event), he]
  split
  · exact ⟨⟨he, ht, hlr, hinf, hp, hm⟩, rfl⟩
  · split
    · exact ⟨⟨he, ht, hlr, hinf, hp, hm⟩, rfl⟩
    · cases hd : event.is_press
      · simp only [hd, Bool.false_eq_true, if_false] at h2
        simp only [Bool.false_eq_true, if_false, possibly_update_lock_bit_engine,
          update_pressing_state_engine, he]
        split
        · exact ⟨hsame _ _ h2 (by simpa using hinf), rfl⟩
        · exact ⟨hsame _ _ h2 (by simpa using hinf), rfl⟩
      · simp only [hd, if_true] at h3
        simp only [if_true, possibly_update_lock_bit_engine, update_mapping_record_engine,
          update_pressing_state_engine, he]
        split
        · exact ⟨hsame _ _ h3 (by simpa using hinf), rfl⟩
        · exact ⟨hsame _ _ h3 (by simpa using hinf), rfl⟩

/-- Claim C38 (amended claim). Let the logical keys of the checked keys be pairwise
distinct and have pairwise distinct physical keys (the primary physical key for
a primary logical key), let the keys of the lock-bit table share no bit and be
the lock bits recorded for their logical keys. For every state in which the
mapping record of each of these logical keys is missing or the key's own
physical key, and every event, the records left by the handler
(`pressing_records`, `lock_records`, `mapping_records`, the inference) and the
events sent do not depend on the order in which the lock-bit table and the
modifier-bit table are traversed; only the order of the synthesized events may
differ. -/
theorem handle_event_traversal_order (km : KeyMapping) (s : FlKeyEmbedderResponder)
    (phys : Nat → Nat) (event : FlKeyEvent)
    (locks2 modifiers2 : List (Nat × FlKeyEmbedderCheckedKey))
    (hnodup : (tracked_logical_keys s.modifier_bit_to_checked_keys
      s.lock_bit_to_checked_keys).Nodup)
    (hinj : ∀ L ∈ tracked_logical_keys s.modifier_bit_to_checked_keys
        s.lock_bit_to_checked_keys,
      ∀ L2 ∈ tracked_logical_keys s.modifier_bit_to_checked_keys s.lock_bit_to_checked_keys,
        phys L = phys L2 → L = L2)
    (hlocks : ∀ e ∈ s.lock_bit_to_checked_keys,
      phys e.2.primary_logical_key = e.2.primary_physical_key)
    (hmods : ∀ e ∈ s.modifier_bit_to_checked_keys,
      phys e.2.primary_logical_key = e.2.primary_physical_key)
    (hbits : s.lock_bit_to_checked_keys.Pairwise (fun a b => a.1 &&& b.1 = 0))
    (htbl : ∀ e ∈ s.lock_bit_to_checked_keys,
      lookup_hash_table s.logical_key_to_lock_bit e.2.primary_logical_key = e.1)
    (hfit : ∀ L ∈ tracked_logical_keys s.modifier_bit_to_checked_keys
        s.lock_bit_to_checked_keys,
      lookup_hash_table s.mapping_records L = 0 ∨
        lookup_hash_table s.mapping_records L = phys L)
    (hp1 : s.lock_bit_to_checked_keys.Perm locks2)
    (hp2 : s.modifier_bit_to_checked_keys.Perm modifiers2) :
    traversal_order_independent km s event locks2 modifiers2 := by
  have hmem := tracked_logical_keys_mem s.modifier_bit_to_checked_keys
    s.lock_bit_to_checked_keys
  have hn := hnodup
  unfold tracked_logical_keys at hn
  rw [List.nodup_append] at hn
  obtain ⟨hn1, hn2, _⟩ := hn
  have hpw1 : s.lock_bit_to_checked_keys.Pairwise (fun a b =>
      a.2.primary_logical_key ≠ b.2.primary_logical_key ∧ a.1 &&& b.1 = 0) :=
    (List.pairwise_map.1 hn1).and hbits
  have hpw2 := (List.nodup_flatMap.1 hn2).2
  have hs : same_records s (with_traversal_order s locks2 modifiers2) :=
    ⟨rfl, rfl, rfl, rfl, fun _ => rfl, fun _ => rfl⟩
  obtain ⟨a1, a2, a3⟩ := foreach_lock_perm (sync_state_context km event) phys
    (tracked_logical_keys s.modifier_bit_to_checked_keys s.lock_bit_to_checked_keys)
    s.logical_key_to_lock_bit s.lock_bit_to_checked_keys locks2 hinj
    (fun e he => ⟨hmem.1 e he, hlocks e he, htbl e he⟩) hpw1 hp1 s
    (with_traversal_order s locks2 modifiers2) hfit rfl hs
  have hst1 := (foreach_checked_key_static synchronize_lock_states_loop_body
    synchronize_lock_states_loop_body_static (sync_state_context km event)
    s.lock_bit_to_checked_keys s).1.2.1
  have hst2 : (foreach_checked_key synchronize_lock_states_loop_body
      (sync_state_context km event)
      (with_traversal_order s locks2 modifiers2).lock_bit_to_checked_keys
      (with_traversal_order s locks2 modifiers2)).1.modifier_bit_to_checked_keys =
      modifiers2 :=
    (foreach_checked_key_static synchronize_lock_states_loop_body
      synchronize_lock_states_loop_body_static (sync_state_context km event) _ _).1.2.1
  obtain ⟨b1, b2⟩ := foreach_modifier_perm (sync_state_context km event) phys
    (tracked_logical_keys s.modifier_bit_to_checked_keys s.lock_bit_to_checked_keys)
    s.modifier_bit_to_checked_keys modifiers2 hinj
    (fun e he => ⟨fun k hk => by
        unfold tracked_logical_keys
        exact List.mem_append_right _ (List.mem_flatMap.2 ⟨e, he, hk⟩), hmods e he⟩)
    hpw2 hp2 _ _ a3 a1
  obtain ⟨c1, c2⟩ := handle_real_event_congr km event _ _ b1
  unfold traversal_order_independent fl_key_embedder_responder_handle_event synchronize_states
  simp only []
  rw [hst1, hst2]
  exact ⟨c1, (a2.append b2).append (List.Perm.of_eq c2.symm)⟩

/-- Claim C38 (witness). A KeyA down event whose bitmask has the Shift, CapsLock,
Control and NumLock bits, on the fresh sample responder: with both tables
traversed in the reverse order the calls come in another order, yet the records
are the same and the calls are the same up to their order. -/
theorem handle_event_traversal_order_witness :
    (fl_key_embedder_responder_handle_event sampleKeyMapping
      (with_traversal_order sampleResponder [(16, sampleNumLock), (2, sampleCapsLock)]
        [(4, sampleControl), (1, sampleShift)]) (keyAEvent true 23)).2 ≠
      (fl_key_embedder_responder_handle_event sampleKeyMapping sampleResponder
        (keyAEvent true 23)).2 ∧
    traversal_order_independent sampleKeyMapping sampleResponder (keyAEvent true 23)
      [(16, sampleNumLock), (2, sampleCapsLock)] [(4, sampleControl), (1, sampleShift)] :=
  ⟨by decide,
   handle_event_traversal_order sampleKeyMapping sampleResponder samplePhysicalKey
     (keyAEvent true 23) [(16, sampleNumLock), (2, sampleCapsLock)]
     [(4, sampleControl), (1, sampleShift)]
     (by decide) (by decide) (by decide) (by decide) (by decide) (by decide) (by decide)
     (List.Perm.swap _ _ _) (List.Perm.swap _ _ _)⟩

/-! ## The records after a real event (C7) -/

/-- Claim C7 (counterexample). A down event whose derived logical key is 0 (key
value 0 on the key code of KeyA), handled by the fresh sample responder, is
forwarded as a real down event with physical key 0x70004 and logical key 0;
afterwards `pressing_records` has no entry for the physical key:
`update_pressing_state` takes a logical key of 0 as a release and returns at
its check that the key was pressed. -/
theorem handle_event_zero_logical_key_not_recorded :
    (fl_key_embedder_responder_handle_event sampleKeyMapping sampleResponder
      zeroKeyvalEvent).2 =
      [Call.send_key_event true
        { timestamp := 1000, type := kFlutterKeyEventTypeDown, physical := 0x70004,
          logical := 0, character := none, synthesized := false } true] ∧
    g_hash_table_lookup (fl_key_embedder_responder_handle_event sampleKeyMapping
      sampleResponder zeroKeyvalEvent).1.pressing_records 0x70004 = none ∧
    (fl_key_embedder_responder_handle_event sampleKeyMapping sampleResponder
      zeroKeyvalEvent).1.pressing_records = [] := by
  decide

/-- Claim C7 (amended claim). For every event `ev` that
`fl_key_embedder_responder_handle_event` forwards as a real event (sent with the
response handler): `ev` carries the native event's physical and logical key; if
it is a down event, afterwards `pressing_records` maps the physical key to the
logical key provided the logical key is not 0 (and is as the synchronizers left
it when the logical key is 0), `mapping_records` maps the logical key to the
physical key, and `lock_records` is the synchronizers' value with the key's lock
bit flipped when `logical_key_to_lock_bit` has a bit for the logical key,
unchanged otherwise; if it is an up event, afterwards the physical key is absent
from `pressing_records`, `lock_records` and `mapping_records` are the
synchronizers' values, and `ev` carries no character. -/
theorem handle_event_real_event_updates_records (km : KeyMapping)
    (self : FlKeyEmbedderResponder) (event : FlKeyEvent) (ev : FlutterKeyEvent)
    (hreal : Call.send_key_event true ev true ∈
      (fl_key_embedder_responder_handle_event km self event).2) :
    ev.physical = event_to_physical_key km event ∧
    ev.logical = event_to_logical_key km event ∧
    ev.synthesized = false ∧
    (ev.type = kFlutterKeyEventTypeDown →
      (ev.logical ≠ 0 →
        g_hash_table_lookup
          (fl_key_embedder_responder_handle_event km self event).1.pressing_records
          ev.physical = some ev.logical) ∧
      (ev.logical = 0 →
        (fl_key_embedder_responder_handle_event km self event).1.pressing_records =
          (synchronize_states (sync_state_context km event) self).1.pressing_records) ∧
      g_hash_table_lookup
        (fl_key_embedder_responder_handle_event km self event).1.mapping_records
        ev.logical = some ev.physical ∧
      (fl_key_embedder_responder_handle_event km self event).1.lock_records =
        if lookup_hash_table self.logical_key_to_lock_bit ev.logical ≠ 0 then
          (synchronize_states (sync_state_context km event) self).1.lock_records ^^^
            lookup_hash_table self.logical_key_to_lock_bit ev.logical
        else (synchronize_states (sync_state_context km event) self).1.lock_records) ∧
    (ev.type = kFlutterKeyEventTypeUp →
      g_hash_table_lookup
        (fl_key_embedder_responder_handle_event km self event).1.pressing_records
        ev.physical = none ∧
      (fl_key_embedder_responder_handle_event km self event).1.lock_records =
        (synchronize_states (sync_state_context km event) self).1.lock_records ∧
      (fl_key_embedder_responder_handle_event km self event).1.mapping_records =
        (synchronize_states (sync_state_context km event) self).1.mapping_records ∧
      ev.character = none) := by
  have hs := synchronize_states_static (sync_state_context km event) self
  have hsync : ∀ ev, Call.send_key_event true ev true ∉
      (synchronize_states (sync_state_context km event) self).2 := by
    intro ev hmem
    obtain ⟨ev2, h2, _⟩ := hs.2 _ hmem
    simp at h2
  have htab : (synchronize_states (sync_state_context km event) self).1.logical_key_to_lock_bit
      = self.logical_key_to_lock_bit := hs.1.2.2.2
  revert hreal
  unfold fl_key_embedder_responder_handle_event
  simp only [List.mem_append]
  generalize (synchronize_states (sync_state_context km event) self).1 = s at htab ⊢
  rintro (hmem | hmem)
  · exact absurd hmem (hsync ev)
  · revert hmem
    unfold handle_real_event
    cases hp : event.is_press <;>
      by_cases hl : lookup_hash_table s.pressing_records (event_to_physical_key km event) = 0
      <;> cases he : s.engine <;>
      simp [hl, he, empty_event]
    · rintro rfl
      simp [possibly_update_lock_bit_lock_records, update_pressing_state, hl,
        g_hash_table_lookup_remove]
    · rintro rfl
      by_cases h0 : event_to_logical_key km event = 0 <;>
        simp [possibly_update_lock_bit_lock_records, update_pressing_state, hl, htab,
          g_hash_table_lookup_insert, h0]

/-- Claim C7 (witness). KeyA down on a fresh sample responder: the real event is
forwarded and KeyA is then recorded pressed with logical key `a`. -/
theorem handle_event_real_event_updates_records_witness :
    Call.send_key_event true keyARealDown true ∈
      (fl_key_embedder_responder_handle_event sampleKeyMapping sampleResponder
        (keyAEvent true 0)).2 ∧
    g_hash_table_lookup (fl_key_embedder_responder_handle_event sampleKeyMapping
        sampleResponder (keyAEvent true 0)).1.pressing_records 0x70004 = some 0x61 ∧
    g_hash_table_lookup (fl_key_embedder_responder_handle_event sampleKeyMapping
        sampleResponder (keyAEvent true 0)).1.mapping_records 0x61 = some 0x70004 :=
  ⟨by decide,
   ((handle_event_real_event_updates_records sampleKeyMapping sampleResponder
      (keyAEvent true 0) keyARealDown (by decide)).2.2.2.1 rfl).1 (by decide),
   ((handle_event_real_event_updates_records sampleKeyMapping sampleResponder
      (keyAEvent true 0) keyARealDown (by decide)).2.2.2.1 rfl).2.2.1⟩

/-! ## The same down event twice (C1): keys the synchronizers spare -/

/-- With the modifier's bit in the bitmask the `for` loop of the modifier
synchronizer releases nothing. -/
theorem synchronize_pressed_states_for_demanded_self (context : SyncStateLoopContext)
    (keys : List Nat) :
    ∀ (s : FlKeyEmbedderResponder) (pbr : Bool),
      (synchronize_pressed_states_for context true keys s pbr).self = s := by
  induction keys with
  | nil => intro s pbr; rfl
  | cons k rest ih =>
    intro s pbr
    unfold synchronize_pressed_states_for
    simp only []
    split
    · rfl
    · simp only [Bool.not_true, Bool.and_false, Bool.false_eq_true, if_false]
      exact ih _ _

/-- The modifier synchronizer body leaves alone a physical key that the modifier
spares. -/
theorem synchronize_pressed_states_loop_body_spares (key : Nat)
    (ck : FlKeyEmbedderCheckedKey) (context : SyncStateLoopContext)
    (s : FlKeyEmbedderResponder) (q : Nat)
    (h : modifier_key_spares context.state s key ck q) :
    lookup_hash_table (synchronize_pressed_states_loop_body key ck context s).1.pressing_records q =
      lookup_hash_table s.pressing_records q := by
  rcases h.2.2 with hbit | hsec
  · have hpbs : decide (context.state &&& key ≠ 0) = true := by simpa using hbit
    have hl := synchronize_pressed_states_for_demanded_self context
      (if ck.secondary_logical_key = 0 then [ck.primary_logical_key]
        else [ck.primary_logical_key, ck.secondary_logical_key]) s false
    unfold synchronize_pressed_states_loop_body
    simp only [hpbs]
    generalize synchronize_pressed_states_for context true
      (if ck.secondary_logical_key = 0 then [ck.primary_logical_key]
        else [ck.primary_logical_key, ck.secondary_logical_key]) s false = r at hl
    split
    · rw [hl]
    · split
      · rw [lookup_update_pressing_state, if_neg]
        · split <;> simp [hl]
        · rw [hl]
          split
          · exact h.2.1
          · exact h.1
      · rw [hl]
  · exact (synchronize_pressed_states_loop_body_frame key ck context s).1 q
      ⟨h.1, h.2.1, hsec⟩

theorem modifier_key_spares_of_grows {q state key : Nat} {s s2 : FlKeyEmbedderResponder}
    {ck : FlKeyEmbedderCheckedKey} (h : mapping_grows_avoiding q s s2)
    (ha : modifier_key_spares state s key ck q) : modifier_key_spares state s2 key ck q := by
  refine ⟨ha.1, ?_, ?_⟩
  · rcases h ck.primary_logical_key with e | ⟨_, n⟩
    · rw [e]
      exact ha.2.1
    · exact n
  · rcases ha.2.2 with hb | hsec
    · exact Or.inl hb
    · right
      rcases h ck.secondary_logical_key with e | ⟨_, n⟩
      · rw [e]
        exact hsec
      · exact n

/-- The modifier loop leaves alone a physical key that every modifier spares. -/
theorem foreach_modifier_spares (context : SyncStateLoopContext) (q : Nat)
    (entries : List (Nat × FlKeyEmbedderCheckedKey)) :
    ∀ self : FlKeyEmbedderResponder,
      (∀ e ∈ entries, modifier_key_spares context.state self e.1 e.2 q) →
      lookup_hash_table (foreach_checked_key synchronize_pressed_states_loop_body context
        entries self).1.pressing_records q = lookup_hash_table self.pressing_records q ∧
      mapping_grows_avoiding q self
        (foreach_checked_key synchronize_pressed_states_loop_body context entries self).1 := by
  induction entries with
  | nil =>
    intro self _
    exact ⟨rfl, mapping_grows_avoiding_refl q self⟩
  | cons e rest ih =>
    intro self h
    obtain ⟨key, ck⟩ := e
    have ha := h (key, ck) (List.mem_cons_self _ _)
    have hb := synchronize_pressed_states_loop_body_frame key ck context self
    have hg := mapping_grows_avoiding_of_grows hb.2.1 ha.1
    have hrest := ih (synchronize_pressed_states_loop_body key ck context self).1
      (fun e he => modifier_key_spares_of_grows hg (h e (List.mem_cons_of_mem _ he)))
    unfold foreach_checked_key
    simp only []
    exact ⟨hrest.1.trans (synchronize_pressed_states_loop_body_spares key ck context self q ha),
      mapping_grows_avoiding_trans hg hrest.2⟩

/-- The two synchronizer loops leave alone a physical key that no lock key uses
and every modifier spares. -/
theorem synchronize_states_spares (context : SyncStateLoopContext) (q : Nat)
    (self : FlKeyEmbedderResponder)
    (hlocks : ∀ e ∈ self.lock_bit_to_checked_keys, lock_key_avoids self e.2 q)
    (hmods : ∀ e ∈ self.modifier_bit_to_checked_keys,
      modifier_key_spares context.state self e.1 e.2 q) :
    lookup_hash_table (synchronize_states context self).1.pressing_records q =
      lookup_hash_table self.pressing_records q ∧
    mapping_grows_avoiding q self (synchronize_states context self).1 := by
  have h1 := foreach_lock_frame context q self.lock_bit_to_checked_keys self hlocks
  have hs := (foreach_checked_key_static synchronize_lock_states_loop_body
    synchronize_lock_states_loop_body_static context self.lock_bit_to_checked_keys self).1
  have h2 := foreach_modifier_spares context q
    (foreach_checked_key synchronize_lock_states_loop_body context
      self.lock_bit_to_checked_keys self).1.modifier_bit_to_checked_keys
    (foreach_checked_key synchronize_lock_states_loop_body context
      self.lock_bit_to_checked_keys self).1
    (by
      rw [hs.2.1]
      exact fun e he => modifier_key_spares_of_grows h1.2 (hmods e he))
  unfold synchronize_states
  simp only []
  exact ⟨h2.1.trans h1.1, mapping_grows_avoiding_trans h1.2 h2.2⟩

/-- Recording the real down event of a logical key that is not the modifier's
primary logical key, and is its secondary logical key only if the bitmask has
the modifier's bit, keeps the event's physical key spared. -/
theorem modifier_key_spares_after_real_down (state key : Nat) (s : FlKeyEmbedderResponder)
    (ck : FlKeyEmbedderCheckedKey) (p l : Nat) (h : modifier_key_spares state s key ck p)
    (hl1 : ck.primary_logical_key ≠ l)
    (hl2 : ck.secondary_logical_key ≠ l ∨ state &&& key ≠ 0) :
    modifier_key_spares state
      (update_mapping_record (possibly_update_lock_bit (update_pressing_state s p l) l true) p l)
      key ck p := by
  unfold modifier_key_spares at h ⊢
  refine ⟨h.1, by simp [Ne.symm hl1, h.2.1], ?_⟩
  rcases hl2 with hl2 | hb
  · rcases h.2.2 with hb | hsec
    · exact Or.inl hb
    · right
      simp [Ne.symm hl2, hsec]
  · exact Or.inl hb

/-- A down event of an unpressed physical key that the synchronizers spare, with a
logical key other than 0, handled twice: the first call finds the physical key
unrecorded after its synchronizers, the second finds it recorded. -/
theorem handle_event_down_twice_recorded (km : KeyMapping) (self : FlKeyEmbedderResponder)
    (event : FlKeyEvent) (hengine : self.engine = true) (hdown : event.is_press = true)
    (hlog : event_to_logical_key km event ≠ 0)
    (hfree : lookup_hash_table self.pressing_records (event_to_physical_key km event) = 0)
    (hlocks : ∀ e ∈ self.lock_bit_to_checked_keys,
      lock_key_avoids self e.2 (event_to_physical_key km event) ∧
      e.2.primary_logical_key ≠ event_to_logical_key km event)
    (hmods : ∀ e ∈ self.modifier_bit_to_checked_keys,
      modifier_key_spares event.state self e.1 e.2 (event_to_physical_key km event) ∧
      e.2.primary_logical_key ≠ event_to_logical_key km event ∧
      (e.2.secondary_logical_key ≠ event_to_logical_key km event ∨
        event.state &&& e.1 ≠ 0)) :
    lookup_hash_table
      (synchronize_states (sync_state_context km event) self).1.pressing_records
      (event_to_physical_key km event) = 0 ∧
    lookup_hash_table
      (synchronize_states (sync_state_context km event)
        (fl_key_embedder_responder_handle_event km self event).1).1.pressing_records
      (event_to_physical_key km event) ≠ 0 := by
  have hfr0 := synchronize_states_spares (sync_state_context km event)
    (event_to_physical_key km event) self (fun e he => (hlocks e he).1)
    (fun e he => (hmods e he).1)
  have hfr := hfr0.1
  rw [hfree] at hfr
  have h1 := handle_event_down_not_recorded km self event hengine hdown hfr
  have hst := (synchronize_states_static (sync_state_context km event) self).1
  generalize hS1 : fl_key_embedder_responder_handle_event km self event = r1 at *
  have hr1 : r1.1 = update_mapping_record
      (possibly_update_lock_bit
        (update_pressing_state (synchronize_states (sync_state_context km event) self).1
          (event_to_physical_key km event) (event_to_logical_key km event))
        (event_to_logical_key km event) true)
      (event_to_physical_key km event) (event_to_logical_key km event) := by
    rw [h1]
  have hpr1 : lookup_hash_table r1.1.pressing_records (event_to_physical_key km event) =
      event_to_logical_key km event := by
    rw [hr1]
    simp [lookup_update_pressing_state, hlog, hfr]
  have hlock1 : r1.1.lock_bit_to_checked_keys = self.lock_bit_to_checked_keys := by
    rw [hr1]
    simpa using hst.2.2.1
  have hmod1 : r1.1.modifier_bit_to_checked_keys = self.modifier_bit_to_checked_keys := by
    rw [hr1]
    simpa using hst.2.1
  have hfr1 := (synchronize_states_spares (sync_state_context km event)
    (event_to_physical_key km event) r1.1
    (by
      rw [hlock1, hr1]
      intro e he
      exact lock_key_avoids_after_real_down _ _ _ _
        (lock_key_avoids_of_grows hfr0.2 (hlocks e he).1) (hlocks e he).2)
    (by
      rw [hmod1, hr1]
      intro e he
      exact modifier_key_spares_after_real_down _ _ _ _ _ _
        (modifier_key_spares_of_grows hfr0.2 (hmods e he).1) (hmods e he).2.1
        (hmods e he).2.2)).1
  refine ⟨hfr, ?_⟩
  rw [hfr1, hpr1]
  exact hlog

/-- Claim C1 (amended claim). With an engine attached, for every state and every
native key-down event `e` whose derived logical key is not 0 and whose physical
key is not recorded pressed, such that the logical key is not the logical key of
a lock key nor the primary logical key of a modifier, is the secondary logical
key of a modifier only if the bitmask of `e` has that modifier's bit, and no
tracked key uses the physical key (as primary physical key, as the recorded
physical key of its primary logical key, or as the recorded physical key of a
secondary logical key whose modifier's bit the bitmask lacks): handling `e`
twice in a row forwards exactly one real event over the two calls together, the
down event of the first call; the first call ends by sending it with the
response handler attached, so that its caller is acknowledged once, with the
framework's answer; the second call ends by sending the empty event and
invoking the callback, once, with handled = true. -/
theorem duplicate_down_event_forwards_one_real_event (km : KeyMapping)
    (self : FlKeyEmbedderResponder) (event : FlKeyEvent)
    (hengine : self.engine = true) (hdown : event.is_press = true)
    (hlog : event_to_logical_key km event ≠ 0)
    (hfree : lookup_hash_table self.pressing_records (event_to_physical_key km event) = 0)
    (hlocks : ∀ e ∈ self.lock_bit_to_checked_keys,
      lock_key_avoids self e.2 (event_to_physical_key km event) ∧
      e.2.primary_logical_key ≠ event_to_logical_key km event)
    (hmods : ∀ e ∈ self.modifier_bit_to_checked_keys,
      modifier_key_spares event.state self e.1 e.2 (event_to_physical_key km event) ∧
      e.2.primary_logical_key ≠ event_to_logical_key km event ∧
      (e.2.secondary_logical_key ≠ event_to_logical_key km event ∨
        event.state &&& e.1 ≠ 0)) :
    real_events ((fl_key_embedder_responder_handle_event km self event).2 ++
        (fl_key_embedder_responder_handle_event km
          (fl_key_embedder_responder_handle_event km self event).1 event).2) =
      [{ timestamp := event_to_timestamp event, type := kFlutterKeyEventTypeDown,
         physical := event_to_physical_key km event,
         logical := event_to_logical_key km event,
         character := km.event_to_character event, synthesized := false }] ∧
    (fl_key_embedder_responder_handle_event km self event).2 =
      (synchronize_states (sync_state_context km event) self).2 ++
        [Call.send_key_event true
          { timestamp := event_to_timestamp event, type := kFlutterKeyEventTypeDown,
            physical := event_to_physical_key km event,
            logical := event_to_logical_key km event,
            character := km.event_to_character event, synthesized := false } true] ∧
    (fl_key_embedder_responder_handle_event km
        (fl_key_embedder_responder_handle_event km self event).1 event).2 =
      (synchronize_states (sync_state_context km event)
        (fl_key_embedder_responder_handle_event km self event).1).2 ++
        [Call.send_key_event true empty_event false, Call.callback true] ∧
    (∀ handled : Bool,
      callbacks (handle_event_and_response km self event handled).2 = [handled] ∧
      callbacks (handle_event_and_response km
        (fl_key_embedder_responder_handle_event km self event).1 event handled).2 = [true]) := by
  obtain ⟨hfirst, hsecond⟩ := handle_event_down_twice_recorded km self event hengine hdown
    hlog hfree hlocks hmods
  have h1 := handle_event_down_not_recorded km self event hengine hdown hfirst
  have h2 := handle_event_down_recorded km
    (fl_key_embedder_responder_handle_event km self event).1 event hdown hsecond
  have heng1 : (fl_key_embedder_responder_handle_event km self event).1.engine = true := by
    rw [h1]
    simp [(synchronize_states_static _ self).1.1, hengine]
  have heng2 : (synchronize_states (sync_state_context km event)
      (fl_key_embedder_responder_handle_event km self event).1).1.engine = true := by
    rw [(synchronize_states_static _ _).1.1, heng1]
  rw [heng2] at h2
  have hq1 := synthesized_calls_quiet _
    (synchronize_states_static (sync_state_context km event) self).2
  have hq2 := synthesized_calls_quiet _
    (synchronize_states_static (sync_state_context km event)
      (fl_key_embedder_responder_handle_event km self event).1).2
  have hc1 : (fl_key_embedder_responder_handle_event km self event).2 =
      (synchronize_states (sync_state_context km event) self).2 ++
        [Call.send_key_event true
          { timestamp := event_to_timestamp event, type := kFlutterKeyEventTypeDown,
            physical := event_to_physical_key km event,
            logical := event_to_logical_key km event,
            character := km.event_to_character event, synthesized := false } true] := by
    rw [h1]
  have hc2 : (fl_key_embedder_responder_handle_event km
        (fl_key_embedder_responder_handle_event km self event).1 event).2 =
      (synchronize_states (sync_state_context km event)
        (fl_key_embedder_responder_handle_event km self event).1).2 ++
        [Call.send_key_event true empty_event false, Call.callback true] := by
    rw [h2]
  refine ⟨?_, hc1, hc2, fun handled => ⟨?_, ?_⟩⟩
  · rw [hc2, hc1]
    simp [real_events_append, real_events_synchronize_states, real_events]
  · unfold handle_event_and_response
    simp only []
    rw [hc1]
    simp [callbacks_append, framework_responses_append, hq1.1, hq1.2.1, callbacks,
      framework_responses, handle_response]
  · unfold handle_event_and_response
    simp only []
    rw [hc2]
    simp [callbacks_append, framework_responses_append, hq2.1, hq2.2.1, callbacks,
      framework_responses]

/-- Claim C1 (witness). ShiftRight down with the Shift bit in the bitmask, twice,
on a fresh sample responder: the first call synthesizes a ShiftLeft press and
forwards the real ShiftRight down event, the second forwards no real event. -/
theorem duplicate_down_event_forwards_one_real_event_witness :
    real_events ((fl_key_embedder_responder_handle_event sampleKeyMapping sampleResponder
          (shiftRightEvent true 1)).2 ++
        (fl_key_embedder_responder_handle_event sampleKeyMapping
          (fl_key_embedder_responder_handle_event sampleKeyMapping sampleResponder
            (shiftRightEvent true 1)).1 (shiftRightEvent true 1)).2) =
      [{ timestamp := 1000, type := kFlutterKeyEventTypeDown, physical := 0x700e5,
         logical := 0x200000103, character := none, synthesized := false }] ∧
    real_events ((fl_key_embedder_responder_handle_event sampleKeyMapping sampleResponder
          (keyAEvent true 0)).2 ++
        (fl_key_embedder_responder_handle_event sampleKeyMapping
          (fl_key_embedder_responder_handle_event sampleKeyMapping sampleResponder
            (keyAEvent true 0)).1 (keyAEvent true 0)).2) = [keyARealDown] :=
  ⟨(duplicate_down_event_forwards_one_real_event sampleKeyMapping sampleResponder
      (shiftRightEvent true 1) rfl rfl (by decide) (by decide) (by decide) (by decide)).1,
   (duplicate_down_event_forwards_one_real_event sampleKeyMapping sampleResponder
      (keyAEvent true 0) rfl rfl (by decide) (by decide) (by decide) (by decide)).1⟩

/-- Further inputs on which handling the same down event twice does not forward
exactly one real event, on the fresh sample responder: a CapsLock down event
(the lock synchronizer of the second call first brings the key back to a
released stage) and a down event with the logical key 0 (its press is never
recorded) are forwarded twice; a ShiftLeft down event with the Shift bit in the
bitmask and a KeyA down event while KeyA is recorded pressed are not forwarded
at all. -/
theorem duplicate_down_event_other_counts :
    (real_events ((fl_key_embedder_responder_handle_event sampleKeyMapping sampleResponder
          (capsLockEvent true 0)).2 ++
        (fl_key_embedder_responder_handle_event sampleKeyMapping
          (fl_key_embedder_responder_handle_event sampleKeyMapping sampleResponder
            (capsLockEvent true 0)).1 (capsLockEvent true 0)).2)).length = 2 ∧
    (real_events ((fl_key_embedder_responder_handle_event sampleKeyMapping sampleResponder
          zeroKeyvalEvent).2 ++
        (fl_key_embedder_responder_handle_event sampleKeyMapping
          (fl_key_embedder_responder_handle_event sampleKeyMapping sampleResponder
            zeroKeyvalEvent).1 zeroKeyvalEvent).2)).length = 2 ∧
    real_events ((fl_key_embedder_responder_handle_event sampleKeyMapping sampleResponder
          (shiftLeftEvent true 1)).2 ++
        (fl_key_embedder_responder_handle_event sampleKeyMapping
          (fl_key_embedder_responder_handle_event sampleKeyMapping sampleResponder
            (shiftLeftEvent true 1)).1 (shiftLeftEvent true 1)).2) = [] ∧
    real_events ((fl_key_embedder_responder_handle_event sampleKeyMapping
          (handle_events sampleKeyMapping sampleResponder [keyAEvent true 0])
          (keyAEvent true 0)).2 ++
        (fl_key_embedder_responder_handle_event sampleKeyMapping
          (fl_key_embedder_responder_handle_event sampleKeyMapping
            (handle_events sampleKeyMapping sampleResponder [keyAEvent true 0])
            (keyAEvent true 0)).1 (keyAEvent true 0)).2) = [] := by
  decide

end FlKeyEmbedder
